import Mathlib

/-!
# JURASSIC forward model: a shallow embedding of `forwardmodel.c`

The C code works on `double`.  The embedding is written over an arbitrary
linearly ordered field `F` (exact arithmetic): it can be run over `ℚ` and it
can be instantiated at `ℝ` with the real exponential.  C `int` counters that
only run upwards from `0` are `Nat`; table sizes (which `read_tbl` may leave
at `-1`) and every index obtained from a bracketing search are `Int`.
Fixed-capacity C arrays are total functions on their index type.
-/

set_option linter.unusedSectionVars false
set_option linter.unusedVariables false

namespace Jurassic

/-! ## Macros of the GSL and of the project header -/

/-- The GSL macro `GSL_MAX(a,b) = ((a) > (b) ? (a) : (b))`. -/
def GSL_MAX {α : Type} [LT α] [DecidableRel (fun a b : α => a < b)] (a b : α) : α :=
  if b < a then a else b

/-- The GSL macro `GSL_MIN(a,b) = ((a) < (b) ? (a) : (b))`. -/
def GSL_MIN {α : Type} [LT α] [DecidableRel (fun a b : α => a < b)] (a b : α) : α :=
  if a < b then a else b

/-- Modelled from the spec: the macro `LIN(x0, y0, x1, y1, x)` lives in the
project header, which is not part of the sources at hand.  The spec calls it
linear interpolation between the bracketing entries `(x0, y0)` and `(x1, y1)`;
it is the two-point form `y0 + (y1 - y0) / (x1 - x0) * (x - x0)`, which also
extrapolates when `x` lies outside `[x0, x1]`. -/
def LIN {α : Type} [Add α] [Sub α] [Mul α] [Div α] (x0 y0 x1 y1 x : α) : α :=
  y0 + (y1 - y0) / (x1 - x0) * (x - x0)

/-! ## Data model -/

/-- Emissivity growth tables `tbl_t`, indexed `[ig][id][ip][it][iu]`. -/
structure tbl_t (F : Type) where
  /-- Number of pressure rows per gas and channel. -/
  np : Nat → Nat → Int
  /-- Number of temperatures per pressure row. -/
  nt : Nat → Nat → Int → Int
  /-- Number of column densities per (p, T) row. -/
  nu : Nat → Nat → Int → Int → Int
  /-- Pressure axis. -/
  p : Nat → Nat → Int → F
  /-- Temperature axis. -/
  t : Nat → Nat → Int → Int → F
  /-- Column density axis. -/
  u : Nat → Nat → Int → Int → Int → F
  /-- Emissivity values. -/
  eps : Nat → Nat → Int → Int → Int → F

variable {F : Type} [LinearOrderedField F]

/-! ## `locate_tbl`, `intpol_tbl_eps`, `intpol_tbl_u` -/

/-- The `while(ihi>ilo+1)` loop of `locate_tbl`; `fuel` bounds the number of
iterations (each iteration strictly shrinks `ihi - ilo`).  The shift
`(ihi+ilo)>>1` acts on a non-negative sum inside the loop and is `/ 2`. -/
def locate_tbl_loop (xx : Int → F) (x : F) : Nat → Int → Int → Int
  | 0, ilo, _ => ilo
  | fuel + 1, ilo, ihi =>
    if ihi > ilo + 1 then
      let i := (ihi + ilo) / 2
      if xx i > x then locate_tbl_loop xx x fuel ilo i
      else locate_tbl_loop xx x fuel i ihi
    else ilo

/-- The function `locate_tbl(xx, n, x)`: `ilo=0; ihi=n-1;` then the bisection
loop; returns `ilo`.  The loop runs fewer than `n` times. -/
def locate_tbl (xx : Int → F) (n : Int) (x : F) : Int :=
  locate_tbl_loop xx x n.toNat 0 (n - 1)

/-- The function `intpol_tbl_eps(tbl, ig, id, ip, it, u)`: forward lookup. -/
def intpol_tbl_eps (tbl : tbl_t F) (ig id : Nat) (ip it : Int) (u : F) : F :=
  let idx := locate_tbl (tbl.u ig id ip it) (tbl.nu ig id ip it) u
  LIN (tbl.u ig id ip it idx) (tbl.eps ig id ip it idx)
    (tbl.u ig id ip it (idx + 1)) (tbl.eps ig id ip it (idx + 1)) u

/-- The function `intpol_tbl_u(tbl, ig, id, ip, it, eps)`: inverse lookup. -/
def intpol_tbl_u (tbl : tbl_t F) (ig id : Nat) (ip it : Int) (eps : F) : F :=
  let idx := locate_tbl (tbl.eps ig id ip it) (tbl.nu ig id ip it) eps
  LIN (tbl.eps ig id ip it idx) (tbl.u ig id ip it idx)
    (tbl.eps ig id ip it (idx + 1)) (tbl.u ig id ip it (idx + 1)) eps

/-! ## Doubles that may be NaN, loops, array updates -/

/-- A C `double` of the observation arrays: a value of the field, or `nan`,
a double that is not finite (`gsl_finite` is `0` on it): NaN, or the infinity
or NaN that a quotient by zero leaves.  Overflow to an infinity does not occur
in exact arithmetic. -/
inductive Dbl (F : Type) where
  | fin : F → Dbl F
  | nan : Dbl F
  deriving DecidableEq

/-- Binary IEEE operations propagate NaN. -/
def Dbl.lift2 {F : Type} (f : F → F → F) : Dbl F → Dbl F → Dbl F
  | Dbl.fin a, Dbl.fin b => Dbl.fin (f a b)
  | _, _ => Dbl.nan

/-- Unary functions propagate NaN. -/
def Dbl.map {F : Type} (f : F → F) : Dbl F → Dbl F
  | Dbl.fin a => Dbl.fin (f a)
  | Dbl.nan => Dbl.nan

instance {F : Type} [Add F] : Add (Dbl F) := ⟨Dbl.lift2 (fun a b => a + b)⟩
instance {F : Type} [Sub F] : Sub (Dbl F) := ⟨Dbl.lift2 (fun a b => a - b)⟩
instance {F : Type} [Mul F] : Mul (Dbl F) := ⟨Dbl.lift2 (fun a b => a * b)⟩

/-- The IEEE quotient: NaN is propagated, and a quotient by zero is not a
finite number (`0/0` is NaN, every other `x/0` an infinity, which stays an
infinity or becomes NaN in the sums and products that follow). -/
def Dbl.div {F : Type} [Div F] [Zero F] [DecidableEq F] : Dbl F → Dbl F → Dbl F
  | Dbl.fin a, Dbl.fin b => if b = 0 then Dbl.nan else Dbl.fin (a / b)
  | _, _ => Dbl.nan

instance {F : Type} [Div F] [Zero F] [DecidableEq F] : Div (Dbl F) := ⟨Dbl.div⟩

/-- The GSL function `gsl_finite(x)`: `1` for a finite number, `0` for NaN. -/
def gsl_finite {F : Type} : Dbl F → Bool
  | Dbl.fin _ => true
  | Dbl.nan => false

/-- The C loop `for(i=0; i<n; i++) body`, as a fold over `0, 1, ..., n-1`. -/
def for_loop {σ : Type} (n : Nat) (body : Nat → σ → σ) (s : σ) : σ :=
  (List.range n).foldl (fun st i => body i st) s

/-- The C loop `for(i=lo; i<hi; i++) body`. -/
def for_range {σ : Type} (lo hi : Nat) (body : Nat → σ → σ) (s : σ) : σ :=
  (List.range' lo (hi - lo)).foldl (fun st i => body i st) s

/-- The assignment `a[i][j] = v` on a two-dimensional array. -/
def upd2 {ι κ α : Type} [DecidableEq ι] [DecidableEq κ]
    (a : ι → κ → α) (i : ι) (j : κ) (v : α) : ι → κ → α :=
  Function.update a i (Function.update (a i) j v)

/-! ## Remaining data model -/

/-- Control parameters `ctl_t` (the fields the forward model reads). -/
structure ctl_t (F : Type) where
  /-- Number of emitters. -/
  ng : Nat
  /-- Number of radiance channels. -/
  nd : Nat
  /-- Number of spectral windows. -/
  nw : Nat
  /-- Centroid wavenumber of each channel. -/
  nu : Nat → F
  /-- Window index of each channel. -/
  window : Nat → Nat
  /-- Continuum flags (C truth values). -/
  ctm_co2 : Int
  ctm_h2o : Int
  ctm_n2 : Int
  ctm_o2 : Int
  /-- Number of recursions for multiple scattering. -/
  sca_mult : Int
  /-- Number of scattering models. -/
  sca_n : Int
  /-- Extinction coefficient type if `sca_mult = 0`. -/
  sca_ext : String
  /-- Field-of-view data file. -/
  fov : String
  /-- Brightness-temperature output flag. -/
  write_bbt : Int

/-- Atmospheric data `atm_t`. -/
structure atm_t (F : Type) where
  np : Nat
  time : Nat → F
  z : Nat → F
  lon : Nat → F
  lat : Nat → F
  p : Nat → F
  t : Nat → F
  /-- Volume mixing ratios `q[ig][ip]`. -/
  q : Nat → Nat → F
  /-- Extinction `k[iw][ip]`. -/
  k : Nat → Nat → F

/-- Aerosol and cloud optical properties `aero_t`, indexed `[layer][id]`. -/
structure aero_t (F : Type) where
  beta_e : Nat → Nat → F
  beta_a : Nat → Nat → F
  beta_s : Nat → Nat → F

/-- Observation geometry and radiance data `obs_t`; `rad[id][ir]` may hold
NaN (a masked measurement), `tau[id][ir]` is a transmittance. -/
structure obs_t (F : Type) where
  nr : Nat
  time : Nat → F
  obsz : Nat → F
  obslon : Nat → F
  obslat : Nat → F
  vpz : Nat → F
  vplon : Nat → F
  vplat : Nat → F
  rad : Nat → Nat → Dbl F
  tau : Nat → Nat → F

/-- Line-of-sight data `los_t`, indexed by the segment `ip`. -/
structure los_t (F : Type) where
  np : Nat
  z : Nat → F
  lon : Nat → F
  lat : Nat → F
  p : Nat → F
  t : Nat → F
  /-- Volume mixing ratios `q[ip][ig]`. -/
  q : Nat → Nat → F
  /-- Extinction `k[ip][iw]`. -/
  k : Nat → Nat → F
  /-- Aerosol layer index and mixing factor. -/
  aeroi : Nat → Nat
  aerofac : Nat → F
  /-- Surface temperature (positive when the path ends on the surface). -/
  tsurf : F
  /-- Segment length. -/
  ds : Nat → F
  /-- Column density `u[ip][ig]`. -/
  u : Nat → Nat → F

/-- Functions and constants that `forwardmodel.c` uses and that are defined
elsewhere (libm, GSL, the project header and the other modules).  They are
parameters of the embedding. -/
structure ext_t (F : Type) where
  exp : F → F
  log : F → F
  gsl_log1p : F → F
  gsl_expm1 : F → F
  /-- First and second radiation constants of the header. -/
  C1 : F
  C2 : F
  /-- Header constant: number of ray paths used for the FOV on each side. -/
  NFOV : Nat
  /-- Bracketing search `locate(xx, n, x)` of the tools module. -/
  locate : (Int → F) → Int → F → Int
  hydrostatic : ctl_t F → atm_t F → atm_t F
  raytrace : ctl_t F → atm_t F → obs_t F → aero_t F → Nat → los_t F
  geo2cart : F → F → F → Nat → F
  srcfunc_sca : ctl_t F → atm_t F → aero_t F → F → (Nat → F) → (Nat → F) →
    Nat → Int → Nat → F
  ctmco2 : ctl_t F → F → F → F → (Nat → F) → F
  ctmh2o : ctl_t F → F → F → F → (Nat → F) → (Nat → F) → F
  ctmn2 : F → F → F → F
  ctmo2 : F → F → F → F

/-- Contents of the function-local `static` storage once it is initialised:
the emissivity tables read by `read_tbl`, the source function table of
`srcfunc_planck` and the FOV shape read by `formod_fov`. -/
structure static_t (F : Type) where
  tbl : tbl_t F
  temp : Int → F
  plancka : Nat → Int → F
  fov_dz : Nat → F
  fov_w : Nat → F
  fov_n : Nat

/-! ## `brightness`, `planck` -/

/-- The function `brightness(rad, nu)`; `gsl_pow_3(x)` is `x*x*x`. -/
def brightness (E : ext_t F) (rad nu : F) : F :=
  E.C2 * nu / E.gsl_log1p (E.C1 * (nu * nu * nu) / rad)

/-- The function `planck(t, nu)`. -/
def planck (E : ext_t F) (t nu : F) : F :=
  E.C1 * (nu * nu * nu) / E.gsl_expm1 (E.C2 * nu / t)

/-! ## `intpol_tbl` -/

/-- The clamped emissivity `eps00` of the extended path that the innermost
branch of `intpol_tbl` computes for gas `ig` and channel `id`, where `tp` is
the value of `tau_path[ig][id]` on entry and `ipr`, `it0`, `it1` are the
located pressure and temperature indices. -/
def intpol_tbl_eps_ext (tbl : tbl_t F) (los : los_t F) (ip ig id : Nat)
    (ipr it0 it1 : Int) (tp : F) : F :=
  let u := intpol_tbl_u tbl ig id ipr it0 (1 - tp)
  let eps00 := intpol_tbl_eps tbl ig id ipr it0 (u + los.u ip ig)
  let eps00 := GSL_MAX (GSL_MIN eps00 1) 0
  let u := intpol_tbl_u tbl ig id ipr (it0 + 1) (1 - tp)
  let eps01 := intpol_tbl_eps tbl ig id ipr (it0 + 1) (u + los.u ip ig)
  let eps01 := GSL_MAX (GSL_MIN eps01 1) 0
  let u := intpol_tbl_u tbl ig id (ipr + 1) it1 (1 - tp)
  let eps10 := intpol_tbl_eps tbl ig id (ipr + 1) it1 (u + los.u ip ig)
  let eps10 := GSL_MAX (GSL_MIN eps10 1) 0
  let u := intpol_tbl_u tbl ig id (ipr + 1) (it1 + 1) (1 - tp)
  let eps11 := intpol_tbl_eps tbl ig id (ipr + 1) (it1 + 1) (u + los.u ip ig)
  let eps11 := GSL_MAX (GSL_MIN eps11 1) 0
  let eps00 := LIN (tbl.t ig id ipr it0) eps00 (tbl.t ig id ipr (it0 + 1)) eps01 (los.t ip)
  let eps00 := GSL_MAX (GSL_MIN eps00 1) 0
  let eps11 := LIN (tbl.t ig id (ipr + 1) it1) eps10
    (tbl.t ig id (ipr + 1) (it1 + 1)) eps11 (los.t ip)
  let eps11 := GSL_MAX (GSL_MIN eps11 1) 0
  let eps00 := LIN (tbl.p ig id ipr) eps00 (tbl.p ig id (ipr + 1)) eps11 (los.p ip)
  GSL_MAX (GSL_MIN eps00 1) 0

/-- The segment emissivity `eps` that the body of the emitter loop of
`intpol_tbl` computes for gas `ig` and channel `id`; `tp` is the value of
`tau_path[ig][id]` on entry to the body. -/
def intpol_tbl_seg_eps (E : ext_t F) (tbl : tbl_t F) (los : los_t F) (ip ig id : Nat)
    (tp : F) : F :=
  if tbl.np ig id < 2 then 0
  else if tp < 1e-9 then 1
  else
    let ipr := E.locate (tbl.p ig id) (tbl.np ig id) (los.p ip)
    let it0 := E.locate (tbl.t ig id ipr) (tbl.nt ig id ipr) (los.t ip)
    let it1 := E.locate (tbl.t ig id (ipr + 1)) (tbl.nt ig id (ipr + 1)) (los.t ip)
    if tbl.nt ig id ipr < 2 ∨ tbl.nt ig id (ipr + 1) < 2
        ∨ tbl.nu ig id ipr it0 < 2 ∨ tbl.nu ig id ipr (it0 + 1) < 2
        ∨ tbl.nu ig id (ipr + 1) it1 < 2 ∨ tbl.nu ig id (ipr + 1) (it1 + 1) < 2 then 0
    else 1 - (1 - intpol_tbl_eps_ext tbl los ip ig id ipr it0 it1 tp) / tp

/-- The function `intpol_tbl(ctl, tbl, los, ip, tau_path, tau_seg)`; returns
the updated `tau_path` and the array `tau_seg`.  (`tau_seg` is an output
array: every entry `id < nd` is assigned before it is used.) -/
def intpol_tbl (E : ext_t F) (ctl : ctl_t F) (tbl : tbl_t F) (los : los_t F) (ip : Nat)
    (tau_path : Nat → Nat → F) : (Nat → Nat → F) × (Nat → F) :=
  let tau_path :=
    if ip ≤ 0 then
      for_loop ctl.ng (fun ig tp => for_loop ctl.nd (fun id tp => upd2 tp ig id 1) tp) tau_path
    else tau_path
  for_loop ctl.nd
    (fun id st =>
      for_loop ctl.ng
        (fun ig st =>
          let eps := intpol_tbl_seg_eps E tbl los ip ig id (st.1 ig id)
          (upd2 st.1 ig id (st.1 ig id * (1 - eps)),
            Function.update st.2 id (st.2 id * (1 - eps))))
        (st.1, Function.update st.2 id 1))
    (tau_path, fun _ => 0)

/-! ## `formod_continua`, `srcfunc_planck` -/

/-- The function `formod_continua(ctl, los, ip, beta)`; returns `beta`. -/
def formod_continua (E : ext_t F) (ctl : ctl_t F) (los : los_t F) (ip : Nat) : Nat → F :=
  let beta := for_loop ctl.nd
    (fun id beta => Function.update beta id (los.k ip (ctl.window id))) (fun _ => 0)
  let beta :=
    if ctl.ctm_co2 ≠ 0 then
      for_loop ctl.nd
        (fun id beta => Function.update beta id
          (beta id + E.ctmco2 ctl (ctl.nu id) (los.p ip) (los.t ip) (los.u ip) / los.ds ip))
        beta
    else beta
  let beta :=
    if ctl.ctm_h2o ≠ 0 then
      for_loop ctl.nd
        (fun id beta => Function.update beta id
          (beta id + E.ctmh2o ctl (ctl.nu id) (los.p ip) (los.t ip) (los.q ip) (los.u ip)
            / los.ds ip))
        beta
    else beta
  let beta :=
    if ctl.ctm_n2 ≠ 0 then
      for_loop ctl.nd
        (fun id beta => Function.update beta id
          (beta id + E.ctmn2 (ctl.nu id) (los.p ip) (los.t ip)))
        beta
    else beta
  if ctl.ctm_o2 ≠ 0 then
    for_loop ctl.nd
      (fun id beta => Function.update beta id
        (beta id + E.ctmo2 (ctl.nu id) (los.p ip) (los.t ip)))
      beta
  else beta

/-- The function `srcfunc_planck(ctl, t, src)` once its table is initialised
(`nplanck = 1201`); returns `src`. -/
def srcfunc_planck (E : ext_t F) (S : static_t F) (ctl : ctl_t F) (t : F) : Nat → F :=
  let it := E.locate S.temp 1201 t
  for_loop ctl.nd
    (fun id src => Function.update src id
      (LIN (S.temp it) (S.plancka id it) (S.temp (it + 1)) (S.plancka id (it + 1)) t))
    (fun _ => 0)

/-! ## `formod_pencil` -/

/-- Body of the channel loop of `formod_pencil` in the branch with scattering
source, for channel `id` of ray `ir` at segment `ip`. -/
def pencil_sca_channel (E : ext_t F) (aero : aero_t F) (los : los_t F) (ip ir : Nat)
    (tau_gas beta_ctm src_planck src_sca : Nat → F) (id : Nat) (obs : obs_t F) : obs_t F :=
  if tau_gas id > 0 then
    let beta_ext_tot := -E.log (tau_gas id) / los.ds ip + beta_ctm id
      + los.aerofac ip * aero.beta_e (los.aeroi ip) id
    let eps := 1 - tau_gas id * E.exp
      (-(beta_ctm id + los.aerofac ip * aero.beta_a (los.aeroi ip) id) * los.ds ip)
    let rad := obs.rad id ir + Dbl.fin (obs.tau id ir
      * (eps * src_planck id + aero.beta_s (los.aeroi ip) id * src_sca id))
    let obs := { obs with rad := upd2 obs.rad id ir rad }
    { obs with tau := upd2 obs.tau id ir (obs.tau id ir * E.exp (-beta_ext_tot * los.ds ip)) }
  else obs

/-- Body of the channel loop of `formod_pencil` in the branch without
scattering source; `strcmp(ctl->sca_ext, "beta_a")` is non-zero exactly when
the two strings differ. -/
def pencil_nosca_channel (E : ext_t F) (ctl : ctl_t F) (aero : aero_t F) (los : los_t F)
    (ip ir : Nat) (tau_gas beta_ctm src_planck : Nat → F) (id : Nat) (obs : obs_t F) :
    obs_t F :=
  if tau_gas id > 0 then
    let eps :=
      if ctl.sca_n = 0 then
        1 - tau_gas id * E.exp (-1 * beta_ctm id * los.ds ip)
      else if ctl.sca_ext ≠ "beta_a" then
        1 - tau_gas id * E.exp
          (-(beta_ctm id + los.aerofac ip * aero.beta_a (los.aeroi ip) id) * los.ds ip)
      else
        1 - tau_gas id * E.exp
          (-(beta_ctm id + los.aerofac ip * aero.beta_e (los.aeroi ip) id) * los.ds ip)
    let rad := obs.rad id ir + Dbl.fin (src_planck id * eps * obs.tau id ir)
    let obs := { obs with rad := upd2 obs.rad id ir rad }
    if ctl.sca_n = 0 then
      { obs with tau := upd2 obs.tau id ir (obs.tau id ir * (1 - eps)) }
    else if ctl.sca_ext ≠ "beta_a" then
      { obs with tau := upd2 obs.tau id ir (obs.tau id ir * ((1 - eps)
        * E.exp (-los.aerofac ip * aero.beta_a (los.aeroi ip) id * los.ds ip))) }
    else
      { obs with tau := upd2 obs.tau id ir (obs.tau id ir * ((1 - eps)
        * E.exp (-los.aerofac ip * aero.beta_e (los.aeroi ip) id * los.ds ip))) }
  else obs

/-- Body of the loop over the LOS points of `formod_pencil`: the state is
`obs` together with `tau_path`, the only local array that carries values from
one segment to the next. -/
def pencil_segment (E : ext_t F) (S : static_t F) (ctl : ctl_t F) (atm : atm_t F)
    (aero : aero_t F) (scattering : Int) (ir : Nat) (los : los_t F) (ip : Nat)
    (st : obs_t F × (Nat → Nat → F)) : obs_t F × (Nat → Nat → F) :=
  let r := intpol_tbl E ctl S.tbl los ip st.2
  let tau_path := r.1
  let tau_gas := r.2
  let beta_ctm := formod_continua E ctl los ip
  let src_planck := srcfunc_planck E S ctl (los.t ip)
  if los.aerofac ip > 0 ∧ scattering > 0 then
    let x := E.geo2cart (los.z ip) (los.lon ip) (los.lat ip)
    let ip0 := if ip > 0 then ip - 1 else ip
    let ip1 := if ip < los.np then ip + 1 else ip
    let x0 := E.geo2cart (los.z ip0) (los.lon ip0) (los.lat ip0)
    let x1 := E.geo2cart (los.z ip1) (los.lon ip1) (los.lat ip1)
    let dx := for_loop 3 (fun i dx => Function.update dx i (x1 i - x0 i)) (fun _ => 0)
    let src_sca := E.srcfunc_sca ctl atm aero (st.1.time ir) x dx (los.aeroi ip) scattering
    (for_loop ctl.nd
      (pencil_sca_channel E aero los ip ir tau_gas beta_ctm src_planck src_sca) st.1, tau_path)
  else
    (for_loop ctl.nd
      (pencil_nosca_channel E ctl aero los ip ir tau_gas beta_ctm src_planck) st.1, tau_path)

/-- The surface term of `formod_pencil`. -/
def pencil_surface (E : ext_t F) (S : static_t F) (ctl : ctl_t F) (los : los_t F) (ir : Nat)
    (obs : obs_t F) : obs_t F :=
  if los.tsurf > 0 then
    let src_planck := srcfunc_planck E S ctl los.tsurf
    for_loop ctl.nd
      (fun id obs =>
        let rad := obs.rad id ir + Dbl.fin (src_planck id * obs.tau id ir)
        { obs with rad := upd2 obs.rad id ir rad }) obs
  else obs

/-- The initialisation `rad[id][ir]=0; tau[id][ir]=1` of `formod_pencil`. -/
def pencil_init (ctl : ctl_t F) (ir : Nat) (obs : obs_t F) : obs_t F :=
  for_loop ctl.nd
    (fun id obs => { obs with rad := upd2 obs.rad id ir (Dbl.fin 0),
                              tau := upd2 obs.tau id ir 1 }) obs

/-- The state of `formod_pencil` after the first `n` LOS points (`n ≤ np`):
`obs` and `tau_path`.  `tau_path` is uninitialised stack memory at the start;
`intpol_tbl` assigns every entry it uses at `ip = 0`. -/
def pencil_segments (E : ext_t F) (S : static_t F) (ctl : ctl_t F) (atm : atm_t F)
    (aero : aero_t F) (scattering : Int) (ir : Nat) (los : los_t F) (n : Nat)
    (obs : obs_t F) : obs_t F × (Nat → Nat → F) :=
  for_loop n (pencil_segment E S ctl atm aero scattering ir los) (obs, fun _ _ => 0)

/-- The function `formod_pencil(ctl, atm, obs, aero, scattering, ir)` with
initialised tables; returns `obs`. -/
def formod_pencil (E : ext_t F) (S : static_t F) (ctl : ctl_t F) (atm : atm_t F)
    (obs : obs_t F) (aero : aero_t F) (scattering : Int) (ir : Nat) : obs_t F :=
  let obs := pencil_init ctl ir obs
  let los := E.raytrace ctl atm obs aero ir
  let st := pencil_segments E S ctl atm aero scattering ir los los.np obs
  pencil_surface E S ctl los ir st.1

/-! ## `formod_fov` -/

/-- The `static` profile arrays `z`, `rad`, `tau` of `formod_fov` and the
counter `nz`. -/
structure fov_prof_t (F : Type) where
  nz : Int
  z : Int → F
  rad : Nat → Int → Dbl F
  tau : Nat → Int → F

/-- The loop of `formod_fov` that collects the radiance and transmittance
profiles for ray `ir` from the copy `obs2`. -/
def fov_profile (E : ext_t F) (ctl : ctl_t F) (obs obs2 : obs_t F) (ir : Nat)
    (pr : fov_prof_t F) : fov_prof_t F :=
  for_range (GSL_MAX ((ir : Int) - E.NFOV) 0).toNat
    (GSL_MIN ((ir : Int) + 1 + E.NFOV) obs.nr).toNat
    (fun ir2 pr =>
      if obs.time ir2 = obs.time ir then
        let pr := { pr with z := Function.update pr.z pr.nz (obs2.vpz ir2) }
        let pr := for_loop ctl.nd
          (fun id pr => { pr with rad := upd2 pr.rad id pr.nz (obs2.rad id ir2),
                                  tau := upd2 pr.tau id pr.nz (obs2.tau id ir2) }) pr
        { pr with nz := pr.nz + 1 }
      else pr)
    { pr with nz := 0 }

/-- The convolution of the profiles with the FOV shape for ray `ir`.  The
radiances are doubles, so that a quotient by zero (two profile entries at
one altitude in `LIN`, or weights with the sum zero) leaves `nan` as in C.
The transmittances are field values, for which such a quotient has no
counterpart: for them this is the C code only where the altitudes of the
located bracket differ and the sum of the weights is not zero. -/
def fov_convolve (E : ext_t F) (S : static_t F) (ctl : ctl_t F) (ir : Nat)
    (pr : fov_prof_t F) (obs : obs_t F) : obs_t F :=
  let obs := for_loop ctl.nd
    (fun id obs => { obs with rad := upd2 obs.rad id ir (Dbl.fin 0),
                              tau := upd2 obs.tau id ir 0 }) obs
  let r := for_loop S.fov_n
    (fun i st =>
      let zfov := st.1.vpz ir + S.fov_dz i
      let idx := E.locate pr.z pr.nz zfov
      let obs := for_loop ctl.nd
        (fun id obs =>
          let rad := obs.rad id ir + Dbl.fin (S.fov_w i)
            * LIN (Dbl.fin (pr.z idx)) (pr.rad id idx) (Dbl.fin (pr.z (idx + 1)))
                (pr.rad id (idx + 1)) (Dbl.fin zfov)
          let tau := obs.tau id ir + S.fov_w i
            * LIN (pr.z idx) (pr.tau id idx) (pr.z (idx + 1)) (pr.tau id (idx + 1)) zfov
          { obs with rad := upd2 obs.rad id ir rad, tau := upd2 obs.tau id ir tau }) st.1
      (obs, st.2 + S.fov_w i))
    (obs, (0 : F))
  for_loop ctl.nd
    (fun id obs => { obs with rad := upd2 obs.rad id ir (obs.rad id ir / Dbl.fin r.2),
                              tau := upd2 obs.tau id ir (obs.tau id ir / r.2) }) r.1

/-- The function `formod_fov(ctl, obs)` with the FOV shape already read;
`none` is the fatal error "Cannot apply FOV convolution!".  `copy_obs` with
`init = 0` makes `obs2` a copy of `obs`. -/
def formod_fov (E : ext_t F) (S : static_t F) (ctl : ctl_t F) (obs : obs_t F) :
    Option (obs_t F) :=
  if ctl.fov.get 0 = '-' then some obs
  else
    let obs2 := obs
    (for_loop obs.nr
      (fun ir st => st.bind (fun st =>
        let pr := fov_profile E ctl st.1 obs2 ir st.2
        if pr.nz < 2 then none
        else some (fov_convolve E S ctl ir pr st.1, pr)))
      (some (obs, (⟨0, fun _ => 0, fun _ _ => Dbl.fin 0, fun _ _ => 0⟩ : fov_prof_t F)))).map
      Prod.fst

/-! ## `formod` -/

/-- The observation mask saved by `formod`: `mask[id][ir] = !gsl_finite(rad[id][ir])`. -/
def formod_mask (ctl : ctl_t F) (obs : obs_t F) : Nat → Nat → Bool :=
  for_loop ctl.nd
    (fun id mask => for_loop obs.nr
      (fun ir mask => upd2 mask id ir (!gsl_finite (obs.rad id ir))) mask)
    (fun _ _ => false)

/-- The conversion of radiance to brightness temperature in `formod`. -/
def formod_bbt (E : ext_t F) (ctl : ctl_t F) (obs : obs_t F) : obs_t F :=
  if ctl.write_bbt ≠ 0 then
    for_loop obs.nr
      (fun ir obs => for_loop ctl.nd
        (fun id obs =>
          let bt := Dbl.map (fun r => brightness E r (ctl.nu id)) (obs.rad id ir)
          { obs with rad := upd2 obs.rad id ir bt })
        obs) obs
  else obs

/-- The final loop of `formod`: masked entries become `GSL_NAN`. -/
def formod_apply_mask (ctl : ctl_t F) (mask : Nat → Nat → Bool) (obs : obs_t F) : obs_t F :=
  for_loop ctl.nd
    (fun id obs => for_loop obs.nr
      (fun ir obs => if mask id ir then { obs with rad := upd2 obs.rad id ir Dbl.nan } else obs)
      obs) obs

/-- The function `formod(ctl, atm, obs, aero)`; returns the rebalanced `atm`
and the computed `obs`, or `none` when `formod_fov` stops the program.  The
rays `1, ..., nr-1` are independent and are taken in index order. -/
def formod (E : ext_t F) (S : static_t F) (ctl : ctl_t F) (atm : atm_t F) (obs : obs_t F)
    (aero : aero_t F) : Option (atm_t F × obs_t F) :=
  let mask := formod_mask ctl obs
  let atm := E.hydrostatic ctl atm
  let obs := formod_pencil E S ctl atm obs aero ctl.sca_mult 0
  let obs := for_range 1 obs.nr
    (fun ir obs => formod_pencil E S ctl atm obs aero ctl.sca_mult ir) obs
  (formod_fov E S ctl obs).map
    (fun obs => (atm, formod_apply_mask ctl mask (formod_bbt E ctl obs)))

/-! ## Views of `intpol_tbl` used to state its properties -/

/-- The array `tau_path` after the initialisation `if(ip<=0) ... tau_path[ig][id]=1`
at the head of `intpol_tbl`. -/
def intpol_tbl_reset (ctl : ctl_t F) (ip : Nat) (tau_path : Nat → Nat → F) : Nat → Nat → F :=
  if ip ≤ 0 then
    for_loop ctl.ng (fun ig tp => for_loop ctl.nd (fun id tp => upd2 tp ig id 1) tp) tau_path
  else tau_path

/-- The pressure index `ipr` located by `intpol_tbl`. -/
def intpol_tbl_ipr (E : ext_t F) (tbl : tbl_t F) (los : los_t F) (ip ig id : Nat) : Int :=
  E.locate (tbl.p ig id) (tbl.np ig id) (los.p ip)

/-- The temperature index `it0` located by `intpol_tbl` in the row `ipr`. -/
def intpol_tbl_it0 (E : ext_t F) (tbl : tbl_t F) (los : los_t F) (ip ig id : Nat) : Int :=
  E.locate (tbl.t ig id (intpol_tbl_ipr E tbl los ip ig id))
    (tbl.nt ig id (intpol_tbl_ipr E tbl los ip ig id)) (los.t ip)

/-- The temperature index `it1` located by `intpol_tbl` in the row `ipr+1`. -/
def intpol_tbl_it1 (E : ext_t F) (tbl : tbl_t F) (los : los_t F) (ip ig id : Nat) : Int :=
  E.locate (tbl.t ig id (intpol_tbl_ipr E tbl los ip ig id + 1))
    (tbl.nt ig id (intpol_tbl_ipr E tbl los ip ig id + 1)) (los.t ip)

/-- The test "Check size of table (temperature and column density)" of
`intpol_tbl` at the located indices. -/
def intpol_tbl_short (E : ext_t F) (tbl : tbl_t F) (los : los_t F) (ip ig id : Nat) : Prop :=
  tbl.nt ig id (intpol_tbl_ipr E tbl los ip ig id) < 2
  ∨ tbl.nt ig id (intpol_tbl_ipr E tbl los ip ig id + 1) < 2
  ∨ tbl.nu ig id (intpol_tbl_ipr E tbl los ip ig id) (intpol_tbl_it0 E tbl los ip ig id) < 2
  ∨ tbl.nu ig id (intpol_tbl_ipr E tbl los ip ig id) (intpol_tbl_it0 E tbl los ip ig id + 1) < 2
  ∨ tbl.nu ig id (intpol_tbl_ipr E tbl los ip ig id + 1) (intpol_tbl_it1 E tbl los ip ig id) < 2
  ∨ tbl.nu ig id (intpol_tbl_ipr E tbl los ip ig id + 1)
      (intpol_tbl_it1 E tbl los ip ig id + 1) < 2

/-- The branch "Interpolate... / Get emissivities of extended path" of
`intpol_tbl` is taken for gas `ig`, channel `id`, when `tau_path[ig][id] = tp`. -/
def intpol_tbl_interpolates (E : ext_t F) (tbl : tbl_t F) (los : los_t F) (ip ig id : Nat)
    (tp : F) : Prop :=
  ¬ tbl.np ig id < 2 ∧ ¬ tp < 1e-9 ∧ ¬ intpol_tbl_short E tbl los ip ig id

/-- The clamped extended-path emissivity at the located indices. -/
def intpol_tbl_ext (E : ext_t F) (tbl : tbl_t F) (los : los_t F) (ip ig id : Nat) (tp : F) : F :=
  intpol_tbl_eps_ext tbl los ip ig id (intpol_tbl_ipr E tbl los ip ig id)
    (intpol_tbl_it0 E tbl los ip ig id) (intpol_tbl_it1 E tbl los ip ig id) tp

/-- The array `tau_path` after `intpol_tbl` has been called for the segments
`ip = 0, 1, ..., n-1` of one ray, in order. -/
def intpol_tbl_calls (E : ext_t F) (ctl : ctl_t F) (tbl : tbl_t F) (los : los_t F) (n : Nat)
    (tau_path : Nat → Nat → F) : Nat → Nat → F :=
  for_loop n (fun ip tp => (intpol_tbl E ctl tbl los ip tp).1) tau_path

/-! ## Views of the channel loops of `formod_pencil` on one entry -/

/-- The segment emissivity `eps` of the branch without scattering source, for
segment gas transmittance `tg` and continuum extinction `bc`. -/
def nosca_eps (E : ext_t F) (ctl : ctl_t F) (aero : aero_t F) (los : los_t F) (ip id : Nat)
    (tg bc : F) : F :=
  if ctl.sca_n = 0 then
    1 - tg * E.exp (-1 * bc * los.ds ip)
  else if ctl.sca_ext ≠ "beta_a" then
    1 - tg * E.exp (-(bc + los.aerofac ip * aero.beta_a (los.aeroi ip) id) * los.ds ip)
  else
    1 - tg * E.exp (-(bc + los.aerofac ip * aero.beta_e (los.aeroi ip) id) * los.ds ip)

/-- The factor that the branch without scattering source multiplies into
`tau[id][ir]`. -/
def nosca_factor (E : ext_t F) (ctl : ctl_t F) (aero : aero_t F) (los : los_t F)
    (ip id : Nat) (tg bc : F) : F :=
  if ctl.sca_n = 0 then
    1 - nosca_eps E ctl aero los ip id tg bc
  else if ctl.sca_ext ≠ "beta_a" then
    (1 - nosca_eps E ctl aero los ip id tg bc)
      * E.exp (-los.aerofac ip * aero.beta_a (los.aeroi ip) id * los.ds ip)
  else
    (1 - nosca_eps E ctl aero los ip id tg bc)
      * E.exp (-los.aerofac ip * aero.beta_e (los.aeroi ip) id * los.ds ip)

/-- The value of `rad[id][ir]` after the channel body without scattering
source, from the values `r`, `t` of `rad[id][ir]`, `tau[id][ir]` before it. -/
def nosca_rad (E : ext_t F) (ctl : ctl_t F) (aero : aero_t F) (los : los_t F) (ip id : Nat)
    (tg bc B : F) (r : Dbl F) (t : F) : Dbl F :=
  if tg > 0 then r + Dbl.fin (B * nosca_eps E ctl aero los ip id tg bc * t) else r

/-- The value of `tau[id][ir]` after the channel body without scattering source. -/
def nosca_tau (E : ext_t F) (ctl : ctl_t F) (aero : aero_t F) (los : los_t F) (ip id : Nat)
    (tg bc : F) (t : F) : F :=
  if tg > 0 then t * nosca_factor E ctl aero los ip id tg bc else t

/-- The segment emissivity `eps` of the branch with scattering source. -/
def sca_eps (E : ext_t F) (aero : aero_t F) (los : los_t F) (ip id : Nat) (tg bc : F) : F :=
  1 - tg * E.exp (-(bc + los.aerofac ip * aero.beta_a (los.aeroi ip) id) * los.ds ip)

/-- The total extinction `beta_ext_tot` of the branch with scattering source. -/
def sca_beta_ext (E : ext_t F) (aero : aero_t F) (los : los_t F) (ip id : Nat)
    (tg bc : F) : F :=
  -E.log tg / los.ds ip + bc + los.aerofac ip * aero.beta_e (los.aeroi ip) id

/-- The value of `rad[id][ir]` after the channel body with scattering source;
`ss` is the scattering source `src_sca[id]`. -/
def sca_rad (E : ext_t F) (aero : aero_t F) (los : los_t F) (ip id : Nat)
    (tg bc B ss : F) (r : Dbl F) (t : F) : Dbl F :=
  if tg > 0 then
    r + Dbl.fin (t * (sca_eps E aero los ip id tg bc * B
      + aero.beta_s (los.aeroi ip) id * ss))
  else r

/-- The value of `tau[id][ir]` after the channel body with scattering source. -/
def sca_tau (E : ext_t F) (aero : aero_t F) (los : los_t F) (ip id : Nat)
    (tg bc : F) (t : F) : F :=
  if tg > 0 then t * E.exp (-sca_beta_ext E aero los ip id tg bc * los.ds ip) else t

/-- The scattering source `src_sca` that `formod_pencil` obtains for segment
`ip` of ray `ir`. -/
def pencil_src_sca (E : ext_t F) (ctl : ctl_t F) (atm : atm_t F) (aero : aero_t F)
    (scattering : Int) (los : los_t F) (ip : Nat) (time : F) : Nat → F :=
  let x := E.geo2cart (los.z ip) (los.lon ip) (los.lat ip)
  let ip0 := if ip > 0 then ip - 1 else ip
  let ip1 := if ip < los.np then ip + 1 else ip
  let x0 := E.geo2cart (los.z ip0) (los.lon ip0) (los.lat ip0)
  let x1 := E.geo2cart (los.z ip1) (los.lon ip1) (los.lat ip1)
  let dx := for_loop 3 (fun i dx => Function.update dx i (x1 i - x0 i)) (fun _ => 0)
  E.srcfunc_sca ctl atm aero time x dx (los.aeroi ip) scattering

/-- The line of sight that `formod_pencil` traces for ray `ir` (after the
initialisation of `rad` and `tau`). -/
def pencil_los (E : ext_t F) (ctl : ctl_t F) (atm : atm_t F) (obs : obs_t F)
    (aero : aero_t F) (ir : Nat) : los_t F :=
  E.raytrace ctl atm (pencil_init ctl ir obs) aero ir

/-! ## Views of `formod` and `formod_fov` used to state their properties -/

/-- The observations in `formod` after the pencil beams of the rays
`0, ..., hi-1` (`hi ≥ 1`) have been computed. -/
def formod_rays (E : ext_t F) (S : static_t F) (ctl : ctl_t F) (atm : atm_t F)
    (obs : obs_t F) (aero : aero_t F) (hi : Nat) : obs_t F :=
  for_range 1 hi (fun ir obs => formod_pencil E S ctl atm obs aero ctl.sca_mult ir)
    (formod_pencil E S ctl atm obs aero ctl.sca_mult 0)

/-- The observations that `formod` hands to `formod_pencil` for the ray `ir`. -/
def formod_before (E : ext_t F) (S : static_t F) (ctl : ctl_t F) (atm : atm_t F)
    (obs : obs_t F) (aero : aero_t F) (ir : Nat) : obs_t F :=
  if ir = 0 then obs else formod_rays E S ctl atm obs aero ir

/-- The number of rays `ir2` with `max(ir-NFOV, 0) ≤ ir2 < min(ir+1+NFOV, nr)`
and `time[ir2] = time[ir]`. -/
def fov_count (E : ext_t F) (obs : obs_t F) (ir : Nat) : Nat :=
  ((Finset.Ico (ir - E.NFOV) (min (ir + 1 + E.NFOV) obs.nr)).filter
    (fun ir2 => obs.time ir2 = obs.time ir)).card

/-! ## A small concrete configuration over `ℚ` -/

/-- Modelled from the spec: the bracketing search `locate(xx, n, x)` belongs
to the tools module, which is not part of the sources at hand; the spec lists
it as the binary-search primitive that locates the bracket `[i, i+1]` around
`x`.  On an ascending axis this is the bisection of `locate_tbl`. -/
def locate (xx : Int → F) (n : Int) (x : F) : Int :=
  locate_tbl xx n x

/-- A rational stand-in for `exp`: positive, at most `1` on non-positive
arguments, and `1` at `0`. -/
def exp_demo (x : ℚ) : ℚ :=
  if x ≤ 0 then 1 / (1 - x) else 1 + x

/-- Two pressure rows with the same data, two temperatures (100 K, 200 K) and
two column densities per row; emissivity `4/5 * u` at 100 K and `1/5 * u` at
200 K.  Every axis is strictly increasing and every emissivity is in `[0,1]`. -/
def tbl_demo : tbl_t ℚ where
  np := fun _ _ => 2
  nt := fun _ _ _ => 2
  nu := fun _ _ _ _ => 2
  p := fun _ _ ipr => if ipr = 0 then 1 else 2
  t := fun _ _ _ it => if it = 0 then 100 else 200
  u := fun _ _ _ _ iu => if iu = 0 then 0 else 1
  eps := fun _ _ _ it iu => if iu = 0 then 0 else if it = 0 then 4 / 5 else 1 / 5

/-- A line of sight with two segments: 150 K with column density 1, then
400 K (above the tabulated temperatures) with column density 1/2. -/
def los_demo : los_t ℚ where
  np := 2
  z := fun _ => 0
  lon := fun _ => 0
  lat := fun _ => 0
  p := fun _ => 3 / 2
  t := fun ip => if ip = 0 then 150 else 400
  q := fun _ _ => 0
  k := fun _ _ => 0
  aeroi := fun _ => 0
  aerofac := fun _ => 0
  tsurf := 0
  ds := fun _ => 1
  u := fun ip _ => if ip = 0 then 1 else 1 / 2

/-- One gas, one channel, no continua, no scattering, no FOV. -/
def ctl_demo : ctl_t ℚ where
  ng := 1
  nd := 1
  nw := 1
  nu := fun _ => 1000
  window := fun _ => 0
  ctm_co2 := 0
  ctm_h2o := 0
  ctm_n2 := 0
  ctm_o2 := 0
  sca_mult := 0
  sca_n := 0
  sca_ext := "beta_a"
  fov := "-"
  write_bbt := 0

/-- External functions for the concrete configuration: the raytracer returns
`los_demo`, the continua and the scattering source vanish. -/
def ext_demo : ext_t ℚ where
  exp := exp_demo
  log := fun _ => 0
  gsl_log1p := fun x => x
  gsl_expm1 := fun x => x
  C1 := 1
  C2 := 1
  NFOV := 1
  locate := locate
  hydrostatic := fun _ atm => atm
  raytrace := fun _ _ _ _ _ => los_demo
  geo2cart := fun _ _ _ _ => 0
  srcfunc_sca := fun _ _ _ _ _ _ _ _ _ => 0
  ctmco2 := fun _ _ _ _ _ => 0
  ctmh2o := fun _ _ _ _ _ _ => 0
  ctmn2 := fun _ _ _ => 0
  ctmo2 := fun _ _ _ => 0

/-- Static tables: `tbl_demo`, the temperature grid `100 + it/4` of
`srcfunc_planck` and a source function that is linear in temperature,
`B(T) = 4 (T - 100)`, hence non-negative on the grid. -/
def static_demo : static_t ℚ where
  tbl := tbl_demo
  temp := fun it => 100 + (it : ℚ) / 4
  plancka := fun _ it => (it : ℚ)
  fov_dz := fun _ => 0
  fov_w := fun _ => 1
  fov_n := 1

/-- An atmosphere with no grid points. -/
def atm_demo : atm_t ℚ where
  np := 0
  time := fun _ => 0
  z := fun _ => 0
  lon := fun _ => 0
  lat := fun _ => 0
  p := fun _ => 0
  t := fun _ => 0
  q := fun _ _ => 0
  k := fun _ _ => 0

/-- Aerosol data without extinction. -/
def aero_demo : aero_t ℚ where
  beta_e := fun _ _ => 0
  beta_a := fun _ _ => 0
  beta_s := fun _ _ => 0

/-- One ray whose radiances are all masked (NaN) on input. -/
def obs_demo : obs_t ℚ where
  nr := 1
  time := fun _ => 0
  obsz := fun _ => 0
  obslon := fun _ => 0
  obslat := fun _ => 0
  vpz := fun _ => 0
  vplon := fun _ => 0
  vplat := fun _ => 0
  rad := fun _ _ => Dbl.nan
  tau := fun _ _ => 0

/-- The line of sight `los_demo` with both segments at 150 K. -/
def los_iso_demo : los_t ℚ :=
  { los_demo with t := fun _ => 150 }

/-- The configuration `ext_demo` with the raytracer returning `los_iso_demo`. -/
def ext_iso_demo : ext_t ℚ :=
  { ext_demo with raytrace := fun _ _ _ _ _ => los_iso_demo }

/-- A line of sight without segments that ends on a surface at 290 K. -/
def los_surface_demo : los_t ℚ :=
  { los_demo with np := 0, tsurf := 290 }

/-- The configuration `ext_demo` with the raytracer returning `los_surface_demo`. -/
def ext_surface_demo : ext_t ℚ :=
  { ext_demo with raytrace := fun _ _ _ _ _ => los_surface_demo }

/-- The control parameters `ctl_demo` with one scattering model (`sca_n = 1`)
and `sca_ext = "beta_a"`. -/
def ctl_aero_demo : ctl_t ℚ :=
  { ctl_demo with sca_n := 1 }

/-- The line of sight `los_demo` inside an aerosol layer (`aerofac = 1`). -/
def los_aero_demo : los_t ℚ :=
  { los_demo with aerofac := fun _ => 1 }

/-- An aerosol layer with extinction 3, absorption 1 and scattering 2. -/
def aero_layer_demo : aero_t ℚ where
  beta_e := fun _ _ => 3
  beta_a := fun _ _ => 1
  beta_s := fun _ _ => 2

/-! ## `read_tbl` -/

/-- The slice `[ig][id]` of the tables: what `read_tbl` fills in one pass of
its loop over gases and channels. -/
structure tbl_entry_t (F : Type) where
  np : Int
  nt : Int → Int
  nu : Int → Int → Int
  p : Int → F
  t : Int → Int → F
  u : Int → Int → Int → F
  eps : Int → Int → Int → F

/-- The slice `[ig][id]` of `tbl`. -/
def tbl_get (tbl : tbl_t F) (ig id : Nat) : tbl_entry_t F where
  np := tbl.np ig id
  nt := tbl.nt ig id
  nu := tbl.nu ig id
  p := tbl.p ig id
  t := tbl.t ig id
  u := tbl.u ig id
  eps := tbl.eps ig id

/-- The tables `tbl` with the slice `[ig][id]` replaced by `e`. -/
def tbl_set (tbl : tbl_t F) (ig id : Nat) (e : tbl_entry_t F) : tbl_t F where
  np := upd2 tbl.np ig id e.np
  nt := upd2 tbl.nt ig id e.nt
  nu := upd2 tbl.nu ig id e.nu
  p := upd2 tbl.p ig id e.p
  t := upd2 tbl.t ig id e.t
  u := upd2 tbl.u ig id e.u
  eps := upd2 tbl.eps ig id e.eps

/-- An item of a binary table file: an `int`, a `double` or a `float`. -/
inductive bin_item (F : Type) where
  | int : Int → bin_item F
  | dbl : F → bin_item F
  | flt : F → bin_item F

/-- The `int` held by an item. -/
def bin_item.as_int {F : Type} : bin_item F → Option Int
  | bin_item.int i => some i
  | _ => none

/-- The `double` held by an item. -/
def bin_item.as_dbl {F : Type} : bin_item F → Option F
  | bin_item.dbl x => some x
  | _ => none

/-- The `float` held by an item. -/
def bin_item.as_flt {F : Type} : bin_item F → Option F
  | bin_item.flt x => some x
  | _ => none

/-- The table files and the header constants that `read_tbl` uses.  `bin ig id`
is the content of the file `{tblbase}_{nu[id]}_{emitter[ig]}.bin` when it can
be opened, `tab ig id` the lines of the `.tab` file, each with the four
numbers `p T u eps` that `sscanf` finds on it, if it finds four. -/
structure tbl_files_t (F : Type) where
  TBLNPMAX : Int
  TBLNTMAX : Int
  TBLNUMAX : Int
  bin : Nat → Nat → Option (List (bin_item F))
  tab : Nat → Nat → Option (List (Option (F × F × F × F)))

/-- Taking `n` items of one type from the front of a binary stream. -/
def fread_items {F α : Type} (proj : bin_item F → Option α) :
    Nat → List (bin_item F) → Option (List α × List (bin_item F))
  | 0, s => some ([], s)
  | _ + 1, [] => none
  | n + 1, x :: s =>
    match proj x with
    | none => none
    | some a => (fread_items proj n s).map (fun r => (a :: r.1, r.2))

/-- Modelled from the spec: the macro `FREAD(ptr, type, nmemb, stream)` lives
in the project header, which is not part of the sources at hand.  After the
binary layout of the spec it reads `nmemb` items of the given type; a stream
that does not hold them is a fatal error (`none`). -/
def FREAD {F α : Type} (proj : bin_item F → Option α) (nmemb : Int)
    (s : List (bin_item F)) : Option (List α × List (bin_item F)) :=
  if nmemb < 0 then none else fread_items proj nmemb.toNat s

/-- Storing the items read into an array, from index `0` on. -/
def store_items {α : Type} (a : Int → α) (l : List α) : Int → α :=
  fun i => if 0 ≤ i then (l.get? i.toNat).getD (a i) else a i

/-- The column-density loop of the binary branch of `read_tbl` for the
pressure index `ip`. -/
def read_tbl_bin_rows (L : tbl_files_t F) (ip : Nat) (st : tbl_entry_t F × List (bin_item F)) :
    Option (tbl_entry_t F × List (bin_item F)) :=
  for_loop (st.1.nt ip).toNat
    (fun it r => r.bind (fun r =>
      (FREAD bin_item.as_flt (GSL_MIN (r.1.nu ip it) L.TBLNUMAX) r.2).bind (fun ru =>
        let u := upd2 r.1.u (ip : Int) (it : Int) (store_items (r.1.u ip it) ru.1)
        let e := { r.1 with u := u }
        (FREAD bin_item.as_flt (GSL_MIN (e.nu ip it) L.TBLNUMAX) ru.2).map (fun re =>
          let eps := upd2 e.eps (ip : Int) (it : Int) (store_items (e.eps ip it) re.1)
          ({ e with eps := eps }, re.2)))))
    (some st)

/-- The branch of `read_tbl` that reads a binary file; `none` is a fatal
error ("Too many pressure levels!", "Too many temperatures!" or a failed
`FREAD`). -/
def read_tbl_bin (L : tbl_files_t F) (s : List (bin_item F)) (e : tbl_entry_t F) :
    Option (tbl_entry_t F) :=
  (FREAD bin_item.as_int 1 s).bind (fun r0 =>
    let e := { e with np := r0.1.headD e.np }
    if e.np > L.TBLNPMAX then none
    else
      (FREAD bin_item.as_dbl e.np r0.2).bind (fun r1 =>
        let e := { e with p := store_items e.p r1.1 }
        (FREAD bin_item.as_int e.np r1.2).bind (fun r2 =>
          let e := { e with nt := store_items e.nt r2.1 }
          (for_loop e.np.toNat
            (fun ip st => st.bind (fun st =>
              if st.1.nt ip > L.TBLNTMAX then none
              else
                (FREAD bin_item.as_dbl (st.1.nt ip) st.2).bind (fun rt =>
                  let t := Function.update st.1.t (ip : Int) (store_items (st.1.t ip) rt.1)
                  let e := { st.1 with t := t }
                  (FREAD bin_item.as_int (e.nt ip) rt.2).bind (fun rn =>
                    let nu := Function.update e.nu (ip : Int) (store_items (e.nu ip) rn.1)
                    let e := { e with nu := nu }
                    read_tbl_bin_rows L ip (e, rn.2)))))
            (some (e, r2.2))).map Prod.fst)))

/-- The local variables of the ASCII branch of `read_tbl`. -/
structure tab_state_t (F : Type) where
  e : tbl_entry_t F
  eps_old : F
  press_old : F
  temp_old : F
  u_old : F

/-- The statement "Store data..." of the ASCII branch. -/
def read_tbl_tab_store (press temp u eps : F) (st : tab_state_t F) : tab_state_t F :=
  let np := st.e.np
  let nt := st.e.nt np
  let nu := st.e.nu np nt
  let p1 := Function.update st.e.p np press
  let t1 := upd2 st.e.t np nt temp
  let u1 := Function.update st.e.u np (upd2 (st.e.u np) nt nu u)
  let eps1 := Function.update st.e.eps np (upd2 (st.e.eps np) nt nu eps)
  { st with e := { st.e with p := p1, t := t1, u := u1, eps := eps1 } }

/-- One pass of the loop `while(fgets(line, LEN, in))` of the ASCII branch;
`none` is a fatal error.  (The casts to `float` are exact here.) -/
def read_tbl_tab_line (L : tbl_files_t F) (line : Option (F × F × F × F))
    (st : tab_state_t F) : Option (tab_state_t F) :=
  match line with
  | none => some st
  | some (press, temp, u, eps) =>
    (if press ≠ st.press_old then
      let e := { st.e with np := st.e.np + 1 }
      if e.np ≥ L.TBLNPMAX then none
      else some { st with press_old := press,
                          e := { e with nt := Function.update e.nt e.np (-1) } }
    else some st).bind (fun st =>
    (if temp ≠ st.temp_old then
      let e := { st.e with nt := Function.update st.e.nt st.e.np (st.e.nt st.e.np + 1) }
      if e.nt e.np ≥ L.TBLNTMAX then none
      else some { st with temp_old := temp,
                          e := { e with nu := upd2 e.nu e.np (e.nt e.np) (-1) } }
    else some st).bind (fun st =>
    if (eps > st.eps_old ∧ u > st.u_old) ∨ st.e.nu st.e.np (st.e.nt st.e.np) < 0 then
      let nu1 := upd2 st.e.nu st.e.np (st.e.nt st.e.np) (st.e.nu st.e.np (st.e.nt st.e.np) + 1)
      let e := { st.e with nu := nu1 }
      if e.nu e.np (e.nt e.np) ≥ L.TBLNUMAX then
        let nu2 := upd2 e.nu e.np (e.nt e.np) (e.nu e.np (e.nt e.np) - 1)
        some { st with eps_old := eps, u_old := u, e := { e with nu := nu2 } }
      else some (read_tbl_tab_store press temp u eps { st with eps_old := eps, u_old := u, e := e })
    else some (read_tbl_tab_store press temp u eps st)))

/-- The statements "Increment counters..." at the end of the ASCII branch. -/
def read_tbl_tab_counters (e : tbl_entry_t F) : tbl_entry_t F :=
  let e := { e with np := e.np + 1 }
  for_loop e.np.toNat
    (fun ip e =>
      let e := { e with nt := Function.update e.nt (ip : Int) (e.nt ip + 1) }
      for_loop (e.nt ip).toNat
        (fun it e => { e with nu := upd2 e.nu (ip : Int) (it : Int) (e.nu ip it + 1) }) e)
    e

/-- One pass of the loop of `read_tbl` over gases and channels, on the slice
`[ig][id]`: the binary file if it can be opened; otherwise `np = -1`, and the
ASCII file if that one can be opened. -/
def read_tbl_entry (L : tbl_files_t F) (ig id : Nat) (e : tbl_entry_t F) :
    Option (tbl_entry_t F) :=
  match L.bin ig id with
  | some s => read_tbl_bin L s e
  | none =>
    let e := { e with np := -1 }
    match L.tab ig id with
    | none => some e
    | some lines =>
      (lines.foldl (fun st line => st.bind (read_tbl_tab_line L line))
        (some ⟨e, -999, -999, -999, -999⟩)).map (fun st => read_tbl_tab_counters st.e)

/-- The function `read_tbl(ctl, tbl)`; `none` is a fatal error. -/
def read_tbl (L : tbl_files_t F) (ctl : ctl_t F) (tbl : tbl_t F) : Option (tbl_t F) :=
  for_loop ctl.ng
    (fun ig st => for_loop ctl.nd
      (fun id st => st.bind (fun tbl =>
        (read_tbl_entry L ig id (tbl_get tbl ig id)).map (tbl_set tbl ig id))) st)
    (some tbl)

/-- External functions given by the library functions and radiation
constants alone: no raytracer, no continua, no scattering source. -/
def ext_of_libm (exp log gsl_log1p gsl_expm1 : F → F) (C1 C2 : F) : ext_t F where
  exp := exp
  log := log
  gsl_log1p := gsl_log1p
  gsl_expm1 := gsl_expm1
  C1 := C1
  C2 := C2
  NFOV := 1
  locate := locate
  hydrostatic := fun _ atm => atm
  raytrace := fun _ _ _ _ _ =>
    { np := 0, z := fun _ => 0, lon := fun _ => 0, lat := fun _ => 0, p := fun _ => 0,
      t := fun _ => 0, q := fun _ _ => 0, k := fun _ _ => 0, aeroi := fun _ => 0,
      aerofac := fun _ => 0, tsurf := 0, ds := fun _ => 0, u := fun _ _ => 0 }
  geo2cart := fun _ _ _ _ => 0
  srcfunc_sca := fun _ _ _ _ _ _ _ _ _ => 0
  ctmco2 := fun _ _ _ _ _ => 0
  ctmh2o := fun _ _ _ _ _ _ => 0
  ctmn2 := fun _ _ _ => 0
  ctmo2 := fun _ _ _ => 0

/-- The configuration `ext_demo` with an N2 continuum of extinction 6. -/
def ext_n2_demo : ext_t ℚ :=
  { ext_demo with ctmn2 := fun _ _ _ => 6 }

/-- The control parameters `ctl_demo` with the N2 continuum enabled. -/
def ctl_n2_demo : ctl_t ℚ :=
  { ctl_demo with ctm_n2 := 1 }

/-- The line of sight `los_demo` with segments of length 2. -/
def los_long_demo : los_t ℚ :=
  { los_demo with ds := fun _ => 2 }

/-- Table files for one gas and one channel, none of which exists. -/
def files_missing_demo : tbl_files_t ℚ where
  TBLNPMAX := 41
  TBLNTMAX := 30
  TBLNUMAX := 320
  bin := fun _ _ => none
  tab := fun _ _ => none

/-- The tables `tbl_demo` after `read_tbl` found no file for the slice `[0][0]`. -/
def tbl_missing_demo : tbl_t ℚ :=
  tbl_set tbl_demo 0 0 { tbl_get tbl_demo 0 0 with np := -1 }

/-- One ray whose radiances are all unmasked on input. -/
def obs_clear_demo : obs_t ℚ :=
  { obs_demo with rad := fun _ _ => Dbl.fin 0 }

/-- Two rays with the same time stamp at tangent heights 0 and 1, with
radiances 10 and 20. -/
def obs_pair_demo : obs_t ℚ :=
  { obs_demo with nr := 2, vpz := fun ir => (ir : ℚ),
                  rad := fun _ ir => Dbl.fin (10 * ((ir : ℚ) + 1)),
                  tau := fun _ _ => 1 / 2 }

/-- The control parameters `ctl_demo` with the FOV convolution enabled. -/
def ctl_fov_demo : ctl_t ℚ :=
  { ctl_demo with fov := "fov.tab" }

/-! ## Retrieval: data model of `retrieval.c` -/

/-- Retrieval control parameters `ret_t` (without the working directory). -/
structure ret_t (F : Type) where
  /-- Recomputation of the kernel matrix (number of iterations). -/
  kernel_recomp : Int
  /-- Maximum number of iterations. -/
  conv_itmax : Int
  /-- Minimum normalised step size in state space. -/
  conv_dmin : F
  /-- Threshold for radiance residuals in percent. -/
  resmax : F
  /-- Error analysis flag. -/
  err_ana : Int
  /-- Forward model error in percent, per channel. -/
  err_formod : Nat → F
  /-- Noise error, per channel. -/
  err_noise : Nat → F
  /-- Pressure error in percent and its correlation lengths. -/
  err_press : F
  err_press_cz : F
  err_press_ch : F
  /-- Temperature error in K and its correlation lengths. -/
  err_temp : F
  err_temp_cz : F
  err_temp_ch : F
  /-- Volume mixing ratio error in percent and its correlation lengths, per gas. -/
  err_q : Nat → F
  err_q_cz : Nat → F
  err_q_ch : Nat → F
  /-- Extinction error and its correlation lengths, per window. -/
  err_k : Nat → F
  err_k_cz : Nat → F
  err_k_ch : Nat → F

/-- What `atm2x(ctl, atm, x, iqa, ipa)` returns and writes: the length `n` of
the state vector, the vector, and for each element its quantity tag and its
grid point. -/
structure state_t (F : Type) where
  n : Nat
  x : Nat → F
  iqa : Nat → Int
  ipa : Nat → Nat

/-- What `obs2y(ctl, obs, y, ida, ira)` returns and writes: the length `m` of
the measurement vector and the vector. -/
structure meas_t (F : Type) where
  m : Nat
  y : Nat → F

/-- Functions, macros and constants that `retrieval.c` uses and that are
defined elsewhere (libm, GSL, the project header and the other modules).
They are parameters of the embedding.  A `gsl_vector` is a function on the
indices, a `gsl_matrix` a function on pairs of indices, and the sizes are
passed along. -/
structure rext_t (F : Type) where
  /-- Header macros: the quantity tags of pressure, temperature, the volume
  mixing ratio of gas `ig` and the extinction of window `iw`. -/
  IDXP : Int
  IDXT : Int
  IDXQ : Nat → Int
  IDXK : Nat → Int
  /-- Header macro `DIST(a, b)`: distance of two Cartesian vectors. -/
  DIST : (Nat → F) → (Nat → F) → F
  sqrt : F → F
  atm2x : ctl_t F → atm_t F → state_t F
  x2atm : ctl_t F → (Nat → F) → atm_t F → atm_t F
  obs2y : ctl_t F → obs_t F → meas_t F
  /-- Kernel matrix `kernel(ctl, atm, obs, aero, k)`, of size `m × n`. -/
  kernel : ctl_t F → atm_t F → obs_t F → aero_t F → Nat → Nat → F
  /-- In-place inversion `matrix_invert(a)` of an `n × n` matrix. -/
  matrix_invert : Nat → (Nat → Nat → F) → Nat → Nat → F
  /-- Product `matrix_product(a, b, transpose, c)` for an `m × n` matrix `a`
  and a vector `b`: `A^T B A` for `transpose = 1`, `A B A^T` for `2`, with
  `B = diag(b)^2`. -/
  matrix_product : Nat → Nat → (Nat → Nat → F) → (Nat → F) → Int → Nat → Nat → F
  /-- The pair `gsl_linalg_cholesky_decomp(a)`, `gsl_linalg_cholesky_solve(a, b, x)`
  for an `n × n` system: the solution, or `none` when the decomposition
  reports an error and the GSL error handler stops the program. -/
  cholesky : Nat → (Nat → Nat → F) → (Nat → F) → Option (Nat → F)

/-- The GSL function `gsl_pow_2`. -/
def gsl_pow_2 (x : F) : F := x * x

/-- A sum `f 0 + f 1 + ... + f (n-1)` accumulated in index order. -/
def gsl_sum (n : Nat) (f : Nat → F) : F :=
  for_loop n (fun i s => s + f i) 0

/-- The BLAS call `gsl_blas_ddot(x, y, &r)` on vectors of length `n`. -/
def gsl_blas_ddot (n : Nat) (x y : Nat → F) : F :=
  gsl_sum n (fun i => x i * y i)

/-- The BLAS call `gsl_blas_dgemv(CblasNoTrans, alpha, a, x, beta, y)` for a
matrix with `c` columns: `y = alpha a x + beta y`. -/
def gsl_blas_dgemv (c : Nat) (alpha : F) (a : Nat → Nat → F) (x : Nat → F) (beta : F)
    (y : Nat → F) : Nat → F :=
  fun i => alpha * gsl_sum c (fun j => a i j * x j) + beta * y i

/-- The BLAS call `gsl_blas_dgemv(CblasTrans, alpha, a, x, beta, y)` for a
matrix with `r` rows: `y = alpha a^T x + beta y`. -/
def gsl_blas_dgemv_trans (r : Nat) (alpha : F) (a : Nat → Nat → F) (x : Nat → F) (beta : F)
    (y : Nat → F) : Nat → F :=
  fun j => alpha * gsl_sum r (fun i => a i j * x i) + beta * y j

/-! ## `corr_function`, `cost_function` -/

/-- The function `corr_function(z0, lon0, lat0, z1, lon1, lat1, cz, ch)`. -/
def corr_function (E : ext_t F) (R : rext_t F) (z0 lon0 lat0 z1 lon1 lat1 cz ch : F) : F :=
  let x0 := E.geo2cart 0 lon0 lat0
  let x1 := E.geo2cart 0 lon1 lat1
  E.exp (-R.DIST x0 x1 / ch - |z0 - z1| / cz)

/-- The function `cost_function(out, it, dx, dy, s_a_inv, sig_eps_inv)` for
`dy` of length `m` and `dx` of length `n`; the lines written to `out` and to
the terminal are not modelled. -/
def cost_function (m n : Nat) (dx dy : Nat → F) (s_a_inv : Nat → Nat → F)
    (sig_eps_inv : Nat → F) : F :=
  let chisq_m := for_loop m (fun i c => c + gsl_pow_2 (dy i * sig_eps_inv i)) 0
  let chisq_m := chisq_m / (m : F)
  let x_aux := gsl_blas_dgemv n 1 s_a_inv dx 0 (fun _ => 0)
  let chisq_a := gsl_blas_ddot n dx x_aux
  let chisq_a := chisq_a / (m : F)
  chisq_m + chisq_a

/-! ## `set_cov_apr`, `set_cov_meas` -/

/-- The first loop of `set_cov_apr`: the state vector of `atm` is turned
into the vector of standard deviations, element by element. -/
def set_cov_apr_sigma (R : rext_t F) (ret : ret_t F) (ctl : ctl_t F) (iqa : Nat → Int)
    (n : Nat) (x_a : Nat → F) : Nat → F :=
  for_loop n
    (fun i x_a =>
      let x_a := if iqa i = R.IDXP then Function.update x_a i (ret.err_press / 100 * x_a i)
        else x_a
      let x_a := if iqa i = R.IDXT then Function.update x_a i ret.err_temp else x_a
      let x_a := for_loop ctl.ng
        (fun ig x_a =>
          if iqa i = R.IDXQ ig then Function.update x_a i (ret.err_q ig / 100 * x_a i)
          else x_a) x_a
      for_loop ctl.nw
        (fun iw x_a => if iqa i = R.IDXK iw then Function.update x_a i (ret.err_k iw) else x_a)
        x_a)
    x_a

/-- The correlation lengths `(cz, ch)` that the last loop of `set_cov_apr`
selects for an element with quantity tag `tag`. -/
def set_cov_apr_lengths (R : rext_t F) (ret : ret_t F) (ctl : ctl_t F) (tag : Int) : F × F :=
  let c : F × F := (0, 0)
  let c := if tag = R.IDXP then (ret.err_press_cz, ret.err_press_ch) else c
  let c := if tag = R.IDXT then (ret.err_temp_cz, ret.err_temp_ch) else c
  let c := for_loop ctl.ng
    (fun ig c => if tag = R.IDXQ ig then (ret.err_q_cz ig, ret.err_q_ch ig) else c) c
  for_loop ctl.nw
    (fun iw c => if tag = R.IDXK iw then (ret.err_k_cz iw, ret.err_k_ch iw) else c) c

/-- The function `set_cov_apr(ret, ctl, atm, iqa, ipa, s_a)` for an `n × n`
matrix `s_a`; returns the matrix. -/
def set_cov_apr (E : ext_t F) (R : rext_t F) (ret : ret_t F) (ctl : ctl_t F) (atm : atm_t F)
    (iqa : Nat → Int) (ipa : Nat → Nat) (n : Nat) : Nat → Nat → F :=
  let x_a := set_cov_apr_sigma R ret ctl iqa n (R.atm2x ctl atm).x
  let s_a : Nat → Nat → F := fun _ _ => 0
  let s_a := for_loop n (fun i s_a => upd2 s_a i i (gsl_pow_2 (x_a i))) s_a
  for_loop n
    (fun i s_a => for_loop n
      (fun j s_a =>
        if i ≠ j ∧ iqa i = iqa j then
          let c := set_cov_apr_lengths R ret ctl (iqa i)
          if c.1 > 0 ∧ c.2 > 0 then
            upd2 s_a i j (x_a i * x_a j
              * corr_function E R (atm.z (ipa i)) (atm.lon (ipa i)) (atm.lat (ipa i))
                  (atm.z (ipa j)) (atm.lon (ipa j)) (atm.lat (ipa j)) c.1 c.2)
          else s_a
        else s_a)
      s_a)
    s_a

/-- The function `set_cov_meas(ret, ctl, obs, sig_noise, sig_formod, sig_eps_inv)`
for vectors of length `m`; returns the three vectors in this order.  The
scratch observation `obs_err` starts as a copy of `obs` and every radiance
`obs2y` reads from it is overwritten first. -/
def set_cov_meas (R : rext_t F) (ret : ret_t F) (ctl : ctl_t F) (obs : obs_t F) (m : Nat) :
    (Nat → F) × (Nat → F) × (Nat → F) :=
  let obs_err := for_loop obs.nr
    (fun ir obs_err => for_loop ctl.nd
      (fun id obs_err =>
        let v := if gsl_finite (obs.rad id ir) then Dbl.fin (ret.err_noise id) else Dbl.nan
        { obs_err with rad := upd2 obs_err.rad id ir v })
      obs_err) obs
  let sig_noise := (R.obs2y ctl obs_err).y
  let obs_err := for_loop obs.nr
    (fun ir obs_err => for_loop ctl.nd
      (fun id obs_err =>
        let v := Dbl.map (fun r => |ret.err_formod id / 100 * r|) (obs.rad id ir)
        { obs_err with rad := upd2 obs_err.rad id ir v })
      obs_err) obs
  let sig_formod := (R.obs2y ctl obs_err).y
  let sig_eps_inv := for_loop m
    (fun i s => Function.update s i
      (1 / R.sqrt (gsl_pow_2 (sig_noise i) + gsl_pow_2 (sig_formod i))))
    (fun _ => 0)
  (sig_noise, sig_formod, sig_eps_inv)

/-! ## `optimal_estimation` -/

/-- The body of the loop of `optimal_estimation` that checks the atmospheric
state, for the grid point `ip`: pressure, temperature, volume mixing ratios
and extinctions are clamped into their physical ranges. -/
def clamp_atm_point (ctl : ctl_t F) (ip : Nat) (atm : atm_t F) : atm_t F :=
  let atm := { atm with
    p := Function.update atm.p ip (GSL_MIN (GSL_MAX (atm.p ip) (5 / 10000000)) 50000) }
  let atm := { atm with
    t := Function.update atm.t ip (GSL_MIN (GSL_MAX (atm.t ip) 100) 400) }
  let atm := for_loop ctl.ng
    (fun ig atm => { atm with q := upd2 atm.q ig ip (GSL_MIN (GSL_MAX (atm.q ig ip) 0) 1) })
    atm
  for_loop ctl.nw
    (fun iw atm => { atm with k := upd2 atm.k iw ip (GSL_MAX (atm.k iw ip) 0) })
    atm

/-- The loop `for(ip=0; ip<atm_i->np; ip++)` of `optimal_estimation` that
checks the atmospheric state. -/
def clamp_atm (ctl : ctl_t F) (atm : atm_t F) : atm_t F :=
  for_loop atm.np (clamp_atm_point ctl) atm

/-- Quantities that `optimal_estimation` computes once, before the
Levenberg-Marquardt loops, and only reads afterwards. -/
structure lm_ctx_t (F : Type) where
  ret : ret_t F
  ctl : ctl_t F
  obs_meas : obs_t F
  atm_apr : atm_t F
  aero : aero_t F
  m : Nat
  n : Nat
  x_a : Nat → F
  y_m : Nat → F
  s_a_inv : Nat → Nat → F
  sig_eps_inv : Nat → F

/-- A record of one outer iteration, kept for stating properties only (the
program prints these values): the cost `chisq_old` stored at its start, the
value of the inner counter `it2` after the inner loop (`20` when every
attempt was rejected) and the cost `chisq` after the inner loop. -/
structure lm_rec_t (F : Type) where
  chisq_old : F
  it2 : Nat
  chisq : F

/-- The variables that the Levenberg-Marquardt loops of `optimal_estimation`
write.  The field `hist` is not a variable of the program: it collects one
`lm_rec_t` per completed outer iteration. -/
structure lm_t (F : Type) where
  atm_i : atm_t F
  obs_i : obs_t F
  x_i : Nat → F
  y_i : Nat → F
  k_i : Nat → Nat → F
  cov : Nat → Nat → F
  b : Nat → F
  dx : Nat → F
  dy : Nat → F
  x_step : Nat → F
  chisq : F
  lmpar : F
  disq : F
  it : Int
  it2 : Nat
  hist : List (lm_rec_t F)

/-- The atmosphere that an inner attempt hands to `formod`: `atm_i` is a
copy of `atm_apr`, overwritten by `x2atm(ctl, x_i, atm_i)` and then clamped. -/
def lm_trial_atm (R : rext_t F) (C : lm_ctx_t F) (x_i : Nat → F) : atm_t F :=
  clamp_atm C.ctl (R.x2atm C.ctl x_i C.atm_apr)

/-- The matrix `a = (1 + lmpar) s_a_inv + cov` of an inner attempt. -/
def lm_matrix (C : lm_ctx_t F) (lmpar : F) (cov : Nat → Nat → F) : Nat → Nat → F :=
  fun i j => C.s_a_inv i j * (1 + lmpar) + cov i j

/-- The body of the inner loop up to and including the call of
`cost_function`: solve for the step, add it to `x_i`, rebuild and clamp the
atmosphere, run the forward model on a copy of `obs_meas`, and evaluate the
cost.  The result is `none` when the Cholesky decomposition or `formod`
stops the program. -/
def lm_attempt (E : ext_t F) (S : static_t F) (R : rext_t F) (C : lm_ctx_t F)
    (st : lm_t F) : Option (lm_t F) :=
  match R.cholesky C.n (lm_matrix C st.lmpar st.cov) st.b with
  | none => none
  | some x_step =>
    let x_i := fun i => st.x_i i + x_step i
    match formod E S C.ctl (lm_trial_atm R C x_i) C.obs_meas C.aero with
    | none => none
    | some r =>
      let y_i := (R.obs2y C.ctl r.2).y
      let dx := fun i => x_i i - C.x_a i
      let dy := fun i => C.y_m i - y_i i
      let chisq := cost_function C.m C.n dx dy C.s_a_inv C.sig_eps_inv
      some { st with x_step := x_step, x_i := x_i, atm_i := r.1, obs_i := r.2, y_i := y_i,
                     dx := dx, dy := dy, chisq := chisq }

/-- The inner loop `for(it2=0; it2<20; it2++)`, by recursion on the number
of attempts that are left.  A rejected attempt multiplies `lmpar` by 10 and
subtracts the step from `x_i`; an accepted attempt divides `lmpar` by 10 and
leaves the loop. -/
def lm_inner (E : ext_t F) (S : static_t F) (R : rext_t F) (C : lm_ctx_t F) (chisq_old : F) :
    Nat → lm_t F → Option (lm_t F)
  | 0, st => some st
  | k + 1, st =>
    match lm_attempt E S R C st with
    | none => none
    | some st =>
      if st.chisq > chisq_old then
        lm_inner E S R C chisq_old k
          { st with lmpar := st.lmpar * 10, x_i := fun i => st.x_i i - st.x_step i,
                    it2 := st.it2 + 1 }
      else some { st with lmpar := st.lmpar / 10 }

/-- The first two statements of an outer iteration: the kernel `k_i` and the
matrix `cov = k_i^T S_eps^-1 k_i` are recomputed or kept.  The C operator
`%` is the truncated remainder. -/
def lm_kernel (R : rext_t F) (C : lm_ctx_t F) (it : Int) (st : lm_t F) : lm_t F :=
  let st :=
    if Int.tmod it C.ret.kernel_recomp = 0 ∧ ¬(C.ret.kernel_recomp = 1 ∧ it = 1) then
      { st with k_i := R.kernel C.ctl st.atm_i st.obs_i C.aero }
    else st
  if Int.tmod it C.ret.kernel_recomp = 0 ∨ it = 1 then
    { st with cov := R.matrix_product C.m C.n st.k_i C.sig_eps_inv 1 }
  else st

/-- The right-hand side `b = k_i^T S_eps^-1 dy - s_a_inv dx` of an outer
iteration, together with `dx = x_i - x_a` and `dy = y_m - y_i`. -/
def lm_rhs (C : lm_ctx_t F) (st : lm_t F) : lm_t F :=
  let dx := fun i => st.x_i i - C.x_a i
  let dy := fun i => C.y_m i - st.y_i i
  let y_aux := for_loop C.m
    (fun i y_aux => Function.update y_aux i (dy i * gsl_pow_2 (C.sig_eps_inv i)))
    (fun _ => 0)
  let b := gsl_blas_dgemv_trans C.m 1 st.k_i y_aux 0 st.b
  let b := gsl_blas_dgemv C.n (-1) C.s_a_inv dx 1 b
  { st with dx := dx, dy := dy, b := b }

/-- The body of the outer loop up to the convergence test: store
`chisq_old`, update kernel and right-hand side, run the inner loop and
compute the normalised step size `disq`. -/
def lm_iteration (E : ext_t F) (S : static_t F) (R : rext_t F) (C : lm_ctx_t F) (it : Int)
    (st : lm_t F) : Option (lm_t F) :=
  let chisq_old := st.chisq
  let st := lm_rhs C (lm_kernel R C it st)
  match lm_inner E S R C chisq_old 20 { st with it2 := 0 } with
  | none => none
  | some st =>
    let disq := gsl_blas_ddot C.n st.x_step st.b
    let disq := disq / (C.n : F)
    some { st with disq := disq,
                   hist := st.hist ++ [{ chisq_old := chisq_old, it2 := st.it2,
                                         chisq := st.chisq }] }

/-- The outer loop `for(it=1; it<=ret->conv_itmax; it++)` from the counter
value `it` on, by recursion on the number of iterations that are left.  The
loop ends when none is left or when `disq < conv_dmin`; the field `it` of
the result is the iteration in which the loop was left, or `conv_itmax + 1`. -/
def lm_outer (E : ext_t F) (S : static_t F) (R : rext_t F) (C : lm_ctx_t F) :
    Nat → Int → lm_t F → Option (lm_t F)
  | 0, it, st => some { st with it := it }
  | k + 1, it, st =>
    match lm_iteration E S R C it st with
    | none => none
    | some st =>
      if st.disq < C.ret.conv_dmin then some { st with it := it }
      else lm_outer E S R C k (it + 1) st

/-- The test `gsl_finite(chisq)` on the initial cost.  With `m ≥ 1` and finite
vectors, the cost of the C code fails to be finite exactly when some
`sig_eps_inv[i] = 1/sqrt(...)` of `set_cov_meas` is a quotient by zero: then
`sig_eps_inv[i]` is infinite and the term `(dy[i] * sig_eps_inv[i])^2` of the
cost is infinite or NaN.  (The inverse a-priori covariance is taken as
finite.) -/
def lm_cost_finite (R : rext_t F) (ret : ret_t F) (ctl : ctl_t F) (obs_meas : obs_t F)
    (m : Nat) : Bool :=
  decide (∀ i, i < m →
    R.sqrt (gsl_pow_2 ((set_cov_meas R ret ctl obs_meas m).1 i)
      + gsl_pow_2 ((set_cov_meas R ret ctl obs_meas m).2.1 i)) ≠ 0)

/-- The initialisation of `optimal_estimation`, up to the initial cost: the
sizes are checked, the forward model is run on the a-priori state, and the
vectors, the inverse a-priori covariance, the measurement errors and the
initial cost are set.  The result is `none` when `ERRMSG` or `formod` stops
the program.  The matrices `k_i` and `cov` and the vectors `b` and `x_step`
are allocated and not yet written (zero here); creating the file of costs is
assumed to succeed. -/
def lm_init (E : ext_t F) (S : static_t F) (R : rext_t F) (ret : ret_t F) (ctl : ctl_t F)
    (obs_meas : obs_t F) (atm_apr : atm_t F) (aero : aero_t F) :
    Option (lm_ctx_t F × lm_t F) :=
  let m := (R.obs2y ctl obs_meas).m
  let sv := R.atm2x ctl atm_apr
  let n := sv.n
  if m ≤ 0 ∨ n ≤ 0 then none
  else
    match formod E S ctl atm_apr obs_meas aero with
    | none => none
    | some r =>
      let x_a := (R.atm2x ctl atm_apr).x
      let x_i := (R.atm2x ctl r.1).x
      let y_m := (R.obs2y ctl obs_meas).y
      let y_i := (R.obs2y ctl r.2).y
      let s_a_inv := R.matrix_invert n (set_cov_apr E R ret ctl atm_apr sv.iqa sv.ipa n)
      let sig_eps_inv := (set_cov_meas R ret ctl obs_meas m).2.2
      let dx := fun i => x_i i - x_a i
      let dy := fun i => y_m i - y_i i
      let chisq := cost_function m n dx dy s_a_inv sig_eps_inv
      some ({ ret := ret, ctl := ctl, obs_meas := obs_meas, atm_apr := atm_apr, aero := aero,
              m := m, n := n, x_a := x_a, y_m := y_m, s_a_inv := s_a_inv,
              sig_eps_inv := sig_eps_inv },
            { atm_i := r.1, obs_i := r.2, x_i := x_i, y_i := y_i, k_i := fun _ _ => 0,
              cov := fun _ _ => 0, b := fun _ => 0, dx := dx, dy := dy,
              x_step := fun _ => 0, chisq := chisq, lmpar := 1 / 1000, disq := 0,
              it := 0, it2 := 0, hist := [] })

/-- The function `optimal_estimation(ret, ctl, obs_meas, obs_i, atm_apr, atm_i, aero)`
up to the end of the Levenberg-Marquardt minimisation; returns the variables
of the loops, among them the final `atm_i`, `obs_i` and `k_i` that are
written to files.  When the initial cost is not finite the function prints
"Retrieval failed!" and returns at once, with `atm_i` and `obs_i` as the
forward model left them; otherwise the initial kernel is computed and the
loop is run. -/
def optimal_estimation (E : ext_t F) (S : static_t F) (R : rext_t F) (ret : ret_t F)
    (ctl : ctl_t F) (obs_meas : obs_t F) (atm_apr : atm_t F) (aero : aero_t F) :
    Option (lm_t F) :=
  match lm_init E S R ret ctl obs_meas atm_apr aero with
  | none => none
  | some (C, st) =>
    if lm_cost_finite R ret ctl obs_meas C.m then
      lm_outer E S R C C.ret.conv_itmax.toNat 1
        { st with k_i := R.kernel ctl st.atm_i st.obs_i aero }
    else some st

/-- The costs at the accepted steps of a run that started with cost `c0`, in
order: `c0`, then the cost after every outer iteration whose inner loop
accepted an attempt (`it2 < 20`). -/
def accepted_costs (c0 : F) (hist : List (lm_rec_t F)) : List F :=
  c0 :: (hist.filter (fun e => decide (e.it2 < 20))).map (fun e => e.chisq)

/-- The records of the outer iterations are linked: the first `chisq_old` is
the initial cost `c0`, every later `chisq_old` is the `chisq` left by the
iteration before, and `last` is the `chisq` left by the last iteration
(`c0` when there is none). -/
def hist_linked (c0 : F) : List (lm_rec_t F) → F → Prop
  | [], last => last = c0
  | e :: es, last => e.chisq_old = c0 ∧ hist_linked e.chisq es last

/-- An `n × n` matrix is positive definite: `v^T a v > 0` for every vector
`v` with a non-zero entry among the first `n`. -/
def pos_def (n : Nat) (a : Nat → Nat → F) : Prop :=
  ∀ v : Nat → F, (∃ i, i < n ∧ v i ≠ 0) →
    0 < gsl_sum n (fun i => v i * gsl_sum n (fun j => a i j * v j))

/-- The solver contract of the Cholesky pair: for a positive definite
`n × n` matrix `a` it returns a vector `x` with `a x = b`. -/
def cholesky_solves (R : rext_t F) (n : Nat) : Prop :=
  ∀ (a : Nat → Nat → F) (b : Nat → F), pos_def n a →
    ∃ x, R.cholesky n a b = some x ∧ ∀ i, i < n → gsl_sum n (fun j => a i j * x j) = b i

/-! ## Views of `set_cov_apr` used to state its properties -/

/-- What the first loop of `set_cov_apr` does to one element with quantity
tag `tag` and value `v`. -/
def set_cov_apr_elem (R : rext_t F) (ret : ret_t F) (ctl : ctl_t F) (tag : Int) (v : F) : F :=
  let v := if tag = R.IDXP then ret.err_press / 100 * v else v
  let v := if tag = R.IDXT then ret.err_temp else v
  let v := for_loop ctl.ng (fun ig v => if tag = R.IDXQ ig then ret.err_q ig / 100 * v else v) v
  for_loop ctl.nw (fun iw v => if tag = R.IDXK iw then ret.err_k iw else v) v

/-- The quantity tags of pressure, temperature, the `ng` gases and the `nw`
windows are pairwise different. -/
def tags_distinct (R : rext_t F) (ctl : ctl_t F) : Prop :=
  R.IDXP ≠ R.IDXT ∧
  (∀ ig, ig < ctl.ng → R.IDXQ ig ≠ R.IDXP ∧ R.IDXQ ig ≠ R.IDXT) ∧
  (∀ iw, iw < ctl.nw → R.IDXK iw ≠ R.IDXP ∧ R.IDXK iw ≠ R.IDXT) ∧
  (∀ ig iw, ig < ctl.ng → iw < ctl.nw → R.IDXQ ig ≠ R.IDXK iw) ∧
  (∀ ig ig2, ig < ctl.ng → ig2 < ctl.ng → R.IDXQ ig = R.IDXQ ig2 → ig = ig2) ∧
  (∀ iw iw2, iw < ctl.nw → iw2 < ctl.nw → R.IDXK iw = R.IDXK iw2 → iw = iw2)

/-- The standard deviation of a state vector element as the specification
gives it: `sigma` belongs to an element with quantity tag `tag` and a-priori
value `x`. -/
def apr_sigma (R : rext_t F) (ret : ret_t F) (ctl : ctl_t F) (tag : Int) (x sigma : F) : Prop :=
  (tag = R.IDXP ∧ sigma = ret.err_press / 100 * x) ∨
  (tag = R.IDXT ∧ sigma = ret.err_temp) ∨
  (∃ ig, ig < ctl.ng ∧ tag = R.IDXQ ig ∧ sigma = ret.err_q ig / 100 * x) ∨
  (∃ iw, iw < ctl.nw ∧ tag = R.IDXK iw ∧ sigma = ret.err_k iw)

/-- The correlation lengths of a quantity as the specification gives them:
`cz` and `ch` belong to the quantity with tag `tag`. -/
def apr_lengths (R : rext_t F) (ret : ret_t F) (ctl : ctl_t F) (tag : Int) (cz ch : F) : Prop :=
  (tag = R.IDXP ∧ cz = ret.err_press_cz ∧ ch = ret.err_press_ch) ∨
  (tag = R.IDXT ∧ cz = ret.err_temp_cz ∧ ch = ret.err_temp_ch) ∨
  (∃ ig, ig < ctl.ng ∧ tag = R.IDXQ ig ∧ cz = ret.err_q_cz ig ∧ ch = ret.err_q_ch ig) ∨
  (∃ iw, iw < ctl.nw ∧ tag = R.IDXK iw ∧ cz = ret.err_k_cz iw ∧ ch = ret.err_k_ch iw)

/-! ## A small retrieval problem over `ℚ` -/

/-- Bisection for the integer square root: the largest `lo` with
`lo * lo ≤ n` when it starts from `lo = 0`, `hi = n + 1` with enough steps. -/
def isqrt_loop (n : Nat) : Nat → Nat → Nat → Nat
  | 0, lo, _ => lo
  | k + 1, lo, hi =>
    if hi ≤ lo + 1 then lo
    else if (lo + hi) / 2 * ((lo + hi) / 2) ≤ n then isqrt_loop n k ((lo + hi) / 2) hi
    else isqrt_loop n k lo ((lo + hi) / 2)

/-- A rational stand-in for `sqrt`: exact on the square of a rational whose
numerator and denominator are below `2^64`. -/
def sqrt_demo (x : ℚ) : ℚ :=
  (isqrt_loop x.num.toNat 130 0 (x.num.toNat + 1) : ℚ) / (isqrt_loop x.den 130 0 (x.den + 1) : ℚ)

/-- The configuration `ext_demo` with a raytracer that returns the first
segment of `los_demo` at the temperature of the first grid point of `atm`. -/
def ext_lm_demo : ext_t ℚ :=
  { ext_demo with
    raytrace := fun _ atm _ _ _ => { los_demo with np := 1, t := fun _ => atm.t 0 } }

/-- The radiance of channel 0 and ray 0 that `formod` computes in the
configuration `ext_lm_demo`, or `0` when it is masked. -/
def formod_lm_demo (ctl : ctl_t ℚ) (atm : atm_t ℚ) (obs : obs_t ℚ) (aero : aero_t ℚ) : ℚ :=
  match formod ext_lm_demo static_demo ctl atm obs aero with
  | some (_, obs) =>
    match obs.rad 0 0 with
    | Dbl.fin v => v
    | Dbl.nan => 0
  | none => 0

/-- External functions of the retrieval for a state vector that holds the
temperature of grid point 0 and a measurement vector that holds the radiance
of channel 0 and ray 0: the tags `0, 1, 2 + ig, 3 + iw` (one gas), a kernel
by forward difference with a perturbation of 1 K, and the linear algebra of
`1 × 1` matrices. -/
def rext_demo : rext_t ℚ where
  IDXP := 0
  IDXT := 1
  IDXQ := fun ig => 2 + (ig : Int)
  IDXK := fun iw => 3 + (iw : Int)
  DIST := fun x0 x1 => |x1 0 - x0 0| + |x1 1 - x0 1| + |x1 2 - x0 2|
  sqrt := sqrt_demo
  atm2x := fun _ atm => { n := 1, x := fun _ => atm.t 0, iqa := fun _ => 1, ipa := fun _ => 0 }
  x2atm := fun _ x atm => { atm with t := Function.update atm.t 0 (x 0) }
  obs2y := fun _ obs =>
    match obs.rad 0 0 with
    | Dbl.fin v => { m := 1, y := fun _ => v }
    | Dbl.nan => { m := 0, y := fun _ => 0 }
  kernel := fun ctl atm obs aero _ _ =>
    formod_lm_demo ctl { atm with t := Function.update atm.t 0 (atm.t 0 + 1) } obs aero
      - formod_lm_demo ctl atm obs aero
  matrix_invert := fun _ a i j => if i = 0 ∧ j = 0 then 1 / a 0 0 else 0
  matrix_product := fun m n a b transpose i j =>
    if transpose = 1 then gsl_sum m (fun r => a r i * gsl_pow_2 (b r) * a r j)
    else gsl_sum n (fun r => a i r * gsl_pow_2 (b r) * a j r)
  cholesky := fun _ a b =>
    if 0 < a 0 0 then some (fun i => if i = 0 then b 0 / a 0 0 else 0) else none

/-- Retrieval parameters: the kernel is recomputed in every iteration, at
most two iterations, noise `10^-6`, a temperature error of 100 K without
correlations. -/
def ret_demo : ret_t ℚ where
  kernel_recomp := 1
  conv_itmax := 2
  conv_dmin := 1 / 1000
  resmax := -999
  err_ana := 0
  err_formod := fun _ => 0
  err_noise := fun _ => 1 / 1000000
  err_press := 0
  err_press_cz := 0
  err_press_ch := 0
  err_temp := 100
  err_temp_cz := 0
  err_temp_ch := 0
  err_q := fun _ => 0
  err_q_cz := fun _ => 0
  err_q_ch := fun _ => 0
  err_k := fun _ => 0
  err_k_cz := fun _ => 0
  err_k_ch := fun _ => 0

/-- An a-priori atmosphere with one grid point at 166.5 K. -/
def atm_lm_demo : atm_t ℚ :=
  { atm_demo with np := 1, p := fun _ => 3 / 2, t := fun _ => 333 / 2 }

/-- One ray with the measured radiance `106.66602`; the forward model gives
`106.666` at 166.5 K. -/
def obs_lm_demo : obs_t ℚ :=
  { obs_demo with rad := fun _ _ => Dbl.fin (10666602 / 100000) }

/-- The retrieval parameters `ret_demo` with correlation lengths of 1 km for
the temperature. -/
def ret_corr_demo : ret_t ℚ :=
  { ret_demo with err_temp_cz := 1, err_temp_ch := 1 }

/-- An atmosphere with two grid points, at the altitudes 0 km and 1 km. -/
def atm_pair_demo : atm_t ℚ :=
  { atm_lm_demo with np := 2, z := fun ip => (ip : ℚ) }

/-- The quantities that the initialisation of `optimal_estimation` computes
for the retrieval problem `ret_demo`, `ctl_demo`, `obs_lm_demo`, `atm_lm_demo`. -/
def lm_ctx_demo : lm_ctx_t ℚ where
  ret := ret_demo
  ctl := ctl_demo
  obs_meas := obs_lm_demo
  atm_apr := atm_lm_demo
  aero := aero_demo
  m := 1
  n := 1
  x_a := fun _ => 333 / 2
  y_m := fun _ => 10666602 / 100000
  s_a_inv := fun i j => if i = 0 ∧ j = 0 then 1 / 10000 else 0
  sig_eps_inv := fun _ => 1000000

/-- The variables of the loops at the entry to the outer loop for the same
problem: the state is the a-priori state, the radiance is `106.666`, the
kernel is `-0.016`, the cost is `400`. -/
def lm_demo : lm_t ℚ where
  atm_i := atm_lm_demo
  obs_i := { obs_lm_demo with rad := fun _ _ => Dbl.fin (53333 / 500), tau := fun _ _ => 1 / 2 }
  x_i := fun _ => 333 / 2
  y_i := fun _ => 53333 / 500
  k_i := fun _ _ => -2 / 125
  cov := fun _ _ => 0
  b := fun _ => 0
  dx := fun _ => 0
  dy := fun _ => 1 / 50000
  x_step := fun _ => 0
  chisq := 400
  lmpar := 1 / 1000
  disq := 0
  it := 0
  it2 := 0
  hist := []

/-- An a-priori atmosphere with one grid point at 150 K. -/
def atm_ok_demo : atm_t ℚ :=
  { atm_lm_demo with t := fun _ => 150 }

/-- One ray with the measured radiance `100.00001`; the forward model gives
`100` at 150 K. -/
def obs_ok_demo : obs_t ℚ :=
  { obs_demo with rad := fun _ _ => Dbl.fin (10000001 / 100000) }

/-- The quantities `lm_ctx_demo` with the measured radiance `106.666`, which
is what the forward model gives for the a-priori state. -/
def lm_ctx_noop_demo : lm_ctx_t ℚ :=
  { lm_ctx_demo with y_m := fun _ => 53333 / 500 }

/-- The path transmittances on entry to the segment `ip + k` of a ray, when
`tp` are the path transmittances on entry to the segment `ip`. -/
def intpol_tbl_from (E : ext_t F) (ctl : ctl_t F) (tbl : tbl_t F) (los : los_t F) (ip k : Nat)
    (tp : Nat → Nat → F) : Nat → Nat → F :=
  for_loop k (fun j tp => (intpol_tbl E ctl tbl los (ip + j) tp).1) tp

/-! ## A configuration over any field, for statements about the real `exp` -/

/-- Tables none of which was loaded (`np = -1` throughout). -/
def tbl_none_demo : tbl_t F where
  np := fun _ _ => -1
  nt := fun _ _ _ => 0
  nu := fun _ _ _ _ => 0
  p := fun _ _ _ => 0
  t := fun _ _ _ _ => 0
  u := fun _ _ _ _ _ => 0
  eps := fun _ _ _ _ _ => 0

/-- Static tables without emissivity tables and with the source function
`B(T) = 1`. -/
def static_none_demo : static_t F where
  tbl := tbl_none_demo
  temp := fun it => 100 + (it : F) / 4
  plancka := fun _ _ => 1
  fov_dz := fun _ => 0
  fov_w := fun _ => 1
  fov_n := 1

/-- One gas, one channel, one scattering model, `sca_ext = "beta_a"`. -/
def ctl_layer_demo : ctl_t F where
  ng := 1
  nd := 1
  nw := 1
  nu := fun _ => 1000
  window := fun _ => 0
  ctm_co2 := 0
  ctm_h2o := 0
  ctm_n2 := 0
  ctm_o2 := 0
  sca_mult := 0
  sca_n := 1
  sca_ext := "beta_a"
  fov := "-"
  write_bbt := 0

/-- A line of sight with one segment of length 1 inside an aerosol layer
(`aerofac = 1`), with window extinction 1/2. -/
def los_layer_demo : los_t F where
  np := 1
  z := fun _ => 0
  lon := fun _ => 0
  lat := fun _ => 0
  p := fun _ => 1
  t := fun _ => 150
  q := fun _ _ => 0
  k := fun _ _ => 1 / 2
  aeroi := fun _ => 0
  aerofac := fun _ => 1
  tsurf := 0
  ds := fun _ => 1
  u := fun _ _ => 1

/-- An aerosol layer with extinction 3, absorption 1 and scattering 2. -/
def aero_any_demo : aero_t F where
  beta_e := fun _ _ => 3
  beta_a := fun _ _ => 1
  beta_s := fun _ _ => 2

/-- An atmosphere with no grid points. -/
def atm_none_demo : atm_t F where
  np := 0
  time := fun _ => 0
  z := fun _ => 0
  lon := fun _ => 0
  lat := fun _ => 0
  p := fun _ => 0
  t := fun _ => 0
  q := fun _ _ => 0
  k := fun _ _ => 0

/-- One ray with radiance 0 and transmittance 1. -/
def obs_unit_demo : obs_t F where
  nr := 1
  time := fun _ => 0
  obsz := fun _ => 0
  obslon := fun _ => 0
  obslat := fun _ => 0
  vpz := fun _ => 0
  vplon := fun _ => 0
  vplat := fun _ => 0
  rad := fun _ _ => Dbl.fin 0
  tau := fun _ _ => 1

/-! ## Views of the inner loop of `optimal_estimation` -/

/-- What one inner attempt computes from the state vector `x_i`, the
right-hand side `b`, the matrix `cov` and the damping `lam`: the step, the
cost of the stepped state, and the atmosphere and observations that `formod`
returns for it. -/
def lm_trial (E : ext_t F) (S : static_t F) (R : rext_t F) (C : lm_ctx_t F)
    (x_i b : Nat → F) (cov : Nat → Nat → F) (lam : F) :
    Option ((Nat → F) × F × atm_t F × obs_t F) :=
  match R.cholesky C.n (lm_matrix C lam cov) b with
  | none => none
  | some x_step =>
    match formod E S C.ctl (lm_trial_atm R C fun i => x_i i + x_step i) C.obs_meas C.aero with
    | none => none
    | some r =>
      some (x_step,
        cost_function C.m C.n (fun i => x_i i + x_step i - C.x_a i)
          (fun i => C.y_m i - (R.obs2y C.ctl r.2).y i) C.s_a_inv C.sig_eps_inv,
        r.1, r.2)

/-- The matrix `cov` is `k_i^T S_eps^-1 k_i` for the kernel `k_i` stored with it. -/
def cov_consistent (R : rext_t F) (C : lm_ctx_t F) (st : lm_t F) : Prop :=
  st.cov = R.matrix_product C.m C.n st.k_i C.sig_eps_inv 1

/-- A binary table file with one pressure level, one temperature and a
column-density count of 321, followed by 320 values of `u` and 320 values of
`eps`. -/
def bin_long_demo : List (bin_item ℚ) :=
  [bin_item.int 1, bin_item.dbl 1, bin_item.int 1, bin_item.dbl 250, bin_item.int 321]
    ++ (List.range 320).map (fun i => bin_item.flt (i : ℚ))
    ++ (List.range 320).map (fun i => bin_item.flt ((i : ℚ) / 320))

/-- Table files for one gas and one channel: the binary file `bin_long_demo`. -/
def files_bin_demo : tbl_files_t ℚ :=
  { files_missing_demo with bin := fun _ _ => some bin_long_demo }

/-! ## The residual filter of `main` (`retrieval.c`) -/

/-- The number of finite radiances among the channels `id < nd` and the rays
`ir < nr` of `obs`. -/
def finite_count (ctl : ctl_t F) (obs : obs_t F) : Nat :=
  ∑ id in Finset.range ctl.nd, ∑ ir in Finset.range obs.nr,
    if gsl_finite (obs.rad id ir) then 1 else 0

/-- The test of `main` on one radiance: `resmax > 0`, both the modelled
radiance `mod` and the measured radiance `meas` are finite, and
`fabs(1 - mod/meas) >= resmax/100`.  In IEEE arithmetic a quotient by zero is
infinite, so that the comparison holds, unless the numerator is zero too: then
it is NaN and the comparison fails. -/
def residual_bad (ret : ret_t F) (mod meas : Dbl F) : Bool :=
  match mod, meas with
  | Dbl.fin a, Dbl.fin b =>
    decide (ret.resmax > 0) &&
      (if b = 0 then decide (a ≠ 0) else decide (|1 - a / b| ≥ ret.resmax / 100))
  | _, _ => false

/-- The loops "Check radiance residuals..." of `main`: returns `obs_meas`,
`obs_i` and the counter `nbad`. -/
def residual_filter (ret : ret_t F) (ctl : ctl_t F) (obs_meas obs_i : obs_t F) :
    obs_t F × obs_t F × Nat :=
  for_loop ctl.nd
    (fun id st => for_loop st.1.nr
      (fun ir st =>
        if residual_bad ret (st.2.1.rad id ir) (st.1.rad id ir) then
          ({ st.1 with rad := upd2 st.1.rad id ir Dbl.nan },
            { st.2.1 with rad := upd2 st.2.1.rad id ir Dbl.nan }, st.2.2 + 1)
        else st)
      st)
    (obs_meas, obs_i, 0)

/-- How the loop `while(1)` of `main` ended for one directory: the number of
calls of `optimal_estimation`, the measurements after the last filter pass,
and the variables of the last retrieval (`none` when `optimal_estimation`
stopped the program). -/
structure retrieval_run_t (F : Type) where
  calls : Nat
  obs_meas : obs_t F
  result : Option (lm_t F)

/-- The loop `while(1)` of `main` for one directory, by recursion on a bound
`fuel` for the number of passes; `calls` counts the calls of
`optimal_estimation` made so far.  The result is `none` when the bound is
reached before the loop has ended. -/
def retrieval_loop (E : ext_t F) (S : static_t F) (R : rext_t F) (ret : ret_t F)
    (ctl : ctl_t F) (atm_apr : atm_t F) (aero : aero_t F) :
    Nat → Nat → obs_t F → Option (retrieval_run_t F)
  | 0, _, _ => none
  | fuel + 1, calls, obs_meas =>
    match optimal_estimation E S R ret ctl obs_meas atm_apr aero with
    | none => some { calls := calls + 1, obs_meas := obs_meas, result := none }
    | some st =>
      let r := residual_filter ret ctl obs_meas st.obs_i
      let m := (R.obs2y ctl r.1).m
      if r.2.2 > 0 ∧ m > 0 then retrieval_loop E S R ret ctl atm_apr aero fuel (calls + 1) r.1
      else some { calls := calls + 1, obs_meas := r.1,
                  result := some { st with obs_i := r.2.1 } }

/-! ## The axes of an ASCII table, as the specification describes them -/

/-- The line `k` of a list of table lines `p T u eps` (counted from 0). -/
def tab_line (ls : List (F × F × F × F)) (k : Nat) : F × F × F × F :=
  ls.getD k (0, 0, 0, 0)

/-- The indices `(ip, it, iu)` of the line `k` when the axis boundaries are
detected by value change, as the specification puts it: the first line has
the indices `(0, 0, 0)`; a line whose pressure differs from the one of the
line before starts the next pressure group (`ip + 1`, `it = 0`, `iu = 0`);
otherwise a line whose temperature differs starts the next temperature group
of the same pressure group (`it + 1`, `iu = 0`); otherwise the line is the
next one of its `(p,T)` group (`iu + 1`). -/
def tab_idx (ls : List (F × F × F × F)) : Nat → Int × Int × Int
  | 0 => (0, 0, 0)
  | k + 1 =>
    if (tab_line ls (k + 1)).1 ≠ (tab_line ls k).1 then ((tab_idx ls k).1 + 1, 0, 0)
    else if (tab_line ls (k + 1)).2.1 ≠ (tab_line ls k).2.1 then
      ((tab_idx ls k).1, (tab_idx ls k).2.1 + 1, 0)
    else ((tab_idx ls k).1, (tab_idx ls k).2.1, (tab_idx ls k).2.2 + 1)

/-- The ASCII tables for which `read_tbl` recovers the axes: the pressure
and the temperature of the first line are not the initial value `-999` of
`press_old` and `temp_old`; a line that changes the pressure also changes the
temperature; inside a `(p,T)` group `u` and `eps` are strictly increasing;
and all indices are below the table limits. -/
def tab_wf (L : tbl_files_t F) (ls : List (F × F × F × F)) : Prop :=
  (0 < ls.length → (tab_line ls 0).1 ≠ -999 ∧ (tab_line ls 0).2.1 ≠ -999) ∧
  (∀ k, k + 1 < ls.length →
    ((tab_line ls (k + 1)).1 ≠ (tab_line ls k).1 →
      (tab_line ls (k + 1)).2.1 ≠ (tab_line ls k).2.1) ∧
    ((tab_line ls (k + 1)).1 = (tab_line ls k).1 →
      (tab_line ls (k + 1)).2.1 = (tab_line ls k).2.1 →
      (tab_line ls k).2.2.1 < (tab_line ls (k + 1)).2.2.1 ∧
      (tab_line ls k).2.2.2 < (tab_line ls (k + 1)).2.2.2)) ∧
  (∀ k, k < ls.length →
    (tab_idx ls k).1 < L.TBLNPMAX ∧ (tab_idx ls k).2.1 < L.TBLNTMAX ∧
    (tab_idx ls k).2.2 < L.TBLNUMAX)

/-- The state of the ASCII branch after a line `(p, T, u, eps)` has been
counted and stored at the indices `(ip, it, iu)`. -/
def tab_put (st : tab_state_t F) (ip it iu : Int) (l : F × F × F × F) : tab_state_t F where
  e := { np := ip
         nt := Function.update st.e.nt ip it
         nu := upd2 st.e.nu ip it iu
         p := Function.update st.e.p ip l.1
         t := upd2 st.e.t ip it l.2.1
         u := Function.update st.e.u ip (upd2 (st.e.u ip) it iu l.2.2.1)
         eps := Function.update st.e.eps ip (upd2 (st.e.eps ip) it iu l.2.2.2) }
  eps_old := l.2.2.2
  press_old := l.1
  temp_old := l.2.1
  u_old := l.2.2.1

/-- The line `k` is stored in the table at its indices `tab_idx ls k`. -/
def tab_stored (ls : List (F × F × F × F)) (k : Nat) (e : tbl_entry_t F) : Prop :=
  e.p (tab_idx ls k).1 = (tab_line ls k).1 ∧
  e.t (tab_idx ls k).1 (tab_idx ls k).2.1 = (tab_line ls k).2.1 ∧
  e.u (tab_idx ls k).1 (tab_idx ls k).2.1 (tab_idx ls k).2.2 = (tab_line ls k).2.2.1 ∧
  e.eps (tab_idx ls k).1 (tab_idx ls k).2.1 (tab_idx ls k).2.2 = (tab_line ls k).2.2.2

/-- The state of the ASCII branch after the lines `0 .. k`: the counters are
the indices of line `k`, the variables `*_old` hold line `k`, the lines read
so far are stored at their indices, and the counters of the groups that are
complete hold the indices of their last lines. -/
def tab_inv (ls : List (F × F × F × F)) (k : Nat) (st : tab_state_t F) : Prop :=
  st.e.np = (tab_idx ls k).1 ∧
  st.e.nt (tab_idx ls k).1 = (tab_idx ls k).2.1 ∧
  st.e.nu (tab_idx ls k).1 (tab_idx ls k).2.1 = (tab_idx ls k).2.2 ∧
  st.press_old = (tab_line ls k).1 ∧ st.temp_old = (tab_line ls k).2.1 ∧
  st.u_old = (tab_line ls k).2.2.1 ∧ st.eps_old = (tab_line ls k).2.2.2 ∧
  (∀ j, j ≤ k → tab_stored ls j st.e ∧
    (tab_idx ls j).2.1 ≤ st.e.nt (tab_idx ls j).1 ∧
    (tab_idx ls j).2.2 ≤ st.e.nu (tab_idx ls j).1 (tab_idx ls j).2.1) ∧
  (∀ j, j < k →
    ((tab_idx ls (j + 1)).1 ≠ (tab_idx ls j).1 →
      st.e.nt (tab_idx ls j).1 = (tab_idx ls j).2.1) ∧
    ((tab_idx ls (j + 1)).2.2 = 0 →
      st.e.nu (tab_idx ls j).1 (tab_idx ls j).2.1 = (tab_idx ls j).2.2))

/-- An ASCII table with the pressure groups `p = 1` and `p = 2`, each with
the one temperature `T = 250` and two lines with growing `u` and `eps`. -/
def tab_same_temp_demo : List (ℚ × ℚ × ℚ × ℚ) :=
  [(1, 250, 1, 1 / 10), (1, 250, 2, 2 / 10), (2, 250, 1, 1 / 10), (2, 250, 2, 2 / 10)]

/-- Table files for one gas and one channel: no binary file, the ASCII file
`tab_same_temp_demo`. -/
def files_tab_demo : tbl_files_t ℚ :=
  { files_missing_demo with tab := fun _ _ => some (tab_same_temp_demo.map some) }

/-- An ASCII table with the pressure groups `p = 1` (temperatures 250 with
two lines and 260 with one line) and `p = 2` (temperature 255 with two
lines). -/
def tab_ok_demo : List (ℚ × ℚ × ℚ × ℚ) :=
  [(1, 250, 1, 1 / 10), (1, 250, 2, 2 / 10), (1, 260, 1, 1 / 10), (2, 255, 1, 1 / 10),
    (2, 255, 2, 3 / 10)]

/-- Table files for one gas and one channel: no binary file, the ASCII file
`tab_ok_demo`. -/
def files_tab_ok_demo : tbl_files_t ℚ :=
  { files_missing_demo with tab := fun _ _ => some (tab_ok_demo.map some) }

/-- One ray with radiance 5 and transmittance 1/2 on every channel. -/
def obs_flat_demo : obs_t ℚ :=
  { obs_demo with rad := fun _ _ => Dbl.fin 5, tau := fun _ _ => 1 / 2 }

/-- Two rays with the same time stamp at tangent heights 0 and 1, both with
radiance 5 and transmittance 1/2 on every channel. -/
def obs_flat_pair_demo : obs_t ℚ :=
  { obs_flat_demo with nr := 2, vpz := fun ir => (ir : ℚ) }

/-- Two rays with the same time stamp and the same tangent height 0, both
with radiance 5 and transmittance 1/2 on every channel. -/
def obs_flat_level_demo : obs_t ℚ :=
  { obs_flat_demo with nr := 2 }

/-- A row `xx` of length `n` is strictly increasing. -/
def StrictRow (xx : Int → F) (n : Int) : Prop :=
  ∀ i j : Int, 0 ≤ i → i < j → j < n → xx i < xx j

/-- The bracket property of an index `i` for the value `x` in a row of
length `n`: interior brackets hold `xx i ≤ x < xx (i+1)`, the first bracket
also takes every smaller `x` and the last one every larger `x`. -/
def Bracket (xx : Int → F) (n : Int) (x : F) (i : Int) : Prop :=
  0 ≤ i ∧ i + 1 < n ∧ (i = 0 ∨ xx i ≤ x) ∧ (i + 1 = n - 1 ∨ x < xx (i + 1))

/-- The retrieval parameters `ret_demo` without noise: with `err_noise = 0`
and `err_formod = 0` the total measurement error is zero. -/
def ret_exact_demo : ret_t ℚ :=
  { ret_demo with err_noise := fun _ => 0 }

/-! ## Loops -/

theorem for_loop_zero {σ : Type} (body : Nat → σ → σ) (s : σ) : for_loop 0 body s = s := by
  simp [for_loop]

theorem for_loop_succ {σ : Type} (n : Nat) (body : Nat → σ → σ) (s : σ) :
    for_loop (n + 1) body s = body n (for_loop n body s) := by
  simp [for_loop, List.range_succ, List.foldl_append]

theorem for_loop_one {σ : Type} (body : Nat → σ → σ) (s : σ) :
    for_loop 1 body s = body 0 s := by
  rw [show (1 : Nat) = 0 + 1 from rfl, for_loop_succ, for_loop_zero]

theorem for_loop_two {σ : Type} (body : Nat → σ → σ) (s : σ) :
    for_loop 2 body s = body 1 (body 0 s) := by
  rw [show (2 : Nat) = 1 + 1 from rfl, for_loop_succ, for_loop_one]

/-- Loops whose bodies agree below the bound agree. -/
theorem for_loop_congr {σ : Type} (n : Nat) (body1 body2 : Nat → σ → σ) (s : σ)
    (h : ∀ i st, i < n → body1 i st = body2 i st) :
    for_loop n body1 s = for_loop n body2 s := by
  induction n with
  | zero => rw [for_loop_zero, for_loop_zero]
  | succ k ih =>
    rw [for_loop_succ, for_loop_succ, ih (fun i st hi => h i st (Nat.lt_succ_of_lt hi))]
    exact h k _ (Nat.lt_succ_self k)

/-- Invariant rule for `for_loop`. -/
theorem for_loop_inv {σ : Type} (P : σ → Prop) (n : Nat) (body : Nat → σ → σ) (s : σ)
    (h0 : P s) (hstep : ∀ i st, i < n → P st → P (body i st)) : P (for_loop n body s) := by
  induction n with
  | zero => rw [for_loop_zero]; exact h0
  | succ k ih =>
    rw [for_loop_succ]
    exact hstep k _ (Nat.lt_succ_self k)
      (ih (fun i st hi hp => hstep i st (Nat.lt_succ_of_lt hi) hp))

/-- Invariant rule for `for_range`. -/
theorem for_range_inv {σ : Type} (P : σ → Prop) (lo hi : Nat) (body : Nat → σ → σ) (s : σ)
    (h0 : P s) (hstep : ∀ i st, lo ≤ i → i < hi → P st → P (body i st)) :
    P (for_range lo hi body s) := by
  unfold for_range
  generalize hk : hi - lo = k
  have hb : lo + k ≤ hi ∨ k = 0 := by omega
  clear hk
  induction k with
  | zero => simpa using h0
  | succ k ih =>
    rw [List.range'_concat, List.foldl_append]
    simp only [List.foldl_cons, List.foldl_nil]
    have hle : lo + (k + 1) ≤ hi := by omega
    exact hstep _ _ (by omega) (by omega) (ih (Or.inl (by omega)))

theorem upd2_same {ι κ α : Type} [DecidableEq ι] [DecidableEq κ]
    (a : ι → κ → α) (i : ι) (j : κ) (v : α) : upd2 a i j v i j = v := by
  simp [upd2]

theorem upd2_apply {ι κ α : Type} [DecidableEq ι] [DecidableEq κ]
    (a : ι → κ → α) (i : ι) (j : κ) (v : α) (i2 : ι) (j2 : κ) :
    upd2 a i j v i2 j2 = if i2 = i ∧ j2 = j then v else a i2 j2 := by
  unfold upd2
  by_cases hi : i2 = i
  · subst hi
    by_cases hj : j2 = j
    · subst hj; simp
    · simp [hj]
  · simp [hi]

/-! ## Bracketing search: loop invariant and uniqueness -/

theorem locate_tbl_loop_bracket (xx : Int → F) (n : Int) (x : F) :
    ∀ (fuel : Nat) (ilo ihi : Int), 0 ≤ ilo → ilo < ihi → ihi ≤ n - 1 →
      ihi - ilo ≤ fuel + 1 →
      (ilo = 0 ∨ xx ilo ≤ x) → (ihi = n - 1 ∨ x < xx ihi) →
      Bracket xx n x (locate_tbl_loop xx x fuel ilo ihi) := by
  intro fuel
  induction fuel with
  | zero =>
    intro ilo ihi h0 hlt hn hf hlo hhi
    have : ihi = ilo + 1 := by omega
    subst this
    simp only [locate_tbl_loop]
    exact ⟨h0, by omega, hlo, hhi⟩
  | succ k ih =>
    intro ilo ihi h0 hlt hn hf hlo hhi
    simp only [locate_tbl_loop]
    by_cases hgt : ihi > ilo + 1
    · simp only [hgt, if_true]
      by_cases hx : xx ((ihi + ilo) / 2) > x
      · simp only [hx, if_true]
        exact ih ilo ((ihi + ilo) / 2) h0 (by omega) (by omega) (by omega) hlo (Or.inr hx)
      · simp only [hx, if_false]
        exact ih ((ihi + ilo) / 2) ihi (by omega) (by omega) hn (by omega)
          (Or.inr (not_lt.mp hx)) hhi
    · simp only [hgt, if_false]
      have : ihi = ilo + 1 := by omega
      subst this
      exact ⟨h0, by omega, hlo, hhi⟩

theorem locate_tbl_bracket (xx : Int → F) (n : Int) (x : F) (hn : 2 ≤ n) :
    Bracket xx n x (locate_tbl xx n x) := by
  unfold locate_tbl
  exact locate_tbl_loop_bracket xx n x n.toNat 0 (n - 1) le_rfl (by omega) le_rfl
    (by omega) (Or.inl rfl) (Or.inl rfl)

theorem bracket_unique (xx : Int → F) (n : Int) (x : F) (hs : StrictRow xx n)
    (i j : Int) (hi : Bracket xx n x i) (hj : Bracket xx n x j) : i = j := by
  obtain ⟨hi0, hin, hilo, hihi⟩ := hi
  obtain ⟨hj0, hjn, hjlo, hjhi⟩ := hj
  rcases lt_trichotomy i j with h | h | h
  · exfalso
    have h1 : xx j ≤ x := by
      rcases hjlo with h0 | h0
      · omega
      · exact h0
    have h2 : x < xx (i + 1) := by
      rcases hihi with h0 | h0
      · omega
      · exact h0
    have h3 : xx (i + 1) ≤ xx j := by
      rcases eq_or_lt_of_le (show i + 1 ≤ j by omega) with e | e
      · rw [e]
      · exact le_of_lt (hs (i + 1) j (by omega) e (by omega))
    exact absurd (lt_of_lt_of_le h2 (le_trans h3 h1)) (lt_irrefl x)
  · exact h
  · exfalso
    have h1 : xx i ≤ x := by
      rcases hilo with h0 | h0
      · omega
      · exact h0
    have h2 : x < xx (j + 1) := by
      rcases hjhi with h0 | h0
      · omega
      · exact h0
    have h3 : xx (j + 1) ≤ xx i := by
      rcases eq_or_lt_of_le (show j + 1 ≤ i by omega) with e | e
      · rw [e]
      · exact le_of_lt (hs (j + 1) i (by omega) e (by omega))
    exact absurd (lt_of_lt_of_le h2 (le_trans h3 h1)) (lt_irrefl x)

/-- Interpolating `yy` over the bracket that `locate_tbl` finds for `x` in
`xx`, and then searching the result in `yy`, finds the same bracket, and the
reverse interpolation on it gives back `x`. -/
theorem lookup_inverse (xx yy : Int → F) (n : Int) (hn : 2 ≤ n)
    (hx : StrictRow xx n) (hy : StrictRow yy n) (x : F) :
    locate_tbl yy n
        (LIN (xx (locate_tbl xx n x)) (yy (locate_tbl xx n x))
          (xx (locate_tbl xx n x + 1)) (yy (locate_tbl xx n x + 1)) x)
      = locate_tbl xx n x ∧
    LIN (yy (locate_tbl xx n x)) (xx (locate_tbl xx n x))
        (yy (locate_tbl xx n x + 1)) (xx (locate_tbl xx n x + 1))
        (LIN (xx (locate_tbl xx n x)) (yy (locate_tbl xx n x))
          (xx (locate_tbl xx n x + 1)) (yy (locate_tbl xx n x + 1)) x) = x := by
  have hb := locate_tbl_bracket xx n x hn
  generalize locate_tbl xx n x = i at hb ⊢
  obtain ⟨h0, h1, hlo, hhi⟩ := hb
  have dx : 0 < xx (i + 1) - xx i := sub_pos.mpr (hx i (i + 1) h0 (by omega) h1)
  have dy : 0 < yy (i + 1) - yy i := sub_pos.mpr (hy i (i + 1) h0 (by omega) h1)
  have slope : 0 < (yy (i + 1) - yy i) / (xx (i + 1) - xx i) := div_pos dy dx
  constructor
  · apply bracket_unique yy n _ hy
    · exact locate_tbl_bracket yy n _ hn
    · refine ⟨h0, h1, ?_, ?_⟩
      · rcases hlo with h | h
        · exact Or.inl h
        · right
          unfold LIN
          have : 0 ≤ (yy (i + 1) - yy i) / (xx (i + 1) - xx i) * (x - xx i) :=
            mul_nonneg slope.le (sub_nonneg.mpr h)
          linarith
      · rcases hhi with h | h
        · exact Or.inl h
        · right
          unfold LIN
          have hlt : (yy (i + 1) - yy i) / (xx (i + 1) - xx i) * (x - xx i)
              < (yy (i + 1) - yy i) / (xx (i + 1) - xx i) * (xx (i + 1) - xx i) :=
            mul_lt_mul_of_pos_left (by linarith) slope
          rw [div_mul_cancel₀ _ dx.ne.symm] at hlt
          linarith
  · unfold LIN
    field_simp
    ring

/-! ## The ray count `nr` is never written -/

theorem pencil_init_nr (ctl : ctl_t F) (ir : Nat) (obs : obs_t F) :
    (pencil_init ctl ir obs).nr = obs.nr := by
  unfold pencil_init
  exact for_loop_inv (fun o : obs_t F => o.nr = obs.nr) _ _ _ rfl (fun i st _ h => h)

theorem pencil_sca_channel_nr (E : ext_t F) (aero : aero_t F) (los : los_t F) (ip ir : Nat)
    (tau_gas beta_ctm src_planck src_sca : Nat → F) (id : Nat) (obs : obs_t F) :
    (pencil_sca_channel E aero los ip ir tau_gas beta_ctm src_planck src_sca id obs).nr
      = obs.nr := by
  unfold pencil_sca_channel
  split_ifs <;> rfl

theorem pencil_nosca_channel_nr (E : ext_t F) (ctl : ctl_t F) (aero : aero_t F)
    (los : los_t F) (ip ir : Nat) (tau_gas beta_ctm src_planck : Nat → F) (id : Nat)
    (obs : obs_t F) :
    (pencil_nosca_channel E ctl aero los ip ir tau_gas beta_ctm src_planck id obs).nr
      = obs.nr := by
  unfold pencil_nosca_channel
  split_ifs <;> rfl

theorem pencil_segment_nr (E : ext_t F) (S : static_t F) (ctl : ctl_t F) (atm : atm_t F)
    (aero : aero_t F) (scattering : Int) (ir : Nat) (los : los_t F) (ip : Nat)
    (st : obs_t F × (Nat → Nat → F)) :
    (pencil_segment E S ctl atm aero scattering ir los ip st).1.nr = st.1.nr := by
  unfold pencil_segment
  simp only
  by_cases hb : los.aerofac ip > 0 ∧ scattering > 0
  · rw [if_pos hb]
    exact for_loop_inv (fun o : obs_t F => o.nr = st.1.nr) _ _ _ rfl
      (fun i o _ h => by simpa only [pencil_sca_channel_nr] using h)
  · rw [if_neg hb]
    exact for_loop_inv (fun o : obs_t F => o.nr = st.1.nr) _ _ _ rfl
      (fun i o _ h => by simpa only [pencil_nosca_channel_nr] using h)

theorem pencil_surface_nr (E : ext_t F) (S : static_t F) (ctl : ctl_t F) (los : los_t F)
    (ir : Nat) (obs : obs_t F) : (pencil_surface E S ctl los ir obs).nr = obs.nr := by
  unfold pencil_surface
  split_ifs
  · exact for_loop_inv (fun o : obs_t F => o.nr = obs.nr) _ _ _ rfl (fun i st _ h => h)
  · rfl

theorem formod_pencil_nr (E : ext_t F) (S : static_t F) (ctl : ctl_t F) (atm : atm_t F)
    (obs : obs_t F) (aero : aero_t F) (scattering : Int) (ir : Nat) :
    (formod_pencil E S ctl atm obs aero scattering ir).nr = obs.nr := by
  unfold formod_pencil
  simp only
  rw [pencil_surface_nr]
  unfold pencil_segments
  refine for_loop_inv (fun st : obs_t F × _ => st.1.nr = obs.nr) _ _ _ (pencil_init_nr ctl ir obs) ?_
  intro i st _ h
  rw [pencil_segment_nr]; exact h

theorem fov_convolve_nr (E : ext_t F) (S : static_t F) (ctl : ctl_t F) (ir : Nat)
    (pr : fov_prof_t F) (obs : obs_t F) : (fov_convolve E S ctl ir pr obs).nr = obs.nr := by
  unfold fov_convolve
  simp only
  refine for_loop_inv (fun o : obs_t F => o.nr = obs.nr) _ _ _ ?_ (fun i st _ h => h)
  refine for_loop_inv (fun st : obs_t F × _ => st.1.nr = obs.nr) _ _ _ ?_ ?_
  · exact for_loop_inv (fun o : obs_t F => o.nr = obs.nr) _ _ _ rfl (fun i st _ h => h)
  · intro i st _ h
    exact for_loop_inv (fun o : obs_t F => o.nr = obs.nr) _ _ _ h (fun i st _ h => h)

theorem formod_fov_nr (E : ext_t F) (S : static_t F) (ctl : ctl_t F) (obs obs3 : obs_t F)
    (h : formod_fov E S ctl obs = some obs3) : obs3.nr = obs.nr := by
  unfold formod_fov at h
  split_ifs at h with hf
  · cases h; rfl
  · simp only [Option.map_eq_some'] at h
    obtain ⟨st, hst, rfl⟩ := h
    have key : ∀ x, for_loop obs.nr
        (fun ir st => st.bind (fun st =>
          let pr := fov_profile E ctl st.1 obs ir st.2
          if pr.nz < 2 then none
          else some (fov_convolve E S ctl ir pr st.1, pr)))
        (some (obs, (⟨0, fun _ => 0, fun _ _ => Dbl.fin 0, fun _ _ => 0⟩ : fov_prof_t F)))
          = some x → x.1.nr = obs.nr := by
      refine for_loop_inv (fun o : Option (obs_t F × fov_prof_t F) => ∀ x, o = some x → x.1.nr = obs.nr) _ _ _ ?_ ?_
      · intro x hx; cases hx; rfl
      · intro i o _ ho x hx
        cases o with
        | none => simp at hx
        | some y =>
          simp only [Option.some_bind] at hx
          split_ifs at hx
          cases hx
          simp only
          rw [fov_convolve_nr]
          exact ho y rfl
    exact key st hst

theorem formod_bbt_nr (E : ext_t F) (ctl : ctl_t F) (obs : obs_t F) :
    (formod_bbt E ctl obs).nr = obs.nr := by
  unfold formod_bbt
  split_ifs
  · refine for_loop_inv (fun o : obs_t F => o.nr = obs.nr) _ _ _ rfl ?_
    intro i st _ h
    exact for_loop_inv (fun o : obs_t F => o.nr = obs.nr) _ _ _ h (fun i st _ h => h)
  · rfl

/-! ## The observation mask -/

theorem formod_mask_inner (obs : obs_t F) (id0 : Nat) (a : Nat → Nat → Bool) (m id ir : Nat) :
    for_loop m (fun ir mask => upd2 mask id0 ir (!gsl_finite (obs.rad id0 ir))) a id ir
      = if id = id0 ∧ ir < m then !gsl_finite (obs.rad id0 ir) else a id ir := by
  induction m with
  | zero => simp [for_loop_zero]
  | succ k ih =>
    rw [for_loop_succ, upd2_apply, ih]
    by_cases h1 : id = id0
    · by_cases h2 : ir = k
      · subst h1; subst h2; simp
      · have : ir < k + 1 ↔ ir < k := by omega
        simp [h1, h2, this]
    · simp [h1]

theorem formod_mask_apply (ctl : ctl_t F) (obs : obs_t F) (id ir : Nat) :
    formod_mask ctl obs id ir
      = if id < ctl.nd ∧ ir < obs.nr then !gsl_finite (obs.rad id ir) else false := by
  unfold formod_mask
  generalize ctl.nd = n
  induction n with
  | zero => simp [for_loop_zero]
  | succ k ih =>
    rw [for_loop_succ, formod_mask_inner, ih]
    by_cases h1 : id = k
    · subst h1; simp
    · have : id < k + 1 ↔ id < k := by omega
      simp [h1, this]

theorem formod_apply_mask_inner (mask : Nat → Nat → Bool) (id0 : Nat) (obs : obs_t F)
    (m : Nat) :
    (for_loop m (fun ir (o : obs_t F) =>
        if mask id0 ir then { o with rad := upd2 o.rad id0 ir Dbl.nan } else o) obs).nr = obs.nr
    ∧ ∀ id ir, (for_loop m (fun ir (o : obs_t F) =>
        if mask id0 ir then { o with rad := upd2 o.rad id0 ir Dbl.nan } else o) obs).rad id ir
      = if id = id0 ∧ ir < m ∧ mask id0 ir = true then Dbl.nan else obs.rad id ir := by
  induction m with
  | zero => simp [for_loop_zero]
  | succ k ih =>
    rw [for_loop_succ]
    obtain ⟨ih1, ih2⟩ := ih
    by_cases hm : mask id0 k = true
    · simp only [hm, if_true]
      refine ⟨ih1, ?_⟩
      intro id ir
      rw [upd2_apply, ih2]
      by_cases h1 : id = id0
      · by_cases h2 : ir = k
        · subst h1; subst h2; simp [hm]
        · have : ir < k + 1 ↔ ir < k := by omega
          simp [h1, h2, this]
      · simp [h1]
    · simp only [hm, Bool.false_eq_true, if_false]
      refine ⟨ih1, ?_⟩
      intro id ir
      rw [ih2]
      by_cases h2 : ir = k
      · subst h2; simp [hm]
      · have : ir < k + 1 ↔ ir < k := by omega
        simp [this]

theorem formod_apply_mask_rad (ctl : ctl_t F) (mask : Nat → Nat → Bool) (obs : obs_t F)
    (id ir : Nat) :
    (formod_apply_mask ctl mask obs).rad id ir
      = if id < ctl.nd ∧ ir < obs.nr ∧ mask id ir = true then Dbl.nan else obs.rad id ir := by
  unfold formod_apply_mask
  generalize ctl.nd = n
  have key : ∀ n, (for_loop n (fun id (o : obs_t F) => for_loop o.nr (fun ir (o : obs_t F) =>
        if mask id ir then { o with rad := upd2 o.rad id ir Dbl.nan } else o) o) obs).nr = obs.nr
      ∧ ∀ id ir, (for_loop n (fun id (o : obs_t F) => for_loop o.nr (fun ir (o : obs_t F) =>
        if mask id ir then { o with rad := upd2 o.rad id ir Dbl.nan } else o) o) obs).rad id ir
        = if id < n ∧ ir < obs.nr ∧ mask id ir = true then Dbl.nan else obs.rad id ir := by
    intro n
    induction n with
    | zero => simp [for_loop_zero]
    | succ k ih =>
      rw [for_loop_succ]
      obtain ⟨ih1, ih2⟩ := ih
      obtain ⟨j1, j2⟩ := formod_apply_mask_inner mask k
        (for_loop k (fun id (o : obs_t F) => for_loop o.nr (fun ir (o : obs_t F) =>
          if mask id ir then { o with rad := upd2 o.rad id ir Dbl.nan } else o) o) obs)
        (for_loop k (fun id (o : obs_t F) => for_loop o.nr (fun ir (o : obs_t F) =>
          if mask id ir then { o with rad := upd2 o.rad id ir Dbl.nan } else o) o) obs).nr
      refine ⟨j1.trans ih1, ?_⟩
      intro id ir
      rw [j2, ih2, ih1]
      by_cases h1 : id = k
      · subst h1; simp
      · have : id < k + 1 ↔ id < k := by omega
        simp [h1, this]
  exact (key n).2 id ir

/-! ## C1: the observation mask is preserved -/

theorem formod_fov_disabled (E : ext_t F) (S : static_t F) (ctl : ctl_t F) (obs : obs_t F)
    (h : ctl.fov.get 0 = '-') : formod_fov E S ctl obs = some obs := by
  unfold formod_fov
  rw [if_pos h]

theorem formod_rays_nr (E : ext_t F) (S : static_t F) (ctl : ctl_t F) (atm : atm_t F)
    (obs : obs_t F) (aero : aero_t F) (hi : Nat) :
    (for_range 1 hi (fun ir obs => formod_pencil E S ctl atm obs aero ctl.sca_mult ir)
      (formod_pencil E S ctl atm obs aero ctl.sca_mult 0)).nr = obs.nr := by
  refine for_range_inv (fun o : obs_t F => o.nr = obs.nr) _ _ _ _ (formod_pencil_nr ..) ?_
  intro i st _ _ h
  simpa only [formod_pencil_nr] using h

/-- C1.  Mask preservation: whenever `formod` returns, every entry
`(id, ir)` with `id < nd` and `ir < nr` whose input radiance is NaN holds NaN
in the returned observations, whatever the pencil beams, the FOV convolution
and the brightness-temperature conversion computed for it. -/
theorem formod_preserves_mask (E : ext_t F) (S : static_t F) (ctl : ctl_t F) (atm : atm_t F)
    (obs : obs_t F) (aero : aero_t F) (r : atm_t F × obs_t F)
    (hret : formod E S ctl atm obs aero = some r)
    (id ir : Nat) (hid : id < ctl.nd) (hir : ir < obs.nr) (hnan : obs.rad id ir = Dbl.nan) :
    r.2.rad id ir = Dbl.nan := by
  unfold formod at hret
  simp only [Option.map_eq_some'] at hret
  obtain ⟨o3, hfov, rfl⟩ := hret
  have hnr : (formod_bbt E ctl o3).nr = obs.nr := by
    rw [formod_bbt_nr, formod_fov_nr E S ctl _ o3 hfov, formod_pencil_nr]
    exact formod_rays_nr E S ctl (E.hydrostatic ctl atm) obs aero _
  simp only
  rw [formod_apply_mask_rad, hnr, formod_mask_apply]
  simp [hid, hir, hnan, gsl_finite]

theorem formod_demo_returns :
    formod ext_demo static_demo ctl_demo atm_demo obs_demo aero_demo
      = some (atm_demo,
          formod_apply_mask ctl_demo (formod_mask ctl_demo obs_demo)
            (formod_bbt ext_demo ctl_demo
              (for_range 1
                (formod_pencil ext_demo static_demo ctl_demo atm_demo obs_demo aero_demo 0 0).nr
                (fun ir obs =>
                  formod_pencil ext_demo static_demo ctl_demo atm_demo obs aero_demo 0 ir)
                (formod_pencil ext_demo static_demo ctl_demo atm_demo obs_demo aero_demo 0 0)))) := by
  unfold formod
  simp only
  rw [formod_fov_disabled _ _ _ _ (by decide)]
  rfl

/-- Witness for C1: the masked entry `(0, 0)` of the concrete configuration
comes back as NaN although the pencil beam computes a number for it. -/
theorem formod_preserves_mask_witness :
    (0 < ctl_demo.nd ∧ 0 < obs_demo.nr ∧ obs_demo.rad 0 0 = Dbl.nan) ∧
    ∃ r, formod ext_demo static_demo ctl_demo atm_demo obs_demo aero_demo = some r ∧
      r.2.rad 0 0 = Dbl.nan :=
  ⟨⟨by decide, by decide, rfl⟩, _, formod_demo_returns,
    formod_preserves_mask ext_demo static_demo ctl_demo atm_demo obs_demo aero_demo _
      formod_demo_returns 0 0 (by decide) (by decide) rfl⟩

/-! ## C2: the two table lookups are inverse to each other -/

/-- C2.  EGT inverse consistency: on a table row with at least two points
whose column densities and emissivities are both strictly increasing,
`intpol_tbl_u (intpol_tbl_eps u0) = u0` for every column density `u0` and
`intpol_tbl_eps (intpol_tbl_u e0) = e0` for every emissivity `e0`, inside the
tabulated range and outside of it (extrapolation on the end intervals). -/
theorem intpol_tbl_inverse (tbl : tbl_t F) (ig id : Nat) (ip it : Int)
    (hn : 2 ≤ tbl.nu ig id ip it)
    (hu : StrictRow (tbl.u ig id ip it) (tbl.nu ig id ip it))
    (he : StrictRow (tbl.eps ig id ip it) (tbl.nu ig id ip it)) :
    (∀ u0 : F, intpol_tbl_u tbl ig id ip it (intpol_tbl_eps tbl ig id ip it u0) = u0) ∧
    (∀ e0 : F, intpol_tbl_eps tbl ig id ip it (intpol_tbl_u tbl ig id ip it e0) = e0) := by
  constructor
  · intro u0
    obtain ⟨h1, h2⟩ := lookup_inverse _ _ _ hn hu he u0
    unfold intpol_tbl_u intpol_tbl_eps
    simp only
    rw [h1]
    exact h2
  · intro e0
    obtain ⟨h1, h2⟩ := lookup_inverse _ _ _ hn he hu e0
    unfold intpol_tbl_u intpol_tbl_eps
    simp only
    rw [h1]
    exact h2

theorem tbl_demo_strict_u (ig id : Nat) (ip it : Int) :
    StrictRow (tbl_demo.u ig id ip it) (tbl_demo.nu ig id ip it) := by
  intro i j h0 hij hj
  have hj2 : j < 2 := hj
  have hi : i = 0 := by omega
  have hj1 : j = 1 := by omega
  subst hi; subst hj1
  norm_num [tbl_demo]

theorem tbl_demo_strict_eps (ig id : Nat) (ip it : Int) :
    StrictRow (tbl_demo.eps ig id ip it) (tbl_demo.nu ig id ip it) := by
  intro i j h0 hij hj
  have hj2 : j < 2 := hj
  have hi : i = 0 := by omega
  have hj1 : j = 1 := by omega
  subst hi; subst hj1
  by_cases h : it = 0 <;> norm_num [tbl_demo, h]

/-- Witness for C2 on the rows of `tbl_demo`, with column density `3` beyond
the last tabulated point and emissivity `1/2` between the tabulated ones. -/
theorem intpol_tbl_inverse_witness :
    (2 ≤ tbl_demo.nu 0 0 0 0 ∧ StrictRow (tbl_demo.u 0 0 0 0) (tbl_demo.nu 0 0 0 0)
      ∧ StrictRow (tbl_demo.eps 0 0 0 0) (tbl_demo.nu 0 0 0 0)) ∧
    intpol_tbl_u tbl_demo 0 0 0 0 (intpol_tbl_eps tbl_demo 0 0 0 0 3) = 3 ∧
    intpol_tbl_eps tbl_demo 0 0 0 0 (intpol_tbl_u tbl_demo 0 0 0 0 (1 / 2)) = 1 / 2 :=
  ⟨⟨by decide, tbl_demo_strict_u 0 0 0 0, tbl_demo_strict_eps 0 0 0 0⟩,
    (intpol_tbl_inverse tbl_demo 0 0 0 0 (by decide) (tbl_demo_strict_u 0 0 0 0)
      (tbl_demo_strict_eps 0 0 0 0)).1 3,
    (intpol_tbl_inverse tbl_demo 0 0 0 0 (by decide) (tbl_demo_strict_u 0 0 0 0)
      (tbl_demo_strict_eps 0 0 0 0)).2 (1 / 2)⟩

/-! ## What `intpol_tbl` computes, entry by entry -/

theorem intpol_tbl_reset_apply (ctl : ctl_t F) (ip : Nat) (tp : Nat → Nat → F) (ig id : Nat) :
    intpol_tbl_reset ctl ip tp ig id
      = if ip ≤ 0 ∧ ig < ctl.ng ∧ id < ctl.nd then 1 else tp ig id := by
  unfold intpol_tbl_reset
  by_cases hip : ip ≤ 0
  · rw [if_pos hip]
    have inner : ∀ (m ig0 : Nat) (a : Nat → Nat → F) (ig id : Nat),
        for_loop m (fun id tp => upd2 tp ig0 id (1 : F)) a ig id
          = if ig = ig0 ∧ id < m then 1 else a ig id := by
      intro m ig0 a ig id
      induction m with
      | zero => simp [for_loop_zero]
      | succ k ih =>
        rw [for_loop_succ, upd2_apply, ih]
        by_cases h1 : ig = ig0
        · by_cases h2 : id = k
          · subst h1; subst h2; simp
          · have : id < k + 1 ↔ id < k := by omega
            simp [h1, h2, this]
        · simp [h1]
    generalize ctl.ng = n
    induction n with
    | zero => simp [for_loop_zero, hip]
    | succ k ih =>
      rw [for_loop_succ, inner, ih]
      by_cases h1 : ig = k
      · subst h1; simp [hip]
      · have : ig < k + 1 ↔ ig < k := by omega
        simp [h1, this, hip]
  · rw [if_neg hip]
    simp [hip]

/-- The emitter loop of `intpol_tbl` for one channel `id`: every gas below
the bound has its entry multiplied by `1 - eps`, and `tau_seg[id]` collects
the product of these factors. -/
theorem intpol_tbl_emitters (e : Nat → Nat → F → F) (id : Nat) (tp : Nat → Nat → F)
    (ts : Nat → F) (m : Nat) :
    (∀ ig2 id2, (for_loop m
        (fun ig (st : (Nat → Nat → F) × (Nat → F)) =>
          (upd2 st.1 ig id (st.1 ig id * (1 - e ig id (st.1 ig id))),
            Function.update st.2 id (st.2 id * (1 - e ig id (st.1 ig id)))))
        (tp, ts)).1 ig2 id2
      = if id2 = id ∧ ig2 < m then tp ig2 id * (1 - e ig2 id (tp ig2 id)) else tp ig2 id2) ∧
    (∀ id2, (for_loop m
        (fun ig (st : (Nat → Nat → F) × (Nat → F)) =>
          (upd2 st.1 ig id (st.1 ig id * (1 - e ig id (st.1 ig id))),
            Function.update st.2 id (st.2 id * (1 - e ig id (st.1 ig id)))))
        (tp, ts)).2 id2
      = if id2 = id then ts id * ∏ ig in Finset.range m, (1 - e ig id (tp ig id))
        else ts id2) := by
  induction m with
  | zero =>
    simp only [for_loop_zero, Finset.range_zero, Finset.prod_empty, mul_one]
    refine ⟨fun ig2 id2 => by simp, fun id2 => ?_⟩
    by_cases h : id2 = id
    · subst h; simp
    · simp [h]
  | succ k ih =>
    obtain ⟨ih1, ih2⟩ := ih
    rw [for_loop_succ]
    simp only
    have hk : (for_loop k
        (fun ig (st : (Nat → Nat → F) × (Nat → F)) =>
          (upd2 st.1 ig id (st.1 ig id * (1 - e ig id (st.1 ig id))),
            Function.update st.2 id (st.2 id * (1 - e ig id (st.1 ig id)))))
        (tp, ts)).1 k id = tp k id := by
      rw [ih1]; simp
    constructor
    · intro ig2 id2
      rw [upd2_apply, hk, ih1]
      by_cases h1 : id2 = id
      · by_cases h2 : ig2 = k
        · subst h1; subst h2; simp
        · have : ig2 < k + 1 ↔ ig2 < k := by omega
          simp [h1, h2, this]
      · simp [h1]
    · intro id2
      rw [hk]
      by_cases h1 : id2 = id
      · subst h1
        simp only [Function.update_same, if_true]
        rw [ih2, if_pos rfl, Finset.prod_range_succ, mul_assoc]
      · rw [Function.update_noteq h1, ih2]
        simp [h1]

/-- Entry-wise description of `intpol_tbl`: with `tp0` the array after the
initialisation at `ip = 0`, every entry `ig < ng`, `id < nd` of `tau_path` is
multiplied by `1 - eps`, the other entries are left alone, and `tau_seg[id]`
is the product of the factors `1 - eps` over the gases. -/
theorem intpol_tbl_apply (E : ext_t F) (ctl : ctl_t F) (tbl : tbl_t F) (los : los_t F)
    (ip : Nat) (tp : Nat → Nat → F) :
    (∀ ig id, (intpol_tbl E ctl tbl los ip tp).1 ig id
      = if ig < ctl.ng ∧ id < ctl.nd then
          intpol_tbl_reset ctl ip tp ig id
            * (1 - intpol_tbl_seg_eps E tbl los ip ig id (intpol_tbl_reset ctl ip tp ig id))
        else intpol_tbl_reset ctl ip tp ig id) ∧
    (∀ id, (intpol_tbl E ctl tbl los ip tp).2 id
      = if id < ctl.nd then
          ∏ ig in Finset.range ctl.ng,
            (1 - intpol_tbl_seg_eps E tbl los ip ig id (intpol_tbl_reset ctl ip tp ig id))
        else 0) := by
  have hunf : intpol_tbl E ctl tbl los ip tp
      = for_loop ctl.nd
          (fun id st =>
            for_loop ctl.ng
              (fun ig (st : (Nat → Nat → F) × (Nat → F)) =>
                (upd2 st.1 ig id
                    (st.1 ig id * (1 - intpol_tbl_seg_eps E tbl los ip ig id (st.1 ig id))),
                  Function.update st.2 id
                    (st.2 id * (1 - intpol_tbl_seg_eps E tbl los ip ig id (st.1 ig id)))))
              (st.1, Function.update st.2 id 1))
          (intpol_tbl_reset ctl ip tp, fun _ => 0) := rfl
  rw [hunf]
  generalize intpol_tbl_reset ctl ip tp = tp0
  generalize ctl.nd = n
  induction n with
  | zero => simp [for_loop_zero]
  | succ k ih =>
    obtain ⟨ih1, ih2⟩ := ih
    rw [for_loop_succ]
    obtain ⟨j1, j2⟩ := intpol_tbl_emitters
      (fun ig id v => intpol_tbl_seg_eps E tbl los ip ig id v) k
      (for_loop k
          (fun id st =>
            for_loop ctl.ng
              (fun ig (st : (Nat → Nat → F) × (Nat → F)) =>
                (upd2 st.1 ig id
                    (st.1 ig id * (1 - intpol_tbl_seg_eps E tbl los ip ig id (st.1 ig id))),
                  Function.update st.2 id
                    (st.2 id * (1 - intpol_tbl_seg_eps E tbl los ip ig id (st.1 ig id)))))
              (st.1, Function.update st.2 id 1))
          (tp0, fun _ => 0)).1
      (Function.update (for_loop k
          (fun id st =>
            for_loop ctl.ng
              (fun ig (st : (Nat → Nat → F) × (Nat → F)) =>
                (upd2 st.1 ig id
                    (st.1 ig id * (1 - intpol_tbl_seg_eps E tbl los ip ig id (st.1 ig id))),
                  Function.update st.2 id
                    (st.2 id * (1 - intpol_tbl_seg_eps E tbl los ip ig id (st.1 ig id)))))
              (st.1, Function.update st.2 id 1))
          (tp0, fun _ => 0)).2 k 1) ctl.ng
    have hcol : ∀ ig, (for_loop k
          (fun id st =>
            for_loop ctl.ng
              (fun ig (st : (Nat → Nat → F) × (Nat → F)) =>
                (upd2 st.1 ig id
                    (st.1 ig id * (1 - intpol_tbl_seg_eps E tbl los ip ig id (st.1 ig id))),
                  Function.update st.2 id
                    (st.2 id * (1 - intpol_tbl_seg_eps E tbl los ip ig id (st.1 ig id)))))
              (st.1, Function.update st.2 id 1))
          (tp0, fun _ => 0)).1 ig k = tp0 ig k := by
      intro ig
      rw [ih1]; simp
    constructor
    · intro ig id
      rw [j1, hcol, ih1]
      by_cases h1 : id = k
      · subst h1; simp
      · have : id < k + 1 ↔ id < k := by omega
        simp [h1, this]
    · intro id
      rw [j2]
      by_cases h1 : id = k
      · subst h1
        simp only [if_true, Function.update_same, one_mul, Nat.lt_succ_self]
        exact Finset.prod_congr rfl (fun ig _ => by rw [hcol])
      · have : id < k + 1 ↔ id < k := by omega
        rw [if_neg h1, Function.update_noteq h1, ih2]
        simp [this]

/-! ## The segment emissivity, branch by branch -/

theorem clamp_unit (x : F) :
    0 ≤ GSL_MAX (GSL_MIN x 1) 0 ∧ GSL_MAX (GSL_MIN x 1) 0 ≤ 1 := by
  unfold GSL_MAX GSL_MIN
  split_ifs <;> constructor <;> linarith

theorem intpol_tbl_eps_ext_unit (tbl : tbl_t F) (los : los_t F) (ip ig id : Nat)
    (ipr it0 it1 : Int) (tp : F) :
    0 ≤ intpol_tbl_eps_ext tbl los ip ig id ipr it0 it1 tp
      ∧ intpol_tbl_eps_ext tbl los ip ig id ipr it0 it1 tp ≤ 1 := by
  unfold intpol_tbl_eps_ext
  exact clamp_unit _

theorem intpol_tbl_ext_unit (E : ext_t F) (tbl : tbl_t F) (los : los_t F) (ip ig id : Nat)
    (tp : F) :
    0 ≤ intpol_tbl_ext E tbl los ip ig id tp ∧ intpol_tbl_ext E tbl los ip ig id tp ≤ 1 :=
  intpol_tbl_eps_ext_unit _ _ _ _ _ _ _ _ _

theorem small_pos : (0 : F) < 1e-9 := by norm_num

theorem seg_eps_few_rows (E : ext_t F) (tbl : tbl_t F) (los : los_t F) (ip ig id : Nat)
    (tp : F) (h : tbl.np ig id < 2) : intpol_tbl_seg_eps E tbl los ip ig id tp = 0 := by
  unfold intpol_tbl_seg_eps
  rw [if_pos h]

theorem seg_eps_saturated (E : ext_t F) (tbl : tbl_t F) (los : los_t F) (ip ig id : Nat)
    (tp : F) (h : ¬ tbl.np ig id < 2) (hs : tp < 1e-9) :
    intpol_tbl_seg_eps E tbl los ip ig id tp = 1 := by
  unfold intpol_tbl_seg_eps
  rw [if_neg h, if_pos hs]

theorem seg_eps_short (E : ext_t F) (tbl : tbl_t F) (los : los_t F) (ip ig id : Nat)
    (tp : F) (h : ¬ tbl.np ig id < 2) (hs : ¬ tp < 1e-9)
    (hshort : intpol_tbl_short E tbl los ip ig id) :
    intpol_tbl_seg_eps E tbl los ip ig id tp = 0 := by
  unfold intpol_tbl_seg_eps
  rw [if_neg h, if_neg hs]
  exact if_pos hshort

theorem seg_eps_interpolates (E : ext_t F) (tbl : tbl_t F) (los : los_t F) (ip ig id : Nat)
    (tp : F) (h : intpol_tbl_interpolates E tbl los ip ig id tp) :
    intpol_tbl_seg_eps E tbl los ip ig id tp
      = 1 - (1 - intpol_tbl_ext E tbl los ip ig id tp) / tp := by
  obtain ⟨h1, h2, h3⟩ := h
  unfold intpol_tbl_seg_eps
  rw [if_neg h1, if_neg h2]
  exact if_neg h3

/-- The four branches of the emitter loop body. -/
theorem seg_eps_branches (E : ext_t F) (tbl : tbl_t F) (los : los_t F) (ip ig id : Nat)
    (tp : F) :
    intpol_tbl_seg_eps E tbl los ip ig id tp = 0
    ∨ (tp < 1e-9 ∧ intpol_tbl_seg_eps E tbl los ip ig id tp = 1)
    ∨ (intpol_tbl_interpolates E tbl los ip ig id tp ∧
        intpol_tbl_seg_eps E tbl los ip ig id tp
          = 1 - (1 - intpol_tbl_ext E tbl los ip ig id tp) / tp) := by
  by_cases h1 : tbl.np ig id < 2
  · exact Or.inl (seg_eps_few_rows E tbl los ip ig id tp h1)
  · by_cases h2 : tp < 1e-9
    · exact Or.inr (Or.inl ⟨h2, seg_eps_saturated E tbl los ip ig id tp h1 h2⟩)
    · by_cases h3 : intpol_tbl_short E tbl los ip ig id
      · exact Or.inl (seg_eps_short E tbl los ip ig id tp h1 h2 h3)
      · exact Or.inr (Or.inr ⟨⟨h1, h2, h3⟩, seg_eps_interpolates E tbl los ip ig id tp ⟨h1, h2, h3⟩⟩)

/-- In the interpolation branch the updated path transmittance is `1 - eps_ext`. -/
theorem path_update_interpolates (E : ext_t F) (tbl : tbl_t F) (los : los_t F)
    (ip ig id : Nat) (tp : F) (h : intpol_tbl_interpolates E tbl los ip ig id tp) :
    tp * (1 - intpol_tbl_seg_eps E tbl los ip ig id tp)
      = 1 - intpol_tbl_ext E tbl los ip ig id tp := by
  rw [seg_eps_interpolates E tbl los ip ig id tp h]
  have hpos : (0 : F) < tp := lt_of_lt_of_le small_pos (not_lt.mp h.2.1)
  field_simp

/-- One update keeps a path transmittance inside `[0, 1]`. -/
theorem path_update_unit (E : ext_t F) (tbl : tbl_t F) (los : los_t F) (ip ig id : Nat)
    (tp : F) (h0 : 0 ≤ tp) (h1 : tp ≤ 1) :
    0 ≤ tp * (1 - intpol_tbl_seg_eps E tbl los ip ig id tp)
      ∧ tp * (1 - intpol_tbl_seg_eps E tbl los ip ig id tp) ≤ 1 := by
  rcases seg_eps_branches E tbl los ip ig id tp with h | ⟨_, h⟩ | ⟨hb, _⟩
  · rw [h]; constructor <;> linarith
  · rw [h]; constructor <;> linarith
  · rw [path_update_interpolates E tbl los ip ig id tp hb]
    obtain ⟨e0, e1⟩ := intpol_tbl_ext_unit E tbl los ip ig id tp
    constructor <;> linarith

theorem intpol_tbl_calls_succ (E : ext_t F) (ctl : ctl_t F) (tbl : tbl_t F) (los : los_t F)
    (n : Nat) (tp : Nat → Nat → F) :
    intpol_tbl_calls E ctl tbl los (n + 1) tp
      = (intpol_tbl E ctl tbl los n (intpol_tbl_calls E ctl tbl los n tp)).1 := by
  unfold intpol_tbl_calls
  rw [for_loop_succ]

/-- Along a ray every path transmittance in range stays inside `[0, 1]`. -/
theorem intpol_tbl_calls_unit (E : ext_t F) (ctl : ctl_t F) (tbl : tbl_t F) (los : los_t F)
    (ig id : Nat) (hig : ig < ctl.ng) (hid : id < ctl.nd) (tp : Nat → Nat → F) (n : Nat)
    (hn : 1 ≤ n) :
    0 ≤ intpol_tbl_calls E ctl tbl los n tp ig id
      ∧ intpol_tbl_calls E ctl tbl los n tp ig id ≤ 1 := by
  induction n with
  | zero => omega
  | succ k ih =>
    rw [intpol_tbl_calls_succ, (intpol_tbl_apply E ctl tbl los k _).1 ig id,
      if_pos ⟨hig, hid⟩]
    apply path_update_unit
    · rw [intpol_tbl_reset_apply]
      split_ifs with h
      · exact zero_le_one
      · exact (ih (by omega)).1
    · rw [intpol_tbl_reset_apply]
      split_ifs with h
      · exact le_rfl
      · exact (ih (by omega)).2

/-- The first call of `intpol_tbl` on the concrete configuration takes the
interpolation branch. -/
theorem demo_first_call_interpolates :
    intpol_tbl_interpolates ext_demo tbl_demo los_demo 0 0 0
      (intpol_tbl_reset ctl_demo 0 (fun _ _ => 0) 0 0) := by
  norm_num [intpol_tbl_interpolates, intpol_tbl_short, tbl_demo, intpol_tbl_reset_apply,
    ctl_demo]

/-! ## C3: the path transmittance stays in `[0, 1]` -/

/-- C3.  Path-transmittance bound: after `intpol_tbl` has been called for the
segments `0, ..., n-1` of a ray (`n ≥ 1`), every `tau_path[ig][id]` with
`ig < ng`, `id < nd` lies in `[0, 1]`, for any table, any line of sight and
any initial content of `tau_path`; and whenever a call takes the
interpolation branch for `(ig, id)`, the new `tau_path[ig][id]` equals
`1 - eps_ext`, the clamped emissivity of the extended path. -/
theorem intpol_tbl_path_unit (E : ext_t F) (ctl : ctl_t F) (tbl : tbl_t F) (los : los_t F)
    (ig id : Nat) (hig : ig < ctl.ng) (hid : id < ctl.nd) :
    (∀ (tp : Nat → Nat → F) (n : Nat), 1 ≤ n →
      0 ≤ intpol_tbl_calls E ctl tbl los n tp ig id
        ∧ intpol_tbl_calls E ctl tbl los n tp ig id ≤ 1) ∧
    (∀ (tp : Nat → Nat → F) (ip : Nat),
      intpol_tbl_interpolates E tbl los ip ig id (intpol_tbl_reset ctl ip tp ig id) →
      (intpol_tbl E ctl tbl los ip tp).1 ig id
        = 1 - intpol_tbl_ext E tbl los ip ig id (intpol_tbl_reset ctl ip tp ig id)) := by
  constructor
  · intro tp n hn
    exact intpol_tbl_calls_unit E ctl tbl los ig id hig hid tp n hn
  · intro tp ip hb
    rw [(intpol_tbl_apply E ctl tbl los ip tp).1 ig id, if_pos ⟨hig, hid⟩]
    exact path_update_interpolates E tbl los ip ig id _ hb

/-- Witness for C3 on the concrete configuration: two calls, and the first
call takes the interpolation branch. -/
theorem intpol_tbl_path_unit_witness :
    (0 < ctl_demo.ng ∧ 0 < ctl_demo.nd ∧ 1 ≤ 2 ∧
      intpol_tbl_interpolates ext_demo tbl_demo los_demo 0 0 0
        (intpol_tbl_reset ctl_demo 0 (fun _ _ => 0) 0 0)) ∧
    (0 ≤ intpol_tbl_calls ext_demo ctl_demo tbl_demo los_demo 2 (fun _ _ => 0) 0 0
      ∧ intpol_tbl_calls ext_demo ctl_demo tbl_demo los_demo 2 (fun _ _ => 0) 0 0 ≤ 1) ∧
    (intpol_tbl ext_demo ctl_demo tbl_demo los_demo 0 (fun _ _ => 0)).1 0 0
      = 1 - intpol_tbl_ext ext_demo tbl_demo los_demo 0 0 0
          (intpol_tbl_reset ctl_demo 0 (fun _ _ => 0) 0 0) :=
  ⟨⟨by decide, by decide, by decide, demo_first_call_interpolates⟩,
    (intpol_tbl_path_unit ext_demo ctl_demo tbl_demo los_demo 0 0 (by decide) (by decide)).1
      (fun _ _ => 0) 2 (by decide),
    (intpol_tbl_path_unit ext_demo ctl_demo tbl_demo los_demo 0 0 (by decide) (by decide)).2
      (fun _ _ => 0) 0 demo_first_call_interpolates⟩

theorem Dbl_fin_add (a b : F) : (Dbl.fin a + Dbl.fin b : Dbl F) = Dbl.fin (a + b) := rfl

theorem pencil_nosca_channel_apply (E : ext_t F) (ctl : ctl_t F) (aero : aero_t F)
    (los : los_t F) (ip ir : Nat) (tg bc sp : Nat → F) (i : Nat) (o : obs_t F) :
    (∀ id jr, (pencil_nosca_channel E ctl aero los ip ir tg bc sp i o).rad id jr
      = if id = i ∧ jr = ir then
          nosca_rad E ctl aero los ip i (tg i) (bc i) (sp i) (o.rad i ir) (o.tau i ir)
        else o.rad id jr) ∧
    (∀ id jr, (pencil_nosca_channel E ctl aero los ip ir tg bc sp i o).tau id jr
      = if id = i ∧ jr = ir then
          nosca_tau E ctl aero los ip i (tg i) (bc i) (o.tau i ir)
        else o.tau id jr) := by
  unfold pencil_nosca_channel nosca_rad nosca_tau nosca_factor nosca_eps
  by_cases htg : tg i > 0
  · simp only [htg, if_true]
    constructor
    · intro id jr
      split_ifs <;> simp_all [upd2_apply]
    · intro id jr
      split_ifs <;> simp_all [upd2_apply]
  · simp only [htg, if_false]
    constructor
    · intro id jr
      split_ifs with h
      · rw [h.1, h.2]
      · rfl
    · intro id jr
      split_ifs with h
      · rw [h.1, h.2]
      · rfl

theorem pencil_sca_channel_apply (E : ext_t F) (aero : aero_t F)
    (los : los_t F) (ip ir : Nat) (tg bc sp ss : Nat → F) (i : Nat) (o : obs_t F) :
    (∀ id jr, (pencil_sca_channel E aero los ip ir tg bc sp ss i o).rad id jr
      = if id = i ∧ jr = ir then
          sca_rad E aero los ip i (tg i) (bc i) (sp i) (ss i) (o.rad i ir) (o.tau i ir)
        else o.rad id jr) ∧
    (∀ id jr, (pencil_sca_channel E aero los ip ir tg bc sp ss i o).tau id jr
      = if id = i ∧ jr = ir then
          sca_tau E aero los ip i (tg i) (bc i) (o.tau i ir)
        else o.tau id jr) := by
  unfold pencil_sca_channel sca_rad sca_tau sca_beta_ext sca_eps
  by_cases htg : tg i > 0
  · simp only [htg, if_true]
    constructor
    · intro id jr
      split_ifs <;> simp_all [upd2_apply]
    · intro id jr
      split_ifs <;> simp_all [upd2_apply]
  · simp only [htg, if_false]
    constructor
    · intro id jr
      split_ifs with h
      · rw [h.1, h.2]
      · rfl
    · intro id jr
      split_ifs with h
      · rw [h.1, h.2]
      · rfl

/-- A channel loop whose body rewrites only the entry `(i, ir)` of `rad` and
`tau`, from the old values of that entry, rewrites the entries `id < n` of
column `ir` independently of each other. -/
theorem channel_loop (b : Nat → obs_t F → obs_t F) (ir : Nat)
    (gr : Nat → Dbl F → F → Dbl F) (gt : Nat → Dbl F → F → F)
    (hr : ∀ i o id jr, (b i o).rad id jr
      = if id = i ∧ jr = ir then gr i (o.rad i ir) (o.tau i ir) else o.rad id jr)
    (ht : ∀ i o id jr, (b i o).tau id jr
      = if id = i ∧ jr = ir then gt i (o.rad i ir) (o.tau i ir) else o.tau id jr)
    (n : Nat) (o : obs_t F) :
    (∀ id jr, (for_loop n b o).rad id jr
      = if id < n ∧ jr = ir then gr id (o.rad id ir) (o.tau id ir) else o.rad id jr) ∧
    (∀ id jr, (for_loop n b o).tau id jr
      = if id < n ∧ jr = ir then gt id (o.rad id ir) (o.tau id ir) else o.tau id jr) := by
  induction n with
  | zero => simp [for_loop_zero]
  | succ k ih =>
    obtain ⟨ih1, ih2⟩ := ih
    rw [for_loop_succ]
    have h1 : (for_loop k b o).rad k ir = o.rad k ir := by rw [ih1]; simp
    have h2 : (for_loop k b o).tau k ir = o.tau k ir := by rw [ih2]; simp
    constructor
    · intro id jr
      rw [hr, h1, h2, ih1]
      by_cases e : id = k
      · subst e
        by_cases e2 : jr = ir
        · simp [e2]
        · simp [e2]
      · have : id < k + 1 ↔ id < k := by omega
        simp [e, this]
    · intro id jr
      rw [ht, h1, h2, ih2]
      by_cases e : id = k
      · subst e
        by_cases e2 : jr = ir
        · simp [e2]
        · simp [e2]
      · have : id < k + 1 ↔ id < k := by omega
        simp [e, this]

theorem pencil_init_apply (ctl : ctl_t F) (ir : Nat) (obs : obs_t F) :
    (∀ id jr, (pencil_init ctl ir obs).rad id jr
      = if id < ctl.nd ∧ jr = ir then Dbl.fin 0 else obs.rad id jr) ∧
    (∀ id jr, (pencil_init ctl ir obs).tau id jr
      = if id < ctl.nd ∧ jr = ir then 1 else obs.tau id jr) := by
  unfold pencil_init
  exact channel_loop _ ir (fun _ _ _ => Dbl.fin 0) (fun _ _ _ => 1)
    (fun i o id jr => by simp only [upd2_apply])
    (fun i o id jr => by simp only [upd2_apply]) ctl.nd obs

theorem pencil_segment_path (E : ext_t F) (S : static_t F) (ctl : ctl_t F) (atm : atm_t F)
    (aero : aero_t F) (scattering : Int) (ir : Nat) (los : los_t F) (ip : Nat)
    (st : obs_t F × (Nat → Nat → F)) :
    (pencil_segment E S ctl atm aero scattering ir los ip st).2
      = (intpol_tbl E ctl S.tbl los ip st.2).1 := by
  unfold pencil_segment
  simp only
  split_ifs <;> rfl

theorem pencil_segment_apply (E : ext_t F) (S : static_t F) (ctl : ctl_t F) (atm : atm_t F)
    (aero : aero_t F) (scattering : Int) (ir : Nat) (los : los_t F) (ip : Nat)
    (st : obs_t F × (Nat → Nat → F)) :
    (∀ id jr, (pencil_segment E S ctl atm aero scattering ir los ip st).1.rad id jr
      = if id < ctl.nd ∧ jr = ir then
          (if los.aerofac ip > 0 ∧ scattering > 0 then
            sca_rad E aero los ip id ((intpol_tbl E ctl S.tbl los ip st.2).2 id)
              (formod_continua E ctl los ip id) (srcfunc_planck E S ctl (los.t ip) id)
              (pencil_src_sca E ctl atm aero scattering los ip (st.1.time ir) id)
              (st.1.rad id ir) (st.1.tau id ir)
          else
            nosca_rad E ctl aero los ip id ((intpol_tbl E ctl S.tbl los ip st.2).2 id)
              (formod_continua E ctl los ip id) (srcfunc_planck E S ctl (los.t ip) id)
              (st.1.rad id ir) (st.1.tau id ir))
        else st.1.rad id jr) ∧
    (∀ id jr, (pencil_segment E S ctl atm aero scattering ir los ip st).1.tau id jr
      = if id < ctl.nd ∧ jr = ir then
          (if los.aerofac ip > 0 ∧ scattering > 0 then
            sca_tau E aero los ip id ((intpol_tbl E ctl S.tbl los ip st.2).2 id)
              (formod_continua E ctl los ip id) (st.1.tau id ir)
          else
            nosca_tau E ctl aero los ip id ((intpol_tbl E ctl S.tbl los ip st.2).2 id)
              (formod_continua E ctl los ip id) (st.1.tau id ir))
        else st.1.tau id jr) := by
  by_cases hb : los.aerofac ip > 0 ∧ scattering > 0
  · have hunf : (pencil_segment E S ctl atm aero scattering ir los ip st).1
        = for_loop ctl.nd
            (pencil_sca_channel E aero los ip ir (intpol_tbl E ctl S.tbl los ip st.2).2
              (formod_continua E ctl los ip) (srcfunc_planck E S ctl (los.t ip))
              (pencil_src_sca E ctl atm aero scattering los ip (st.1.time ir))) st.1 := by
      unfold pencil_segment pencil_src_sca
      simp only [if_pos hb]
    rw [hunf]
    simp only [if_pos hb]
    exact channel_loop _ ir
      (fun i r t => sca_rad E aero los ip i ((intpol_tbl E ctl S.tbl los ip st.2).2 i)
        (formod_continua E ctl los ip i) (srcfunc_planck E S ctl (los.t ip) i)
        (pencil_src_sca E ctl atm aero scattering los ip (st.1.time ir) i) r t)
      (fun i r t => sca_tau E aero los ip i ((intpol_tbl E ctl S.tbl los ip st.2).2 i)
        (formod_continua E ctl los ip i) t)
      (fun i o => (pencil_sca_channel_apply E aero los ip ir _ _ _ _ i o).1)
      (fun i o => (pencil_sca_channel_apply E aero los ip ir _ _ _ _ i o).2) ctl.nd st.1
  · have hunf : (pencil_segment E S ctl atm aero scattering ir los ip st).1
        = for_loop ctl.nd
            (pencil_nosca_channel E ctl aero los ip ir (intpol_tbl E ctl S.tbl los ip st.2).2
              (formod_continua E ctl los ip) (srcfunc_planck E S ctl (los.t ip))) st.1 := by
      unfold pencil_segment
      simp only [if_neg hb]
    rw [hunf]
    simp only [if_neg hb]
    exact channel_loop _ ir
      (fun i r t => nosca_rad E ctl aero los ip i ((intpol_tbl E ctl S.tbl los ip st.2).2 i)
        (formod_continua E ctl los ip i) (srcfunc_planck E S ctl (los.t ip) i) r t)
      (fun i r t => nosca_tau E ctl aero los ip i ((intpol_tbl E ctl S.tbl los ip st.2).2 i)
        (formod_continua E ctl los ip i) t)
      (fun i o => (pencil_nosca_channel_apply E ctl aero los ip ir _ _ _ i o).1)
      (fun i o => (pencil_nosca_channel_apply E ctl aero los ip ir _ _ _ i o).2) ctl.nd st.1

theorem pencil_segments_succ (E : ext_t F) (S : static_t F) (ctl : ctl_t F) (atm : atm_t F)
    (aero : aero_t F) (scattering : Int) (ir : Nat) (los : los_t F) (n : Nat)
    (obs : obs_t F) :
    pencil_segments E S ctl atm aero scattering ir los (n + 1) obs
      = pencil_segment E S ctl atm aero scattering ir los n
          (pencil_segments E S ctl atm aero scattering ir los n obs) := by
  unfold pencil_segments
  rw [for_loop_succ]

theorem pencil_segments_zero (E : ext_t F) (S : static_t F) (ctl : ctl_t F) (atm : atm_t F)
    (aero : aero_t F) (scattering : Int) (ir : Nat) (los : los_t F) (obs : obs_t F) :
    pencil_segments E S ctl atm aero scattering ir los 0 obs = (obs, fun _ _ => 0) := by
  unfold pencil_segments
  rw [for_loop_zero]

/-- The `tau_path` carried by `formod_pencil` is the one of the successive
calls of `intpol_tbl`. -/
theorem pencil_segments_path (E : ext_t F) (S : static_t F) (ctl : ctl_t F) (atm : atm_t F)
    (aero : aero_t F) (scattering : Int) (ir : Nat) (los : los_t F) (n : Nat)
    (obs : obs_t F) :
    (pencil_segments E S ctl atm aero scattering ir los n obs).2
      = intpol_tbl_calls E ctl S.tbl los n (fun _ _ => 0) := by
  induction n with
  | zero =>
    rw [pencil_segments_zero]
    unfold intpol_tbl_calls
    rw [for_loop_zero]
  | succ k ih =>
    rw [pencil_segments_succ, pencil_segment_path, ih, intpol_tbl_calls_succ]

theorem pencil_surface_apply (E : ext_t F) (S : static_t F) (ctl : ctl_t F) (los : los_t F)
    (ir : Nat) (obs : obs_t F) :
    (∀ id jr, (pencil_surface E S ctl los ir obs).rad id jr
      = if id < ctl.nd ∧ jr = ir then
          (if los.tsurf > 0 then
            obs.rad id ir + Dbl.fin (srcfunc_planck E S ctl los.tsurf id * obs.tau id ir)
          else obs.rad id ir)
        else obs.rad id jr) ∧
    (∀ id jr, (pencil_surface E S ctl los ir obs).tau id jr = obs.tau id jr) := by
  unfold pencil_surface
  by_cases hs : los.tsurf > 0
  · simp only [if_pos hs]
    obtain ⟨h1, h2⟩ := channel_loop
      (fun id (obs : obs_t F) =>
        let rad := obs.rad id ir + Dbl.fin (srcfunc_planck E S ctl los.tsurf id * obs.tau id ir)
        { obs with rad := upd2 obs.rad id ir rad }) ir
      (fun i r t => r + Dbl.fin (srcfunc_planck E S ctl los.tsurf i * t))
      (fun _ _ t => t)
      (fun i o id jr => by simp only [upd2_apply])
      (fun i o id jr => by
        simp only
        split_ifs with h
        · rw [h.1, h.2]
        · rfl) ctl.nd obs
    refine ⟨h1, ?_⟩
    intro id jr
    rw [h2]
    split_ifs with h
    · rw [h.2]
    · rfl
  · simp only [if_neg hs]
    refine ⟨?_, fun _ _ => trivial⟩
    intro id jr
    split_ifs with h
    · rw [h.2]
    · rfl

theorem formod_pencil_eq (E : ext_t F) (S : static_t F) (ctl : ctl_t F) (atm : atm_t F)
    (obs : obs_t F) (aero : aero_t F) (scattering : Int) (ir : Nat) :
    formod_pencil E S ctl atm obs aero scattering ir
      = pencil_surface E S ctl (pencil_los E ctl atm obs aero ir) ir
          (pencil_segments E S ctl atm aero scattering ir (pencil_los E ctl atm obs aero ir)
            (pencil_los E ctl atm obs aero ir).np (pencil_init ctl ir obs)).1 := rfl

/-- One segment through the branch without scattering source, on the entry
`(id, ir)`. -/
theorem pencil_segment_nosca (E : ext_t F) (S : static_t F) (ctl : ctl_t F) (atm : atm_t F)
    (aero : aero_t F) (scattering : Int) (ir : Nat) (los : los_t F) (ip : Nat)
    (st : obs_t F × (Nat → Nat → F)) (id : Nat) (hid : id < ctl.nd)
    (hbr : ¬ (los.aerofac ip > 0 ∧ scattering > 0)) :
    (pencil_segment E S ctl atm aero scattering ir los ip st).1.rad id ir
      = nosca_rad E ctl aero los ip id ((intpol_tbl E ctl S.tbl los ip st.2).2 id)
          (formod_continua E ctl los ip id) (srcfunc_planck E S ctl (los.t ip) id)
          (st.1.rad id ir) (st.1.tau id ir) ∧
    (pencil_segment E S ctl atm aero scattering ir los ip st).1.tau id ir
      = nosca_tau E ctl aero los ip id ((intpol_tbl E ctl S.tbl los ip st.2).2 id)
          (formod_continua E ctl los ip id) (st.1.tau id ir) := by
  obtain ⟨h1, h2⟩ := pencil_segment_apply E S ctl atm aero scattering ir los ip st
  constructor
  · rw [h1, if_pos ⟨hid, rfl⟩, if_neg hbr]
  · rw [h2, if_pos ⟨hid, rfl⟩, if_neg hbr]

/-! ## C6: isothermal slab -/

/-- C6.  Isothermal slab: if every segment of the ray yields the same Planck
source value `B` for channel `id`, every segment goes through the branch
without scattering source, `sca_n = 0` and there is no surface
(`tsurf ≤ 0`), then `rad[id][ir] = B * (1 - tau[id][ir])` holds after every
segment and for the values that `formod_pencil` returns, whatever the
segment transmittances are. -/
theorem isothermal_slab (E : ext_t F) (S : static_t F) (ctl : ctl_t F) (atm : atm_t F)
    (obs : obs_t F) (aero : aero_t F) (scattering : Int) (ir id : Nat) (B : F)
    (hid : id < ctl.nd) (hn : ctl.sca_n = 0)
    (hbr : ∀ ip, ip < (pencil_los E ctl atm obs aero ir).np →
      ¬ ((pencil_los E ctl atm obs aero ir).aerofac ip > 0 ∧ scattering > 0))
    (hB : ∀ ip, ip < (pencil_los E ctl atm obs aero ir).np →
      srcfunc_planck E S ctl ((pencil_los E ctl atm obs aero ir).t ip) id = B)
    (hsurf : (pencil_los E ctl atm obs aero ir).tsurf ≤ 0) :
    (∀ n, n ≤ (pencil_los E ctl atm obs aero ir).np →
      (pencil_segments E S ctl atm aero scattering ir (pencil_los E ctl atm obs aero ir) n
          (pencil_init ctl ir obs)).1.rad id ir
        = Dbl.fin (B * (1 - (pencil_segments E S ctl atm aero scattering ir
            (pencil_los E ctl atm obs aero ir) n (pencil_init ctl ir obs)).1.tau id ir))) ∧
    (formod_pencil E S ctl atm obs aero scattering ir).rad id ir
      = Dbl.fin (B * (1 - (formod_pencil E S ctl atm obs aero scattering ir).tau id ir)) := by
  have hseg : ∀ n, n ≤ (pencil_los E ctl atm obs aero ir).np →
      (pencil_segments E S ctl atm aero scattering ir (pencil_los E ctl atm obs aero ir) n
          (pencil_init ctl ir obs)).1.rad id ir
        = Dbl.fin (B * (1 - (pencil_segments E S ctl atm aero scattering ir
            (pencil_los E ctl atm obs aero ir) n (pencil_init ctl ir obs)).1.tau id ir)) := by
    intro n
    induction n with
    | zero =>
      intro _
      rw [pencil_segments_zero]
      simp only
      rw [(pencil_init_apply ctl ir obs).1, (pencil_init_apply ctl ir obs).2,
        if_pos ⟨hid, rfl⟩, if_pos ⟨hid, rfl⟩]
      congr 1
      ring
    | succ k ih =>
      intro hk
      have ih2 := ih (by omega)
      obtain ⟨h1, h2⟩ := pencil_segment_nosca E S ctl atm aero scattering ir
        (pencil_los E ctl atm obs aero ir) k
        (pencil_segments E S ctl atm aero scattering ir (pencil_los E ctl atm obs aero ir) k
          (pencil_init ctl ir obs)) id hid (hbr k (by omega))
      rw [pencil_segments_succ, h1, h2, ih2, hB k (by omega)]
      unfold nosca_rad nosca_tau nosca_factor
      by_cases htg : (intpol_tbl E ctl S.tbl (pencil_los E ctl atm obs aero ir) k
          (pencil_segments E S ctl atm aero scattering ir (pencil_los E ctl atm obs aero ir) k
            (pencil_init ctl ir obs)).2).2 id > 0
      · rw [if_pos htg, if_pos htg, if_pos hn, Dbl_fin_add]
        congr 1
        ring
      · rw [if_neg htg, if_neg htg]
  refine ⟨hseg, ?_⟩
  rw [formod_pencil_eq]
  obtain ⟨h1, h2⟩ := pencil_surface_apply E S ctl (pencil_los E ctl atm obs aero ir) ir
    (pencil_segments E S ctl atm aero scattering ir (pencil_los E ctl atm obs aero ir)
      (pencil_los E ctl atm obs aero ir).np (pencil_init ctl ir obs)).1
  rw [h1, h2, if_pos ⟨hid, rfl⟩, if_neg (not_lt.mpr hsurf)]
  exact hseg _ le_rfl

/-- Witness for C6: two segments at 150 K (`B = 200`) of the concrete
configuration; the pencil beam returns `tau = 1/4` and `rad = 150`. -/
theorem isothermal_slab_witness :
    (0 < ctl_demo.nd ∧ ctl_demo.sca_n = 0 ∧
      (∀ ip, ip < (pencil_los ext_iso_demo ctl_demo atm_demo obs_demo aero_demo 0).np →
        ¬ ((pencil_los ext_iso_demo ctl_demo atm_demo obs_demo aero_demo 0).aerofac ip > 0
          ∧ (0 : Int) > 0)) ∧
      (∀ ip, ip < (pencil_los ext_iso_demo ctl_demo atm_demo obs_demo aero_demo 0).np →
        srcfunc_planck ext_iso_demo static_demo ctl_demo
          ((pencil_los ext_iso_demo ctl_demo atm_demo obs_demo aero_demo 0).t ip) 0 = 200) ∧
      (pencil_los ext_iso_demo ctl_demo atm_demo obs_demo aero_demo 0).tsurf ≤ 0) ∧
    (formod_pencil ext_iso_demo static_demo ctl_demo atm_demo obs_demo aero_demo 0 0).tau 0 0
      = 1 / 4 ∧
    (formod_pencil ext_iso_demo static_demo ctl_demo atm_demo obs_demo aero_demo 0 0).rad 0 0
      = Dbl.fin (200 * (1 - (formod_pencil ext_iso_demo static_demo ctl_demo atm_demo obs_demo
          aero_demo 0 0).tau 0 0)) :=
  have hbr : ∀ ip, ip < (pencil_los ext_iso_demo ctl_demo atm_demo obs_demo aero_demo 0).np →
      ¬ ((pencil_los ext_iso_demo ctl_demo atm_demo obs_demo aero_demo 0).aerofac ip > 0
        ∧ (0 : Int) > 0) := fun _ _ h => absurd h.2 (by decide)
  have hB : ∀ ip, ip < (pencil_los ext_iso_demo ctl_demo atm_demo obs_demo aero_demo 0).np →
      srcfunc_planck ext_iso_demo static_demo ctl_demo
        ((pencil_los ext_iso_demo ctl_demo atm_demo obs_demo aero_demo 0).t ip) 0 = 200 := by
    intro ip _
    show srcfunc_planck ext_iso_demo static_demo ctl_demo 150 0 = 200
    decide!
  ⟨⟨by decide, rfl, hbr, hB, by decide!⟩, by decide!,
    (isothermal_slab ext_iso_demo static_demo ctl_demo atm_demo obs_demo aero_demo 0 0 0 200
      (by decide) rfl hbr hB (by decide!)).2⟩

/-! ## C7: the update without scattering source for `sca_n = 0` -/

/-- C7.  For a segment that `formod_pencil` takes through the branch without
scattering source, with `sca_n = 0`, and a channel `id < nd` with
`tau_seg > 0`: the radiance becomes `rad + B * eps * tau_old` with
`eps = 1 - tau_seg * exp(-beta_ctm * ds)`, and the transmittance becomes
`tau_old * (1 - eps) = tau_old * tau_seg * exp(-beta_ctm * ds)`; the radiance
increment uses the transmittance before it is updated. -/
theorem nosca_update_plain (E : ext_t F) (S : static_t F) (ctl : ctl_t F) (atm : atm_t F)
    (aero : aero_t F) (scattering : Int) (ir : Nat) (los : los_t F) (ip : Nat)
    (st : obs_t F × (Nat → Nat → F)) (id : Nat) (hid : id < ctl.nd)
    (hbr : los.aerofac ip ≤ 0 ∨ scattering ≤ 0) (hn : ctl.sca_n = 0)
    (htg : (intpol_tbl E ctl S.tbl los ip st.2).2 id > 0) :
    (pencil_segment E S ctl atm aero scattering ir los ip st).1.rad id ir
      = st.1.rad id ir + Dbl.fin (srcfunc_planck E S ctl (los.t ip) id
          * (1 - (intpol_tbl E ctl S.tbl los ip st.2).2 id
              * E.exp (-(formod_continua E ctl los ip id * los.ds ip)))
          * st.1.tau id ir) ∧
    (pencil_segment E S ctl atm aero scattering ir los ip st).1.tau id ir
      = st.1.tau id ir * (1 - (1 - (intpol_tbl E ctl S.tbl los ip st.2).2 id
          * E.exp (-(formod_continua E ctl los ip id * los.ds ip)))) ∧
    (pencil_segment E S ctl atm aero scattering ir los ip st).1.tau id ir
      = st.1.tau id ir * (intpol_tbl E ctl S.tbl los ip st.2).2 id
          * E.exp (-(formod_continua E ctl los ip id * los.ds ip)) := by
  have hbr2 : ¬ (los.aerofac ip > 0 ∧ scattering > 0) := by
    rintro ⟨h1, h2⟩
    rcases hbr with h | h
    · exact absurd h1 (not_lt.mpr h)
    · exact absurd h2 (not_lt.mpr h)
  have harg : -1 * formod_continua E ctl los ip id * los.ds ip
      = -(formod_continua E ctl los ip id * los.ds ip) := by ring
  obtain ⟨h1, h2⟩ := pencil_segment_nosca E S ctl atm aero scattering ir los ip st id hid hbr2
  rw [h1, h2]
  unfold nosca_rad nosca_tau nosca_factor nosca_eps
  rw [if_pos htg, if_pos htg, if_pos hn, if_pos hn, harg]
  refine ⟨rfl, rfl, ?_⟩
  ring

/-- Witness for C7: the first segment of the concrete configuration
(`tau_seg = 1/2`, no continuum), starting from `rad = 0`, `tau = 1`. -/
theorem nosca_update_plain_witness :
    (0 < ctl_demo.nd ∧ (los_demo.aerofac 0 ≤ 0 ∨ (0 : Int) ≤ 0) ∧ ctl_demo.sca_n = 0 ∧
      (intpol_tbl ext_demo ctl_demo static_demo.tbl los_demo 0
        (fun _ _ => 0)).2 0 > 0) ∧
    (pencil_segment ext_demo static_demo ctl_demo atm_demo aero_demo 0 0 los_demo 0
        (pencil_init ctl_demo 0 obs_demo, fun _ _ => 0)).1.tau 0 0
      = (pencil_init ctl_demo 0 obs_demo).tau 0 0
        * (intpol_tbl ext_demo ctl_demo static_demo.tbl los_demo 0
            (fun _ _ => 0)).2 0
        * ext_demo.exp (-(formod_continua ext_demo ctl_demo los_demo 0 0 * los_demo.ds 0)) :=
  ⟨⟨by decide, Or.inr le_rfl, rfl, by decide!⟩,
    (nosca_update_plain ext_demo static_demo ctl_demo atm_demo aero_demo 0 0 los_demo 0
      (pencil_init ctl_demo 0 obs_demo, fun _ _ => 0) 0 (by decide) (Or.inr le_rfl) rfl
      (by decide!)).2.2⟩

/-! ## C8: which aerosol coefficient the branch without scattering source uses -/

/-- C8.  In the branch without scattering source with `sca_n ≠ 0`, for a
channel `id < nd` with `tau_seg > 0`: the segment emissivity is
`1 - tau_seg * exp(-(beta_ctm + af * beta_x) * ds)` and `tau` is multiplied by
`(1 - eps) * exp(-af * beta_x * ds)`, where `beta_x` is the extinction
coefficient `beta_e` when `sca_ext` is exactly the string `"beta_a"` and the
absorption coefficient `beta_a` for every other value of `sca_ext`. -/
theorem nosca_update_aerosol (E : ext_t F) (S : static_t F) (ctl : ctl_t F) (atm : atm_t F)
    (aero : aero_t F) (scattering : Int) (ir : Nat) (los : los_t F) (ip : Nat)
    (st : obs_t F × (Nat → Nat → F)) (id : Nat) (hid : id < ctl.nd)
    (hbr : ¬ (los.aerofac ip > 0 ∧ scattering > 0)) (hn : ctl.sca_n ≠ 0)
    (htg : (intpol_tbl E ctl S.tbl los ip st.2).2 id > 0) :
    nosca_eps E ctl aero los ip id ((intpol_tbl E ctl S.tbl los ip st.2).2 id)
        (formod_continua E ctl los ip id)
      = 1 - (intpol_tbl E ctl S.tbl los ip st.2).2 id
          * E.exp (-(formod_continua E ctl los ip id + los.aerofac ip
              * (if ctl.sca_ext = "beta_a" then aero.beta_e (los.aeroi ip) id
                 else aero.beta_a (los.aeroi ip) id)) * los.ds ip) ∧
    (pencil_segment E S ctl atm aero scattering ir los ip st).1.rad id ir
      = st.1.rad id ir + Dbl.fin (srcfunc_planck E S ctl (los.t ip) id
          * nosca_eps E ctl aero los ip id ((intpol_tbl E ctl S.tbl los ip st.2).2 id)
              (formod_continua E ctl los ip id)
          * st.1.tau id ir) ∧
    (pencil_segment E S ctl atm aero scattering ir los ip st).1.tau id ir
      = st.1.tau id ir
          * ((1 - nosca_eps E ctl aero los ip id ((intpol_tbl E ctl S.tbl los ip st.2).2 id)
                (formod_continua E ctl los ip id))
            * E.exp (-los.aerofac ip
                * (if ctl.sca_ext = "beta_a" then aero.beta_e (los.aeroi ip) id
                   else aero.beta_a (los.aeroi ip) id) * los.ds ip)) := by
  obtain ⟨h1, h2⟩ := pencil_segment_nosca E S ctl atm aero scattering ir los ip st id hid hbr
  rw [h1, h2]
  unfold nosca_rad nosca_tau nosca_factor
  rw [if_pos htg, if_pos htg, if_neg hn]
  by_cases hs : ctl.sca_ext = "beta_a"
  · have hs2 : ¬ ctl.sca_ext ≠ "beta_a" := not_not.mpr hs
    refine ⟨?_, rfl, ?_⟩
    · unfold nosca_eps
      rw [if_neg hn, if_neg hs2, if_pos hs]
    · rw [if_neg hs2, if_pos hs]
  · refine ⟨?_, rfl, ?_⟩
    · unfold nosca_eps
      rw [if_neg hn, if_pos hs, if_neg hs]
    · rw [if_pos hs, if_neg hs]

/-- Witness for C8 with `sca_ext = "beta_a"`, `sca_n = 1`, inside an aerosol
layer with `beta_e = 3` and `beta_a = 1`, `scattering = 0`: the first segment
takes `tau` from `1` to `1/32`, the value obtained with `beta_e`. -/
theorem nosca_update_aerosol_witness :
    (0 < ctl_aero_demo.nd ∧ ¬ (los_aero_demo.aerofac 0 > 0 ∧ (0 : Int) > 0)
      ∧ ctl_aero_demo.sca_n ≠ 0 ∧
      (intpol_tbl ext_demo ctl_aero_demo static_demo.tbl los_aero_demo 0
        (fun _ _ => 0)).2 0 > 0) ∧
    (pencil_segment ext_demo static_demo ctl_aero_demo atm_demo aero_layer_demo 0 0
        los_aero_demo 0 (pencil_init ctl_aero_demo 0 obs_demo, fun _ _ => 0)).1.tau 0 0
      = 1 / 32 ∧
    (pencil_segment ext_demo static_demo ctl_aero_demo atm_demo aero_layer_demo 0 0
        los_aero_demo 0 (pencil_init ctl_aero_demo 0 obs_demo, fun _ _ => 0)).1.tau 0 0
      = (pencil_init ctl_aero_demo 0 obs_demo).tau 0 0
          * ((1 - nosca_eps ext_demo ctl_aero_demo aero_layer_demo los_aero_demo 0 0
                ((intpol_tbl ext_demo ctl_aero_demo static_demo.tbl los_aero_demo 0
                  (fun _ _ => 0)).2 0)
                (formod_continua ext_demo ctl_aero_demo los_aero_demo 0 0))
            * ext_demo.exp (-los_aero_demo.aerofac 0
                * (if ctl_aero_demo.sca_ext = "beta_a"
                   then aero_layer_demo.beta_e (los_aero_demo.aeroi 0) 0
                   else aero_layer_demo.beta_a (los_aero_demo.aeroi 0) 0)
                * los_aero_demo.ds 0)) :=
  ⟨⟨by decide, fun h => absurd h.2 (by decide), by decide, by decide!⟩, by decide!,
    (nosca_update_aerosol ext_demo static_demo ctl_aero_demo atm_demo aero_layer_demo 0 0
      los_aero_demo 0 (pencil_init ctl_aero_demo 0 obs_demo, fun _ _ => 0) 0 (by decide)
      (fun h => absurd h.2 (by decide)) (by decide) (by decide!)).2.2⟩

/-! ## C9: without aerosol the `scattering` argument has no influence -/

theorem pencil_segment_no_aerosol (E : ext_t F) (S : static_t F) (ctl : ctl_t F)
    (atm : atm_t F) (aero : aero_t F) (s1 s2 : Int) (ir : Nat) (los : los_t F) (ip : Nat)
    (st : obs_t F × (Nat → Nat → F)) (h : los.aerofac ip ≤ 0) :
    pencil_segment E S ctl atm aero s1 ir los ip st
      = pencil_segment E S ctl atm aero s2 ir los ip st := by
  have h1 : ¬ (los.aerofac ip > 0 ∧ s1 > 0) := fun hc => absurd hc.1 (not_lt.mpr h)
  have h2 : ¬ (los.aerofac ip > 0 ∧ s2 > 0) := fun hc => absurd hc.1 (not_lt.mpr h)
  unfold pencil_segment
  simp only [if_neg h1, if_neg h2]

/-- C9.  Scattering sanity: if the line of sight traced for ray `ir` has
`aerofac[ip] ≤ 0` at every segment, `formod_pencil` called with
`scattering = 0` and with `scattering = 1` returns the same observations, in
particular the same `rad[id][ir]` and `tau[id][ir]` for every channel. -/
theorem scattering_sanity (E : ext_t F) (S : static_t F) (ctl : ctl_t F) (atm : atm_t F)
    (obs : obs_t F) (aero : aero_t F) (ir : Nat)
    (h : ∀ ip, ip < (pencil_los E ctl atm obs aero ir).np →
      (pencil_los E ctl atm obs aero ir).aerofac ip ≤ 0) :
    formod_pencil E S ctl atm obs aero 0 ir = formod_pencil E S ctl atm obs aero 1 ir ∧
    ∀ id, (formod_pencil E S ctl atm obs aero 0 ir).rad id ir
        = (formod_pencil E S ctl atm obs aero 1 ir).rad id ir
      ∧ (formod_pencil E S ctl atm obs aero 0 ir).tau id ir
        = (formod_pencil E S ctl atm obs aero 1 ir).tau id ir := by
  have key : formod_pencil E S ctl atm obs aero 0 ir
      = formod_pencil E S ctl atm obs aero 1 ir := by
    rw [formod_pencil_eq, formod_pencil_eq]
    unfold pencil_segments
    rw [for_loop_congr _ _ _ _
      (fun i st hi => pencil_segment_no_aerosol E S ctl atm aero 0 1 ir _ i st (h i hi))]
  exact ⟨key, fun id => by rw [key]; exact ⟨rfl, rfl⟩⟩

/-- Witness for C9: the line of sight of the concrete configuration has
`aerofac = 0` on both segments. -/
theorem scattering_sanity_witness :
    (∀ ip, ip < (pencil_los ext_demo ctl_demo atm_demo obs_demo aero_layer_demo 0).np →
      (pencil_los ext_demo ctl_demo atm_demo obs_demo aero_layer_demo 0).aerofac ip ≤ 0) ∧
    formod_pencil ext_demo static_demo ctl_demo atm_demo obs_demo aero_layer_demo 0 0
      = formod_pencil ext_demo static_demo ctl_demo atm_demo obs_demo aero_layer_demo 1 0 :=
  ⟨fun _ _ => le_rfl,
    (scattering_sanity ext_demo static_demo ctl_demo atm_demo obs_demo aero_layer_demo 0
      (fun _ _ => le_rfl)).1⟩

/-! ## C10: the surface term and the empty path -/

/-- C10.  After the segment loop `formod_pencil` adds `B_id(tsurf) * tau[id][ir]`
to `rad[id][ir]` for every channel `id < nd` exactly when `tsurf > 0`, and it
never changes `tau`.  For a line of sight without segments (`np = 0`) the
result is `rad = 0`, `tau = 1` when `tsurf ≤ 0` and `rad = B_id(tsurf)`,
`tau = 1` when `tsurf > 0`. -/
theorem surface_term (E : ext_t F) (S : static_t F) (ctl : ctl_t F) (atm : atm_t F)
    (obs : obs_t F) (aero : aero_t F) (scattering : Int) (ir id : Nat) (hid : id < ctl.nd) :
    (formod_pencil E S ctl atm obs aero scattering ir).rad id ir
      = (if (pencil_los E ctl atm obs aero ir).tsurf > 0 then
          (pencil_segments E S ctl atm aero scattering ir (pencil_los E ctl atm obs aero ir)
              (pencil_los E ctl atm obs aero ir).np (pencil_init ctl ir obs)).1.rad id ir
            + Dbl.fin (srcfunc_planck E S ctl (pencil_los E ctl atm obs aero ir).tsurf id
                * (pencil_segments E S ctl atm aero scattering ir
                    (pencil_los E ctl atm obs aero ir)
                    (pencil_los E ctl atm obs aero ir).np (pencil_init ctl ir obs)).1.tau id ir)
        else
          (pencil_segments E S ctl atm aero scattering ir (pencil_los E ctl atm obs aero ir)
              (pencil_los E ctl atm obs aero ir).np (pencil_init ctl ir obs)).1.rad id ir) ∧
    (∀ id2 jr, (formod_pencil E S ctl atm obs aero scattering ir).tau id2 jr
      = (pencil_segments E S ctl atm aero scattering ir (pencil_los E ctl atm obs aero ir)
          (pencil_los E ctl atm obs aero ir).np (pencil_init ctl ir obs)).1.tau id2 jr) ∧
    ((pencil_los E ctl atm obs aero ir).np = 0 →
      (formod_pencil E S ctl atm obs aero scattering ir).tau id ir = 1 ∧
      (formod_pencil E S ctl atm obs aero scattering ir).rad id ir
        = (if (pencil_los E ctl atm obs aero ir).tsurf > 0 then
            Dbl.fin (srcfunc_planck E S ctl (pencil_los E ctl atm obs aero ir).tsurf id)
          else Dbl.fin 0)) := by
  obtain ⟨h1, h2⟩ := pencil_surface_apply E S ctl (pencil_los E ctl atm obs aero ir) ir
    (pencil_segments E S ctl atm aero scattering ir (pencil_los E ctl atm obs aero ir)
      (pencil_los E ctl atm obs aero ir).np (pencil_init ctl ir obs)).1
  have hr := h1 id ir
  have ht := h2 id ir
  rw [if_pos ⟨hid, rfl⟩] at hr
  rw [← formod_pencil_eq E S ctl atm obs aero scattering ir] at hr ht h2
  refine ⟨hr, h2, ?_⟩
  intro hnp
  have hr0 : (pencil_init ctl ir obs).rad id ir = Dbl.fin 0 := by
    rw [(pencil_init_apply ctl ir obs).1, if_pos ⟨hid, rfl⟩]
  have ht0 : (pencil_init ctl ir obs).tau id ir = 1 := by
    rw [(pencil_init_apply ctl ir obs).2, if_pos ⟨hid, rfl⟩]
  rw [hr, ht, hnp, pencil_segments_zero]
  simp only
  rw [hr0, ht0]
  refine ⟨rfl, ?_⟩
  by_cases hs : (pencil_los E ctl atm obs aero ir).tsurf > 0
  · rw [if_pos hs, if_pos hs, Dbl_fin_add]
    congr 1
    ring
  · rw [if_neg hs, if_neg hs]

/-- Witness for C10: a line of sight without segments that ends on a surface
at 290 K; the pencil beam returns `tau = 1` and `rad = B(290) = 760`. -/
theorem surface_term_witness :
    (0 < ctl_demo.nd ∧
      (pencil_los ext_surface_demo ctl_demo atm_demo obs_demo aero_demo 0).np = 0) ∧
    srcfunc_planck ext_surface_demo static_demo ctl_demo 290 0 = 760 ∧
    (formod_pencil ext_surface_demo static_demo ctl_demo atm_demo obs_demo aero_demo 0 0).tau
        0 0 = 1 ∧
    (formod_pencil ext_surface_demo static_demo ctl_demo atm_demo obs_demo aero_demo 0 0).rad
        0 0
      = (if (pencil_los ext_surface_demo ctl_demo atm_demo obs_demo aero_demo 0).tsurf > 0 then
          Dbl.fin (srcfunc_planck ext_surface_demo static_demo ctl_demo
            (pencil_los ext_surface_demo ctl_demo atm_demo obs_demo aero_demo 0).tsurf 0)
        else Dbl.fin 0) :=
  ⟨⟨by decide, rfl⟩, by decide!,
    (surface_term ext_surface_demo static_demo ctl_demo atm_demo obs_demo aero_demo 0 0 0
      (by decide)).2.2 rfl⟩

/-! ## C5: the radiance is non-negative when no segment transmittance exceeds 1 -/

theorem exp_demo_pos (x : ℚ) : 0 < exp_demo x := by
  unfold exp_demo
  split_ifs with h
  · exact div_pos zero_lt_one (by linarith)
  · linarith [not_le.mp h]

theorem exp_demo_le_one (x : ℚ) (h : x ≤ 0) : exp_demo x ≤ 1 := by
  unfold exp_demo
  rw [if_pos h]
  exact (div_le_one (by linarith)).mpr (by linarith)

/-- With `0 < tg ≤ 1` and a non-positive argument the emissivity
`1 - tg * exp(arg)` is in `[0, 1)`. -/
theorem eps_form_nonneg (E : ext_t F) (hexp_pos : ∀ x, 0 < E.exp x)
    (hexp_le : ∀ x, x ≤ 0 → E.exp x ≤ 1) (tg arg : F) (h0 : 0 < tg) (h1 : tg ≤ 1)
    (harg : arg ≤ 0) : 0 ≤ 1 - tg * E.exp arg ∧ 0 ≤ tg * E.exp arg := by
  have hp := hexp_pos arg
  have hl := hexp_le arg harg
  have : tg * E.exp arg ≤ 1 * 1 := mul_le_mul h1 hl hp.le zero_le_one
  constructor
  · linarith
  · exact mul_nonneg h0.le hp.le

theorem nosca_eps_nonneg (E : ext_t F) (ctl : ctl_t F) (aero : aero_t F) (los : los_t F)
    (ip id : Nat) (tg bc : F) (hexp_pos : ∀ x, 0 < E.exp x)
    (hexp_le : ∀ x, x ≤ 0 → E.exp x ≤ 1) (h0 : 0 < tg) (h1 : tg ≤ 1) (hbc : 0 ≤ bc)
    (haf : 0 ≤ los.aerofac ip) (hds : 0 ≤ los.ds ip)
    (hba : 0 ≤ aero.beta_a (los.aeroi ip) id) (hbe : 0 ≤ aero.beta_e (los.aeroi ip) id) :
    0 ≤ nosca_eps E ctl aero los ip id tg bc ∧ 0 ≤ nosca_factor E ctl aero los ip id tg bc := by
  have a1 : -1 * bc * los.ds ip ≤ 0 := by nlinarith [mul_nonneg hbc hds]
  have a2 : -(bc + los.aerofac ip * aero.beta_a (los.aeroi ip) id) * los.ds ip ≤ 0 := by
    nlinarith [mul_nonneg (add_nonneg hbc (mul_nonneg haf hba)) hds]
  have a3 : -(bc + los.aerofac ip * aero.beta_e (los.aeroi ip) id) * los.ds ip ≤ 0 := by
    nlinarith [mul_nonneg (add_nonneg hbc (mul_nonneg haf hbe)) hds]
  obtain ⟨e1, f1⟩ := eps_form_nonneg E hexp_pos hexp_le tg _ h0 h1 a1
  obtain ⟨e2, f2⟩ := eps_form_nonneg E hexp_pos hexp_le tg _ h0 h1 a2
  obtain ⟨e3, f3⟩ := eps_form_nonneg E hexp_pos hexp_le tg _ h0 h1 a3
  unfold nosca_factor nosca_eps
  split_ifs
  · exact ⟨e1, by linarith⟩
  · exact ⟨e2, mul_nonneg (by linarith) (hexp_pos _).le⟩
  · exact ⟨e3, mul_nonneg (by linarith) (hexp_pos _).le⟩

/-- One segment keeps `rad[id][ir]` and `tau[id][ir]` non-negative when the
segment gas transmittance is at most 1. -/
theorem pencil_segment_nonneg (E : ext_t F) (S : static_t F) (ctl : ctl_t F) (atm : atm_t F)
    (aero : aero_t F) (scattering : Int) (ir : Nat) (los : los_t F) (ip : Nat)
    (st : obs_t F × (Nat → Nat → F)) (id : Nat) (hid : id < ctl.nd)
    (hexp_pos : ∀ x, 0 < E.exp x) (hexp_le : ∀ x, x ≤ 0 → E.exp x ≤ 1)
    (hB : 0 ≤ srcfunc_planck E S ctl (los.t ip) id)
    (hbc : 0 ≤ formod_continua E ctl los ip id)
    (haf : 0 ≤ los.aerofac ip) (hds : 0 ≤ los.ds ip)
    (hba : 0 ≤ aero.beta_a (los.aeroi ip) id) (hbe : 0 ≤ aero.beta_e (los.aeroi ip) id)
    (hbs : 0 ≤ aero.beta_s (los.aeroi ip) id)
    (hss : 0 ≤ pencil_src_sca E ctl atm aero scattering los ip (st.1.time ir) id)
    (htg : (intpol_tbl E ctl S.tbl los ip st.2).2 id ≤ 1)
    (x : F) (hx : st.1.rad id ir = Dbl.fin x) (hx0 : 0 ≤ x) (ht0 : 0 ≤ st.1.tau id ir) :
    (∃ y, (pencil_segment E S ctl atm aero scattering ir los ip st).1.rad id ir = Dbl.fin y
      ∧ 0 ≤ y)
    ∧ 0 ≤ (pencil_segment E S ctl atm aero scattering ir los ip st).1.tau id ir := by
  obtain ⟨h1, h2⟩ := pencil_segment_apply E S ctl atm aero scattering ir los ip st
  have hr := h1 id ir
  have ht := h2 id ir
  rw [if_pos ⟨hid, rfl⟩] at hr ht
  rw [hr, ht, hx]
  by_cases hpos : (intpol_tbl E ctl S.tbl los ip st.2).2 id > 0
  · by_cases hb : los.aerofac ip > 0 ∧ scattering > 0
    · rw [if_pos hb, if_pos hb]
      unfold sca_rad sca_tau
      rw [if_pos hpos, if_pos hpos, Dbl_fin_add]
      have a2 : -(formod_continua E ctl los ip id
          + los.aerofac ip * aero.beta_a (los.aeroi ip) id) * los.ds ip ≤ 0 := by
        nlinarith [mul_nonneg (add_nonneg hbc (mul_nonneg haf hba)) hds]
      obtain ⟨e2, _⟩ := eps_form_nonneg E hexp_pos hexp_le _ _ hpos htg a2
      refine ⟨⟨_, rfl, ?_⟩, mul_nonneg ht0 (hexp_pos _).le⟩
      have hin : 0 ≤ sca_eps E aero los ip id ((intpol_tbl E ctl S.tbl los ip st.2).2 id)
          (formod_continua E ctl los ip id) * srcfunc_planck E S ctl (los.t ip) id
          + aero.beta_s (los.aeroi ip) id
            * pencil_src_sca E ctl atm aero scattering los ip (st.1.time ir) id :=
        add_nonneg (mul_nonneg e2 hB) (mul_nonneg hbs hss)
      exact add_nonneg hx0 (mul_nonneg ht0 hin)
    · rw [if_neg hb, if_neg hb]
      unfold nosca_rad nosca_tau
      rw [if_pos hpos, if_pos hpos, Dbl_fin_add]
      obtain ⟨e, f⟩ := nosca_eps_nonneg E ctl aero los ip id _ _ hexp_pos hexp_le hpos htg
        hbc haf hds hba hbe
      exact ⟨⟨_, rfl, add_nonneg hx0 (mul_nonneg (mul_nonneg hB e) ht0)⟩, mul_nonneg ht0 f⟩
  · by_cases hb : los.aerofac ip > 0 ∧ scattering > 0
    · rw [if_pos hb, if_pos hb]
      unfold sca_rad sca_tau
      rw [if_neg hpos, if_neg hpos]
      exact ⟨⟨x, rfl, hx0⟩, ht0⟩
    · rw [if_neg hb, if_neg hb]
      unfold nosca_rad nosca_tau
      rw [if_neg hpos, if_neg hpos]
      exact ⟨⟨x, rfl, hx0⟩, ht0⟩

/-- Counterexample to C5 (configuration `ext_demo`, `tbl_demo`, `los_demo`):
the Planck source values are `200` and `1200`, continuum, aerosol and
scattering source vanish and both segments have length `1`; the first segment
gives `rad = 100`, `tau = 1/2`, the second one has `tau_seg = 2`, hence
`eps = -1`, and `formod_pencil` returns `rad = 100 - 600 = -500`. -/
theorem radiance_negative :
    (0 ≤ srcfunc_planck ext_demo static_demo ctl_demo (los_demo.t 0) 0 ∧
      0 ≤ srcfunc_planck ext_demo static_demo ctl_demo (los_demo.t 1) 0 ∧
      0 ≤ formod_continua ext_demo ctl_demo los_demo 0 0 ∧
      0 ≤ formod_continua ext_demo ctl_demo los_demo 1 0 ∧
      0 ≤ aero_demo.beta_a 0 0 ∧ 0 ≤ aero_demo.beta_e 0 0 ∧ 0 ≤ aero_demo.beta_s 0 0 ∧
      0 < los_demo.ds 0 ∧ 0 < los_demo.ds 1) ∧
    (pencil_segments ext_demo static_demo ctl_demo atm_demo aero_demo 0 0 los_demo 1
      (pencil_init ctl_demo 0 obs_demo)).1.rad 0 0 = Dbl.fin 100 ∧
    (intpol_tbl ext_demo ctl_demo tbl_demo los_demo 1
      (intpol_tbl_calls ext_demo ctl_demo tbl_demo los_demo 1 (fun _ _ => 0))).2 0 = 2 ∧
    (formod_pencil ext_demo static_demo ctl_demo atm_demo obs_demo aero_demo 0 0).rad 0 0
      = Dbl.fin (-500) ∧
    ¬ ∃ x : ℚ, (formod_pencil ext_demo static_demo ctl_demo atm_demo obs_demo aero_demo 0 0).rad
        0 0 = Dbl.fin x ∧ 0 ≤ x := by
  have hrad : (formod_pencil ext_demo static_demo ctl_demo atm_demo obs_demo aero_demo 0 0).rad
      0 0 = Dbl.fin (-500) := by decide!
  refine ⟨by decide!, by decide!, by decide!, hrad, ?_⟩
  rintro ⟨x, hx, hx0⟩
  rw [hrad] at hx
  have : (-500 : ℚ) = x := Dbl.fin.inj hx
  linarith

/-- C5, amended.  For every ray `ir` and channel `id < nd`, the radiance
`rad[id][ir]` that `formod_pencil` has accumulated after any number of
segments, and after the surface term, is a number `≥ 0`, given non-negative
Planck source values, non-negative continuum, aerosol coefficients (with the
mixing factor `aerofac`) and scattering source, positive segment lengths,
and given that the segment gas transmittance `tau_seg[id]` computed by
`intpol_tbl` is at most `1` in every segment.  (`exp` is any function that is
positive and at most `1` on non-positive arguments, as the exponential is.) -/
theorem radiance_nonneg (E : ext_t F) (S : static_t F) (ctl : ctl_t F) (atm : atm_t F)
    (obs : obs_t F) (aero : aero_t F) (scattering : Int) (ir id : Nat) (hid : id < ctl.nd)
    (hexp_pos : ∀ x, 0 < E.exp x) (hexp_le : ∀ x, x ≤ 0 → E.exp x ≤ 1)
    (hB : ∀ ip, ip < (pencil_los E ctl atm obs aero ir).np →
      0 ≤ srcfunc_planck E S ctl ((pencil_los E ctl atm obs aero ir).t ip) id)
    (hBs : (pencil_los E ctl atm obs aero ir).tsurf > 0 →
      0 ≤ srcfunc_planck E S ctl (pencil_los E ctl atm obs aero ir).tsurf id)
    (hbc : ∀ ip, ip < (pencil_los E ctl atm obs aero ir).np →
      0 ≤ formod_continua E ctl (pencil_los E ctl atm obs aero ir) ip id)
    (haf : ∀ ip, ip < (pencil_los E ctl atm obs aero ir).np →
      0 ≤ (pencil_los E ctl atm obs aero ir).aerofac ip)
    (hba : ∀ l, 0 ≤ aero.beta_a l id) (hbe : ∀ l, 0 ≤ aero.beta_e l id)
    (hbs : ∀ l, 0 ≤ aero.beta_s l id)
    (hss : ∀ ip, ip < (pencil_los E ctl atm obs aero ir).np → ∀ time,
      0 ≤ pencil_src_sca E ctl atm aero scattering (pencil_los E ctl atm obs aero ir) ip time id)
    (hds : ∀ ip, ip < (pencil_los E ctl atm obs aero ir).np →
      0 < (pencil_los E ctl atm obs aero ir).ds ip)
    (htg : ∀ ip, ip < (pencil_los E ctl atm obs aero ir).np →
      (intpol_tbl E ctl S.tbl (pencil_los E ctl atm obs aero ir) ip
        (intpol_tbl_calls E ctl S.tbl (pencil_los E ctl atm obs aero ir) ip
          (fun _ _ => 0))).2 id ≤ 1) :
    (∀ n, n ≤ (pencil_los E ctl atm obs aero ir).np →
      ∃ x, (pencil_segments E S ctl atm aero scattering ir (pencil_los E ctl atm obs aero ir) n
          (pencil_init ctl ir obs)).1.rad id ir = Dbl.fin x ∧ 0 ≤ x) ∧
    ∃ x, (formod_pencil E S ctl atm obs aero scattering ir).rad id ir = Dbl.fin x ∧ 0 ≤ x := by
  have hseg : ∀ n, n ≤ (pencil_los E ctl atm obs aero ir).np →
      (∃ x, (pencil_segments E S ctl atm aero scattering ir (pencil_los E ctl atm obs aero ir) n
          (pencil_init ctl ir obs)).1.rad id ir = Dbl.fin x ∧ 0 ≤ x)
      ∧ 0 ≤ (pencil_segments E S ctl atm aero scattering ir (pencil_los E ctl atm obs aero ir) n
          (pencil_init ctl ir obs)).1.tau id ir := by
    intro n
    induction n with
    | zero =>
      intro _
      rw [pencil_segments_zero]
      simp only
      rw [(pencil_init_apply ctl ir obs).1, (pencil_init_apply ctl ir obs).2,
        if_pos ⟨hid, rfl⟩, if_pos ⟨hid, rfl⟩]
      exact ⟨⟨0, rfl, le_rfl⟩, zero_le_one⟩
    | succ k ih =>
      intro hk
      obtain ⟨⟨x, hx, hx0⟩, ht0⟩ := ih (by omega)
      rw [pencil_segments_succ]
      have hk2 : k < (pencil_los E ctl atm obs aero ir).np := by omega
      refine pencil_segment_nonneg E S ctl atm aero scattering ir _ k _ id hid hexp_pos hexp_le
        (hB k hk2) (hbc k hk2) (haf k hk2) (hds k hk2).le (hba _) (hbe _) (hbs _)
        (hss k hk2 _) ?_ x hx hx0 ht0
      rw [pencil_segments_path]
      exact htg k hk2
  refine ⟨fun n hn => (hseg n hn).1, ?_⟩
  obtain ⟨⟨x, hx, hx0⟩, ht0⟩ := hseg _ le_rfl
  obtain ⟨h1, _⟩ := pencil_surface_apply E S ctl (pencil_los E ctl atm obs aero ir) ir
    (pencil_segments E S ctl atm aero scattering ir (pencil_los E ctl atm obs aero ir)
      (pencil_los E ctl atm obs aero ir).np (pencil_init ctl ir obs)).1
  have hr := h1 id ir
  rw [if_pos ⟨hid, rfl⟩, ← formod_pencil_eq E S ctl atm obs aero scattering ir] at hr
  rw [hr]
  by_cases hs : (pencil_los E ctl atm obs aero ir).tsurf > 0
  · rw [if_pos hs, hx, Dbl_fin_add]
    exact ⟨_, rfl, add_nonneg hx0 (mul_nonneg (hBs hs) ht0)⟩
  · rw [if_neg hs]
    exact ⟨x, hx, hx0⟩

theorem iso_demo_segments (ip : Nat)
    (h : ip < (pencil_los ext_iso_demo ctl_demo atm_demo obs_demo aero_demo 0).np) :
    ip = 0 ∨ ip = 1 := by
  have h2 : ip < 2 := h
  omega

/-- Witness for the amended C5: two segments at 150 K of the concrete
configuration, each with `tau_seg = 1/2`; the pencil beam returns `rad = 150`. -/
theorem radiance_nonneg_witness :
    (0 < ctl_demo.nd ∧ (∀ x, 0 < ext_iso_demo.exp x) ∧
      (∀ x, x ≤ 0 → ext_iso_demo.exp x ≤ 1) ∧
      (∀ ip, ip < (pencil_los ext_iso_demo ctl_demo atm_demo obs_demo aero_demo 0).np →
        0 ≤ srcfunc_planck ext_iso_demo static_demo ctl_demo
          ((pencil_los ext_iso_demo ctl_demo atm_demo obs_demo aero_demo 0).t ip) 0) ∧
      (∀ ip, ip < (pencil_los ext_iso_demo ctl_demo atm_demo obs_demo aero_demo 0).np →
        0 ≤ formod_continua ext_iso_demo ctl_demo
          (pencil_los ext_iso_demo ctl_demo atm_demo obs_demo aero_demo 0) ip 0) ∧
      (∀ ip, ip < (pencil_los ext_iso_demo ctl_demo atm_demo obs_demo aero_demo 0).np →
        0 < (pencil_los ext_iso_demo ctl_demo atm_demo obs_demo aero_demo 0).ds ip) ∧
      (∀ ip, ip < (pencil_los ext_iso_demo ctl_demo atm_demo obs_demo aero_demo 0).np →
        (intpol_tbl ext_iso_demo ctl_demo static_demo.tbl
          (pencil_los ext_iso_demo ctl_demo atm_demo obs_demo aero_demo 0) ip
          (intpol_tbl_calls ext_iso_demo ctl_demo static_demo.tbl
            (pencil_los ext_iso_demo ctl_demo atm_demo obs_demo aero_demo 0) ip
            (fun _ _ => 0))).2 0 ≤ 1)) ∧
    (formod_pencil ext_iso_demo static_demo ctl_demo atm_demo obs_demo aero_demo 0 0).rad 0 0
      = Dbl.fin 150 ∧
    ∃ x, (formod_pencil ext_iso_demo static_demo ctl_demo atm_demo obs_demo aero_demo 0 0).rad
      0 0 = Dbl.fin x ∧ 0 ≤ x := by
  have hB : ∀ ip, ip < (pencil_los ext_iso_demo ctl_demo atm_demo obs_demo aero_demo 0).np →
      0 ≤ srcfunc_planck ext_iso_demo static_demo ctl_demo
        ((pencil_los ext_iso_demo ctl_demo atm_demo obs_demo aero_demo 0).t ip) 0 := by
    intro ip _
    show 0 ≤ srcfunc_planck ext_iso_demo static_demo ctl_demo 150 0
    decide!
  have hbc : ∀ ip, ip < (pencil_los ext_iso_demo ctl_demo atm_demo obs_demo aero_demo 0).np →
      0 ≤ formod_continua ext_iso_demo ctl_demo
        (pencil_los ext_iso_demo ctl_demo atm_demo obs_demo aero_demo 0) ip 0 := by
    intro ip hip
    rcases iso_demo_segments ip hip with h | h <;> subst h <;> decide!
  have hds : ∀ ip, ip < (pencil_los ext_iso_demo ctl_demo atm_demo obs_demo aero_demo 0).np →
      0 < (pencil_los ext_iso_demo ctl_demo atm_demo obs_demo aero_demo 0).ds ip :=
    fun _ _ => zero_lt_one
  have htg : ∀ ip, ip < (pencil_los ext_iso_demo ctl_demo atm_demo obs_demo aero_demo 0).np →
      (intpol_tbl ext_iso_demo ctl_demo static_demo.tbl
        (pencil_los ext_iso_demo ctl_demo atm_demo obs_demo aero_demo 0) ip
        (intpol_tbl_calls ext_iso_demo ctl_demo static_demo.tbl
          (pencil_los ext_iso_demo ctl_demo atm_demo obs_demo aero_demo 0) ip
          (fun _ _ => 0))).2 0 ≤ 1 := by
    intro ip hip
    rcases iso_demo_segments ip hip with h | h <;> subst h <;> decide!
  exact ⟨⟨by decide, exp_demo_pos, exp_demo_le_one, hB, hbc, hds, htg⟩, by decide!,
    (radiance_nonneg ext_iso_demo static_demo ctl_demo atm_demo obs_demo aero_demo 0 0 0
      (by decide) exp_demo_pos exp_demo_le_one hB (fun h => absurd h (by decide!)) hbc
      (fun _ _ => le_rfl) (fun _ => le_rfl) (fun _ => le_rfl) (fun _ => le_rfl)
      (fun _ _ _ => le_rfl) hds htg).2⟩

/-! ## C11: missing or too-short tables mean no absorption -/

theorem read_tbl_entry_missing (L : tbl_files_t F) (ig id : Nat) (e : tbl_entry_t F)
    (hb : L.bin ig id = none) (ht : L.tab ig id = none) :
    read_tbl_entry L ig id e = some { e with np := -1 } := by
  unfold read_tbl_entry
  rw [hb, ht]

theorem tbl_set_np (tbl : tbl_t F) (ig id : Nat) (e : tbl_entry_t F) (ig2 id2 : Nat) :
    (tbl_set tbl ig id e).np ig2 id2 = if ig2 = ig ∧ id2 = id then e.np else tbl.np ig2 id2 := by
  unfold tbl_set
  simp only [upd2_apply]

/-- The channel loop of `read_tbl` for the gas `ig2`: slices of other gases
and of channels not yet reached keep their `np`, and a slice whose two files
are both missing ends with `np = -1`. -/
theorem read_tbl_channels (L : tbl_files_t F) (ig2 : Nat) (k : Nat) (t0 t1 : tbl_t F)
    (h : for_loop k
      (fun id st => Option.bind st (fun tbl =>
        (read_tbl_entry L ig2 id (tbl_get tbl ig2 id)).map (tbl_set tbl ig2 id)))
      (some t0) = some t1) :
    (∀ ig id, (ig ≠ ig2 ∨ k ≤ id) → t1.np ig id = t0.np ig id) ∧
    (∀ id, id < k → L.bin ig2 id = none → L.tab ig2 id = none → t1.np ig2 id = -1) := by
  induction k generalizing t1 with
  | zero =>
    rw [for_loop_zero] at h
    cases h
    exact ⟨fun _ _ _ => rfl, fun id hid => absurd hid (Nat.not_lt_zero id)⟩
  | succ k ih =>
    rw [for_loop_succ] at h
    cases hprev : for_loop k
      (fun id st => Option.bind st (fun tbl =>
        (read_tbl_entry L ig2 id (tbl_get tbl ig2 id)).map (tbl_set tbl ig2 id)))
      (some t0) with
    | none => rw [hprev] at h; simp at h
    | some tk =>
      rw [hprev] at h
      simp only [Option.some_bind, Option.map_eq_some'] at h
      obtain ⟨e, he, rfl⟩ := h
      obtain ⟨ih1, ih2⟩ := ih tk hprev
      constructor
      · intro ig id hcond
        rw [tbl_set_np, if_neg (by omega), ih1 ig id (by omega)]
      · intro id hid hb ht
        rw [tbl_set_np]
        by_cases hk : id = k
        · subst hk
          rw [if_pos ⟨rfl, rfl⟩]
          rw [read_tbl_entry_missing L ig2 id _ hb ht] at he
          cases he
          rfl
        · rw [if_neg (by omega)]
          exact ih2 id (by omega) hb ht

/-- After `read_tbl` a slice whose binary and ASCII files are both missing has
`np = -1`. -/
theorem read_tbl_missing (L : tbl_files_t F) (ctl : ctl_t F) (t0 t1 : tbl_t F)
    (h : read_tbl L ctl t0 = some t1) (ig id : Nat) (hig : ig < ctl.ng) (hid : id < ctl.nd)
    (hb : L.bin ig id = none) (ht : L.tab ig id = none) : t1.np ig id = -1 := by
  unfold read_tbl at h
  have key : ∀ (n : Nat) (t1 : tbl_t F),
      for_loop n
        (fun ig st => for_loop ctl.nd
          (fun id st => Option.bind st (fun tbl =>
            (read_tbl_entry L ig id (tbl_get tbl ig id)).map (tbl_set tbl ig id))) st)
        (some t0) = some t1 →
      ig < n → t1.np ig id = -1 := by
    intro n
    induction n with
    | zero => intro t1 _ h0; omega
    | succ k ih =>
      intro t1 hk hlt
      rw [for_loop_succ] at hk
      cases hprev : for_loop k
        (fun ig st => for_loop ctl.nd
          (fun id st => Option.bind st (fun tbl =>
            (read_tbl_entry L ig id (tbl_get tbl ig id)).map (tbl_set tbl ig id))) st)
        (some t0) with
      | none =>
        rw [hprev] at hk
        have hnone : ∀ m : Nat, for_loop m
            (fun id st => Option.bind st (fun tbl =>
              (read_tbl_entry L k id (tbl_get tbl k id)).map (tbl_set tbl k id)))
            (none : Option (tbl_t F)) = none := by
          intro m
          induction m with
          | zero => rw [for_loop_zero]
          | succ j ihj => rw [for_loop_succ, ihj]; rfl
        rw [hnone] at hk
        cases hk
      | some tk =>
        rw [hprev] at hk
        obtain ⟨c1, c2⟩ := read_tbl_channels L k ctl.nd tk t1 hk
        by_cases hik : ig = k
        · subst hik
          exact c2 id hid hb ht
        · rw [c1 ig id (Or.inl hik)]
          exact ih tk hprev (by omega)
  exact key ctl.ng t1 h hig

/-- C11.  Missing or too-short tables mean no absorption.  If the table of gas
`ig < ng` for channel `id < nd` has fewer than 2 pressure rows, `intpol_tbl`
uses `eps_seg = 0`: `tau_path[ig][id]` keeps its value and `tau_seg[id]` is the
product of the factors of the other gases.  The same holds when
`tau_path[ig][id] ≥ 1e-9` and a bracketing pressure row has fewer than 2
temperatures or one of the four corner rows has fewer than 2 column densities.
After `read_tbl` a slice whose `.bin` and `.tab` files are both missing has
`np = -1`, which is fewer than 2. -/
theorem short_table_no_absorption (E : ext_t F) (ctl : ctl_t F) (tbl : tbl_t F)
    (los : los_t F) (ig id : Nat) (hig : ig < ctl.ng) (hid : id < ctl.nd) :
    (∀ (ip : Nat) (tp : Nat → Nat → F),
      (tbl.np ig id < 2 ∨
        ((1e-9 : F) ≤ intpol_tbl_reset ctl ip tp ig id ∧ intpol_tbl_short E tbl los ip ig id)) →
      intpol_tbl_seg_eps E tbl los ip ig id (intpol_tbl_reset ctl ip tp ig id) = 0 ∧
      (intpol_tbl E ctl tbl los ip tp).1 ig id = intpol_tbl_reset ctl ip tp ig id ∧
      (intpol_tbl E ctl tbl los ip tp).2 id
        = ∏ ig2 in (Finset.range ctl.ng).erase ig,
            (1 - intpol_tbl_seg_eps E tbl los ip ig2 id (intpol_tbl_reset ctl ip tp ig2 id))) ∧
    (∀ (L : tbl_files_t F) (t0 : tbl_t F),
      read_tbl L ctl t0 = some tbl → L.bin ig id = none → L.tab ig id = none →
      tbl.np ig id = -1 ∧ tbl.np ig id < 2) := by
  constructor
  · intro ip tp hcase
    have heps : intpol_tbl_seg_eps E tbl los ip ig id (intpol_tbl_reset ctl ip tp ig id) = 0 := by
      rcases hcase with h | ⟨h1, h2⟩
      · exact seg_eps_few_rows E tbl los ip ig id _ h
      · by_cases hnp : tbl.np ig id < 2
        · exact seg_eps_few_rows E tbl los ip ig id _ hnp
        · exact seg_eps_short E tbl los ip ig id _ hnp (not_lt.mpr h1) h2
    refine ⟨heps, ?_, ?_⟩
    · rw [(intpol_tbl_apply E ctl tbl los ip tp).1 ig id, if_pos ⟨hig, hid⟩, heps]
      ring
    · rw [(intpol_tbl_apply E ctl tbl los ip tp).2 id, if_pos hid,
        ← Finset.mul_prod_erase (Finset.range ctl.ng) _ (Finset.mem_range.mpr hig), heps]
      ring
  · intro L t0 hread hb ht
    have h := read_tbl_missing L ctl t0 tbl hread ig id hig hid hb ht
    exact ⟨h, by rw [h]; decide⟩

theorem read_tbl_demo_missing :
    read_tbl files_missing_demo ctl_demo tbl_demo = some tbl_missing_demo := by
  unfold read_tbl
  show for_loop 1 _ _ = _
  rw [for_loop_one]
  show for_loop 1 _ _ = _
  rw [for_loop_one]
  rfl

/-- Witness for C11: no table file exists for the only gas and channel of the
concrete configuration; `read_tbl` leaves `np = -1`, and a segment entered with
`tau_path = 1/2` leaves it at `1/2`. -/
theorem short_table_no_absorption_witness :
    (0 < ctl_demo.ng ∧ 0 < ctl_demo.nd ∧
      read_tbl files_missing_demo ctl_demo tbl_demo = some tbl_missing_demo ∧
      files_missing_demo.bin 0 0 = none ∧ files_missing_demo.tab 0 0 = none) ∧
    (tbl_missing_demo.np 0 0 = -1 ∧ tbl_missing_demo.np 0 0 < 2) ∧
    intpol_tbl_seg_eps ext_demo tbl_missing_demo los_demo 1 0 0
        (intpol_tbl_reset ctl_demo 1 (fun _ _ => 1 / 2) 0 0) = 0 ∧
    (intpol_tbl ext_demo ctl_demo tbl_missing_demo los_demo 1 (fun _ _ => 1 / 2)).1 0 0
      = intpol_tbl_reset ctl_demo 1 (fun _ _ => 1 / 2) 0 0 ∧
    (intpol_tbl ext_demo ctl_demo tbl_missing_demo los_demo 1 (fun _ _ => 1 / 2)).2 0
      = ∏ ig2 in (Finset.range ctl_demo.ng).erase 0,
          (1 - intpol_tbl_seg_eps ext_demo tbl_missing_demo los_demo 1 ig2 0
            (intpol_tbl_reset ctl_demo 1 (fun _ _ => 1 / 2) ig2 0)) :=
  ⟨⟨by decide, by decide, read_tbl_demo_missing, rfl, rfl⟩,
    (short_table_no_absorption ext_demo ctl_demo tbl_missing_demo los_demo 0 0 (by decide)
      (by decide)).2 files_missing_demo tbl_demo read_tbl_demo_missing rfl rfl,
    (short_table_no_absorption ext_demo ctl_demo tbl_missing_demo los_demo 0 0 (by decide)
      (by decide)).1 1 (fun _ _ => 1 / 2) (Or.inl (by decide))⟩

/-! ## C12: which continua are divided by the segment length -/

theorem for_loop_update {α : Type} (n : Nat) (g : Nat → α → α) (a : Nat → α) (j : Nat) :
    for_loop n (fun i b => Function.update b i (g i (b i))) a j
      = if j < n then g j (a j) else a j := by
  induction n with
  | zero => simp [for_loop_zero]
  | succ k ih =>
    rw [for_loop_succ]
    by_cases h : j = k
    · subst h
      rw [Function.update_same, ih]
      simp
    · have : j < k + 1 ↔ j < k := by omega
      rw [Function.update_noteq h, ih]
      simp [this]

theorem for_loop_add (n : Nat) (c : Nat → F) (a : Nat → F) (j : Nat) :
    for_loop n (fun id beta => Function.update beta id (beta id + c id)) a j
      = if j < n then a j + c j else a j :=
  for_loop_update n (fun i x => x + c i) a j

theorem for_loop_set {α : Type} (n : Nat) (c : Nat → α) (a : Nat → α) (j : Nat) :
    for_loop n (fun id beta => Function.update beta id (c id)) a j
      = if j < n then c j else a j :=
  for_loop_update n (fun i _ => c i) a j

/-- Counterexample to C12: with only the N2 continuum enabled,
`ctmn2 = 6`, window extinction `0` and segment length `ds = 2`,
`formod_continua` returns `beta[0] = 6`, not `0 + 6/2 = 3`. -/
theorem continua_n2_not_normalised :
    formod_continua ext_n2_demo ctl_n2_demo los_long_demo 0 0 = 6 ∧
    los_long_demo.k 0 (ctl_n2_demo.window 0)
      + ext_n2_demo.ctmn2 (ctl_n2_demo.nu 0) (los_long_demo.p 0) (los_long_demo.t 0)
        / los_long_demo.ds 0 = 3 ∧
    formod_continua ext_n2_demo ctl_n2_demo los_long_demo 0 0
      ≠ los_long_demo.k 0 (ctl_n2_demo.window 0)
        + ext_n2_demo.ctmn2 (ctl_n2_demo.nu 0) (los_long_demo.p 0) (los_long_demo.t 0)
          / los_long_demo.ds 0 := by
  decide!

/-- C12, amended.  For every segment `ip` and channel `id < nd`, the value that
`formod_continua` returns in `beta[id]` is the window extinction
`los.k[ip][window[id]]` plus, for each enabled continuum, its contribution:
the values of the CO2 and H2O continua divided by the segment length `ds[ip]`,
and the values of the N2 and O2 continua as they are returned (not divided by
`ds`). -/
theorem formod_continua_sum (E : ext_t F) (ctl : ctl_t F) (los : los_t F) (ip id : Nat)
    (hid : id < ctl.nd) :
    formod_continua E ctl los ip id
      = los.k ip (ctl.window id)
        + (if ctl.ctm_co2 ≠ 0 then
            E.ctmco2 ctl (ctl.nu id) (los.p ip) (los.t ip) (los.u ip) / los.ds ip else 0)
        + (if ctl.ctm_h2o ≠ 0 then
            E.ctmh2o ctl (ctl.nu id) (los.p ip) (los.t ip) (los.q ip) (los.u ip) / los.ds ip
          else 0)
        + (if ctl.ctm_n2 ≠ 0 then E.ctmn2 (ctl.nu id) (los.p ip) (los.t ip) else 0)
        + (if ctl.ctm_o2 ≠ 0 then E.ctmo2 (ctl.nu id) (los.p ip) (los.t ip) else 0) := by
  unfold formod_continua
  split_ifs <;>
    simp only [for_loop_add, for_loop_set, if_pos hid, add_zero]

/-- Witness for the amended C12 on the configuration of the counterexample. -/
theorem formod_continua_sum_witness :
    0 < ctl_n2_demo.nd ∧
    formod_continua ext_n2_demo ctl_n2_demo los_long_demo 0 0
      = los_long_demo.k 0 (ctl_n2_demo.window 0)
        + (if ctl_n2_demo.ctm_co2 ≠ 0 then
            ext_n2_demo.ctmco2 ctl_n2_demo (ctl_n2_demo.nu 0) (los_long_demo.p 0)
              (los_long_demo.t 0) (los_long_demo.u 0) / los_long_demo.ds 0 else 0)
        + (if ctl_n2_demo.ctm_h2o ≠ 0 then
            ext_n2_demo.ctmh2o ctl_n2_demo (ctl_n2_demo.nu 0) (los_long_demo.p 0)
              (los_long_demo.t 0) (los_long_demo.q 0) (los_long_demo.u 0) / los_long_demo.ds 0
          else 0)
        + (if ctl_n2_demo.ctm_n2 ≠ 0 then
            ext_n2_demo.ctmn2 (ctl_n2_demo.nu 0) (los_long_demo.p 0) (los_long_demo.t 0) else 0)
        + (if ctl_n2_demo.ctm_o2 ≠ 0 then
            ext_n2_demo.ctmo2 (ctl_n2_demo.nu 0) (los_long_demo.p 0) (los_long_demo.t 0)
          else 0) :=
  ⟨by decide, formod_continua_sum ext_n2_demo ctl_n2_demo los_long_demo 0 0 (by decide)⟩

/-! ## C15: Planck round trip -/

/-- C15.  Planck round trip over the reals: when `gsl_expm1(x)` is
`exp(x) - 1`, `gsl_log1p(x)` is `log(1 + x)` and the radiation constants `C1`,
`C2` are positive, `brightness(planck(T, nu), nu) = T` for every temperature
`T > 0` and wavenumber `nu > 0`. -/
theorem planck_round_trip (E : ext_t ℝ)
    (hexpm1 : ∀ x, E.gsl_expm1 x = Real.exp x - 1)
    (hlog1p : ∀ x, E.gsl_log1p x = Real.log (1 + x))
    (hC1 : 0 < E.C1) (hC2 : 0 < E.C2) (T nu : ℝ) (hT : 0 < T) (hnu : 0 < nu) :
    brightness E (planck E T nu) nu = T := by
  unfold brightness planck
  rw [hexpm1, hlog1p]
  have ha : 0 < E.C2 * nu / T := div_pos (mul_pos hC2 hnu) hT
  have he : 0 < Real.exp (E.C2 * nu / T) - 1 := by
    have := Real.add_one_lt_exp (ne_of_gt ha)
    linarith
  have hc : 0 < E.C1 * (nu * nu * nu) := mul_pos hC1 (mul_pos (mul_pos hnu hnu) hnu)
  have h1 : E.C1 * (nu * nu * nu) / (E.C1 * (nu * nu * nu) / (Real.exp (E.C2 * nu / T) - 1))
      = Real.exp (E.C2 * nu / T) - 1 := by
    field_simp
  rw [h1]
  have h2 : 1 + (Real.exp (E.C2 * nu / T) - 1) = Real.exp (E.C2 * nu / T) := by ring
  rw [h2, Real.log_exp]
  field_simp

/-- Witness for C15 at `T = 250`, `nu = 1000` with `C1 = 1.19104259e-8` and
`C2 = 1.43877506`. -/
theorem planck_round_trip_witness :
    ((0 : ℝ) < 1.19104259e-8 ∧ (0 : ℝ) < 1.43877506 ∧ (0 : ℝ) < 250 ∧ (0 : ℝ) < 1000) ∧
    brightness
        (ext_of_libm Real.exp Real.log (fun x => Real.log (1 + x)) (fun x => Real.exp x - 1)
          1.19104259e-8 1.43877506)
        (planck
          (ext_of_libm Real.exp Real.log (fun x => Real.log (1 + x)) (fun x => Real.exp x - 1)
            1.19104259e-8 1.43877506) 250 1000) 1000 = 250 :=
  ⟨⟨by norm_num, by norm_num, by norm_num, by norm_num⟩,
    planck_round_trip
      (ext_of_libm Real.exp Real.log (fun x => Real.log (1 + x)) (fun x => Real.exp x - 1)
        1.19104259e-8 1.43877506)
      (fun _ => rfl) (fun _ => rfl)
      (show (0 : ℝ) < 1.19104259e-8 by norm_num) (show (0 : ℝ) < 1.43877506 by norm_num)
      250 1000 (by norm_num) (by norm_num)⟩

/-! ## C13: with the FOV disabled `formod` returns what the pencil beams wrote -/

theorem for_range_self {σ : Type} (lo : Nat) (body : Nat → σ → σ) (s : σ) :
    for_range lo lo body s = s := by
  simp [for_range]

theorem for_range_succ {σ : Type} (lo hi : Nat) (body : Nat → σ → σ) (s : σ) (h : lo ≤ hi) :
    for_range lo (hi + 1) body s = body hi (for_range lo hi body s) := by
  unfold for_range
  have e : hi + 1 - lo = (hi - lo) + 1 := by omega
  rw [e, List.range'_concat, List.foldl_append]
  simp only [List.foldl_cons, List.foldl_nil, mul_one]
  congr 1
  omega

theorem pencil_segments_frame (E : ext_t F) (S : static_t F) (ctl : ctl_t F) (atm : atm_t F)
    (aero : aero_t F) (scattering : Int) (ir : Nat) (los : los_t F) (n : Nat)
    (obs : obs_t F) (id jr : Nat) (h : jr ≠ ir) :
    (pencil_segments E S ctl atm aero scattering ir los n obs).1.rad id jr = obs.rad id jr ∧
    (pencil_segments E S ctl atm aero scattering ir los n obs).1.tau id jr = obs.tau id jr := by
  induction n with
  | zero => rw [pencil_segments_zero]; exact ⟨rfl, rfl⟩
  | succ k ih =>
    obtain ⟨h1, h2⟩ := pencil_segment_apply E S ctl atm aero scattering ir los k
      (pencil_segments E S ctl atm aero scattering ir los k obs)
    rw [pencil_segments_succ, h1, h2, if_neg (fun hc => h hc.2), if_neg (fun hc => h hc.2)]
    exact ih

/-- The pencil beam of ray `ir` leaves the entries of every other ray alone. -/
theorem formod_pencil_frame (E : ext_t F) (S : static_t F) (ctl : ctl_t F) (atm : atm_t F)
    (obs : obs_t F) (aero : aero_t F) (scattering : Int) (ir id jr : Nat) (h : jr ≠ ir) :
    (formod_pencil E S ctl atm obs aero scattering ir).rad id jr = obs.rad id jr ∧
    (formod_pencil E S ctl atm obs aero scattering ir).tau id jr = obs.tau id jr := by
  rw [formod_pencil_eq]
  obtain ⟨h1, h2⟩ := pencil_surface_apply E S ctl (pencil_los E ctl atm obs aero ir) ir
    (pencil_segments E S ctl atm aero scattering ir (pencil_los E ctl atm obs aero ir)
      (pencil_los E ctl atm obs aero ir).np (pencil_init ctl ir obs)).1
  obtain ⟨f1, f2⟩ := pencil_segments_frame E S ctl atm aero scattering ir
    (pencil_los E ctl atm obs aero ir) (pencil_los E ctl atm obs aero ir).np
    (pencil_init ctl ir obs) id jr h
  rw [h1, h2, if_neg (fun hc => h hc.2), f1, f2, (pencil_init_apply ctl ir obs).1,
    (pencil_init_apply ctl ir obs).2, if_neg (fun hc => h hc.2), if_neg (fun hc => h hc.2)]
  exact ⟨rfl, rfl⟩

theorem formod_rays_succ (E : ext_t F) (S : static_t F) (ctl : ctl_t F) (atm : atm_t F)
    (obs : obs_t F) (aero : aero_t F) (hi : Nat) (h : 1 ≤ hi) :
    formod_rays E S ctl atm obs aero (hi + 1)
      = formod_pencil E S ctl atm (formod_rays E S ctl atm obs aero hi) aero ctl.sca_mult hi := by
  unfold formod_rays
  rw [for_range_succ _ _ _ _ h]

/-- After the rays `0, ..., hi-1` the entries of a ray `ir < hi` are those that
its own pencil beam wrote. -/
theorem formod_rays_column (E : ext_t F) (S : static_t F) (ctl : ctl_t F) (atm : atm_t F)
    (obs : obs_t F) (aero : aero_t F) (ir id : Nat) (hi : Nat) (h : ir < hi) :
    (formod_rays E S ctl atm obs aero hi).rad id ir
      = (formod_pencil E S ctl atm (formod_before E S ctl atm obs aero ir) aero
          ctl.sca_mult ir).rad id ir ∧
    (formod_rays E S ctl atm obs aero hi).tau id ir
      = (formod_pencil E S ctl atm (formod_before E S ctl atm obs aero ir) aero
          ctl.sca_mult ir).tau id ir := by
  induction hi with
  | zero => omega
  | succ k ih =>
    by_cases hk : ir = k
    · subst hk
      by_cases h0 : ir = 0
      · subst h0
        unfold formod_before
        rw [if_pos rfl]
        unfold formod_rays
        rw [for_range_self]
        exact ⟨rfl, rfl⟩
      · rw [formod_rays_succ E S ctl atm obs aero ir (by omega)]
        unfold formod_before
        rw [if_neg h0]
        exact ⟨rfl, rfl⟩
    · have hlt : ir < k := by omega
      obtain ⟨i1, i2⟩ := ih hlt
      obtain ⟨f1, f2⟩ := formod_pencil_frame E S ctl atm (formod_rays E S ctl atm obs aero k)
        aero ctl.sca_mult k id ir hk
      rw [formod_rays_succ E S ctl atm obs aero k (by omega), f1, f2]
      exact ⟨i1, i2⟩

theorem formod_apply_mask_tau (ctl : ctl_t F) (mask : Nat → Nat → Bool) (obs : obs_t F) :
    (formod_apply_mask ctl mask obs).tau = obs.tau := by
  unfold formod_apply_mask
  refine for_loop_inv (fun o : obs_t F => o.tau = obs.tau) _ _ _ rfl ?_
  intro i st _ hst
  refine for_loop_inv (fun o : obs_t F => o.tau = obs.tau) _ _ _ hst ?_
  intro j o _ ho
  show (if mask i j = true then _ else o).tau = obs.tau
  split_ifs
  · exact ho
  · exact ho

theorem fov_sentinel (ctl : ctl_t F) (h : ctl.fov = "-") : ctl.fov.get 0 = '-' := by
  rw [h]
  decide

/-- C13.  FOV disabled is the identity: when `ctl.fov` is the sentinel `"-"`,
`formod_fov` returns the observations it was given; and when moreover
`write_bbt` is off, `formod` returns, and for every unmasked entry `(id, ir)`
with `id < nd`, `ir < nr` the returned radiance and transmittance are exactly
the values written by the call of `formod_pencil` for ray `ir`. -/
theorem fov_disabled_identity (E : ext_t F) (S : static_t F) (ctl : ctl_t F) (atm : atm_t F)
    (obs : obs_t F) (aero : aero_t F) (hfov : ctl.fov = "-") :
    (∀ o : obs_t F, formod_fov E S ctl o = some o) ∧
    (ctl.write_bbt = 0 →
      ∃ r, formod E S ctl atm obs aero = some r ∧
        ∀ id ir, id < ctl.nd → ir < obs.nr → gsl_finite (obs.rad id ir) = true →
          r.2.rad id ir
            = (formod_pencil E S ctl (E.hydrostatic ctl atm)
                (formod_before E S ctl (E.hydrostatic ctl atm) obs aero ir) aero
                ctl.sca_mult ir).rad id ir ∧
          r.2.tau id ir
            = (formod_pencil E S ctl (E.hydrostatic ctl atm)
                (formod_before E S ctl (E.hydrostatic ctl atm) obs aero ir) aero
                ctl.sca_mult ir).tau id ir) := by
  have hoff : ∀ o : obs_t F, formod_fov E S ctl o = some o :=
    fun o => formod_fov_disabled E S ctl o (fov_sentinel ctl hfov)
  refine ⟨hoff, ?_⟩
  intro hbbt
  have hret : formod E S ctl atm obs aero
      = some (E.hydrostatic ctl atm,
          formod_apply_mask ctl (formod_mask ctl obs)
            (formod_rays E S ctl (E.hydrostatic ctl atm) obs aero obs.nr)) := by
    unfold formod
    simp only
    rw [hoff, formod_pencil_nr]
    unfold formod_bbt
    simp only [hbbt, ne_eq, not_true_eq_false, if_false, Option.map_some']
    rfl
  refine ⟨_, hret, ?_⟩
  intro id ir hid hir hfin
  obtain ⟨c1, c2⟩ := formod_rays_column E S ctl (E.hydrostatic ctl atm) obs aero ir id obs.nr hir
  constructor
  · show (formod_apply_mask ctl (formod_mask ctl obs) _).rad id ir = _
    have hm : formod_mask ctl obs id ir = false := by
      rw [formod_mask_apply, if_pos ⟨hid, hir⟩, hfin]
      rfl
    rw [formod_apply_mask_rad, hm, ← c1]
    simp
  · show (formod_apply_mask ctl (formod_mask ctl obs) _).tau id ir = _
    rw [formod_apply_mask_tau, ← c2]

/-- Witness for C13: one unmasked ray, FOV sentinel `"-"`, `write_bbt = 0`;
`formod` returns `rad = 150`, `tau = 1/4`, the values of the pencil beam. -/
theorem fov_disabled_identity_witness :
    (ctl_demo.fov = "-" ∧ ctl_demo.write_bbt = 0 ∧ 0 < ctl_demo.nd ∧ 0 < obs_clear_demo.nr ∧
      gsl_finite (obs_clear_demo.rad 0 0) = true) ∧
    ∃ r, formod ext_iso_demo static_demo ctl_demo atm_demo obs_clear_demo aero_demo = some r ∧
      r.2.rad 0 0 = Dbl.fin 150 ∧ r.2.tau 0 0 = 1 / 4 := by
  obtain ⟨r, hr, hv⟩ := (fov_disabled_identity ext_iso_demo static_demo ctl_demo atm_demo
    obs_clear_demo aero_demo rfl).2 rfl
  obtain ⟨h1, h2⟩ := hv 0 0 (by decide) (by decide) rfl
  exact ⟨⟨rfl, rfl, by decide, by decide, rfl⟩, r, hr, h1.trans (by decide!),
    h2.trans (by decide!)⟩

/-! ## C14: when the FOV convolution stops the program -/

theorem fov_convolve_time (E : ext_t F) (S : static_t F) (ctl : ctl_t F) (ir : Nat)
    (pr : fov_prof_t F) (obs : obs_t F) : (fov_convolve E S ctl ir pr obs).time = obs.time := by
  unfold fov_convolve
  simp only
  refine for_loop_inv (fun o : obs_t F => o.time = obs.time) _ _ _ ?_ (fun i st _ h => h)
  refine for_loop_inv (fun st : obs_t F × F => st.1.time = obs.time) _ _ _ ?_ ?_
  · exact for_loop_inv (fun o : obs_t F => o.time = obs.time) _ _ _ rfl (fun i st _ h => h)
  · intro i st _ h
    exact for_loop_inv (fun o : obs_t F => o.time = obs.time) _ _ _ h (fun i st _ h => h)

theorem fov_bounds (E : ext_t F) (obs : obs_t F) (ir : Nat) :
    (GSL_MAX ((ir : Int) - E.NFOV) 0).toNat = ir - E.NFOV ∧
    (GSL_MIN ((ir : Int) + 1 + E.NFOV) obs.nr).toNat = min (ir + 1 + E.NFOV) obs.nr := by
  unfold GSL_MAX GSL_MIN
  constructor
  · split_ifs <;> omega
  · split_ifs <;> omega

theorem count_range (lo hi : Nat) (p : Nat → Prop) [DecidablePred p] :
    ((List.range' lo (hi - lo)).filter (fun i => decide (p i))).length
      = ((Finset.Ico lo hi).filter p).card := rfl

/-- The profile collected for ray `ir` has `fov_count` entries. -/
theorem fov_profile_nz (E : ext_t F) (ctl : ctl_t F) (obs obs2 : obs_t F) (ir : Nat)
    (pr : fov_prof_t F) : (fov_profile E ctl obs obs2 ir pr).nz = (fov_count E obs ir : Int) := by
  have hfold : ∀ (l : List Nat) (q : fov_prof_t F),
      (l.foldl (fun (pr : fov_prof_t F) ir2 =>
        if obs.time ir2 = obs.time ir then
          let pr := { pr with z := Function.update pr.z pr.nz (obs2.vpz ir2) }
          let pr := for_loop ctl.nd
            (fun id pr => { pr with rad := upd2 pr.rad id pr.nz (obs2.rad id ir2),
                                    tau := upd2 pr.tau id pr.nz (obs2.tau id ir2) }) pr
          { pr with nz := pr.nz + 1 }
        else pr) q).nz
        = q.nz + ((l.filter (fun ir2 => decide (obs.time ir2 = obs.time ir))).length : Int) := by
    intro l
    induction l with
    | nil => intro q; simp
    | cons a l ih =>
      intro q
      rw [List.foldl_cons, ih]
      by_cases ha : obs.time a = obs.time ir
      · have hin : (for_loop ctl.nd
            (fun id (pr : fov_prof_t F) =>
              { pr with rad := upd2 pr.rad id pr.nz (obs2.rad id a),
                        tau := upd2 pr.tau id pr.nz (obs2.tau id a) })
            { q with z := Function.update q.z q.nz (obs2.vpz a) }).nz = q.nz :=
          for_loop_inv (fun o : fov_prof_t F => o.nz = q.nz) _ _ _ rfl (fun i st _ h => h)
        simp only [ha, if_true, List.filter_cons, decide_True, List.length_cons, hin]
        push_cast
        ring
      · simp only [ha, if_false, List.filter_cons, decide_False]
        simp
  unfold fov_profile for_range
  rw [hfold, (fov_bounds E obs ir).1, (fov_bounds E obs ir).2, count_range]
  unfold fov_count
  simp

/-- The loop over the rays of `formod_fov`, with its state. -/
theorem fov_loop_outcome (E : ext_t F) (S : static_t F) (ctl : ctl_t F) (obs : obs_t F)
    (st0 : obs_t F × fov_prof_t F) (h0t : st0.1.time = obs.time) (h0n : st0.1.nr = obs.nr)
    (n : Nat) :
    ((∀ ir, ir < n → 2 ≤ fov_count E obs ir) ∧
      ∃ st, for_loop n
        (fun ir st => Option.bind st (fun st =>
          let pr := fov_profile E ctl st.1 obs ir st.2
          if pr.nz < 2 then none
          else some (fov_convolve E S ctl ir pr st.1, pr)))
        (some st0) = some st ∧ st.1.time = obs.time ∧ st.1.nr = obs.nr) ∨
    ((∃ ir, ir < n ∧ fov_count E obs ir < 2) ∧
      for_loop n
        (fun ir st => Option.bind st (fun st =>
          let pr := fov_profile E ctl st.1 obs ir st.2
          if pr.nz < 2 then none
          else some (fov_convolve E S ctl ir pr st.1, pr)))
        (some st0) = none) := by
  induction n with
  | zero =>
    left
    exact ⟨fun ir h => absurd h (Nat.not_lt_zero ir), st0, for_loop_zero _ _, h0t, h0n⟩
  | succ k ih =>
    rw [for_loop_succ]
    rcases ih with ⟨hall, st, hst, ht, hn⟩ | ⟨⟨ir, hir, hc⟩, hnone⟩
    · rw [hst]
      simp only [Option.some_bind]
      have hcnt : fov_count E st.1 k = fov_count E obs k := by
        unfold fov_count
        rw [ht, hn]
      rw [fov_profile_nz, hcnt]
      by_cases hk : fov_count E obs k < 2
      · right
        refine ⟨⟨k, Nat.lt_succ_self k, hk⟩, ?_⟩
        rw [if_pos (by exact_mod_cast hk)]
      · left
        refine ⟨?_, ?_⟩
        · intro ir hir
          by_cases e : ir = k
          · subst e; omega
          · exact hall ir (by omega)
        · rw [if_neg (by exact_mod_cast hk)]
          exact ⟨_, rfl, by rw [fov_convolve_time]; exact ht, by rw [fov_convolve_nr]; exact hn⟩
    · right
      refine ⟨⟨ir, by omega, hc⟩, ?_⟩
      rw [hnone]
      rfl

/-- C14.  With the FOV enabled, `formod_fov` stops with the error "Cannot apply
FOV convolution!" if and only if there is a ray `ir < nr` for which fewer than
2 rays `ir2` with `max(ir-NFOV, 0) ≤ ir2 < min(ir+1+NFOV, nr)` have
`time[ir2] = time[ir]`; otherwise it completes, and the profile of every ray
has at least 2 entries (the number of entries is the number of these rays). -/
theorem fov_fails_iff (E : ext_t F) (S : static_t F) (ctl : ctl_t F) (obs : obs_t F)
    (hen : ctl.fov.get 0 ≠ '-') :
    (formod_fov E S ctl obs = none ↔ ∃ ir, ir < obs.nr ∧ fov_count E obs ir < 2) ∧
    ((¬ ∃ ir, ir < obs.nr ∧ fov_count E obs ir < 2) →
      (∃ o, formod_fov E S ctl obs = some o) ∧
      ∀ ir, ir < obs.nr → ∀ pr : fov_prof_t F, 2 ≤ (fov_profile E ctl obs obs ir pr).nz) := by
  have hcase := fov_loop_outcome E S ctl obs
    (obs, (⟨0, fun _ => 0, fun _ _ => Dbl.fin 0, fun _ _ => 0⟩ : fov_prof_t F)) rfl rfl obs.nr
  have hunf : formod_fov E S ctl obs
      = (for_loop obs.nr
          (fun ir st => Option.bind st (fun st =>
            let pr := fov_profile E ctl st.1 obs ir st.2
            if pr.nz < 2 then none
            else some (fov_convolve E S ctl ir pr st.1, pr)))
          (some (obs, (⟨0, fun _ => 0, fun _ _ => Dbl.fin 0, fun _ _ => 0⟩ : fov_prof_t F)))).map
          Prod.fst := by
    unfold formod_fov
    rw [if_neg hen]
  constructor
  · constructor
    · intro hnone
      rcases hcase with ⟨_, st, hst, _, _⟩ | ⟨hex, _⟩
      · rw [hunf, hst] at hnone
        simp at hnone
      · exact hex
    · intro hex
      rcases hcase with ⟨hall, _⟩ | ⟨_, hnone⟩
      · obtain ⟨ir, hir, hc⟩ := hex
        have := hall ir hir
        omega
      · rw [hunf, hnone]
        rfl
  · intro hno
    rcases hcase with ⟨hall, st, hst, _, _⟩ | ⟨hex, _⟩
    · refine ⟨⟨st.1, by rw [hunf, hst]; rfl⟩, ?_⟩
      intro ir hir pr
      rw [fov_profile_nz]
      exact_mod_cast hall ir hir
    · exact absurd hex hno

theorem obs_pair_demo_counts :
    ¬ ∃ ir, ir < obs_pair_demo.nr ∧ fov_count ext_demo obs_pair_demo ir < 2 := by
  rintro ⟨ir, hir, hc⟩
  have h2 : ir < 2 := hir
  have hcases : ir = 0 ∨ ir = 1 := by omega
  rcases hcases with h | h <;> subst h <;> revert hc <;> decide!

/-- Witness for C14 with the FOV enabled: a single ray has only itself as a
neighbour and `formod_fov` stops; two rays with the same time stamp are
convolved. -/
theorem fov_fails_iff_witness :
    ctl_fov_demo.fov.get 0 ≠ '-' ∧
    (formod_fov ext_demo static_demo ctl_fov_demo obs_clear_demo = none ↔
      ∃ ir, ir < obs_clear_demo.nr ∧ fov_count ext_demo obs_clear_demo ir < 2) ∧
    formod_fov ext_demo static_demo ctl_fov_demo obs_clear_demo = none ∧
    ∃ o, formod_fov ext_demo static_demo ctl_fov_demo obs_pair_demo = some o :=
  ⟨by decide,
    (fov_fails_iff ext_demo static_demo ctl_fov_demo obs_clear_demo (by decide)).1,
    (fov_fails_iff ext_demo static_demo ctl_fov_demo obs_clear_demo (by decide)).1.mpr
      ⟨0, by decide, by decide!⟩,
    ((fov_fails_iff ext_demo static_demo ctl_fov_demo obs_pair_demo (by decide)).2
      obs_pair_demo_counts).1⟩


/-! ## C16: structure of the a-priori covariance -/

/-- Conditional updates of one element of a vector act on that element. -/
theorem for_loop_cond_update {α : Type} (n : Nat) (c : Nat → Prop) [DecidablePred c]
    (h : Nat → α → α) (x : Nat → α) (i : Nat) :
    for_loop n (fun ig x => if c ig then Function.update x i (h ig (x i)) else x) x
      = Function.update x i (for_loop n (fun ig v => if c ig then h ig v else v) (x i)) := by
  induction n with
  | zero => simp [for_loop_zero]
  | succ k ih =>
    rw [for_loop_succ, for_loop_succ, ih]
    by_cases hc : c k
    · rw [if_pos hc, if_pos hc, Function.update_same, Function.update_idem]
    · rw [if_neg hc, if_neg hc]

/-- A loop of conditional assignments none of whose conditions holds does nothing. -/
theorem for_loop_select_none {σ : Type} (n : Nat) (c : Nat → Prop) [DecidablePred c]
    (h : Nat → σ → σ) (v : σ) (hn : ∀ i, i < n → ¬ c i) :
    for_loop n (fun i v => if c i then h i v else v) v = v := by
  induction n with
  | zero => rw [for_loop_zero]
  | succ k ih =>
    rw [for_loop_succ, ih (fun i hi => hn i (Nat.lt_succ_of_lt hi)),
      if_neg (hn k (Nat.lt_succ_self k))]

/-- A loop of conditional assignments exactly one of whose conditions holds
performs that assignment. -/
theorem for_loop_select_one {σ : Type} (n : Nat) (c : Nat → Prop) [DecidablePred c]
    (h : Nat → σ → σ) (v : σ) (i0 : Nat) (hi0 : i0 < n) (hc : c i0)
    (hu : ∀ i, i < n → c i → i = i0) :
    for_loop n (fun i v => if c i then h i v else v) v = h i0 v := by
  induction n with
  | zero => omega
  | succ k ih =>
    rw [for_loop_succ]
    by_cases hk : i0 = k
    · subst hk
      rw [for_loop_select_none i0 c h v (fun i hi hci => by
        have := hu i (Nat.lt_succ_of_lt hi) hci; omega), if_pos hc]
    · have hlt : i0 < k := by omega
      rw [ih hlt (fun i hi hci => hu i (Nat.lt_succ_of_lt hi) hci),
        if_neg (fun hck => hk (hu k (Nat.lt_succ_self k) hck).symm)]

/-- The first loop of `set_cov_apr`, element by element. -/
theorem set_cov_apr_sigma_apply (R : rext_t F) (ret : ret_t F) (ctl : ctl_t F)
    (iqa : Nat → Int) (n : Nat) (x : Nat → F) (j : Nat) :
    set_cov_apr_sigma R ret ctl iqa n x j
      = if j < n then set_cov_apr_elem R ret ctl (iqa j) (x j) else x j := by
  unfold set_cov_apr_sigma
  rw [for_loop_congr n _
    (fun i b => Function.update b i (set_cov_apr_elem R ret ctl (iqa i) (b i))) x ?_]
  · exact for_loop_update n (fun i v => set_cov_apr_elem R ret ctl (iqa i) v) x j
  · intro i st _
    simp only
    rw [for_loop_cond_update ctl.nw (fun iw => iqa i = R.IDXK iw) (fun iw _ => ret.err_k iw),
      for_loop_cond_update ctl.ng (fun ig => iqa i = R.IDXQ ig)
        (fun ig v => ret.err_q ig / 100 * v)]
    unfold set_cov_apr_elem
    by_cases hp : iqa i = R.IDXP <;> by_cases ht : iqa i = R.IDXT
    · simp only [if_pos hp, if_pos ht, Function.update_same, Function.update_idem]
    · simp only [if_pos hp, if_neg ht, Function.update_same, Function.update_idem]
    · simp only [if_neg hp, if_pos ht, Function.update_same, Function.update_idem]
    · simp only [if_neg hp, if_neg ht, Function.update_same, Function.update_idem]



/-- Under pairwise different tags the first loop of `set_cov_apr` yields the
standard deviation of the specification. -/
theorem set_cov_apr_elem_spec (R : rext_t F) (ret : ret_t F) (ctl : ctl_t F)
    (hd : tags_distinct R ctl) (tag : Int) (x sigma : F)
    (h : apr_sigma R ret ctl tag x sigma) : set_cov_apr_elem R ret ctl tag x = sigma := by
  obtain ⟨hPT, hQ, hK, hQK, hQi, hKi⟩ := hd
  unfold set_cov_apr_elem
  rcases h with ⟨ht, hs⟩ | ⟨ht, hs⟩ | ⟨ig, hig, ht, hs⟩ | ⟨iw, hiw, ht, hs⟩
  · have hnT : ¬ tag = R.IDXT := fun he => hPT (ht.symm.trans he)
    simp only [if_pos ht, if_neg hnT]
    rw [for_loop_select_none ctl.ng _ _ _ (fun i hi he => (hQ i hi).1 (he.symm.trans ht)),
      for_loop_select_none ctl.nw _ _ _ (fun i hi he => (hK i hi).1 (he.symm.trans ht))]
    exact hs.symm
  · have hnP : ¬ tag = R.IDXP := fun he => hPT (he.symm.trans ht)
    simp only [if_neg hnP, if_pos ht]
    rw [for_loop_select_none ctl.ng _ _ _ (fun i hi he => (hQ i hi).2 (he.symm.trans ht)),
      for_loop_select_none ctl.nw _ _ _ (fun i hi he => (hK i hi).2 (he.symm.trans ht))]
    exact hs.symm
  · have hnP : ¬ tag = R.IDXP := fun he => (hQ ig hig).1 (ht.symm.trans he)
    have hnT : ¬ tag = R.IDXT := fun he => (hQ ig hig).2 (ht.symm.trans he)
    simp only [if_neg hnP, if_neg hnT]
    rw [for_loop_select_one ctl.ng (fun i => tag = R.IDXQ i)
        (fun i v => ret.err_q i / 100 * v) x ig hig ht
        (fun i hi he => hQi i ig hi hig (he.symm.trans ht)),
      for_loop_select_none ctl.nw _ _ _
        (fun i hi he => hQK ig i hig hi (ht.symm.trans he))]
    exact hs.symm
  · simp only
    rw [for_loop_select_one ctl.nw (fun i => tag = R.IDXK i)
        (fun i _ => ret.err_k i) _ iw hiw ht
        (fun i hi he => hKi i iw hi hiw (he.symm.trans ht))]
    exact hs.symm

/-- Under pairwise different tags the last loop of `set_cov_apr` selects the
correlation lengths of the specification. -/
theorem set_cov_apr_lengths_spec (R : rext_t F) (ret : ret_t F) (ctl : ctl_t F)
    (hd : tags_distinct R ctl) (tag : Int) (cz ch : F)
    (h : apr_lengths R ret ctl tag cz ch) : set_cov_apr_lengths R ret ctl tag = (cz, ch) := by
  obtain ⟨hPT, hQ, hK, hQK, hQi, hKi⟩ := hd
  unfold set_cov_apr_lengths
  rcases h with ⟨ht, h1, h2⟩ | ⟨ht, h1, h2⟩ | ⟨ig, hig, ht, h1, h2⟩ | ⟨iw, hiw, ht, h1, h2⟩
  · have hnT : ¬ tag = R.IDXT := fun he => hPT (ht.symm.trans he)
    simp only [if_pos ht, if_neg hnT]
    rw [for_loop_select_none ctl.ng _ _ _ (fun i hi he => (hQ i hi).1 (he.symm.trans ht)),
      for_loop_select_none ctl.nw _ _ _ (fun i hi he => (hK i hi).1 (he.symm.trans ht)),
      h1, h2]
  · have hnP : ¬ tag = R.IDXP := fun he => hPT (he.symm.trans ht)
    simp only [if_neg hnP, if_pos ht]
    rw [for_loop_select_none ctl.ng _ _ _ (fun i hi he => (hQ i hi).2 (he.symm.trans ht)),
      for_loop_select_none ctl.nw _ _ _ (fun i hi he => (hK i hi).2 (he.symm.trans ht)),
      h1, h2]
  · have hnP : ¬ tag = R.IDXP := fun he => (hQ ig hig).1 (ht.symm.trans he)
    have hnT : ¬ tag = R.IDXT := fun he => (hQ ig hig).2 (ht.symm.trans he)
    simp only [if_neg hnP, if_neg hnT]
    rw [for_loop_select_one ctl.ng (fun i => tag = R.IDXQ i)
        (fun i _ => (ret.err_q_cz i, ret.err_q_ch i)) _ ig hig ht
        (fun i hi he => hQi i ig hi hig (he.symm.trans ht)),
      for_loop_select_none ctl.nw _ _ _
        (fun i hi he => hQK ig i hig hi (ht.symm.trans he)), h1, h2]
  · simp only
    rw [for_loop_select_one ctl.nw (fun i => tag = R.IDXK i)
        (fun i _ => (ret.err_k_cz i, ret.err_k_ch i)) _ iw hiw ht
        (fun i hi he => hKi i iw hi hiw (he.symm.trans ht)), h1, h2]

/-- The loop that sets the diagonal of a matrix, entry by entry. -/
theorem for_loop_diag {α : Type} (n : Nat) (v : Nat → α) (s0 : Nat → Nat → α) (a b : Nat) :
    for_loop n (fun i s => upd2 s i i (v i)) s0 a b
      = if a = b ∧ a < n then v a else s0 a b := by
  induction n with
  | zero => simp [for_loop_zero]
  | succ k ih =>
    rw [for_loop_succ, upd2_apply, ih]
    by_cases h1 : a = k ∧ b = k
    · obtain ⟨rfl, rfl⟩ := h1
      simp
    · rw [if_neg h1]
      by_cases h2 : a = b ∧ a < k
      · rw [if_pos h2, if_pos ⟨h2.1, by omega⟩]
      · rw [if_neg h2, if_neg (fun h3 => by
          rcases h3 with ⟨h4, h5⟩
          by_cases h6 : a = k
          · exact h1 ⟨h6, by omega⟩
          · exact h2 ⟨h4, by omega⟩)]

/-- The inner loop over the columns of row `i` with guarded assignments,
entry by entry. -/
theorem for_loop_row_upd {α : Type} (m : Nat) (i : Nat) (c1 c2 : Nat → Prop)
    [DecidablePred c1] [DecidablePred c2] (w : Nat → α) (s0 : Nat → Nat → α) (a b : Nat) :
    for_loop m (fun j s => if c1 j then (if c2 j then upd2 s i j (w j) else s) else s) s0 a b
      = if a = i ∧ b < m ∧ c1 b ∧ c2 b then w b else s0 a b := by
  induction m with
  | zero => simp [for_loop_zero]
  | succ k ih =>
    rw [for_loop_succ]
    by_cases hc : c1 k ∧ c2 k
    · rw [if_pos hc.1, if_pos hc.2, upd2_apply, ih]
      by_cases h1 : a = i ∧ b = k
      · obtain ⟨rfl, rfl⟩ := h1
        rw [if_pos ⟨rfl, rfl⟩, if_pos ⟨rfl, Nat.lt_succ_self _, hc⟩]
      · rw [if_neg h1]
        by_cases h2 : a = i ∧ b < k ∧ c1 b ∧ c2 b
        · rw [if_pos h2, if_pos ⟨h2.1, by omega, h2.2.2⟩]
        · rw [if_neg h2, if_neg (fun h3 => by
            rcases h3 with ⟨h4, h5, h6⟩
            by_cases h7 : b = k
            · exact h1 ⟨h4, h7⟩
            · exact h2 ⟨h4, by omega, h6⟩)]
    · have hb : (if c1 k then (if c2 k then
          upd2 (for_loop k (fun j s => if c1 j then (if c2 j then upd2 s i j (w j) else s) else s)
            s0) i k (w k)
          else for_loop k (fun j s =>
            if c1 j then (if c2 j then upd2 s i j (w j) else s) else s) s0)
          else for_loop k (fun j s =>
            if c1 j then (if c2 j then upd2 s i j (w j) else s) else s) s0)
          = for_loop k (fun j s =>
            if c1 j then (if c2 j then upd2 s i j (w j) else s) else s) s0 := by
        by_cases h1 : c1 k
        · rw [if_pos h1, if_neg (fun h2 => hc ⟨h1, h2⟩)]
        · rw [if_neg h1]
      rw [hb, ih]
      by_cases h2 : a = i ∧ b < k ∧ c1 b ∧ c2 b
      · rw [if_pos h2, if_pos ⟨h2.1, by omega, h2.2.2⟩]
      · rw [if_neg h2, if_neg (fun h3 => by
          rcases h3 with ⟨h4, h5, h6⟩
          by_cases h7 : b = k
          · subst h7; exact hc h6
          · exact h2 ⟨h4, by omega, h6⟩)]

/-- The double loop over the entries of a matrix with guarded assignments,
entry by entry. -/
theorem for_loop_matrix_upd {α : Type} (n m : Nat) (c1 c2 : Nat → Nat → Prop)
    [∀ i, DecidablePred (c1 i)] [∀ i, DecidablePred (c2 i)] (w : Nat → Nat → α)
    (s0 : Nat → Nat → α) (a b : Nat) :
    for_loop n (fun i s => for_loop m
        (fun j s => if c1 i j then (if c2 i j then upd2 s i j (w i j) else s) else s) s) s0 a b
      = if a < n ∧ b < m ∧ c1 a b ∧ c2 a b then w a b else s0 a b := by
  induction n with
  | zero => simp [for_loop_zero]
  | succ k ih =>
    rw [for_loop_succ, for_loop_row_upd m k (c1 k) (c2 k) (w k), ih]
    by_cases h1 : a = k
    · subst h1
      by_cases h2 : b < m ∧ c1 a b ∧ c2 a b
      · rw [if_pos ⟨rfl, h2⟩, if_pos ⟨Nat.lt_succ_self _, h2⟩]
      · rw [if_neg (fun h3 => h2 h3.2), if_neg (fun h3 => (Nat.lt_irrefl a) h3.1),
          if_neg (fun h3 => h2 h3.2)]
    · rw [if_neg (fun h3 => h1 h3.1)]
      by_cases h2 : a < k ∧ b < m ∧ c1 a b ∧ c2 a b
      · rw [if_pos h2, if_pos ⟨by omega, h2.2⟩]
      · rw [if_neg h2, if_neg (fun h3 => h2 ⟨by omega, h3.2⟩)]



/-- The matrix of `set_cov_apr`, entry by entry. -/
theorem set_cov_apr_apply (E : ext_t F) (R : rext_t F) (ret : ret_t F) (ctl : ctl_t F)
    (atm : atm_t F) (iqa : Nat → Int) (ipa : Nat → Nat) (n a b : Nat) :
    set_cov_apr E R ret ctl atm iqa ipa n a b
      = if a < n ∧ b < n ∧ (a ≠ b ∧ iqa a = iqa b) ∧
            ((set_cov_apr_lengths R ret ctl (iqa a)).1 > 0 ∧
              (set_cov_apr_lengths R ret ctl (iqa a)).2 > 0) then
          set_cov_apr_sigma R ret ctl iqa n (R.atm2x ctl atm).x a
            * set_cov_apr_sigma R ret ctl iqa n (R.atm2x ctl atm).x b
            * corr_function E R (atm.z (ipa a)) (atm.lon (ipa a)) (atm.lat (ipa a))
                (atm.z (ipa b)) (atm.lon (ipa b)) (atm.lat (ipa b))
                (set_cov_apr_lengths R ret ctl (iqa a)).1
                (set_cov_apr_lengths R ret ctl (iqa a)).2
        else if a = b ∧ a < n then
          gsl_pow_2 (set_cov_apr_sigma R ret ctl iqa n (R.atm2x ctl atm).x a)
        else 0 := by
  unfold set_cov_apr
  exact (for_loop_matrix_upd n n (fun i j => i ≠ j ∧ iqa i = iqa j)
    (fun i _ => (set_cov_apr_lengths R ret ctl (iqa i)).1 > 0 ∧
      (set_cov_apr_lengths R ret ctl (iqa i)).2 > 0)
    (fun i j => set_cov_apr_sigma R ret ctl iqa n (R.atm2x ctl atm).x i
      * set_cov_apr_sigma R ret ctl iqa n (R.atm2x ctl atm).x j
      * corr_function E R (atm.z (ipa i)) (atm.lon (ipa i)) (atm.lat (ipa i))
          (atm.z (ipa j)) (atm.lon (ipa j)) (atm.lat (ipa j))
          (set_cov_apr_lengths R ret ctl (iqa i)).1
          (set_cov_apr_lengths R ret ctl (iqa i)).2) _ a b).trans
    (by rw [for_loop_diag])

/-- C16 (a-priori covariance structure): when the quantity tags are pairwise
different, the matrix `S_a` of `set_cov_apr` has `S_a[i,i] = sigma_i^2`,
where `sigma_i` is `err_press/100 * x_a[i]` for pressure, `err_temp` for
temperature, `err_q[ig]/100 * x_a[i]` for gas `ig` and `err_k[iw]` for window
`iw`; and for `i ≠ j`, `S_a[i,j] = sigma_i * sigma_j * exp(-d_h/ch - |z_i - z_j|/cz)`
when `iqa[i] = iqa[j]` and the correlation lengths `cz`, `ch` of that quantity
are both positive, and `S_a[i,j] = 0` otherwise.  Here `d_h` is the distance
`DIST` of the Cartesian positions of the two grid points at altitude 0. -/
theorem set_cov_apr_structure (E : ext_t F) (R : rext_t F) (ret : ret_t F) (ctl : ctl_t F)
    (atm : atm_t F) (iqa : Nat → Int) (ipa : Nat → Nat) (n : Nat)
    (hd : tags_distinct R ctl) :
    (∀ i sigma, i < n → apr_sigma R ret ctl (iqa i) ((R.atm2x ctl atm).x i) sigma →
      set_cov_apr E R ret ctl atm iqa ipa n i i = sigma ^ 2) ∧
    (∀ i j si sj cz ch, i < n → j < n → i ≠ j →
      apr_sigma R ret ctl (iqa i) ((R.atm2x ctl atm).x i) si →
      apr_sigma R ret ctl (iqa j) ((R.atm2x ctl atm).x j) sj →
      apr_lengths R ret ctl (iqa i) cz ch →
      set_cov_apr E R ret ctl atm iqa ipa n i j
        = if iqa i = iqa j ∧ 0 < cz ∧ 0 < ch then
            si * sj * E.exp
              (-R.DIST (E.geo2cart 0 (atm.lon (ipa i)) (atm.lat (ipa i)))
                  (E.geo2cart 0 (atm.lon (ipa j)) (atm.lat (ipa j))) / ch
                - |atm.z (ipa i) - atm.z (ipa j)| / cz)
          else 0) := by
  constructor
  · intro i sigma hi hs
    rw [set_cov_apr_apply, if_neg (fun h => h.2.2.1.1 rfl), if_pos ⟨rfl, hi⟩,
      set_cov_apr_sigma_apply, if_pos hi, set_cov_apr_elem_spec R ret ctl hd _ _ _ hs]
    unfold gsl_pow_2
    ring
  · intro i j si sj cz ch hi hj hij hsi hsj hl
    rw [set_cov_apr_apply, set_cov_apr_lengths_spec R ret ctl hd _ _ _ hl,
      set_cov_apr_sigma_apply, if_pos hi, set_cov_apr_sigma_apply, if_pos hj,
      set_cov_apr_elem_spec R ret ctl hd _ _ _ hsi, set_cov_apr_elem_spec R ret ctl hd _ _ _ hsj]
    by_cases hc : iqa i = iqa j ∧ 0 < cz ∧ 0 < ch
    · rw [if_pos hc, if_pos ⟨hi, hj, ⟨hij, hc.1⟩, hc.2.1, hc.2.2⟩]
      rfl
    · rw [if_neg hc, if_neg (fun h => hc ⟨h.2.2.1.2, h.2.2.2.1, h.2.2.2.2⟩),
        if_neg (fun h => hij h.1)]

/-- The tags of `rext_demo` are pairwise different for one gas and one window. -/
theorem rext_demo_tags : tags_distinct rext_demo ctl_demo := by
  refine ⟨by decide, ?_, ?_, ?_, ?_, ?_⟩
  · intro ig hig
    have h0 : ig = 0 := by
      have : ig < 1 := hig
      omega
    subst h0
    exact ⟨by decide, by decide⟩
  · intro iw hiw
    have h0 : iw = 0 := by
      have : iw < 1 := hiw
      omega
    subst h0
    exact ⟨by decide, by decide⟩
  · intro ig iw hig hiw
    have h0 : ig = 0 := by
      have : ig < 1 := hig
      omega
    have h1 : iw = 0 := by
      have : iw < 1 := hiw
      omega
    subst h0 h1
    decide
  · intro ig ig2 hig hig2 _
    have h0 : ig < 1 := hig
    have h1 : ig2 < 1 := hig2
    omega
  · intro iw iw2 hiw hiw2 _
    have h0 : iw < 1 := hiw
    have h1 : iw2 < 1 := hiw2
    omega

/-- Witness for C16: two temperature elements at the altitudes 0 km and 1 km
with `err_temp = 100` and correlation lengths of 1 km have variance `100^2`
and covariance `100 * 100 * exp_demo (-0/1 - |0 - 1|/1) = 5000`. -/
theorem set_cov_apr_structure_witness :
    tags_distinct rext_demo ctl_demo ∧
    set_cov_apr ext_demo rext_demo ret_corr_demo ctl_demo atm_pair_demo
      (fun _ => 1) (fun i => i) 2 0 0 = 100 ^ 2 ∧
    set_cov_apr ext_demo rext_demo ret_corr_demo ctl_demo atm_pair_demo
      (fun _ => 1) (fun i => i) 2 0 1 = 5000 := by
  have h := set_cov_apr_structure ext_demo rext_demo ret_corr_demo ctl_demo atm_pair_demo
    (fun _ => 1) (fun i => i) 2 rext_demo_tags
  have hs : ∀ i, apr_sigma rext_demo ret_corr_demo ctl_demo 1
      ((rext_demo.atm2x ctl_demo atm_pair_demo).x i) 100 :=
    fun i => Or.inr (Or.inl ⟨rfl, rfl⟩)
  refine ⟨rext_demo_tags, h.1 0 100 (by decide) (hs 0), ?_⟩
  rw [h.2 0 1 100 100 1 1 (by decide) (by decide) (by decide) (hs 0) (hs 1)
    (Or.inr (Or.inl ⟨rfl, rfl, rfl⟩))]
  decide!



/-! ## C17: when the kernel and `H = K^T S_eps^-1 K` are recomputed -/

/-- C17 (kernel recomputation policy): for `kernel_recomp ≥ 1` and an outer
iteration `it ≥ 1`, the kernel `k_i` is recomputed in iteration `it` if and
only if `it mod kernel_recomp = 0` and not (`kernel_recomp = 1` and `it = 1`),
and otherwise kept; `cov = K^T S_eps^-1 K` is recomputed from the kernel of
this iteration if and only if `it mod kernel_recomp = 0` or `it = 1`, and
otherwise kept.  With `kernel_recomp = 1` the first iteration keeps the
kernel computed before the loop, every later iteration recomputes it, and
every iteration recomputes `cov`. -/
theorem kernel_recomputation_policy (R : rext_t F) (C : lm_ctx_t F) (it : Int) (st : lm_t F)
    (hkr : 1 ≤ C.ret.kernel_recomp) (hit : 1 ≤ it) :
    (lm_kernel R C it st).k_i
      = (if it % C.ret.kernel_recomp = 0 ∧ ¬(C.ret.kernel_recomp = 1 ∧ it = 1) then
          R.kernel C.ctl st.atm_i st.obs_i C.aero
        else st.k_i) ∧
    (lm_kernel R C it st).cov
      = (if it % C.ret.kernel_recomp = 0 ∨ it = 1 then
          R.matrix_product C.m C.n (lm_kernel R C it st).k_i C.sig_eps_inv 1
        else st.cov) ∧
    (C.ret.kernel_recomp = 1 → it = 1 → (lm_kernel R C it st).k_i = st.k_i) ∧
    (C.ret.kernel_recomp = 1 → 2 ≤ it →
      (lm_kernel R C it st).k_i = R.kernel C.ctl st.atm_i st.obs_i C.aero) ∧
    (C.ret.kernel_recomp = 1 →
      (lm_kernel R C it st).cov
        = R.matrix_product C.m C.n (lm_kernel R C it st).k_i C.sig_eps_inv 1) := by
  have hmod : Int.tmod it C.ret.kernel_recomp = it % C.ret.kernel_recomp :=
    Int.tmod_eq_emod (by omega) (by omega)
  have hk : (lm_kernel R C it st).k_i
      = (if it % C.ret.kernel_recomp = 0 ∧ ¬(C.ret.kernel_recomp = 1 ∧ it = 1) then
          R.kernel C.ctl st.atm_i st.obs_i C.aero
        else st.k_i) := by
    unfold lm_kernel
    rw [hmod]
    split_ifs <;> rfl
  have hc : (lm_kernel R C it st).cov
      = (if it % C.ret.kernel_recomp = 0 ∨ it = 1 then
          R.matrix_product C.m C.n (lm_kernel R C it st).k_i C.sig_eps_inv 1
        else st.cov) := by
    unfold lm_kernel
    rw [hmod]
    split_ifs <;> rfl
  refine ⟨hk, hc, ?_, ?_, ?_⟩
  · intro h1 h2
    rw [hk, if_neg (fun h => h.2 ⟨h1, h2⟩)]
  · intro h1 h2
    rw [hk, if_pos ⟨by rw [h1]; exact Int.emod_one it, fun h => by omega⟩]
  · intro h1
    rw [hc, if_pos (Or.inl (by rw [h1]; exact Int.emod_one it))]

/-- Witness for C17: with `kernel_recomp = 1` the first iteration keeps the
kernel `-0.016` computed before the loop. -/
theorem kernel_recomputation_policy_witness :
    1 ≤ lm_ctx_demo.ret.kernel_recomp ∧ (1 : Int) ≤ 1 ∧
    (lm_kernel rext_demo lm_ctx_demo 1 lm_demo).k_i = lm_demo.k_i :=
  ⟨by decide, by decide,
    (kernel_recomputation_policy rext_demo lm_ctx_demo 1 lm_demo (by decide) (by decide)).2.2.1
      rfl rfl⟩



/-! ## C18: the clamp into the physical ranges -/

/-- The loop over the gases at the grid point `ip`, entry by entry. -/
theorem clamp_q_loop (n ip : Nat) (atm : atm_t F) :
    for_loop n
      (fun ig atm => { atm with q := upd2 atm.q ig ip (GSL_MIN (GSL_MAX (atm.q ig ip) 0) 1) })
      atm
      = { atm with q := fun ig2 ip2 =>
            if ig2 < n ∧ ip2 = ip then GSL_MIN (GSL_MAX (atm.q ig2 ip) 0) 1 else atm.q ig2 ip2 } := by
  induction n with
  | zero => simp [for_loop_zero]
  | succ k ih =>
    rw [for_loop_succ, ih]
    simp only
    congr 1
    funext ig2 ip2
    rw [upd2_apply]
    by_cases h1 : ig2 = k ∧ ip2 = ip
    · obtain ⟨rfl, rfl⟩ := h1
      simp
    · rw [if_neg h1]
      by_cases h2 : ig2 < k ∧ ip2 = ip
      · rw [if_pos h2, if_pos ⟨by omega, h2.2⟩]
      · rw [if_neg h2, if_neg (fun h3 => by
          by_cases h4 : ig2 = k
          · exact h1 ⟨h4, h3.2⟩
          · exact h2 ⟨by omega, h3.2⟩)]

/-- The loop over the windows at the grid point `ip`, entry by entry. -/
theorem clamp_k_loop (n ip : Nat) (atm : atm_t F) :
    for_loop n
      (fun iw atm => { atm with k := upd2 atm.k iw ip (GSL_MAX (atm.k iw ip) 0) })
      atm
      = { atm with k := fun iw2 ip2 =>
            if iw2 < n ∧ ip2 = ip then GSL_MAX (atm.k iw2 ip) 0 else atm.k iw2 ip2 } := by
  induction n with
  | zero => simp [for_loop_zero]
  | succ k ih =>
    rw [for_loop_succ, ih]
    simp only
    congr 1
    funext iw2 ip2
    rw [upd2_apply]
    by_cases h1 : iw2 = k ∧ ip2 = ip
    · obtain ⟨rfl, rfl⟩ := h1
      simp
    · rw [if_neg h1]
      by_cases h2 : iw2 < k ∧ ip2 = ip
      · rw [if_pos h2, if_pos ⟨by omega, h2.2⟩]
      · rw [if_neg h2, if_neg (fun h3 => by
          by_cases h4 : iw2 = k
          · exact h1 ⟨h4, h3.2⟩
          · exact h2 ⟨by omega, h3.2⟩)]

/-- The clamp at one grid point, field by field. -/
theorem clamp_atm_point_eq (ctl : ctl_t F) (ip : Nat) (atm : atm_t F) :
    clamp_atm_point ctl ip atm
      = { atm with
          p := Function.update atm.p ip (GSL_MIN (GSL_MAX (atm.p ip) (5 / 10000000)) 50000),
          t := Function.update atm.t ip (GSL_MIN (GSL_MAX (atm.t ip) 100) 400),
          q := fun ig2 ip2 =>
            if ig2 < ctl.ng ∧ ip2 = ip then GSL_MIN (GSL_MAX (atm.q ig2 ip) 0) 1
            else atm.q ig2 ip2,
          k := fun iw2 ip2 =>
            if iw2 < ctl.nw ∧ ip2 = ip then GSL_MAX (atm.k iw2 ip) 0 else atm.k iw2 ip2 } := by
  unfold clamp_atm_point
  simp only
  rw [clamp_q_loop, clamp_k_loop]

/-- The clamp loop over the first `n` grid points, field by field. -/
theorem clamp_atm_loop (ctl : ctl_t F) (atm : atm_t F) (n : Nat) :
    for_loop n (clamp_atm_point ctl) atm
      = { atm with
          p := fun ip =>
            if ip < n then GSL_MIN (GSL_MAX (atm.p ip) (5 / 10000000)) 50000 else atm.p ip,
          t := fun ip => if ip < n then GSL_MIN (GSL_MAX (atm.t ip) 100) 400 else atm.t ip,
          q := fun ig ip =>
            if ig < ctl.ng ∧ ip < n then GSL_MIN (GSL_MAX (atm.q ig ip) 0) 1 else atm.q ig ip,
          k := fun iw ip =>
            if iw < ctl.nw ∧ ip < n then GSL_MAX (atm.k iw ip) 0 else atm.k iw ip } := by
  induction n with
  | zero => simp [for_loop_zero]
  | succ k ih =>
    rw [for_loop_succ, ih, clamp_atm_point_eq]
    simp only
    congr 1
    · funext ip
      by_cases h1 : ip = k
      · subst h1
        simp
      · have h2 : ip < k + 1 ↔ ip < k := by omega
        rw [Function.update_noteq h1]
        simp only [h2]
    · funext ip
      by_cases h1 : ip = k
      · subst h1
        simp
      · have h2 : ip < k + 1 ↔ ip < k := by omega
        rw [Function.update_noteq h1]
        simp only [h2]
    · funext ig ip
      by_cases h1 : ip = k
      · subst h1
        simp
      · have h2 : ip < k + 1 ↔ ip < k := by omega
        simp only [h1, h2, and_false, if_false]
    · funext iw ip
      by_cases h1 : ip = k
      · subst h1
        simp
      · have h2 : ip < k + 1 ↔ ip < k := by omega
        simp only [h1, h2, and_false, if_false]

/-- A clamp `GSL_MIN(GSL_MAX(x, lo), hi)` with `lo ≤ hi` lies in `[lo, hi]`
and leaves a value of `[lo, hi]` unchanged. -/
theorem clamp_range (x lo hi : F) (h : lo ≤ hi) :
    lo ≤ GSL_MIN (GSL_MAX x lo) hi ∧ GSL_MIN (GSL_MAX x lo) hi ≤ hi ∧
    (lo ≤ x → x ≤ hi → GSL_MIN (GSL_MAX x lo) hi = x) := by
  unfold GSL_MIN GSL_MAX
  refine ⟨?_, ?_, ?_⟩
  · split_ifs <;> linarith
  · split_ifs <;> linarith
  · intro h1 h2
    split_ifs <;> linarith

/-- The lower clamp `GSL_MAX(x, 0)` is non-negative and leaves a
non-negative value unchanged. -/
theorem clamp_lower (x : F) : 0 ≤ GSL_MAX x 0 ∧ (0 ≤ x → GSL_MAX x 0 = x) := by
  unfold GSL_MAX
  refine ⟨?_, ?_⟩
  · split_ifs <;> linarith
  · intro h1
    split_ifs <;> linarith



/-- C18 (physical clamp): the atmosphere that an inner Levenberg-Marquardt
attempt passes to the forward model is the clamped atmosphere
`lm_trial_atm`; whatever the state vector `x_i` after the step, it has the
grid of the atmosphere written by `x2atm` and at every grid point `ip < np`
it satisfies `5e-7 ≤ p ≤ 5e4`, `100 ≤ T ≤ 400`, `0 ≤ q[ig] ≤ 1` for every gas
`ig < ng` and `k[iw] ≥ 0` for every window `iw < nw`; a value that `x2atm`
wrote inside its bounds is left unchanged. -/
theorem clamp_physical (R : rext_t F) (C : lm_ctx_t F) (x_i : Nat → F) (ip : Nat)
    (hip : ip < (R.x2atm C.ctl x_i C.atm_apr).np) :
    (lm_trial_atm R C x_i).np = (R.x2atm C.ctl x_i C.atm_apr).np ∧
    (5 / 10000000 ≤ (lm_trial_atm R C x_i).p ip ∧ (lm_trial_atm R C x_i).p ip ≤ 50000) ∧
    (100 ≤ (lm_trial_atm R C x_i).t ip ∧ (lm_trial_atm R C x_i).t ip ≤ 400) ∧
    (∀ ig, ig < C.ctl.ng →
      0 ≤ (lm_trial_atm R C x_i).q ig ip ∧ (lm_trial_atm R C x_i).q ig ip ≤ 1) ∧
    (∀ iw, iw < C.ctl.nw → 0 ≤ (lm_trial_atm R C x_i).k iw ip) ∧
    (5 / 10000000 ≤ (R.x2atm C.ctl x_i C.atm_apr).p ip →
      (R.x2atm C.ctl x_i C.atm_apr).p ip ≤ 50000 →
      (lm_trial_atm R C x_i).p ip = (R.x2atm C.ctl x_i C.atm_apr).p ip) ∧
    (100 ≤ (R.x2atm C.ctl x_i C.atm_apr).t ip → (R.x2atm C.ctl x_i C.atm_apr).t ip ≤ 400 →
      (lm_trial_atm R C x_i).t ip = (R.x2atm C.ctl x_i C.atm_apr).t ip) ∧
    (∀ ig, ig < C.ctl.ng → 0 ≤ (R.x2atm C.ctl x_i C.atm_apr).q ig ip →
      (R.x2atm C.ctl x_i C.atm_apr).q ig ip ≤ 1 →
      (lm_trial_atm R C x_i).q ig ip = (R.x2atm C.ctl x_i C.atm_apr).q ig ip) ∧
    (∀ iw, iw < C.ctl.nw → 0 ≤ (R.x2atm C.ctl x_i C.atm_apr).k iw ip →
      (lm_trial_atm R C x_i).k iw ip = (R.x2atm C.ctl x_i C.atm_apr).k iw ip) := by
  have he : lm_trial_atm R C x_i
      = for_loop (R.x2atm C.ctl x_i C.atm_apr).np (clamp_atm_point C.ctl)
          (R.x2atm C.ctl x_i C.atm_apr) := rfl
  rw [he, clamp_atm_loop]
  simp only [if_pos hip]
  have hp := clamp_range ((R.x2atm C.ctl x_i C.atm_apr).p ip) (5 / 10000000) 50000
    (by norm_num)
  have ht := clamp_range ((R.x2atm C.ctl x_i C.atm_apr).t ip) 100 400 (by norm_num)
  refine ⟨trivial, ⟨hp.1, hp.2.1⟩, ⟨ht.1, ht.2.1⟩, ?_, ?_, hp.2.2, ht.2.2, ?_, ?_⟩
  · intro ig hig
    rw [if_pos ⟨hig, hip⟩]
    have hq := clamp_range ((R.x2atm C.ctl x_i C.atm_apr).q ig ip) 0 1 (by norm_num)
    exact ⟨hq.1, hq.2.1⟩
  · intro iw hiw
    rw [if_pos ⟨hiw, hip⟩]
    exact (clamp_lower _).1
  · intro ig hig h0 h1
    rw [if_pos ⟨hig, hip⟩]
    exact (clamp_range _ 0 1 (by norm_num)).2.2 h0 h1
  · intro iw hiw h0
    rw [if_pos ⟨hiw, hip⟩]
    exact (clamp_lower _).2 h0

/-- Witness for C18: a state vector that asks for 500 K is passed to the
forward model with a temperature of at most 400 K. -/
theorem clamp_physical_witness :
    0 < (rext_demo.x2atm lm_ctx_demo.ctl (fun _ => 500) lm_ctx_demo.atm_apr).np ∧
    (100 ≤ (lm_trial_atm rext_demo lm_ctx_demo (fun _ => 500)).t 0 ∧
      (lm_trial_atm rext_demo lm_ctx_demo (fun _ => 500)).t 0 ≤ 400) :=
  ⟨by decide, (clamp_physical rext_demo lm_ctx_demo (fun _ => 500) 0 (by decide)).2.2.1⟩



/-! ## C19: the costs at the accepted steps -/

/-- An inner attempt writes neither the records, the counter `it2`, the
parameter `lmpar`, the right-hand side, the kernel nor `cov`; the new state
vector is the old one plus the step. -/
theorem lm_attempt_frame (E : ext_t F) (S : static_t F) (R : rext_t F) (C : lm_ctx_t F)
    (st s : lm_t F) (h : lm_attempt E S R C st = some s) :
    s.hist = st.hist ∧ s.it2 = st.it2 ∧ s.lmpar = st.lmpar ∧ s.b = st.b ∧ s.cov = st.cov ∧
    s.k_i = st.k_i ∧
    R.cholesky C.n (lm_matrix C st.lmpar st.cov) st.b = some s.x_step ∧
    s.x_i = fun i => st.x_i i + s.x_step i := by
  unfold lm_attempt at h
  cases hc : R.cholesky C.n (lm_matrix C st.lmpar st.cov) st.b with
  | none => rw [hc] at h; cases h
  | some x_step =>
    rw [hc] at h
    simp only at h
    cases hf : formod E S C.ctl (lm_trial_atm R C fun i => st.x_i i + x_step i) C.obs_meas
      C.aero with
    | none => rw [hf] at h; cases h
    | some r =>
      rw [hf] at h
      simp only [Option.some.injEq] at h
      subst h
      exact ⟨rfl, rfl, rfl, rfl, rfl, rfl, rfl, rfl⟩

/-- The inner loop writes no record; when it ends before all its attempts
are used, the cost it leaves is at most `chisq_old`. -/
theorem lm_inner_accept (E : ext_t F) (S : static_t F) (R : rext_t F) (C : lm_ctx_t F)
    (chisq_old : F) (k : Nat) :
    ∀ st s : lm_t F, lm_inner E S R C chisq_old k st = some s →
      s.hist = st.hist ∧ (s.it2 < st.it2 + k → s.chisq ≤ chisq_old) := by
  induction k with
  | zero =>
    intro st s h
    simp only [lm_inner, Option.some.injEq] at h
    subst h
    exact ⟨rfl, fun h => absurd h (by omega)⟩
  | succ k ih =>
    intro st s h
    rw [lm_inner] at h
    cases ha : lm_attempt E S R C st with
    | none => rw [ha] at h; cases h
    | some s1 =>
      rw [ha] at h
      simp only at h
      obtain ⟨hh, hi, -⟩ := lm_attempt_frame E S R C st s1 ha
      by_cases hgt : s1.chisq > chisq_old
      · rw [if_pos hgt] at h
        obtain ⟨h1, h2⟩ := ih _ s h
        refine ⟨h1.trans hh, fun h3 => h2 ?_⟩
        simp only [hi]
        omega
      · rw [if_neg hgt] at h
        simp only [Option.some.injEq] at h
        subst h
        exact ⟨hh, fun _ => not_lt.mp hgt⟩

/-- The update of kernel and right-hand side writes neither the records nor
the cost. -/
theorem lm_rhs_kernel_frame (R : rext_t F) (C : lm_ctx_t F) (it : Int) (st : lm_t F) :
    (lm_rhs C (lm_kernel R C it st)).hist = st.hist ∧
    (lm_rhs C (lm_kernel R C it st)).chisq = st.chisq ∧
    (lm_rhs C (lm_kernel R C it st)).lmpar = st.lmpar ∧
    (lm_rhs C (lm_kernel R C it st)).x_i = st.x_i ∧
    (lm_rhs C (lm_kernel R C it st)).y_i = st.y_i := by
  unfold lm_rhs lm_kernel
  split_ifs <;> exact ⟨rfl, rfl, rfl, rfl, rfl⟩

/-- An outer iteration appends one record: its `chisq_old` is the cost at
the start, its `chisq` the cost at the end, and when the inner loop accepted
an attempt (`it2 < 20`) the cost did not grow. -/
theorem lm_iteration_hist (E : ext_t F) (S : static_t F) (R : rext_t F) (C : lm_ctx_t F)
    (it : Int) (st s : lm_t F) (h : lm_iteration E S R C it st = some s) :
    ∃ e : lm_rec_t F, s.hist = st.hist ++ [e] ∧ e.chisq_old = st.chisq ∧ e.chisq = s.chisq ∧
      (e.it2 < 20 → e.chisq ≤ e.chisq_old) := by
  unfold lm_iteration at h
  simp only at h
  cases hi : lm_inner E S R C st.chisq 20 { lm_rhs C (lm_kernel R C it st) with it2 := 0 } with
  | none => rw [hi] at h; cases h
  | some s1 =>
    rw [hi] at h
    simp only [Option.some.injEq] at h
    obtain ⟨h1, h2⟩ := lm_inner_accept E S R C st.chisq 20 _ s1 hi
    subst h
    refine ⟨{ chisq_old := st.chisq, it2 := s1.it2, chisq := s1.chisq }, ?_, rfl, rfl, ?_⟩
    · simp only [h1, (lm_rhs_kernel_frame R C it st).1]
    · intro h3
      exact h2 (by simpa using h3)

/-- Appending the record of the next iteration keeps the records linked. -/
theorem hist_linked_append (hist : List (lm_rec_t F)) :
    ∀ (c0 last : F) (e : lm_rec_t F), hist_linked c0 hist last → e.chisq_old = last →
      hist_linked c0 (hist ++ [e]) e.chisq := by
  induction hist with
  | nil =>
    intro c0 last e h he
    simp only [hist_linked] at h
    simp only [List.nil_append, hist_linked]
    exact ⟨he.trans h, trivial⟩
  | cons a as ih =>
    intro c0 last e h he
    simp only [hist_linked] at h
    simp only [List.cons_append, hist_linked]
    exact ⟨h.1, ih _ _ e h.2 he⟩

/-- The outer loop keeps the records linked and every record of an accepted
step has a cost that did not grow. -/
theorem lm_outer_hist (E : ext_t F) (S : static_t F) (R : rext_t F) (C : lm_ctx_t F)
    (c0 : F) (k : Nat) :
    ∀ (it : Int) (st s : lm_t F), lm_outer E S R C k it st = some s →
      hist_linked c0 st.hist st.chisq →
      (∀ e ∈ st.hist, e.it2 < 20 → e.chisq ≤ e.chisq_old) →
      hist_linked c0 s.hist s.chisq ∧ (∀ e ∈ s.hist, e.it2 < 20 → e.chisq ≤ e.chisq_old) := by
  induction k with
  | zero =>
    intro it st s h hl ha
    simp only [lm_outer, Option.some.injEq] at h
    subst h
    exact ⟨hl, ha⟩
  | succ k ih =>
    intro it st s h hl ha
    rw [lm_outer] at h
    cases hi : lm_iteration E S R C it st with
    | none => rw [hi] at h; cases h
    | some s1 =>
      rw [hi] at h
      simp only at h
      obtain ⟨e, he1, he2, he3, he4⟩ := lm_iteration_hist E S R C it st s1 hi
      have hl1 : hist_linked c0 s1.hist s1.chisq := by
        rw [he1, ← he3]
        exact hist_linked_append st.hist c0 st.chisq e hl he2
      have ha1 : ∀ e2 ∈ s1.hist, e2.it2 < 20 → e2.chisq ≤ e2.chisq_old := by
        intro e2 hm
        rw [he1, List.mem_append] at hm
        rcases hm with hm | hm
        · exact ha e2 hm
        · rw [List.mem_singleton] at hm
          subst hm
          exact he4
      by_cases hd : s1.disq < C.ret.conv_dmin
      · rw [if_pos hd] at h
        simp only [Option.some.injEq] at h
        subst h
        exact ⟨hl1, ha1⟩
      · rw [if_neg hd] at h
        exact ih _ _ s h hl1 ha1

/-- Linked records all of whose steps were accepted give non-increasing costs. -/
theorem hist_linked_chain (hist : List (lm_rec_t F)) :
    ∀ (c0 last : F), hist_linked c0 hist last →
      (∀ e ∈ hist, e.it2 < 20 ∧ (e.it2 < 20 → e.chisq ≤ e.chisq_old)) →
      List.Chain (fun a b => b ≤ a) c0 (hist.map (fun e => e.chisq)) := by
  induction hist with
  | nil => intro c0 last _ _; exact List.Chain.nil
  | cons a as ih =>
    intro c0 last h ha
    simp only [hist_linked] at h
    simp only [List.map_cons]
    refine List.Chain.cons ?_ (ih _ _ h.2 (fun e he => ha e (List.mem_cons_of_mem _ he)))
    have := ha a (List.mem_cons_self _ _)
    rw [← h.1]
    exact this.2 this.1

/-- The initialisation starts without records. -/
theorem lm_init_hist (E : ext_t F) (S : static_t F) (R : rext_t F) (ret : ret_t F)
    (ctl : ctl_t F) (obs_meas : obs_t F) (atm_apr : atm_t F) (aero : aero_t F)
    (p : lm_ctx_t F × lm_t F) (h : lm_init E S R ret ctl obs_meas atm_apr aero = some p) :
    p.2.hist = [] := by
  unfold lm_init at h
  simp only at h
  split_ifs at h
  cases hf : formod E S ctl atm_apr obs_meas aero with
  | none => rw [hf] at h; cases h
  | some r =>
    rw [hf] at h
    simp only [Option.some.injEq] at h
    subst h
    rfl



set_option maxRecDepth 100000 in
/-- C19 (the retrieval is not monotone): a run whose costs at the accepted
steps grow.  A-priori temperature 166.5 K, measured radiance `106.66602`,
noise `10^-6`, temperature error 100 K, `kernel_recomp = 1`,
`conv_itmax = 2`.  The initial cost is `400`.  The forward-difference kernel
is negative while the radiance still grows with temperature, so every step
of iteration 1 lowers the temperature and raises the cost: all 20 attempts
are rejected (`it2 = 20`) and `chisq` is left at the cost of the last
rejected attempt.  Iteration 2 takes this value as `chisq_old` and accepts
its first attempt (`it2 = 0`), whose cost is above `400`: the costs at the
accepted steps are `400` and then a larger value. -/
theorem accepted_cost_grows :
    (lm_init ext_lm_demo static_demo rext_demo ret_demo ctl_demo obs_lm_demo atm_lm_demo
      aero_demo).map (fun p => p.2.chisq) = some 400 ∧
    (optimal_estimation ext_lm_demo static_demo rext_demo ret_demo ctl_demo obs_lm_demo
      atm_lm_demo aero_demo).map (fun st => st.hist.map (fun e => e.it2)) = some [20, 0] ∧
    (optimal_estimation ext_lm_demo static_demo rext_demo ret_demo ctl_demo obs_lm_demo
      atm_lm_demo aero_demo).map
        (fun st => (accepted_costs 400 st.hist).map (fun c => decide (400 < c)))
      = some [false, true] := by
  refine ⟨by decide!, by decide!, by decide!⟩

/-- The descent that the loop does keep: in every run of
`optimal_estimation` with initial cost `c0`, the `chisq_old` of the first
outer iteration is `c0` and that of every later iteration is the `chisq` left
by the iteration before; the cost at an accepted step is at most the
`chisq_old` of its iteration; and when no outer iteration rejects all 20
attempts, the costs at the accepted steps, starting from the initial cost,
are non-increasing. -/
theorem accepted_costs_bounded (E : ext_t F) (S : static_t F) (R : rext_t F) (ret : ret_t F)
    (ctl : ctl_t F) (obs_meas : obs_t F) (atm_apr : atm_t F) (aero : aero_t F) (c0 : F)
    (st : lm_t F)
    (h0 : (lm_init E S R ret ctl obs_meas atm_apr aero).map (fun p => p.2.chisq) = some c0)
    (h : optimal_estimation E S R ret ctl obs_meas atm_apr aero = some st) :
    hist_linked c0 st.hist st.chisq ∧
    (∀ e ∈ st.hist, e.it2 < 20 → e.chisq ≤ e.chisq_old) ∧
    ((∀ e ∈ st.hist, e.it2 < 20) →
      (accepted_costs c0 st.hist).Pairwise (fun a b => b ≤ a)) := by
  unfold optimal_estimation at h
  cases hi : lm_init E S R ret ctl obs_meas atm_apr aero with
  | none => rw [hi] at h0; cases h0
  | some p =>
    obtain ⟨C, st0⟩ := p
    rw [hi] at h h0
    simp only [Option.map_some', Option.some.injEq] at h0
    simp only at h
    have hh : st0.hist = [] := lm_init_hist E S R ret ctl obs_meas atm_apr aero (C, st0) hi
    have hrun : hist_linked c0 st.hist st.chisq ∧
        (∀ e ∈ st.hist, e.it2 < 20 → e.chisq ≤ e.chisq_old) := by
      by_cases hfin : lm_cost_finite R ret ctl obs_meas C.m = true
      · rw [if_pos hfin] at h
        exact lm_outer_hist E S R C c0 _ 1 _ st h
          (by show hist_linked c0 st0.hist st0.chisq; rw [hh]; exact h0)
          (by show ∀ e ∈ st0.hist, e.it2 < 20 → e.chisq ≤ e.chisq_old
              rw [hh]; intro e he; cases he)
      · rw [if_neg hfin, Option.some.injEq] at h
        subst h
        refine ⟨by rw [hh]; exact h0, ?_⟩
        rw [hh]; intro e he; cases he
    obtain ⟨h1, h2⟩ := hrun
    refine ⟨h1, h2, fun h3 => ?_⟩
    haveI : IsTrans F (fun a b => b ≤ a) := ⟨fun a b c hab hbc => le_trans hbc hab⟩
    have hf : st.hist.filter (fun e => decide (e.it2 < 20)) = st.hist :=
      List.filter_eq_self.mpr (fun e he => by simpa using h3 e he)
    unfold accepted_costs
    rw [hf]
    exact List.chain_iff_pairwise.mp
      (hist_linked_chain st.hist c0 st.chisq h1 (fun e he => ⟨h3 e he, h2 e he⟩))

set_option maxRecDepth 100000 in
/-- A run without an exhausted inner loop: a-priori temperature 150 K and
measured radiance `100.00001`; both outer iterations accept their first
attempt and the three costs at the accepted steps, starting from `100`, do
not grow. -/
theorem accepted_costs_bounded_witness :
    ∃ st, optimal_estimation ext_lm_demo static_demo rext_demo ret_demo ctl_demo obs_ok_demo
        atm_ok_demo aero_demo = some st ∧
      (accepted_costs 100 st.hist).length = 3 ∧
      (accepted_costs 100 st.hist).Pairwise (fun a b => b ≤ a) := by
  have hs : (optimal_estimation ext_lm_demo static_demo rext_demo ret_demo ctl_demo obs_ok_demo
      atm_ok_demo aero_demo).map
        (fun st => (decide (∀ e ∈ st.hist, e.it2 < 20), (accepted_costs 100 st.hist).length))
      = some (true, 3) := by decide!
  cases hrun : optimal_estimation ext_lm_demo static_demo rext_demo ret_demo ctl_demo
      obs_ok_demo atm_ok_demo aero_demo with
  | none => rw [hrun] at hs; cases hs
  | some st =>
    rw [hrun] at hs
    simp only [Option.map_some', Option.some.injEq, Prod.mk.injEq, decide_eq_true_eq] at hs
    exact ⟨st, rfl, hs.2,
      (accepted_costs_bounded ext_lm_demo static_demo rext_demo ret_demo ctl_demo obs_ok_demo
        atm_ok_demo aero_demo 100 st (by decide!) hrun).2.2 hs.1⟩



/-! ## C20: a retrieval that starts at the solution -/

theorem gsl_sum_succ (n : Nat) (f : Nat → F) : gsl_sum (n + 1) f = gsl_sum n f + f n := by
  unfold gsl_sum
  rw [for_loop_succ]

/-- A sum of zeros is zero. -/
theorem gsl_sum_zero (n : Nat) (f : Nat → F) (h : ∀ i, i < n → f i = 0) : gsl_sum n f = 0 := by
  induction n with
  | zero => simp [gsl_sum, for_loop_zero]
  | succ k ih =>
    rw [gsl_sum_succ, ih (fun i hi => h i (Nat.lt_succ_of_lt hi)), h k (Nat.lt_succ_self k),
      add_zero]

/-- A positive definite system with right-hand side zero has only the zero
solution. -/
theorem pos_def_kernel (n : Nat) (a : Nat → Nat → F) (x : Nat → F) (hpd : pos_def n a)
    (hx : ∀ i, i < n → gsl_sum n (fun j => a i j * x j) = 0) : ∀ i, i < n → x i = 0 := by
  intro i hi
  by_contra hne
  have h1 := hpd x ⟨i, hi, hne⟩
  rw [gsl_sum_zero n _ (fun j hj => by rw [hx j hj, mul_zero])] at h1
  exact lt_irrefl _ h1

/-- The vector `y_aux` of an outer iteration, entry by entry. -/
theorem lm_rhs_b (C : lm_ctx_t F) (st : lm_t F) (i : Nat) :
    (lm_rhs C st).b i
      = -1 * gsl_sum C.n (fun j => C.s_a_inv i j * (st.x_i j - C.x_a j))
        + 1 * (1 * gsl_sum C.m (fun r => st.k_i r i *
            (if r < C.m then (C.y_m r - st.y_i r) * gsl_pow_2 (C.sig_eps_inv r) else 0))
          + 0 * st.b i) := by
  unfold lm_rhs gsl_blas_dgemv gsl_blas_dgemv_trans
  simp only [for_loop_set]

/-- With `dx = 0` and `dy = 0` the right-hand side vanishes. -/
theorem lm_rhs_zero (C : lm_ctx_t F) (st : lm_t F)
    (hx : ∀ i, i < C.n → st.x_i i = C.x_a i) (hy : ∀ i, i < C.m → st.y_i i = C.y_m i)
    (i : Nat) : (lm_rhs C st).b i = 0 := by
  rw [lm_rhs_b,
    gsl_sum_zero C.n _ (fun j hj => by rw [hx j hj, sub_self, mul_zero]),
    gsl_sum_zero C.m _ (fun r hr => by rw [if_pos hr, hy r hr, sub_self, zero_mul, mul_zero])]
  ring



/-- The update of the kernel writes neither the state vector, the radiances,
the right-hand side, the records nor `lmpar`. -/
theorem lm_kernel_frame (R : rext_t F) (C : lm_ctx_t F) (it : Int) (st : lm_t F) :
    (lm_kernel R C it st).x_i = st.x_i ∧ (lm_kernel R C it st).y_i = st.y_i ∧
    (lm_kernel R C it st).lmpar = st.lmpar ∧ (lm_kernel R C it st).hist = st.hist := by
  unfold lm_kernel
  split_ifs <;> exact ⟨rfl, rfl, rfl, rfl⟩

/-- An inner attempt returns when the solver and the forward model return. -/
theorem lm_attempt_some (E : ext_t F) (S : static_t F) (R : rext_t F) (C : lm_ctx_t F)
    (st : lm_t F) (x : Nat → F)
    (hc : R.cholesky C.n (lm_matrix C st.lmpar st.cov) st.b = some x)
    (hfm : ∀ atm obs, ∃ r, formod E S C.ctl atm obs C.aero = some r) :
    ∃ s, lm_attempt E S R C st = some s := by
  unfold lm_attempt
  rw [hc]
  obtain ⟨r, hr⟩ := hfm (lm_trial_atm R C fun i => st.x_i i + x i) C.obs_meas
  simp only
  rw [hr]
  exact ⟨_, rfl⟩

/-- With a vanishing right-hand side every attempt of the inner loop
computes the step zero and the loop leaves the state vector where it was. -/
theorem lm_inner_noop (E : ext_t F) (S : static_t F) (R : rext_t F) (C : lm_ctx_t F)
    (chisq_old : F) (cov : Nat → Nat → F)
    (hpd : ∀ lam : F, 0 < lam → pos_def C.n (lm_matrix C lam cov))
    (hsolve : cholesky_solves R C.n)
    (hfm : ∀ atm obs, ∃ r, formod E S C.ctl atm obs C.aero = some r) (k : Nat) :
    ∀ st : lm_t F, st.cov = cov → 0 < st.lmpar → (∀ i, i < C.n → st.b i = 0) →
      (∀ i, i < C.n → st.x_i i = C.x_a i) →
      ∃ s, lm_inner E S R C chisq_old (k + 1) st = some s ∧
        (∀ i, i < C.n → s.x_step i = 0) ∧ (∀ i, i < C.n → s.x_i i = C.x_a i) ∧
        s.b = st.b ∧ s.hist = st.hist := by
  induction k with
  | zero =>
    intro st hcov hl hb hx
    obtain ⟨x, hx1, hx2⟩ := hsolve (lm_matrix C st.lmpar st.cov) st.b (hcov ▸ hpd _ hl)
    have hx0 : ∀ i, i < C.n → x i = 0 :=
      pos_def_kernel C.n _ x (hcov ▸ hpd _ hl) (fun i hi => (hx2 i hi).trans (hb i hi))
    obtain ⟨s1, ha⟩ := lm_attempt_some E S R C st x hx1 hfm
    obtain ⟨f1, f2, f3, f4, f5, f6, f7, f8⟩ := lm_attempt_frame E S R C st s1 ha
    have hxs : s1.x_step = x := Option.some.inj (f7.symm.trans hx1)
    rw [lm_inner, ha]
    simp only
    by_cases hgt : s1.chisq > chisq_old
    · rw [if_pos hgt]
      refine ⟨_, rfl, ?_, ?_, f4, f1⟩
      · intro i hi
        simp only [hxs]
        exact hx0 i hi
      · intro i hi
        simp only [f8, hxs, hx0 i hi, hx i hi]
        ring
    · rw [if_neg hgt]
      refine ⟨_, rfl, ?_, ?_, f4, f1⟩
      · intro i hi
        simp only [hxs]
        exact hx0 i hi
      · intro i hi
        simp only [f8, hxs, hx0 i hi, hx i hi]
        ring
  | succ k ih =>
    intro st hcov hl hb hx
    obtain ⟨x, hx1, hx2⟩ := hsolve (lm_matrix C st.lmpar st.cov) st.b (hcov ▸ hpd _ hl)
    have hx0 : ∀ i, i < C.n → x i = 0 :=
      pos_def_kernel C.n _ x (hcov ▸ hpd _ hl) (fun i hi => (hx2 i hi).trans (hb i hi))
    obtain ⟨s1, ha⟩ := lm_attempt_some E S R C st x hx1 hfm
    obtain ⟨f1, f2, f3, f4, f5, f6, f7, f8⟩ := lm_attempt_frame E S R C st s1 ha
    have hxs : s1.x_step = x := Option.some.inj (f7.symm.trans hx1)
    rw [lm_inner, ha]
    simp only
    by_cases hgt : s1.chisq > chisq_old
    · rw [if_pos hgt]
      obtain ⟨s, h1, h2, h3, h4, h5⟩ := ih
        { s1 with lmpar := s1.lmpar * 10, x_i := fun i => s1.x_i i - s1.x_step i,
                  it2 := s1.it2 + 1 }
        (f5.trans hcov) (by simp only [f3]; linarith)
        (fun i hi => by simp only [f4]; exact hb i hi)
        (fun i hi => by
          simp only [f8, hxs, hx0 i hi, hx i hi]
          ring)
      exact ⟨s, h1, h2, h3, h4.trans f4, h5.trans f1⟩
    · rw [if_neg hgt]
      refine ⟨_, rfl, ?_, ?_, f4, f1⟩
      · intro i hi
        simp only [hxs]
        exact hx0 i hi
      · intro i hi
        simp only [f8, hxs, hx0 i hi, hx i hi]
        ring

/-- C20 (retrieval no-op): let the variables at the entry to the outer loop
satisfy `x_i = x_a` (so `dx = 0`) and `y_i = y_m` (so `dy = 0`), with sizes
`m, n > 0`, `conv_itmax ≥ 1`, `conv_dmin > 0`, `lmpar > 0`, a positive
definite `(1 + lambda) S_a^-1 + H` for every `lambda > 0` (with `H` the
matrix `cov` of iteration 1), a Cholesky solver that solves positive
definite systems, and a forward model that returns.  Then the outer loop
returns, it is left during iteration 1, the right-hand side `b` is zero,
every step that the solver computes for this right-hand side is zero, the
last step is zero, and the final state vector equals `x_a`. -/
theorem retrieval_noop (E : ext_t F) (S : static_t F) (R : rext_t F) (C : lm_ctx_t F)
    (st0 : lm_t F)
    (hm : 0 < C.m) (hn : 0 < C.n)
    (hx : ∀ i, i < C.n → st0.x_i i = C.x_a i)
    (hy : ∀ i, i < C.m → st0.y_i i = C.y_m i)
    (hit : 1 ≤ C.ret.conv_itmax) (hd : 0 < C.ret.conv_dmin) (hl : 0 < st0.lmpar)
    (hpd : ∀ lam : F, 0 < lam → pos_def C.n (lm_matrix C lam (lm_kernel R C 1 st0).cov))
    (hsolve : cholesky_solves R C.n)
    (hfm : ∀ atm obs, ∃ r, formod E S C.ctl atm obs C.aero = some r) :
    ∃ st, lm_outer E S R C C.ret.conv_itmax.toNat 1 st0 = some st ∧ st.it = 1 ∧
      (∀ i, st.b i = 0) ∧
      (∀ (lam : F) (x : Nat → F), 0 < lam →
        R.cholesky C.n (lm_matrix C lam (lm_kernel R C 1 st0).cov) st.b = some x →
        ∀ i, i < C.n → x i = 0) ∧
      (∀ i, i < C.n → st.x_step i = 0) ∧
      (∀ i, i < C.n → st.x_i i = C.x_a i) := by
  obtain ⟨k, hk⟩ : ∃ k, C.ret.conv_itmax.toNat = k + 1 :=
    ⟨C.ret.conv_itmax.toNat - 1, by omega⟩
  have hkf := lm_kernel_frame R C 1 st0
  have hb : ∀ i, (lm_rhs C (lm_kernel R C 1 st0)).b i = 0 :=
    lm_rhs_zero C _ (fun i hi => by rw [hkf.1]; exact hx i hi)
      (fun i hi => by rw [hkf.2.1]; exact hy i hi)
  have hrf := lm_rhs_kernel_frame R C 1 st0
  obtain ⟨s, h1, h2, h3, h4, h5⟩ := lm_inner_noop E S R C st0.chisq (lm_kernel R C 1 st0).cov
    hpd hsolve hfm 19 { lm_rhs C (lm_kernel R C 1 st0) with it2 := 0 } rfl
    (by simp only [hrf.2.2.1]; exact hl) (fun i _ => hb i)
    (fun i hi => by simp only [hrf.2.2.2.1]; exact hx i hi)
  have hsb : ∀ i, s.b i = 0 := fun i => by rw [h4]; exact hb i
  have hdisq : gsl_blas_ddot C.n s.x_step s.b / (C.n : F) = 0 := by
    unfold gsl_blas_ddot
    rw [gsl_sum_zero C.n _ (fun i hi => by rw [hsb i, mul_zero]), zero_div]
  rw [hk, lm_outer]
  unfold lm_iteration
  simp only
  rw [h1]
  simp only [hdisq, if_pos hd]
  refine ⟨_, rfl, rfl, hsb, ?_, h2, h3⟩
  intro lam x hlam hc i hi
  obtain ⟨y, hy1, hy2⟩ := hsolve (lm_matrix C lam (lm_kernel R C 1 st0).cov) s.b (hpd lam hlam)
  have hxy : x = y := Option.some.inj (hc.symm.trans hy1)
  rw [hxy]
  exact pos_def_kernel C.n _ y (hpd lam hlam) (fun j hj => (hy2 j hj).trans (hsb j)) i hi



/-- With the FOV convolution disabled `formod` returns. -/
theorem formod_returns (E : ext_t F) (S : static_t F) (ctl : ctl_t F) (atm : atm_t F)
    (obs : obs_t F) (aero : aero_t F) (h : ctl.fov.get 0 = '-') :
    ∃ r, formod E S ctl atm obs aero = some r := by
  unfold formod
  simp only
  rw [formod_fov_disabled E S ctl _ h]
  exact ⟨_, rfl⟩

theorem gsl_sum_one (f : Nat → F) : gsl_sum 1 f = f 0 := by
  rw [show (1 : Nat) = 0 + 1 from rfl, gsl_sum_succ]
  simp [gsl_sum, for_loop_zero]

/-- A `1 × 1` matrix is positive definite exactly when its entry is positive. -/
theorem pos_def_one (a : Nat → Nat → F) : pos_def 1 a ↔ 0 < a 0 0 := by
  constructor
  · intro h
    have h1 := h (fun _ => 1) ⟨0, Nat.zero_lt_one, one_ne_zero⟩
    simpa only [gsl_sum_one, one_mul, mul_one] using h1
  · intro h v hv
    obtain ⟨i, hi, hne⟩ := hv
    have hi0 : i = 0 := by omega
    subst hi0
    rw [gsl_sum_one, gsl_sum_one]
    have h2 : 0 < v 0 * v 0 := mul_self_pos.mpr hne
    have h3 : v 0 * (a 0 0 * v 0) = a 0 0 * (v 0 * v 0) := by ring
    rw [h3]
    exact mul_pos h h2

/-- The solver of `rext_demo` solves positive definite `1 × 1` systems. -/
theorem rext_demo_solves : cholesky_solves rext_demo 1 := by
  intro a b hpd
  have h0 : 0 < a 0 0 := (pos_def_one a).mp hpd
  refine ⟨fun i => if i = 0 then b 0 / a 0 0 else 0, ?_, ?_⟩
  · show (if 0 < a 0 0 then some (fun i => if i = 0 then b 0 / a 0 0 else 0) else none) = _
    rw [if_pos h0]
  · intro i hi
    have hi0 : i = 0 := by omega
    subst hi0
    rw [gsl_sum_one]
    simp only [if_true]
    field_simp

/-- Witness for C20: the retrieval problem of `lm_ctx_noop_demo`, whose
measured radiance is the radiance of the a-priori state, entered with the
a-priori state; the loop is left in iteration 1 at the a-priori temperature
166.5 K. -/
theorem retrieval_noop_witness :
    (1 : Int) ≤ lm_ctx_noop_demo.ret.conv_itmax ∧ 0 < lm_ctx_noop_demo.ret.conv_dmin ∧
    ∃ st, lm_outer ext_lm_demo static_demo rext_demo lm_ctx_noop_demo
        lm_ctx_noop_demo.ret.conv_itmax.toNat 1 lm_demo = some st ∧ st.it = 1 ∧
      (∀ i, i < 1 → st.x_step i = 0) ∧ (∀ i, i < 1 → st.x_i i = 333 / 2) := by
  have hcov : (lm_kernel rext_demo lm_ctx_noop_demo 1 lm_demo).cov 0 0 = 256000000 := by
    decide!
  have hpd : ∀ lam : ℚ, 0 < lam →
      pos_def lm_ctx_noop_demo.n
        (lm_matrix lm_ctx_noop_demo lam (lm_kernel rext_demo lm_ctx_noop_demo 1 lm_demo).cov) := by
    intro lam hlam
    refine (pos_def_one _).mpr ?_
    show 0 < lm_ctx_noop_demo.s_a_inv 0 0 * (1 + lam)
      + (lm_kernel rext_demo lm_ctx_noop_demo 1 lm_demo).cov 0 0
    rw [hcov, show lm_ctx_noop_demo.s_a_inv 0 0 = 1 / 10000 from by decide!]
    positivity
  obtain ⟨st, h1, h2, -, -, h5, h6⟩ := retrieval_noop ext_lm_demo static_demo rext_demo
    lm_ctx_noop_demo lm_demo (by decide) (by decide) (fun _ _ => rfl) (fun _ _ => rfl)
    (by decide) (by decide!) (by decide!) hpd rext_demo_solves
    (fun atm obs => formod_returns _ _ _ atm obs _ (by decide))
  exact ⟨by decide, by decide!, st, h1, h2, h5, h6⟩



/-! ## C25: `locate_tbl` is a terminating bracketing search -/

/-- A saturated gas sets its path transmittance and the segment
transmittance of the channel to zero. -/
theorem intpol_tbl_saturated (E : ext_t F) (ctl : ctl_t F) (tbl : tbl_t F) (los : los_t F)
    (ip ig id : Nat) (tp : Nat → Nat → F) (hig : ig < ctl.ng) (hid : id < ctl.nd)
    (hnp : 2 ≤ tbl.np ig id) (hip : 0 < ip) (hs : tp ig id < 1e-9) :
    intpol_tbl_seg_eps E tbl los ip ig id (tp ig id) = 1 ∧
    (intpol_tbl E ctl tbl los ip tp).1 ig id = 0 ∧
    (intpol_tbl E ctl tbl los ip tp).2 id = 0 := by
  have hr : intpol_tbl_reset ctl ip tp ig id = tp ig id := by
    rw [intpol_tbl_reset_apply, if_neg (fun h => by omega)]
  have he : intpol_tbl_seg_eps E tbl los ip ig id (tp ig id) = 1 :=
    seg_eps_saturated E tbl los ip ig id _ (by omega) hs
  refine ⟨he, ?_, ?_⟩
  · rw [(intpol_tbl_apply E ctl tbl los ip tp).1 ig id, if_pos ⟨hig, hid⟩, hr, he]
    ring
  · rw [(intpol_tbl_apply E ctl tbl los ip tp).2 id, if_pos hid]
    apply Finset.prod_eq_zero (Finset.mem_range.mpr hig)
    rw [hr, he]
    ring

theorem intpol_tbl_from_succ (E : ext_t F) (ctl : ctl_t F) (tbl : tbl_t F) (los : los_t F)
    (ip k : Nat) (tp : Nat → Nat → F) :
    intpol_tbl_from E ctl tbl los ip (k + 1) tp
      = (intpol_tbl E ctl tbl los (ip + k) (intpol_tbl_from E ctl tbl los ip k tp)).1 := by
  unfold intpol_tbl_from
  rw [for_loop_succ]

/-- The path transmittances on entry to the segment `ip + k` of a ray are
those that `k` further calls of `intpol_tbl` make of the ones on entry to
the segment `ip`. -/
theorem intpol_tbl_calls_from (E : ext_t F) (ctl : ctl_t F) (tbl : tbl_t F) (los : los_t F)
    (ip k : Nat) (tp : Nat → Nat → F) :
    intpol_tbl_calls E ctl tbl los (ip + k) tp
      = intpol_tbl_from E ctl tbl los ip k (intpol_tbl_calls E ctl tbl los ip tp) := by
  induction k with
  | zero =>
    unfold intpol_tbl_from
    rw [for_loop_zero]
    rfl
  | succ j ih =>
    rw [intpol_tbl_from_succ, ← ih, ← Nat.add_assoc, intpol_tbl_calls_succ]

/-- C24 (saturation is absorbing): if the table of gas `ig` for channel `id`
has at least 2 pressure rows and `tau_path[ig][id] < 1e-9` on entry to
`intpol_tbl` for a segment `ip > 0`, then `eps_seg = 1` is used and after the
call `tau_path[ig][id] = 0` and `tau_seg[id] = 0`; and for every later
segment `ip + k` of the same ray the call of `intpol_tbl` again leaves
`tau_path[ig][id] = 0` and `tau_seg[id] = 0`. -/
theorem saturation_absorbing (E : ext_t F) (ctl : ctl_t F) (tbl : tbl_t F) (los : los_t F)
    (ip ig id : Nat) (tp : Nat → Nat → F) (hig : ig < ctl.ng) (hid : id < ctl.nd)
    (hnp : 2 ≤ tbl.np ig id) (hip : 0 < ip) (hs : tp ig id < 1e-9) :
    intpol_tbl_seg_eps E tbl los ip ig id (tp ig id) = 1 ∧
    ∀ k : Nat,
      (intpol_tbl E ctl tbl los (ip + k) (intpol_tbl_from E ctl tbl los ip k tp)).1 ig id = 0 ∧
      (intpol_tbl E ctl tbl los (ip + k) (intpol_tbl_from E ctl tbl los ip k tp)).2 id = 0 := by
  refine ⟨(intpol_tbl_saturated E ctl tbl los ip ig id tp hig hid hnp hip hs).1, ?_⟩
  intro k
  have hsmall : ∀ k, intpol_tbl_from E ctl tbl los ip k tp ig id < 1e-9 := by
    intro k
    induction k with
    | zero =>
      unfold intpol_tbl_from
      rw [for_loop_zero]
      exact hs
    | succ j ih =>
      rw [intpol_tbl_from_succ,
        (intpol_tbl_saturated E ctl tbl los (ip + j) ig id _ hig hid hnp (by omega) ih).2.1]
      exact small_pos
  exact (intpol_tbl_saturated E ctl tbl los (ip + k) ig id _ hig hid hnp (by omega)
    (hsmall k)).2

/-- Witness for C24 on `tbl_demo` (two pressure rows): with path
transmittance `0` on entry to segment 1, the call for segment 1 leaves the
path and segment transmittances at `0`. -/
theorem saturation_absorbing_witness :
    (0 < ctl_demo.ng ∧ 0 < ctl_demo.nd ∧ (2 : Int) ≤ tbl_demo.np 0 0 ∧ 0 < 1 ∧
      (0 : ℚ) < 1e-9) ∧
    (intpol_tbl ext_demo ctl_demo tbl_demo los_demo 1 (fun _ _ => 0)).1 0 0 = 0 ∧
    (intpol_tbl ext_demo ctl_demo tbl_demo los_demo 1 (fun _ _ => 0)).2 0 = 0 :=
  ⟨⟨by decide, by decide, by decide, by decide, by norm_num⟩,
    (saturation_absorbing ext_demo ctl_demo tbl_demo los_demo 1 0 0 (fun _ _ => 0)
      (by decide) (by decide) (by decide) (by decide) (by norm_num)).2 0⟩


/-! ## C27: opaque segments are skipped -/

/-- C27 (opaque segments are skipped): for a segment `ip` and a channel
`id < nd` for which `intpol_tbl` returns `tau_seg[id] ≤ 0`, `formod_pencil`
leaves `rad[id][ir]` and `tau[id][ir]` unchanged in that segment, whichever
of the two branches (with or without scattering source) is taken; a surface
term added after such a segment uses the transmittance reached before it. -/
theorem opaque_segment_skipped (E : ext_t F) (S : static_t F) (ctl : ctl_t F) (atm : atm_t F)
    (aero : aero_t F) (scattering : Int) (ir : Nat) (los : los_t F) (ip : Nat)
    (st : obs_t F × (Nat → Nat → F)) (id : Nat) (hid : id < ctl.nd)
    (hop : (intpol_tbl E ctl S.tbl los ip st.2).2 id ≤ 0) :
    (pencil_segment E S ctl atm aero scattering ir los ip st).1.rad id ir = st.1.rad id ir ∧
    (pencil_segment E S ctl atm aero scattering ir los ip st).1.tau id ir = st.1.tau id ir ∧
    (pencil_surface E S ctl los ir
        (pencil_segment E S ctl atm aero scattering ir los ip st).1).rad id ir
      = (if los.tsurf > 0 then
          st.1.rad id ir + Dbl.fin (srcfunc_planck E S ctl los.tsurf id * st.1.tau id ir)
        else st.1.rad id ir) := by
  have hng : ¬ (intpol_tbl E ctl S.tbl los ip st.2).2 id > 0 := not_lt.mpr hop
  obtain ⟨h1, h2⟩ := pencil_segment_apply E S ctl atm aero scattering ir los ip st
  have hr : (pencil_segment E S ctl atm aero scattering ir los ip st).1.rad id ir
      = st.1.rad id ir := by
    rw [h1, if_pos ⟨hid, rfl⟩]
    unfold sca_rad nosca_rad
    rw [if_neg hng, if_neg hng]
    split_ifs <;> rfl
  have ht : (pencil_segment E S ctl atm aero scattering ir los ip st).1.tau id ir
      = st.1.tau id ir := by
    rw [h2, if_pos ⟨hid, rfl⟩]
    unfold sca_tau nosca_tau
    rw [if_neg hng, if_neg hng]
    split_ifs <;> rfl
  refine ⟨hr, ht, ?_⟩
  rw [(pencil_surface_apply E S ctl los ir _).1, if_pos ⟨hid, rfl⟩, hr, ht]

/-- Witness for C27: in the second segment of `los_demo`, entered with a
saturated gas (`tau_path = 0`), the segment transmittance is `0` and the
radiance `7` and transmittance `1/3` of the ray are left as they are. -/
theorem opaque_segment_skipped_witness :
    (0 < ctl_demo.nd ∧
      (intpol_tbl ext_demo ctl_demo static_demo.tbl los_demo 1 (fun _ _ => 0)).2 0 ≤ 0) ∧
    (pencil_segment ext_demo static_demo ctl_demo atm_demo aero_demo 0 0 los_demo 1
        ({ obs_demo with rad := fun _ _ => Dbl.fin 7, tau := fun _ _ => 1 / 3 },
          fun _ _ => 0)).1.rad 0 0 = Dbl.fin 7 ∧
    (pencil_segment ext_demo static_demo ctl_demo atm_demo aero_demo 0 0 los_demo 1
        ({ obs_demo with rad := fun _ _ => Dbl.fin 7, tau := fun _ _ => 1 / 3 },
          fun _ _ => 0)).1.tau 0 0 = 1 / 3 :=
  have h := opaque_segment_skipped ext_demo static_demo ctl_demo atm_demo aero_demo 0 0
    los_demo 1 ({ obs_demo with rad := fun _ _ => Dbl.fin 7, tau := fun _ _ => 1 / 3 },
      fun _ _ => 0) 0 (by decide) (by decide!)
  ⟨⟨by decide, by decide!⟩, h.1, h.2.1⟩


/-! ## C28: how often the aerosol attenuation enters the path transmittance -/

/-- Without tables of at least 2 pressure rows the segment transmittance of a
channel is `1`. -/
theorem intpol_tbl_no_tables (E : ext_t F) (ctl : ctl_t F) (tbl : tbl_t F) (los : los_t F)
    (ip id : Nat) (tp : Nat → Nat → F) (hid : id < ctl.nd)
    (h : ∀ ig, ig < ctl.ng → tbl.np ig id < 2) :
    (intpol_tbl E ctl tbl los ip tp).2 id = 1 := by
  rw [(intpol_tbl_apply E ctl tbl los ip tp).2 id, if_pos hid]
  apply Finset.prod_eq_one
  intro ig hig
  rw [seg_eps_few_rows E tbl los ip ig id _ (h ig (Finset.mem_range.mp hig))]
  ring

/-- One segment through the branch with scattering source, on the entry
`(id, ir)`. -/
theorem pencil_segment_sca (E : ext_t F) (S : static_t F) (ctl : ctl_t F) (atm : atm_t F)
    (aero : aero_t F) (scattering : Int) (ir : Nat) (los : los_t F) (ip : Nat)
    (st : obs_t F × (Nat → Nat → F)) (id : Nat) (hid : id < ctl.nd)
    (hbr : los.aerofac ip > 0 ∧ scattering > 0) :
    (pencil_segment E S ctl atm aero scattering ir los ip st).1.tau id ir
      = sca_tau E aero los ip id ((intpol_tbl E ctl S.tbl los ip st.2).2 id)
          (formod_continua E ctl los ip id) (st.1.tau id ir) := by
  obtain ⟨h1, h2⟩ := pencil_segment_apply E S ctl atm aero scattering ir los ip st
  rw [h2, if_pos ⟨hid, rfl⟩, if_pos hbr]

/-- C28 (aerosol attenuation enters twice without scattering source): let
`exp` turn sums into products and invert `log` on positive numbers.  For a
segment with `tau_seg > 0` on a channel `id < nd`: in the branch without
scattering source with `sca_n ≠ 0` the path transmittance is multiplied by
`tau_seg * exp(-beta_ctm*ds) * exp(-2*af*beta_x*ds)`, where `af = aerofac[ip]`
and `beta_x` is `beta_e` when `sca_ext` is the string `"beta_a"` and `beta_a`
otherwise; in the branch with scattering source, for `ds > 0`, it is
multiplied by `tau_seg * exp(-(beta_ctm + af*beta_e)*ds)`. -/
theorem aerosol_counted_twice (E : ext_t F) (S : static_t F) (ctl : ctl_t F) (atm : atm_t F)
    (aero : aero_t F) (scattering : Int) (ir : Nat) (los : los_t F) (ip : Nat)
    (st : obs_t F × (Nat → Nat → F)) (id : Nat) (hid : id < ctl.nd)
    (hadd : ∀ a b : F, E.exp (a + b) = E.exp a * E.exp b)
    (hlog : ∀ x : F, 0 < x → E.exp (E.log x) = x)
    (htg : (intpol_tbl E ctl S.tbl los ip st.2).2 id > 0) :
    (¬ (los.aerofac ip > 0 ∧ scattering > 0) → ctl.sca_n ≠ 0 →
      (pencil_segment E S ctl atm aero scattering ir los ip st).1.tau id ir
        = st.1.tau id ir
          * ((intpol_tbl E ctl S.tbl los ip st.2).2 id
            * E.exp (-formod_continua E ctl los ip id * los.ds ip)
            * E.exp (-2 * los.aerofac ip
                * (if ctl.sca_ext = "beta_a" then aero.beta_e (los.aeroi ip) id
                   else aero.beta_a (los.aeroi ip) id) * los.ds ip))) ∧
    (los.aerofac ip > 0 ∧ scattering > 0 → 0 < los.ds ip →
      (pencil_segment E S ctl atm aero scattering ir los ip st).1.tau id ir
        = st.1.tau id ir
          * ((intpol_tbl E ctl S.tbl los ip st.2).2 id
            * E.exp (-(formod_continua E ctl los ip id
                + los.aerofac ip * aero.beta_e (los.aeroi ip) id) * los.ds ip))) := by
  constructor
  · intro hbr hn
    rw [(pencil_segment_nosca E S ctl atm aero scattering ir los ip st id hid hbr).2]
    unfold nosca_tau nosca_factor nosca_eps
    rw [if_pos htg, if_neg hn, if_neg hn]
    generalize (intpol_tbl E ctl S.tbl los ip st.2).2 id = tg
    generalize formod_continua E ctl los ip id = bc
    have key : ∀ bx : F,
        (1 - (1 - tg * E.exp (-(bc + los.aerofac ip * bx) * los.ds ip)))
            * E.exp (-los.aerofac ip * bx * los.ds ip)
          = tg * E.exp (-bc * los.ds ip) * E.exp (-2 * los.aerofac ip * bx * los.ds ip) := by
      intro bx
      have e1 : -(bc + los.aerofac ip * bx) * los.ds ip
          = -bc * los.ds ip + -los.aerofac ip * bx * los.ds ip := by ring
      have e2 : -2 * los.aerofac ip * bx * los.ds ip
          = -los.aerofac ip * bx * los.ds ip + -los.aerofac ip * bx * los.ds ip := by ring
      rw [e1, e2, hadd, hadd]
      ring
    by_cases hs : ctl.sca_ext = "beta_a"
    · rw [if_neg (not_not.mpr hs), if_neg (not_not.mpr hs), if_pos hs, key]
    · rw [if_pos hs, if_pos hs, if_neg hs, key]
  · intro hbr hds
    rw [pencil_segment_sca E S ctl atm aero scattering ir los ip st id hid hbr]
    unfold sca_tau sca_beta_ext
    rw [if_pos htg]
    have e1 : -(-E.log ((intpol_tbl E ctl S.tbl los ip st.2).2 id) / los.ds ip
          + formod_continua E ctl los ip id
          + los.aerofac ip * aero.beta_e (los.aeroi ip) id) * los.ds ip
        = E.log ((intpol_tbl E ctl S.tbl los ip st.2).2 id)
          + -(formod_continua E ctl los ip id
              + los.aerofac ip * aero.beta_e (los.aeroi ip) id) * los.ds ip := by
      field_simp
      ring
    rw [e1, hadd, hlog _ htg]

/-- Witness for C28 over the real numbers with the real `exp` and `log`: one
segment of length 1 inside an aerosol layer with `beta_e = 3`, no tables
(`tau_seg = 1`), once without and once with scattering source. -/
theorem aerosol_counted_twice_witness :
    (0 < (ctl_layer_demo : ctl_t ℝ).nd ∧ (ctl_layer_demo : ctl_t ℝ).sca_n ≠ 0 ∧
      (0 : ℝ) < (los_layer_demo : los_t ℝ).ds 0) ∧
    (pencil_segment
        (ext_of_libm Real.exp Real.log (fun x => Real.log (1 + x)) (fun x => Real.exp x - 1) 1 1)
        static_none_demo ctl_layer_demo atm_none_demo aero_any_demo 0 0 los_layer_demo 0
        (obs_unit_demo, fun _ _ => 0)).1.tau 0 0
      = 1 * (1 * Real.exp (-(1 / 2) * 1) * Real.exp (-2 * 1 * 3 * 1)) ∧
    (pencil_segment
        (ext_of_libm Real.exp Real.log (fun x => Real.log (1 + x)) (fun x => Real.exp x - 1) 1 1)
        static_none_demo ctl_layer_demo atm_none_demo aero_any_demo 1 0 los_layer_demo 0
        (obs_unit_demo, fun _ _ => 0)).1.tau 0 0
      = 1 * (1 * Real.exp (-(1 / 2 + 1 * 3) * 1)) := by
  have htg : ∀ sc : Int, (intpol_tbl
      (ext_of_libm Real.exp Real.log (fun x => Real.log (1 + x)) (fun x => Real.exp x - 1) 1 1)
      (ctl_layer_demo : ctl_t ℝ) (static_none_demo : static_t ℝ).tbl los_layer_demo 0
      (fun _ _ => 0)).2 0 = 1 := fun _ =>
    intpol_tbl_no_tables _ _ _ _ 0 0 _ (by decide) (fun ig _ => show ((-1 : Int) < 2) by decide)
  have hbc : formod_continua
      (ext_of_libm Real.exp Real.log (fun x => Real.log (1 + x)) (fun x => Real.exp x - 1) 1 1)
      (ctl_layer_demo : ctl_t ℝ) los_layer_demo 0 0 = 1 / 2 := by
    unfold formod_continua
    simp [ctl_layer_demo, los_layer_demo, for_loop_one]
  have h1 := (aerosol_counted_twice
    (ext_of_libm Real.exp Real.log (fun x => Real.log (1 + x)) (fun x => Real.exp x - 1) 1 1)
    static_none_demo ctl_layer_demo atm_none_demo aero_any_demo 0 0 los_layer_demo 0
    (obs_unit_demo, fun _ _ => 0) 0 (by decide) Real.exp_add (fun x hx => Real.exp_log hx)
    (by rw [htg 0]; exact one_pos)).1 (fun h => absurd h.2 (by decide)) (by decide)
  have h2 := (aerosol_counted_twice
    (ext_of_libm Real.exp Real.log (fun x => Real.log (1 + x)) (fun x => Real.exp x - 1) 1 1)
    static_none_demo ctl_layer_demo atm_none_demo aero_any_demo 1 0 los_layer_demo 0
    (obs_unit_demo, fun _ _ => 0) 0 (by decide) Real.exp_add (fun x hx => Real.exp_log hx)
    (by rw [htg 0]; exact one_pos)).2
    ⟨by show (0 : ℝ) < 1; exact one_pos, by decide⟩ (by show (0 : ℝ) < 1; exact one_pos)
  rw [htg 0, hbc] at h1 h2
  exact ⟨⟨by decide, by decide, by show (0 : ℝ) < 1; exact one_pos⟩, h1, h2⟩


/-! ## C26: damping schedule and rollback -/

/-- An inner attempt is the trial for the state vector, right-hand side,
matrix `cov` and damping of the state it starts from. -/
theorem lm_attempt_trial (E : ext_t F) (S : static_t F) (R : rext_t F) (C : lm_ctx_t F)
    (st s : lm_t F) (h : lm_attempt E S R C st = some s) :
    lm_trial E S R C st.x_i st.b st.cov st.lmpar = some (s.x_step, s.chisq, s.atm_i, s.obs_i) ∧
    s.y_i = (R.obs2y C.ctl s.obs_i).y := by
  unfold lm_attempt at h
  unfold lm_trial
  cases hc : R.cholesky C.n (lm_matrix C st.lmpar st.cov) st.b with
  | none => rw [hc] at h; cases h
  | some x_step =>
    rw [hc] at h
    simp only at h ⊢
    cases hf : formod E S C.ctl (lm_trial_atm R C fun i => st.x_i i + x_step i) C.obs_meas
      C.aero with
    | none => rw [hf] at h; cases h
    | some r =>
      rw [hf] at h
      simp only [Option.some.injEq] at h
      subst h
      exact ⟨rfl, rfl⟩

/-- The inner counter `it2` grows by at most the number of attempts. -/
theorem lm_inner_it2 (E : ext_t F) (S : static_t F) (R : rext_t F) (C : lm_ctx_t F)
    (chisq_old : F) (k : Nat) :
    ∀ st s : lm_t F, lm_inner E S R C chisq_old k st = some s →
      st.it2 ≤ s.it2 ∧ s.it2 ≤ st.it2 + k := by
  induction k with
  | zero =>
    intro st s h
    simp only [lm_inner, Option.some.injEq] at h
    subst h
    exact ⟨le_rfl, le_rfl⟩
  | succ k ih =>
    intro st s h
    rw [lm_inner] at h
    cases ha : lm_attempt E S R C st with
    | none => rw [ha] at h; cases h
    | some s1 =>
      rw [ha] at h
      simp only at h
      obtain ⟨-, hi, -⟩ := lm_attempt_frame E S R C st s1 ha
      by_cases hgt : s1.chisq > chisq_old
      · rw [if_pos hgt] at h
        obtain ⟨h1, h2⟩ := ih _ s h
        simp only [hi] at h1 h2
        exact ⟨by omega, by omega⟩
      · rw [if_neg hgt] at h
        simp only [Option.some.injEq] at h
        subst h
        simp only [hi]
        exact ⟨le_rfl, by omega⟩

/-- C26 (damping schedule and rollback): let an inner loop start with state
vector `x`, damping `lambda > 0`, right-hand side `b` and matrix `cov`, and
let it end in attempt `j` (`it2` has grown by `j`, and `j` is less than the
number of attempts allowed, which is 20 in the program).  Then for every
`i < j` the attempt `i` was the trial with damping `lambda * 10^i` from `x`
against the same `b` and `cov`, and it was rejected (its cost exceeds
`chisq_old`); the attempt `j` is the trial with damping `lambda * 10^j` from
`x` and it was accepted; the state vector on exit is exactly `x` plus the
step of attempt `j`; the damping on exit is `lambda * 10^j / 10`; and every
damping used and the damping on exit are positive. -/
theorem damping_schedule (E : ext_t F) (S : static_t F) (R : rext_t F) (C : lm_ctx_t F)
    (chisq_old : F) (k : Nat) :
    ∀ (j : Nat) (st s : lm_t F), lm_inner E S R C chisq_old k st = some s →
      s.it2 = st.it2 + j → j < k → 0 < st.lmpar →
      (∀ i, i < j → ∃ t, lm_trial E S R C st.x_i st.b st.cov (st.lmpar * 10 ^ i) = some t ∧
        t.2.1 > chisq_old) ∧
      lm_trial E S R C st.x_i st.b st.cov (st.lmpar * 10 ^ j)
        = some (s.x_step, s.chisq, s.atm_i, s.obs_i) ∧
      s.chisq ≤ chisq_old ∧
      (s.x_i = fun i => st.x_i i + s.x_step i) ∧
      s.lmpar = st.lmpar * 10 ^ j / 10 ∧ s.b = st.b ∧ s.cov = st.cov ∧
      (∀ i, i ≤ j → 0 < st.lmpar * 10 ^ i) ∧ 0 < s.lmpar := by
  induction k with
  | zero => intro j st s _ _ hj; omega
  | succ k ih =>
    intro j st s h hit hj hl
    have hpos : ∀ i : Nat, 0 < st.lmpar * 10 ^ i := fun i => mul_pos hl (by positivity)
    rw [lm_inner] at h
    cases ha : lm_attempt E S R C st with
    | none => rw [ha] at h; cases h
    | some s1 =>
      rw [ha] at h
      simp only at h
      obtain ⟨f1, f2, f3, f4, f5, f6, f7, f8⟩ := lm_attempt_frame E S R C st s1 ha
      obtain ⟨t1, t2⟩ := lm_attempt_trial E S R C st s1 ha
      by_cases hgt : s1.chisq > chisq_old
      · rw [if_pos hgt] at h
        have hb := lm_inner_it2 E S R C chisq_old k _ s h
        simp only [f2] at hb
        obtain ⟨j1, rfl⟩ : ∃ j1, j = j1 + 1 := ⟨j - 1, by omega⟩
        have hx : (fun i => s1.x_i i - s1.x_step i) = st.x_i := by
          funext i
          rw [f8]
          ring
        obtain ⟨c1, c2, c3, c4, c5, c6, c7, c8, c9⟩ := ih j1 _ s h
          (by simp only [f2]; omega) (by omega) (by simp only [f3]; linarith)
        have hxi : ∀ i, s1.x_i i - s1.x_step i = st.x_i i := congrFun hx
        simp only [hx, hxi, f3, f4, f5] at c1 c2 c4 c5 c6 c7
        have hp : ∀ i : Nat, st.lmpar * 10 * 10 ^ i = st.lmpar * 10 ^ (i + 1) := by
          intro i
          ring
        refine ⟨?_, ?_, c3, c4, ?_, c6, c7, fun i _ => hpos i, c9⟩
        · intro i hi
          cases i with
          | zero =>
            refine ⟨(s1.x_step, s1.chisq, s1.atm_i, s1.obs_i), ?_, hgt⟩
            rw [pow_zero, mul_one]
            exact t1
          | succ i1 =>
            obtain ⟨t, ht1, ht2⟩ := c1 i1 (by omega)
            exact ⟨t, by rw [← hp]; exact ht1, ht2⟩
        · rw [← hp]
          exact c2
        · rw [c5, hp]
      · rw [if_neg hgt] at h
        simp only [Option.some.injEq] at h
        subst h
        have hj0 : j = 0 := by
          simp only [f2] at hit
          omega
        subst hj0
        refine ⟨fun i hi => absurd hi (by omega), ?_, not_lt.mp hgt, f8, ?_, f4, f5,
          fun i _ => hpos i, ?_⟩
        · rw [pow_zero, mul_one]
          exact t1
        · simp only [f3, pow_zero, mul_one]
        · simp only [f3]
          exact div_pos hl (by norm_num)

set_option maxRecDepth 100000 in
/-- Witness for C26: the inner loop of the retrieval problem `lm_ctx_demo`,
entered with damping `1/1000` and the reference cost `402`: the attempts
`0, ..., 17` are rejected, attempt `18` is accepted, the damping on exit is
`10^14 = 1/1000 * 10^18 / 10` and the state vector on exit is the a-priori
temperature 166.5 K plus the last step. -/
theorem damping_schedule_witness :
    ∃ s, lm_inner ext_lm_demo static_demo rext_demo lm_ctx_demo 402 20
        { lm_rhs lm_ctx_demo (lm_kernel rext_demo lm_ctx_demo 1 lm_demo) with it2 := 0 }
        = some s ∧
      s.it2 = 18 ∧ s.lmpar = 1 / 1000 * 10 ^ 18 / 10 ∧
      (s.x_i = fun i => 333 / 2 + s.x_step i) := by
  have hs : (lm_inner ext_lm_demo static_demo rext_demo lm_ctx_demo 402 20
      { lm_rhs lm_ctx_demo (lm_kernel rext_demo lm_ctx_demo 1 lm_demo) with it2 := 0 }).map
        (fun s => s.it2) = some 18 := by decide!
  cases hrun : lm_inner ext_lm_demo static_demo rext_demo lm_ctx_demo 402 20
      { lm_rhs lm_ctx_demo (lm_kernel rext_demo lm_ctx_demo 1 lm_demo) with it2 := 0 } with
  | none => rw [hrun] at hs; cases hs
  | some s =>
    rw [hrun] at hs
    simp only [Option.map_some', Option.some.injEq] at hs
    have h := damping_schedule ext_lm_demo static_demo rext_demo lm_ctx_demo 402 20 18 _ s hrun
      (by rw [hs]) (by decide) (by decide!)
    exact ⟨s, rfl, hs, h.2.2.2.2.1, h.2.2.2.1⟩

/-! ## C29: `cov` stays consistent with the kernel -/

/-- The inner loop writes neither the kernel nor `cov`. -/
theorem lm_inner_kernel (E : ext_t F) (S : static_t F) (R : rext_t F) (C : lm_ctx_t F)
    (chisq_old : F) (k : Nat) :
    ∀ st s : lm_t F, lm_inner E S R C chisq_old k st = some s →
      s.k_i = st.k_i ∧ s.cov = st.cov ∧ s.b = st.b := by
  induction k with
  | zero =>
    intro st s h
    simp only [lm_inner, Option.some.injEq] at h
    subst h
    exact ⟨rfl, rfl, rfl⟩
  | succ k ih =>
    intro st s h
    rw [lm_inner] at h
    cases ha : lm_attempt E S R C st with
    | none => rw [ha] at h; cases h
    | some s1 =>
      rw [ha] at h
      simp only at h
      obtain ⟨-, -, -, f4, f5, f6, -⟩ := lm_attempt_frame E S R C st s1 ha
      by_cases hgt : s1.chisq > chisq_old
      · rw [if_pos hgt] at h
        obtain ⟨h1, h2, h3⟩ := ih _ s h
        exact ⟨h1.trans f6, h2.trans f5, h3.trans f4⟩
      · rw [if_neg hgt] at h
        simp only [Option.some.injEq] at h
        subst h
        exact ⟨f6, f5, f4⟩

/-- The update of kernel and `cov` at the head of an outer iteration makes
them consistent in iteration 1 and keeps them consistent in every iteration. -/
theorem lm_kernel_consistent (R : rext_t F) (C : lm_ctx_t F) (it : Int) (st : lm_t F)
    (h : it = 1 ∨ cov_consistent R C st) : cov_consistent R C (lm_kernel R C it st) := by
  unfold cov_consistent at h ⊢
  unfold lm_kernel
  by_cases h1 : Int.tmod it C.ret.kernel_recomp = 0 ∧ ¬(C.ret.kernel_recomp = 1 ∧ it = 1)
  · simp only [if_pos h1, if_pos (Or.inl h1.1 : Int.tmod it C.ret.kernel_recomp = 0 ∨ it = 1)]
  · simp only [if_neg h1]
    by_cases h2 : Int.tmod it C.ret.kernel_recomp = 0 ∨ it = 1
    · simp only [if_pos h2]
    · simp only [if_neg h2]
      rcases h with h | h
      · exact absurd (Or.inr h) h2
      · exact h

/-- An outer iteration that starts in iteration 1 or with consistent `cov`
ends with consistent `cov`. -/
theorem lm_iteration_consistent (E : ext_t F) (S : static_t F) (R : rext_t F) (C : lm_ctx_t F)
    (it : Int) (st s : lm_t F) (h : it = 1 ∨ cov_consistent R C st)
    (hi : lm_iteration E S R C it st = some s) : cov_consistent R C s := by
  unfold lm_iteration at hi
  simp only at hi
  cases hin : lm_inner E S R C st.chisq 20 { lm_rhs C (lm_kernel R C it st) with it2 := 0 } with
  | none => rw [hin] at hi; cases hi
  | some s1 =>
    rw [hin] at hi
    simp only [Option.some.injEq] at hi
    obtain ⟨h1, h2, -⟩ := lm_inner_kernel E S R C st.chisq 20 _ s1 hin
    have hk := lm_kernel_consistent R C it st h
    subst hi
    unfold cov_consistent at hk ⊢
    simp only [h1, h2]
    exact hk

/-- C29 (`H` stays consistent with `K`): for `kernel_recomp ≠ 0`, the update
at the head of outer iteration 1 makes `cov` equal to `K^T S_eps^-1 K` for the
kernel `k_i` stored at that moment, and the update at the head of every
later iteration keeps it so, because a recomputed kernel always comes with a
recomputed `cov`; neither kernel nor `cov` is written by the inner attempts,
so at every inner solve (the state before attempt `j` is the result of the
inner loop cut after `j` attempts) `cov` is consistent with `k_i`; and so is
the state after any number of outer iterations of a run that starts with
iteration 1. -/
theorem cov_tracks_kernel (E : ext_t F) (S : static_t F) (R : rext_t F) (C : lm_ctx_t F)
    (hkr : C.ret.kernel_recomp ≠ 0) :
    (∀ st, cov_consistent R C (lm_kernel R C 1 st)) ∧
    (∀ it st, cov_consistent R C st → cov_consistent R C (lm_kernel R C it st)) ∧
    (∀ (it : Int) (st s : lm_t F) (chisq_old : F) (j : Nat),
      (it = 1 ∨ cov_consistent R C st) →
      lm_inner E S R C chisq_old j { lm_rhs C (lm_kernel R C it st) with it2 := 0 } = some s →
      cov_consistent R C s) ∧
    (∀ (n : Nat) (it : Int) (st s : lm_t F), (it = 1 ∨ cov_consistent R C st) →
      lm_outer E S R C (n + 1) it st = some s → cov_consistent R C s) := by
  refine ⟨fun st => lm_kernel_consistent R C 1 st (Or.inl rfl),
    fun it st h => lm_kernel_consistent R C it st (Or.inr h), ?_, ?_⟩
  · intro it st s chisq_old j h hin
    obtain ⟨h1, h2, -⟩ := lm_inner_kernel E S R C chisq_old j _ s hin
    have hk := lm_kernel_consistent R C it st h
    unfold cov_consistent at hk ⊢
    rw [h1, h2]
    exact hk
  · intro n
    induction n with
    | zero =>
      intro it st s h hrun
      rw [lm_outer] at hrun
      cases hi : lm_iteration E S R C it st with
      | none => rw [hi] at hrun; cases hrun
      | some s1 =>
        rw [hi] at hrun
        have hc := lm_iteration_consistent E S R C it st s1 h hi
        simp only [lm_outer] at hrun
        split_ifs at hrun <;>
        · simp only [Option.some.injEq] at hrun
          subst hrun
          exact hc
    | succ n ih =>
      intro it st s h hrun
      rw [lm_outer] at hrun
      cases hi : lm_iteration E S R C it st with
      | none => rw [hi] at hrun; cases hrun
      | some s1 =>
        rw [hi] at hrun
        have hc := lm_iteration_consistent E S R C it st s1 h hi
        simp only at hrun
        by_cases hd : s1.disq < C.ret.conv_dmin
        · rw [if_pos hd] at hrun
          simp only [Option.some.injEq] at hrun
          subst hrun
          exact hc
        · rw [if_neg hd] at hrun
          exact ih (it + 1) s1 s (Or.inr hc) hrun

/-- Witness for C29: in the retrieval problem `lm_ctx_demo`
(`kernel_recomp = 1`) the first iteration computes `cov` from the kernel
`-0.016` kept from before the loop. -/
theorem cov_tracks_kernel_witness :
    lm_ctx_demo.ret.kernel_recomp ≠ 0 ∧
    cov_consistent rext_demo lm_ctx_demo (lm_kernel rext_demo lm_ctx_demo 1 lm_demo) :=
  ⟨by decide,
    (cov_tracks_kernel ext_lm_demo static_demo rext_demo lm_ctx_demo (by decide)).1 lm_demo⟩


/-! ## C30: an exhausted inner loop is rolled back in `x_i` only -/

/-- An inner loop all of whose attempts are rejected leaves the state vector
where it was, a cost above `chisq_old`, and the step, cost, atmosphere,
observations and radiances of its last attempt. -/
theorem lm_inner_exhausted (E : ext_t F) (S : static_t F) (R : rext_t F) (C : lm_ctx_t F)
    (chisq_old : F) (k : Nat) :
    ∀ st s : lm_t F, lm_inner E S R C chisq_old (k + 1) st = some s →
      s.it2 = st.it2 + (k + 1) →
      s.x_i = st.x_i ∧ chisq_old < s.chisq ∧
      lm_trial E S R C st.x_i st.b st.cov (st.lmpar * 10 ^ k)
        = some (s.x_step, s.chisq, s.atm_i, s.obs_i) ∧
      s.y_i = (R.obs2y C.ctl s.obs_i).y ∧ s.lmpar = st.lmpar * 10 ^ (k + 1) := by
  induction k with
  | zero =>
    intro st s h hit
    rw [lm_inner] at h
    cases ha : lm_attempt E S R C st with
    | none => rw [ha] at h; cases h
    | some s1 =>
      rw [ha] at h
      simp only at h
      obtain ⟨f1, f2, f3, f4, f5, f6, f7, f8⟩ := lm_attempt_frame E S R C st s1 ha
      obtain ⟨t1, t2⟩ := lm_attempt_trial E S R C st s1 ha
      by_cases hgt : s1.chisq > chisq_old
      · rw [if_pos hgt] at h
        simp only [lm_inner, Option.some.injEq] at h
        subst h
        refine ⟨?_, hgt, ?_, t2, ?_⟩
        · funext i
          simp only [f8]
          ring
        · rw [pow_zero, mul_one]
          exact t1
        · simp only [f3]
          ring
      · rw [if_neg hgt] at h
        simp only [Option.some.injEq] at h
        subst h
        simp only [f2] at hit
        omega
  | succ k ih =>
    intro st s h hit
    rw [lm_inner] at h
    cases ha : lm_attempt E S R C st with
    | none => rw [ha] at h; cases h
    | some s1 =>
      rw [ha] at h
      simp only at h
      obtain ⟨f1, f2, f3, f4, f5, f6, f7, f8⟩ := lm_attempt_frame E S R C st s1 ha
      by_cases hgt : s1.chisq > chisq_old
      · rw [if_pos hgt] at h
        have hx : (fun i => s1.x_i i - s1.x_step i) = st.x_i := by
          funext i
          rw [f8]
          ring
        obtain ⟨c1, c2, c3, c4, c5⟩ := ih _ s h (by simp only [f2]; omega)
        simp only [hx, f3, f4, f5] at c1 c3 c5
        have hp : ∀ i : Nat, st.lmpar * 10 * 10 ^ i = st.lmpar * 10 ^ (i + 1) := by
          intro i
          ring
        rw [hp] at c3 c5
        exact ⟨c1, c2, c3, c4, c5⟩
      · rw [if_neg hgt] at h
        simp only [Option.some.injEq] at h
        subst h
        simp only [f2] at hit
        omega

/-- C30 (an exhausted inner loop is not rolled back in the model state): if
all 20 inner attempts of an outer iteration are rejected (`it2 = 20` on
leaving the inner loop), then the state vector `x_i` has its value from the
start of the iteration, while `x_step`, `chisq`, `atm_i`, `obs_i` and `y_i`
hold the values of the last rejected attempt (damping `lmpar * 10^19`); the
cost `chisq` is strictly greater than the cost the iteration started from,
and it is the `chisq_old` of the next outer iteration; and if the loop ends
with this iteration, the final `atm_i` is the atmosphere of the rejected
attempt and the final `x_i` the state vector from the start. -/
theorem exhausted_not_rolled_back (E : ext_t F) (S : static_t F) (R : rext_t F)
    (C : lm_ctx_t F) (it : Int) (st s : lm_t F)
    (h : lm_iteration E S R C it st = some s) (hex : s.it2 = 20) :
    s.x_i = st.x_i ∧ st.chisq < s.chisq ∧
    lm_trial E S R C st.x_i (lm_rhs C (lm_kernel R C it st)).b (lm_kernel R C it st).cov
        (st.lmpar * 10 ^ 19) = some (s.x_step, s.chisq, s.atm_i, s.obs_i) ∧
    s.y_i = (R.obs2y C.ctl s.obs_i).y ∧
    (∀ s2, lm_iteration E S R C (it + 1) s = some s2 →
      ∃ e : lm_rec_t F, s2.hist = s.hist ++ [e] ∧ e.chisq_old = s.chisq ∧
        st.chisq < e.chisq_old) ∧
    (∀ s3, lm_outer E S R C 1 it st = some s3 →
      s3.atm_i = s.atm_i ∧ s3.obs_i = s.obs_i ∧ s3.x_i = st.x_i) := by
  have h0 := h
  unfold lm_iteration at h
  simp only at h
  cases hin : lm_inner E S R C st.chisq 20 { lm_rhs C (lm_kernel R C it st) with it2 := 0 } with
  | none => rw [hin] at h; cases h
  | some s1 =>
    rw [hin] at h
    simp only [Option.some.injEq] at h
    have hs1 : s1.it2 = 20 := by
      rw [← h] at hex
      exact hex
    obtain ⟨c1, c2, c3, c4, c5⟩ := lm_inner_exhausted E S R C st.chisq 19 _ s1 hin
      (by simp only [hs1])
    have hrf := lm_rhs_kernel_frame R C it st
    simp only [hrf.2.2.1, hrf.2.2.2.1] at c1 c3
    have hx : s.x_i = st.x_i := by rw [← h]; exact c1
    have hc : st.chisq < s.chisq := by rw [← h]; exact c2
    refine ⟨hx, hc, ?_, ?_, ?_, ?_⟩
    · rw [← h]
      exact c3
    · rw [← h]
      exact c4
    · intro s2 h2
      obtain ⟨e, he1, he2, -⟩ := lm_iteration_hist E S R C (it + 1) s s2 h2
      exact ⟨e, he1, he2, by rw [he2]; exact hc⟩
    · intro s3 h3
      rw [lm_outer, h0] at h3
      simp only [lm_outer] at h3
      split_ifs at h3 <;>
      · simp only [Option.some.injEq] at h3
        subst h3
        exact ⟨rfl, rfl, hx⟩

set_option maxRecDepth 100000 in
/-- Witness for C30: the first outer iteration of the retrieval problem
`lm_ctx_demo` rejects all 20 attempts; afterwards `x_i` is the a-priori
temperature 166.5 K, the cost is above the initial cost `400`, and the
temperature of `atm_i` is not the one of `x_i`. -/
theorem exhausted_not_rolled_back_witness :
    ∃ s, lm_iteration ext_lm_demo static_demo rext_demo lm_ctx_demo 1 lm_demo = some s ∧
      s.it2 = 20 ∧ (s.x_i = fun _ => 333 / 2) ∧ 400 < s.chisq ∧ s.atm_i.t 0 ≠ s.x_i 0 := by
  have hs : (lm_iteration ext_lm_demo static_demo rext_demo lm_ctx_demo 1 lm_demo).map
      (fun s => (s.it2, decide (s.atm_i.t 0 = s.x_i 0))) = some (20, false) := by decide!
  cases hrun : lm_iteration ext_lm_demo static_demo rext_demo lm_ctx_demo 1 lm_demo with
  | none => rw [hrun] at hs; cases hs
  | some s =>
    rw [hrun] at hs
    simp only [Option.map_some', Option.some.injEq, Prod.mk.injEq, decide_eq_false_iff_not]
      at hs
    have h := exhausted_not_rolled_back ext_lm_demo static_demo rext_demo lm_ctx_demo 1
      lm_demo s hrun hs.1
    exact ⟨s, rfl, hs.1, h.1, h.2.1, hs.2⟩


/-! ## C22: which limits of a binary table are fatal -/

set_option maxRecDepth 100000 in
/-- Counterexample to C22 (limits `TBLNPMAX = 41`, `TBLNTMAX = 30`,
`TBLNUMAX = 320`): the binary file `bin_long_demo` announces 321
column-density points for its only `(p,T)` row.  `read_tbl` does not stop: it
reads `GSL_MIN(321, 320) = 320` values of `u` and of `eps` and returns with
the stored count `nu[0][0] = 321`, which exceeds `TBLNUMAX`. -/
theorem binary_nu_limit_not_fatal :
    (read_tbl files_bin_demo ctl_demo tbl_demo).map
        (fun tbl => (tbl.np 0 0, tbl.nt 0 0 0, tbl.nu 0 0 0 0, tbl.u 0 0 0 0 319))
      = some (1, 1, 321, 319) ∧
    ¬ (321 : Int) ≤ files_bin_demo.TBLNUMAX := by
  refine ⟨by decide!, by decide⟩

/-- Invariant rule for a loop on an optional state whose body keeps `none`. -/
theorem for_loop_some_inv {σ : Type} (P : Nat → σ → Prop) (n : Nat)
    (body : Nat → Option σ → Option σ) (s0 res : σ) (h0 : P 0 s0)
    (hnone : ∀ i, body i none = none)
    (hstep : ∀ i st r, i < n → P i st → body i (some st) = some r → P (i + 1) r)
    (hres : for_loop n body (some s0) = some res) : P n res := by
  induction n generalizing res with
  | zero =>
    rw [for_loop_zero] at hres
    cases hres
    exact h0
  | succ k ih =>
    rw [for_loop_succ] at hres
    cases hk : for_loop k body (some s0) with
    | none => rw [hk, hnone] at hres; cases hres
    | some st =>
      rw [hk] at hres
      exact hstep k st res (Nat.lt_succ_self k)
        (ih st (fun i st r hi => hstep i st r (Nat.lt_succ_of_lt hi)) hk) hres

/-- The column-density loop of the binary branch writes neither `np` nor `nt`. -/
theorem read_tbl_bin_rows_frame (L : tbl_files_t F) (ip : Nat)
    (st r : tbl_entry_t F × List (bin_item F)) (h : read_tbl_bin_rows L ip st = some r) :
    r.1.np = st.1.np ∧ r.1.nt = st.1.nt := by
  unfold read_tbl_bin_rows at h
  refine for_loop_some_inv (fun _ (x : tbl_entry_t F × List (bin_item F)) =>
    x.1.np = st.1.np ∧ x.1.nt = st.1.nt) _ _ st r ⟨rfl, rfl⟩ (fun i => rfl) ?_ h
  intro it s1 r1 _ hP hb
  simp only [Option.some_bind] at hb
  cases hu : FREAD bin_item.as_flt (GSL_MIN (s1.1.nu ip it) L.TBLNUMAX) s1.2 with
  | none => rw [hu] at hb; cases hb
  | some ru =>
    rw [hu] at hb
    simp only [Option.some_bind] at hb
    cases he : FREAD bin_item.as_flt (GSL_MIN (s1.1.nu ip it) L.TBLNUMAX) ru.2 with
    | none => rw [he] at hb; cases hb
    | some re =>
      rw [he] at hb
      simp only [Option.map_some', Option.some.injEq] at hb
      subst hb
      exact hP

/-- C22, amended: when `read_tbl` loads a binary table, it stops with a fatal
error if the number of pressure levels at the head of the file exceeds
`TBLNPMAX`, and a table that loads successfully has `np ≤ TBLNPMAX` and
`nt[ip] ≤ TBLNTMAX` for every pressure level `ip < np` (a pressure level with
more temperatures is fatal). -/
theorem binary_limits (L : tbl_files_t F) (ig id : Nat) (e : tbl_entry_t F)
    (s : List (bin_item F)) (hb : L.bin ig id = some s) :
    (∀ (n : Int) (rest : List (bin_item F)), s = bin_item.int n :: rest → n > L.TBLNPMAX →
      read_tbl_entry L ig id e = none) ∧
    (∀ e2, read_tbl_entry L ig id e = some e2 →
      e2.np ≤ L.TBLNPMAX ∧ ∀ ip : Nat, (ip : Int) < e2.np → e2.nt ip ≤ L.TBLNTMAX) := by
  constructor
  · intro n rest hs hn
    unfold read_tbl_entry
    rw [hb]
    simp only
    unfold read_tbl_bin
    have h0 : FREAD bin_item.as_int 1 s = some ([n], rest) := by
      rw [hs]
      unfold FREAD
      rw [if_neg (by decide)]
      show fread_items bin_item.as_int 1 (bin_item.int n :: rest) = _
      simp [fread_items, bin_item.as_int]
    rw [h0]
    simp only [Option.some_bind, List.headD_cons]
    rw [if_pos hn]
  · intro e2 h
    unfold read_tbl_entry at h
    rw [hb] at h
    simp only at h
    unfold read_tbl_bin at h
    cases h0 : FREAD bin_item.as_int 1 s with
    | none => rw [h0] at h; cases h
    | some r0 =>
      rw [h0] at h
      simp only [Option.some_bind] at h
      by_cases hnp : r0.1.headD e.np > L.TBLNPMAX
      · rw [if_pos hnp] at h
        cases h
      · rw [if_neg hnp] at h
        cases h1 : FREAD bin_item.as_dbl (r0.1.headD e.np) r0.2 with
        | none => rw [h1] at h; cases h
        | some r1 =>
          rw [h1] at h
          simp only [Option.some_bind] at h
          cases h2 : FREAD bin_item.as_int (r0.1.headD e.np) r1.2 with
          | none => rw [h2] at h; cases h
          | some r2 =>
            rw [h2] at h
            simp only [Option.some_bind, Option.map_eq_some'] at h
            obtain ⟨res, hres, hfst⟩ := h
            have hP := for_loop_some_inv
              (fun i (x : tbl_entry_t F × List (bin_item F)) =>
                x.1.np = r0.1.headD e.np ∧ x.1.nt = store_items e.nt r2.1 ∧
                ∀ ip : Nat, ip < i → store_items e.nt r2.1 ip ≤ L.TBLNTMAX)
              _ _ _ res ⟨rfl, rfl, fun ip hip => absurd hip (by omega)⟩ (fun i => rfl) ?_ hres
            · obtain ⟨p1, p2, p3⟩ := hP
              rw [← hfst, p1]
              refine ⟨not_lt.mp hnp, fun ip hip => ?_⟩
              rw [p2]
              exact p3 ip (by omega)
            · intro ip st r _ hPst hbody
              obtain ⟨q1, q2, q3⟩ := hPst
              simp only [Option.some_bind] at hbody
              by_cases hnt : st.1.nt ip > L.TBLNTMAX
              · rw [if_pos hnt] at hbody
                cases hbody
              · rw [if_neg hnt] at hbody
                cases ht : FREAD bin_item.as_dbl (st.1.nt ip) st.2 with
                | none => rw [ht] at hbody; cases hbody
                | some rt =>
                  rw [ht] at hbody
                  simp only [Option.some_bind] at hbody
                  cases hn : FREAD bin_item.as_int (st.1.nt ip) rt.2 with
                  | none => rw [hn] at hbody; cases hbody
                  | some rn =>
                    rw [hn] at hbody
                    simp only [Option.some_bind] at hbody
                    obtain ⟨g1, g2⟩ := read_tbl_bin_rows_frame L ip _ r hbody
                    simp only at g1 g2
                    refine ⟨g1.trans q1, g2.trans q2, fun jp hjp => ?_⟩
                    by_cases hj : jp = ip
                    · subst hj
                      rw [← q2]
                      exact not_lt.mp hnt
                    · exact q3 jp (by omega)

/-- Witness for the amended C22: the binary file `bin_long_demo` loads with
`np = 1 ≤ 41` and `nt[0] = 1 ≤ 30`. -/
theorem binary_limits_witness :
    files_bin_demo.bin 0 0 = some bin_long_demo ∧
    ∃ e2, read_tbl_entry files_bin_demo 0 0 (tbl_get tbl_demo 0 0) = some e2 ∧
      e2.np ≤ files_bin_demo.TBLNPMAX ∧
      ∀ ip : Nat, (ip : Int) < e2.np → e2.nt ip ≤ files_bin_demo.TBLNTMAX := by
  have hs : (read_tbl_entry files_bin_demo 0 0 (tbl_get tbl_demo 0 0)).isSome = true := by
    decide!
  cases hrun : read_tbl_entry files_bin_demo 0 0 (tbl_get tbl_demo 0 0) with
  | none => rw [hrun] at hs; cases hs
  | some e2 =>
    exact ⟨rfl, e2, rfl,
      (binary_limits files_bin_demo 0 0 (tbl_get tbl_demo 0 0) bin_long_demo rfl).2 e2 hrun⟩


/-! ## C21: the residual filter terminates -/

/-- Masking one finite radiance in range lowers the number of finite
radiances by one. -/
theorem finite_count_mask (ctl : ctl_t F) (obs : obs_t F) (id ir : Nat) (hid : id < ctl.nd)
    (hir : ir < obs.nr) (hf : gsl_finite (obs.rad id ir) = true) :
    finite_count ctl { obs with rad := upd2 obs.rad id ir Dbl.nan } + 1
      = finite_count ctl obs := by
  unfold finite_count
  have hpt : ∀ a b, (if gsl_finite (obs.rad a b) then 1 else 0)
      = (if gsl_finite (upd2 obs.rad id ir Dbl.nan a b) then 1 else 0)
        + (if a = id then (if b = ir then 1 else 0) else 0) := by
    intro a b
    rw [upd2_apply]
    by_cases ha : a = id
    · by_cases hb : b = ir
      · subst ha; subst hb
        have hn : gsl_finite (Dbl.nan : Dbl F) = false := rfl
        simp [hf, hn]
      · simp [ha, hb]
    · simp [ha]
  simp only [hpt, Finset.sum_add_distrib]
  congr 1
  rw [Finset.sum_eq_single id]
  · simp only [if_true]
    rw [Finset.sum_eq_single ir]
    · simp
    · intro b _ hb
      simp [hb]
    · intro h
      exact absurd (Finset.mem_range.mpr hir) h
  · intro a _ ha
    simp [ha]
  · intro h
    exact absurd (Finset.mem_range.mpr hid) h

/-- A radiance that fails the residual test is finite. -/
theorem residual_bad_finite (ret : ret_t F) (mod meas : Dbl F)
    (h : residual_bad ret mod meas = true) : gsl_finite meas = true := by
  cases mod <;> cases meas <;> simp_all [residual_bad, gsl_finite]

/-- The residual test never holds for `resmax ≤ 0`. -/
theorem residual_bad_off (ret : ret_t F) (mod meas : Dbl F) (h : ret.resmax ≤ 0) :
    residual_bad ret mod meas = false := by
  cases mod <;> cases meas <;> simp [residual_bad, not_lt.mpr h]

/-- The residual filter keeps the number of rays, and every measurement it
masks was finite: the finite radiances left and the counter `nbad` add up to
the finite radiances before. -/
theorem residual_filter_count (ret : ret_t F) (ctl : ctl_t F) (obs_meas obs_i : obs_t F) :
    (residual_filter ret ctl obs_meas obs_i).1.nr = obs_meas.nr ∧
    finite_count ctl (residual_filter ret ctl obs_meas obs_i).1
        + (residual_filter ret ctl obs_meas obs_i).2.2
      = finite_count ctl obs_meas := by
  unfold residual_filter
  refine for_loop_inv
    (fun st : obs_t F × obs_t F × Nat =>
      st.1.nr = obs_meas.nr ∧ finite_count ctl st.1 + st.2.2 = finite_count ctl obs_meas)
    _ _ _ ⟨rfl, rfl⟩ ?_
  intro id st hid hst
  refine for_loop_inv
    (fun s : obs_t F × obs_t F × Nat =>
      s.1.nr = obs_meas.nr ∧ finite_count ctl s.1 + s.2.2 = finite_count ctl obs_meas)
    _ _ _ hst ?_
  intro ir s hir hs
  by_cases hb : residual_bad ret (s.2.1.rad id ir) (s.1.rad id ir) = true
  · rw [if_pos hb]
    refine ⟨hs.1, ?_⟩
    have hm := finite_count_mask ctl s.1 id ir hid (by rw [hs.1, ← hst.1]; exact hir)
      (residual_bad_finite ret _ _ hb)
    simp only
    omega
  · rw [if_neg hb]
    exact hs

/-- With `resmax ≤ 0` the residual filter masks nothing. -/
theorem residual_filter_off (ret : ret_t F) (ctl : ctl_t F) (obs_meas obs_i : obs_t F)
    (h : ret.resmax ≤ 0) : (residual_filter ret ctl obs_meas obs_i).2.2 = 0 := by
  unfold residual_filter
  refine for_loop_inv (fun st : obs_t F × obs_t F × Nat => st.2.2 = 0) _ _ _ rfl ?_
  intro id st _ hst
  refine for_loop_inv (fun s : obs_t F × obs_t F × Nat => s.2.2 = 0) _ _ _ hst ?_
  intro ir s _ hs
  rw [residual_bad_off ret _ _ h]
  simpa using hs

/-- The loop of `main` ends within as many passes as there are finite
measurements (and within one pass when there is none). -/
theorem retrieval_loop_ends (E : ext_t F) (S : static_t F) (R : rext_t F) (ret : ret_t F)
    (ctl : ctl_t F) (atm_apr : atm_t F) (aero : aero_t F) (nr : Nat)
    (hobs2y : ∀ obs, obs.nr = nr → (R.obs2y ctl obs).m = finite_count ctl obs) (fuel : Nat) :
    ∀ (calls : Nat) (obs : obs_t F), obs.nr = nr → finite_count ctl obs ≤ fuel → 1 ≤ fuel →
      ∃ run, retrieval_loop E S R ret ctl atm_apr aero fuel calls obs = some run ∧
        calls + 1 ≤ run.calls ∧ run.calls ≤ calls + max 1 (finite_count ctl obs) := by
  induction fuel with
  | zero => intro calls obs _ _ h1; omega
  | succ k ih =>
    intro calls obs hnr hc _
    rw [retrieval_loop]
    cases ho : optimal_estimation E S R ret ctl obs atm_apr aero with
    | none => exact ⟨_, rfl, le_rfl, by simp only; omega⟩
    | some st =>
      simp only
      obtain ⟨hnr2, hcount⟩ := residual_filter_count ret ctl obs st.obs_i
      by_cases hre : (residual_filter ret ctl obs st.obs_i).2.2 > 0
          ∧ (R.obs2y ctl (residual_filter ret ctl obs st.obs_i).1).m > 0
      · rw [if_pos hre]
        have hm := hobs2y (residual_filter ret ctl obs st.obs_i).1 (hnr2.trans hnr)
        obtain ⟨hb, hmp⟩ := hre
        rw [hm] at hmp
        obtain ⟨run, h1, h2, h3⟩ := ih (calls + 1) (residual_filter ret ctl obs st.obs_i).1
          (hnr2.trans hnr) (by omega) (by omega)
        refine ⟨run, h1, by omega, ?_⟩
        have : max 1 (finite_count ctl (residual_filter ret ctl obs st.obs_i).1)
            = finite_count ctl (residual_filter ret ctl obs st.obs_i).1 := max_eq_right hmp
        rw [this] at h3
        have h4 : finite_count ctl obs ≤ max 1 (finite_count ctl obs) := le_max_right _ _
        omega
      · rw [if_neg hre]
        exact ⟨_, rfl, le_rfl, by simp only; omega⟩

/-- C21 (the residual filter terminates): let `obs2y` return the number of
finite radiances as its length `m` (for observations with the rays of
`obs_meas`), and let `obs_meas` hold `m0 ≥ 1` finite radiances at the start.
Then the loop of `main` for one directory ends within `m0` passes, with at
least one and at most `m0` calls of `optimal_estimation`; every pass of the
filter masks only radiances that were finite, so that the number of finite
measurements drops by `nbad`, and a repetition takes place only after a pass
with `nbad > 0` that leaves a finite measurement; a pass that masks nothing
or leaves no measurement ends the loop; and with `resmax ≤ 0` the retrieval
is run exactly once. -/
theorem residual_filtering_terminates (E : ext_t F) (S : static_t F) (R : rext_t F)
    (ret : ret_t F) (ctl : ctl_t F) (atm_apr : atm_t F) (aero : aero_t F) (obs_meas : obs_t F)
    (hobs2y : ∀ obs, obs.nr = obs_meas.nr → (R.obs2y ctl obs).m = finite_count ctl obs)
    (hm0 : 1 ≤ finite_count ctl obs_meas) :
    (∀ fuel, finite_count ctl obs_meas ≤ fuel →
      ∃ run, retrieval_loop E S R ret ctl atm_apr aero fuel 0 obs_meas = some run ∧
        1 ≤ run.calls ∧ run.calls ≤ finite_count ctl obs_meas) ∧
    (∀ obs obs_i : obs_t F,
      finite_count ctl (residual_filter ret ctl obs obs_i).1
          + (residual_filter ret ctl obs obs_i).2.2 = finite_count ctl obs) ∧
    (∀ (fuel calls : Nat) (obs : obs_t F) (st : lm_t F), obs.nr = obs_meas.nr →
      optimal_estimation E S R ret ctl obs atm_apr aero = some st →
      ((residual_filter ret ctl obs st.obs_i).2.2 = 0
        ∨ finite_count ctl (residual_filter ret ctl obs st.obs_i).1 = 0) →
      ∃ run, retrieval_loop E S R ret ctl atm_apr aero (fuel + 1) calls obs = some run ∧
        run.calls = calls + 1) ∧
    (ret.resmax ≤ 0 → ∀ fuel, 1 ≤ fuel →
      ∃ run, retrieval_loop E S R ret ctl atm_apr aero fuel 0 obs_meas = some run ∧
        run.calls = 1) := by
  refine ⟨?_, fun obs obs_i => (residual_filter_count ret ctl obs obs_i).2, ?_, ?_⟩
  · intro fuel hf
    obtain ⟨run, h1, h2, h3⟩ := retrieval_loop_ends E S R ret ctl atm_apr aero obs_meas.nr
      hobs2y fuel 0 obs_meas rfl hf (by omega)
    rw [max_eq_right hm0] at h3
    exact ⟨run, h1, by omega, by omega⟩
  · intro fuel calls obs st hnr ho hstop
    rw [retrieval_loop, ho]
    simp only
    rw [if_neg]
    · exact ⟨_, rfl, rfl⟩
    · rintro ⟨hb, hm⟩
      rw [hobs2y _ ((residual_filter_count ret ctl obs st.obs_i).1.trans hnr)] at hm
      rcases hstop with h | h <;> omega
  · intro hres fuel hf
    obtain ⟨k, rfl⟩ : ∃ k, fuel = k + 1 := ⟨fuel - 1, by omega⟩
    rw [retrieval_loop]
    cases ho : optimal_estimation E S R ret ctl obs_meas atm_apr aero with
    | none => exact ⟨_, rfl, rfl⟩
    | some st =>
      simp only
      rw [if_neg (fun h => by
        have := residual_filter_off ret ctl obs_meas st.obs_i hres
        omega)]
      exact ⟨_, rfl, rfl⟩

/-- For one channel and one ray `obs2y` of `rext_demo` returns the number of
finite radiances. -/
theorem rext_demo_obs2y (obs : obs_t ℚ) (h : obs.nr = 1) :
    (rext_demo.obs2y ctl_demo obs).m = finite_count ctl_demo obs := by
  unfold finite_count
  rw [h]
  show (match obs.rad 0 0 with
    | Dbl.fin v => ({ m := 1, y := fun _ => v } : meas_t ℚ)
    | Dbl.nan => { m := 0, y := fun _ => 0 }).m = _
  cases hr : obs.rad 0 0 with
  | fin v =>
    simp only
    rw [show ctl_demo.nd = 1 from rfl, Finset.sum_range_one, Finset.sum_range_one, hr]
    rfl
  | nan =>
    simp only
    rw [show ctl_demo.nd = 1 from rfl, Finset.sum_range_one, Finset.sum_range_one, hr]
    rfl

/-- Witness for C21: the retrieval problem with the single measured radiance
`100.00001` (`m0 = 1`); the loop of `main` ends after one call of
`optimal_estimation`. -/
theorem residual_filtering_terminates_witness :
    1 ≤ finite_count ctl_demo obs_ok_demo ∧
    ∃ run, retrieval_loop ext_lm_demo static_demo rext_demo ret_demo ctl_demo atm_ok_demo
        aero_demo 1 0 obs_ok_demo = some run ∧ run.calls = 1 := by
  have hm0 : finite_count ctl_demo obs_ok_demo = 1 := by decide!
  obtain ⟨run, h1, h2, h3⟩ := (residual_filtering_terminates ext_lm_demo static_demo rext_demo
    ret_demo ctl_demo atm_ok_demo aero_demo obs_ok_demo
    (fun obs h => rext_demo_obs2y obs h) (by rw [hm0])).1 1 (by rw [hm0])
  exact ⟨by rw [hm0], run, h1, by omega⟩


/-! ## C23: the axes that `read_tbl` recovers from an ASCII table -/

theorem upd2_idem {ι κ α : Type} [DecidableEq ι] [DecidableEq κ]
    (a : ι → κ → α) (i : ι) (j : κ) (v w : α) : upd2 (upd2 a i j v) i j w = upd2 a i j w := by
  funext x y
  simp only [upd2_apply]
  split_ifs <;> rfl

/-- A line that changes pressure and temperature is stored at the start of
the next pressure group. -/
theorem tab_line_pressure (L : tbl_files_t F) (l : F × F × F × F) (st : tab_state_t F)
    (hp : l.1 ≠ st.press_old) (ht : l.2.1 ≠ st.temp_old)
    (h1 : st.e.np + 1 < L.TBLNPMAX) (h2 : 0 < L.TBLNTMAX) (h3 : 0 < L.TBLNUMAX) :
    read_tbl_tab_line L (some l) st = some (tab_put st (st.e.np + 1) 0 0 l) := by
  obtain ⟨p, T, u, eps⟩ := l
  simp only at hp ht
  unfold read_tbl_tab_line
  simp only [ne_eq, hp, not_false_eq_true, if_true, ge_iff_le, not_le.mpr h1, if_false,
    Option.some_bind, ht, Function.update_same, zero_add, neg_add_cancel, not_le.mpr h2,
    upd2_same, not_le.mpr h3, Left.neg_neg_iff, zero_lt_one, or_true, Int.reduceNeg,
    Int.reduceAdd]
  unfold read_tbl_tab_store tab_put
  simp only [Function.update_same, upd2_same, Function.update_idem, upd2_idem,
    Int.reduceNeg, Int.reduceAdd, neg_add_cancel]

/-- A line that keeps the pressure and changes the temperature is stored at
the start of the next temperature group. -/
theorem tab_line_temperature (L : tbl_files_t F) (l : F × F × F × F) (st : tab_state_t F)
    (hp : l.1 = st.press_old) (ht : l.2.1 ≠ st.temp_old)
    (h2 : st.e.nt st.e.np + 1 < L.TBLNTMAX) (h3 : 0 < L.TBLNUMAX) :
    read_tbl_tab_line L (some l) st
      = some (tab_put st st.e.np (st.e.nt st.e.np + 1) 0 l) := by
  obtain ⟨p, T, u, eps⟩ := l
  simp only at hp ht
  unfold read_tbl_tab_line
  simp only [ne_eq, hp, not_true_eq_false, if_false, not_false_eq_true, if_true, ge_iff_le,
    Option.some_bind, ht, Function.update_same, not_le.mpr h2,
    upd2_same, not_le.mpr h3, Left.neg_neg_iff, zero_lt_one, or_true, Int.reduceNeg,
    Int.reduceAdd, neg_add_cancel]
  unfold read_tbl_tab_store tab_put
  simp only [Function.update_same, upd2_same, Function.update_idem, upd2_idem,
    Int.reduceNeg, Int.reduceAdd, neg_add_cancel, hp]

/-- A line that keeps pressure and temperature and has larger `u` and `eps`
is stored as the next line of its group. -/
theorem tab_line_next (L : tbl_files_t F) (l : F × F × F × F) (st : tab_state_t F)
    (hp : l.1 = st.press_old) (ht : l.2.1 = st.temp_old)
    (hu : st.u_old < l.2.2.1) (he : st.eps_old < l.2.2.2)
    (h3 : st.e.nu st.e.np (st.e.nt st.e.np) + 1 < L.TBLNUMAX) :
    read_tbl_tab_line L (some l) st
      = some (tab_put st st.e.np (st.e.nt st.e.np)
          (st.e.nu st.e.np (st.e.nt st.e.np) + 1) l) := by
  obtain ⟨p, T, u, eps⟩ := l
  simp only at hp ht hu he
  unfold read_tbl_tab_line
  simp only [ne_eq, hp, ht, not_true_eq_false, if_false, ge_iff_le,
    Option.some_bind, gt_iff_lt, hu, he, and_self, true_or, if_true, upd2_same,
    not_le.mpr h3]
  unfold read_tbl_tab_store tab_put
  simp only [Function.update_same, upd2_same, Function.update_idem, upd2_idem,
    Function.update_eq_self, hp, ht]

/-- The three ways in which the indices of a line follow from the ones of
the line before. -/
theorem tab_idx_step (ls : List (F × F × F × F)) (k : Nat) :
    ((tab_line ls (k + 1)).1 ≠ (tab_line ls k).1 ∧
      tab_idx ls (k + 1) = ((tab_idx ls k).1 + 1, 0, 0)) ∨
    ((tab_line ls (k + 1)).1 = (tab_line ls k).1 ∧
      (tab_line ls (k + 1)).2.1 ≠ (tab_line ls k).2.1 ∧
      tab_idx ls (k + 1) = ((tab_idx ls k).1, (tab_idx ls k).2.1 + 1, 0)) ∨
    ((tab_line ls (k + 1)).1 = (tab_line ls k).1 ∧
      (tab_line ls (k + 1)).2.1 = (tab_line ls k).2.1 ∧
      tab_idx ls (k + 1) = ((tab_idx ls k).1, (tab_idx ls k).2.1, (tab_idx ls k).2.2 + 1)) := by
  by_cases hp : (tab_line ls (k + 1)).1 = (tab_line ls k).1
  · by_cases ht : (tab_line ls (k + 1)).2.1 = (tab_line ls k).2.1
    · right; right
      refine ⟨hp, ht, ?_⟩
      rw [tab_idx]
      simp only [ne_eq, hp, ht, not_true_eq_false, if_false]
    · right; left
      refine ⟨hp, ht, ?_⟩
      rw [tab_idx]
      simp only [ne_eq, hp, ht, not_true_eq_false, not_false_eq_true, if_false, if_true]
  · left
    refine ⟨hp, ?_⟩
    rw [tab_idx]
    simp only [ne_eq, hp, not_false_eq_true, if_true]

/-- The indices are not negative. -/
theorem tab_idx_nonneg (ls : List (F × F × F × F)) (k : Nat) :
    0 ≤ (tab_idx ls k).1 ∧ 0 ≤ (tab_idx ls k).2.1 ∧ 0 ≤ (tab_idx ls k).2.2 := by
  induction k with
  | zero => simp [tab_idx]
  | succ k ih =>
    obtain ⟨i1, i2, i3⟩ := ih
    rcases tab_idx_step ls k with ⟨_, h⟩ | ⟨_, _, h⟩ | ⟨_, _, h⟩ <;> rw [h] <;>
      refine ⟨?_, ?_, ?_⟩ <;> simp only <;> omega

/-- The indices grow in file order, lexicographically; lines of one pressure
group have one pressure, lines of one `(p,T)` group one temperature and
different indices `iu`. -/
theorem tab_idx_mono (ls : List (F × F × F × F)) (j k : Nat) (hjk : j ≤ k) :
    (tab_idx ls j).1 ≤ (tab_idx ls k).1 ∧
    ((tab_idx ls j).1 = (tab_idx ls k).1 →
      (tab_line ls j).1 = (tab_line ls k).1 ∧
      (tab_idx ls j).2.1 ≤ (tab_idx ls k).2.1 ∧
      ((tab_idx ls j).2.1 = (tab_idx ls k).2.1 →
        (tab_line ls j).2.1 = (tab_line ls k).2.1 ∧
        (tab_idx ls j).2.2 ≤ (tab_idx ls k).2.2 ∧
        (j < k → (tab_idx ls j).2.2 < (tab_idx ls k).2.2))) := by
  induction k with
  | zero =>
    have : j = 0 := by omega
    subst this
    simp
  | succ k ih =>
    by_cases hj : j = k + 1
    · subst hj
      simp
    · have hjk1 : j ≤ k := by omega
      obtain ⟨a1, a2⟩ := ih hjk1
      rcases tab_idx_step ls k with ⟨hp, h⟩ | ⟨hp, ht, h⟩ | ⟨hp, ht, h⟩
      · rw [h]
        refine ⟨by simp only; omega, fun h1 => ?_⟩
        simp only at h1
        omega
      · rw [h]
        refine ⟨a1, fun h1 => ?_⟩
        simp only at h1
        obtain ⟨b1, b2, b3⟩ := a2 h1
        refine ⟨b1.trans hp.symm, by simp only; omega, fun h2 => ?_⟩
        simp only at h2
        omega
      · rw [h]
        refine ⟨a1, fun h1 => ?_⟩
        simp only at h1
        obtain ⟨b1, b2, b3⟩ := a2 h1
        refine ⟨b1.trans hp.symm, b2, fun h2 => ?_⟩
        simp only at h2
        obtain ⟨c1, c2, c3⟩ := b3 h2
        refine ⟨c1.trans ht.symm, by simp only; omega, fun _ => ?_⟩
        simp only
        omega

/-- A line that starts a group has an index pair `(ip, it)` above the one of
the line before. -/
theorem tab_idx_new_group (ls : List (F × F × F × F)) (j : Nat)
    (h0 : (tab_idx ls (j + 1)).2.2 = 0) :
    (tab_idx ls j).1 < (tab_idx ls (j + 1)).1 ∨
    ((tab_idx ls j).1 = (tab_idx ls (j + 1)).1 ∧
      (tab_idx ls j).2.1 < (tab_idx ls (j + 1)).2.1) := by
  have hn := tab_idx_nonneg ls j
  rcases tab_idx_step ls j with ⟨_, h⟩ | ⟨_, _, h⟩ | ⟨_, _, h⟩
  · left; rw [h]; simp only; omega
  · right; rw [h]
    exact ⟨rfl, by show (tab_idx ls j).2.1 < (tab_idx ls j).2.1 + 1; omega⟩
  · rw [h] at h0; simp only at h0; omega

/-- Storing the next line at its indices keeps the invariant of the ASCII
branch. -/
theorem tab_inv_put (ls : List (F × F × F × F)) (k : Nat) (st : tab_state_t F)
    (h : tab_inv ls k st) :
    tab_inv ls (k + 1) (tab_put st (tab_idx ls (k + 1)).1 (tab_idx ls (k + 1)).2.1
      (tab_idx ls (k + 1)).2.2 (tab_line ls (k + 1))) := by
  obtain ⟨a1, a2, a3, b1, b2, b3, b4, c, e⟩ := h
  refine ⟨rfl, ?_, ?_, rfl, rfl, rfl, rfl, ?_, ?_⟩
  · simp only [tab_put, Function.update_same]
  · simp only [tab_put, upd2_same]
  · intro j hj
    by_cases hjk : j = k + 1
    · subst hjk
      simp only [tab_stored, tab_put, Function.update_same, upd2_same, le_refl, and_self]
    · have hjk1 : j ≤ k := by omega
      obtain ⟨⟨s1, s2, s3, s4⟩, s5, s6⟩ := c j hjk1
      obtain ⟨m1, m2⟩ := tab_idx_mono ls j (k + 1) hj
      have hlt : j < k + 1 := by omega
      by_cases hip : (tab_idx ls j).1 = (tab_idx ls (k + 1)).1
      · obtain ⟨n1, n2, n3⟩ := m2 hip
        by_cases hit : (tab_idx ls j).2.1 = (tab_idx ls (k + 1)).2.1
        · obtain ⟨o1, o2, o3⟩ := n3 hit
          have hne : (tab_idx ls j).2.2 ≠ (tab_idx ls (k + 1)).2.2 := ne_of_lt (o3 hlt)
          simp only [tab_stored, tab_put, hip, hit, Function.update_same, upd2_same,
            upd2_apply, hne, and_false, if_false, le_refl, true_and]
          rw [← hip, ← hit]
          exact ⟨⟨n1.symm, o1.symm, s3, s4⟩, o2⟩
        · simp only [tab_stored, tab_put, hip, Function.update_same,
            upd2_apply, hit, and_false, false_and, if_false, true_and]
          rw [← hip]
          exact ⟨⟨n1.symm, s2, s3, s4⟩, n2, s6⟩
      · simp only [tab_stored, tab_put, Function.update_apply, upd2_apply, hip, false_and,
          if_false]
        exact ⟨⟨s1, s2, s3, s4⟩, s5, s6⟩
  · intro j hj
    have hj1 : j + 1 ≤ k + 1 := by omega
    obtain ⟨m1, m2⟩ := tab_idx_mono ls (j + 1) (k + 1) hj1
    obtain ⟨q1, q2⟩ := tab_idx_mono ls j (j + 1) (Nat.le_succ j)
    have old : ((tab_idx ls (j + 1)).1 ≠ (tab_idx ls j).1 →
          st.e.nt (tab_idx ls j).1 = (tab_idx ls j).2.1) ∧
        ((tab_idx ls (j + 1)).2.2 = 0 →
          st.e.nu (tab_idx ls j).1 (tab_idx ls j).2.1 = (tab_idx ls j).2.2) := by
      by_cases hjk : j = k
      · subst hjk
        exact ⟨fun _ => a2, fun _ => a3⟩
      · exact e j (by omega)
    refine ⟨fun hne => ?_, fun h0 => ?_⟩
    · have hip : (tab_idx ls j).1 ≠ (tab_idx ls (k + 1)).1 := by omega
      simp only [tab_put, Function.update_apply, hip, if_false]
      exact old.1 hne
    · have hpair : ¬ ((tab_idx ls j).1 = (tab_idx ls (k + 1)).1 ∧
          (tab_idx ls j).2.1 = (tab_idx ls (k + 1)).2.1) := by
        rintro ⟨x1, x2⟩
        rcases tab_idx_new_group ls j h0 with g | ⟨g1, g2⟩
        · omega
        · have := (m2 (by omega)).2.1
          omega
      simp only [tab_put, upd2_apply, hpair, if_false]
      exact old.2 h0

/-- Under the conditions `tab_wf`, the loop over the lines stores the line
after line `k` at its indices. -/
theorem tab_line_step (L : tbl_files_t F) (ls : List (F × F × F × F)) (k : Nat)
    (st : tab_state_t F) (hwf : tab_wf L ls) (hk : k + 1 < ls.length)
    (h : tab_inv ls k st) :
    read_tbl_tab_line L (some (tab_line ls (k + 1))) st
      = some (tab_put st (tab_idx ls (k + 1)).1 (tab_idx ls (k + 1)).2.1
          (tab_idx ls (k + 1)).2.2 (tab_line ls (k + 1))) := by
  obtain ⟨a1, a2, a3, b1, b2, b3, b4, c, e⟩ := h
  obtain ⟨w1, w2, w3⟩ := hwf
  obtain ⟨l1, l2, l3⟩ := w3 (k + 1) hk
  obtain ⟨v1, v2⟩ := w2 k hk
  have hn := tab_idx_nonneg ls k
  rcases tab_idx_step ls k with ⟨hp, hi⟩ | ⟨hp, ht, hi⟩ | ⟨hp, ht, hi⟩
  · rw [hi] at l1 l2 l3 ⊢
    have := tab_line_pressure L (tab_line ls (k + 1)) st (by rw [b1]; exact hp)
      (by rw [b2]; exact v1 hp) (by rw [a1]; exact l1) l2 l3
    rw [a1] at this
    exact this
  · rw [hi] at l1 l2 l3 ⊢
    have := tab_line_temperature L (tab_line ls (k + 1)) st (by rw [b1]; exact hp)
      (by rw [b2]; exact ht) (by rw [a1, a2]; exact l2) l3
    rw [a1, a2] at this
    exact this
  · rw [hi] at l1 l2 l3 ⊢
    obtain ⟨x1, x2⟩ := v2 hp ht
    have := tab_line_next L (tab_line ls (k + 1)) st (by rw [b1]; exact hp)
      (by rw [b2]; exact ht) (by rw [b3]; exact x1) (by rw [b4]; exact x2)
      (by rw [a1, a2, a3]; exact l3)
    rw [a1, a2, a3] at this
    exact this

/-- The first line of a table is stored at the indices `(0, 0, 0)`. -/
theorem tab_line_first (L : tbl_files_t F) (ls : List (F × F × F × F))
    (e : tbl_entry_t F) (hnp : e.np = -1) (hwf : tab_wf L ls) (hn : 0 < ls.length) :
    ∃ st, read_tbl_tab_line L (some (tab_line ls 0)) ⟨e, -999, -999, -999, -999⟩ = some st
      ∧ tab_inv ls 0 st := by
  obtain ⟨w1, w2, w3⟩ := hwf
  obtain ⟨l1, l2, l3⟩ := w3 0 hn
  obtain ⟨p1, p2⟩ := w1 hn
  have h0 : tab_idx ls 0 = (0, 0, 0) := rfl
  rw [h0] at l1 l2 l3
  have := tab_line_pressure L (tab_line ls 0) ⟨e, -999, -999, -999, -999⟩ p1 p2
    (by show e.np + 1 < L.TBLNPMAX; rw [hnp]; exact l1) l2 l3
  refine ⟨_, this, ?_⟩
  have hz : (⟨e, -999, -999, -999, -999⟩ : tab_state_t F).e.np + 1 = 0 := by
    show e.np + 1 = 0
    rw [hnp]; rfl
  rw [hz]
  refine ⟨rfl, ?_, ?_, rfl, rfl, rfl, rfl, ?_, ?_⟩
  · simp only [tab_put, h0, Function.update_same]
  · simp only [tab_put, h0, upd2_same]
  · intro j hj
    have : j = 0 := by omega
    subst this
    simp only [tab_stored, tab_put, h0, Function.update_same, upd2_same, le_refl, and_self]
  · intro j hj
    omega

/-- The loop over the first `m + 1` lines of a table that meets `tab_wf`
ends in a state with the invariant `tab_inv` at line `m`. -/
theorem tab_fold (L : tbl_files_t F) (ls : List (F × F × F × F))
    (e : tbl_entry_t F) (hnp : e.np = -1) (hwf : tab_wf L ls) (m : Nat)
    (hm : m < ls.length) :
    ∃ st, ((ls.take (m + 1)).map some).foldl
        (fun st line => st.bind (read_tbl_tab_line L line))
        (some ⟨e, -999, -999, -999, -999⟩) = some st ∧ tab_inv ls m st := by
  have key : ∀ m, m < ls.length → ∀ s0 : Option (tab_state_t F),
      ((ls.take (m + 1)).map some).foldl
        (fun st line => st.bind (read_tbl_tab_line L line)) s0
      = (((ls.take m).map some).foldl
        (fun st line => st.bind (read_tbl_tab_line L line)) s0).bind
          (read_tbl_tab_line L (some (tab_line ls m))) := by
    intro m hm s0
    rw [List.take_succ, List.getElem?_eq_getElem hm]
    simp only [Option.toList, List.map_append, List.map_cons, List.map_nil, List.foldl_append,
      List.foldl_cons, List.foldl_nil]
    rw [tab_line, List.getD_eq_getElem ls _ hm]
  induction m with
  | zero =>
    rw [key 0 hm]
    simp only [List.take_zero, List.map_nil, List.foldl_nil, Option.some_bind]
    exact tab_line_first L ls e hnp hwf hm
  | succ m ih =>
    obtain ⟨st, h1, h2⟩ := ih (by omega)
    rw [key (m + 1) hm, h1]
    simp only [Option.some_bind]
    exact ⟨_, tab_line_step L ls m st hwf hm h2, tab_inv_put ls m st h2⟩

/-- Invariant rule for a counted loop, with the loop index. -/
theorem for_loop_ind {σ : Type} (P : Nat → σ → Prop) (n : Nat) (body : Nat → σ → σ) (s : σ)
    (h0 : P 0 s) (hstep : ∀ i st, i < n → P i st → P (i + 1) (body i st)) :
    P n (for_loop n body s) := by
  induction n with
  | zero => rw [for_loop_zero]; exact h0
  | succ n ih =>
    rw [for_loop_succ]
    exact hstep n _ (Nat.lt_succ_self n)
      (ih (fun i st hi hp => hstep i st (Nat.lt_succ_of_lt hi) hp))

/-- The inner loop of "Increment counters": the counts `nu[ip][it]` with
`0 ≤ it < M` grow by one. -/
theorem tab_counters_inner (ip M : Nat) (e r : tbl_entry_t F)
    (hr : r = for_loop M (fun it e =>
        ({ e with nu := upd2 e.nu (ip : Int) (it : Int) (e.nu ip it + 1) } : tbl_entry_t F)) e) :
    r.np = e.np ∧ r.nt = e.nt ∧ r.p = e.p ∧ r.t = e.t ∧ r.u = e.u ∧ r.eps = e.eps ∧
    ∀ x y : Int, r.nu x y
      = if x = ip ∧ 0 ≤ y ∧ y < M then e.nu x y + 1 else e.nu x y := by
  subst hr
  refine for_loop_ind (fun (M : Nat) (r : tbl_entry_t F) =>
    r.np = e.np ∧ r.nt = e.nt ∧ r.p = e.p ∧ r.t = e.t ∧ r.u = e.u ∧ r.eps = e.eps ∧
    ∀ x y : Int, r.nu x y
      = if x = ip ∧ 0 ≤ y ∧ y < M then e.nu x y + 1 else e.nu x y) M _ e ?_ ?_
  · refine ⟨rfl, rfl, rfl, rfl, rfl, rfl, fun x y => ?_⟩
    rw [if_neg]
    push_cast
    omega
  · rintro i st _ ⟨h1, h2, h3, h4, h5, h6, h7⟩
    refine ⟨h1, h2, h3, h4, h5, h6, fun x y => ?_⟩
    show upd2 st.nu (ip : Int) (i : Int) (st.nu ip i + 1) x y = _
    have hi := h7 ip i
    rw [if_neg (by omega)] at hi
    rw [upd2_apply, hi, h7 x y]
    by_cases hxy : x = (ip : Int) ∧ y = (i : Int)
    · rw [if_pos hxy, if_pos ⟨hxy.1, by push_cast; omega⟩, hxy.1, hxy.2]
    · rw [if_neg hxy]
      by_cases hc : x = (ip : Int) ∧ 0 ≤ y ∧ y < (i : Int)
      · rw [if_pos hc, if_pos ⟨hc.1, hc.2.1, by push_cast; omega⟩]
      · rw [if_neg hc, if_neg]
        rintro ⟨g0, g1, g2⟩
        push_cast at g2
        by_cases hy : y = (i : Int)
        · exact hxy ⟨g0, hy⟩
        · exact hc ⟨g0, g1, by omega⟩

/-- The statements "Increment counters": `np` grows by one, the counts
`nt[ip]` of the pressure levels `0 ≤ ip < np + 1` grow by one, and so do the
counts `nu[ip][it]` of their temperatures `0 ≤ it < nt[ip] + 1`; the stored
data stay. -/
theorem tab_counters_spec (e : tbl_entry_t F) :
    (read_tbl_tab_counters e).np = e.np + 1 ∧
    (read_tbl_tab_counters e).p = e.p ∧ (read_tbl_tab_counters e).t = e.t ∧
    (read_tbl_tab_counters e).u = e.u ∧ (read_tbl_tab_counters e).eps = e.eps ∧
    (∀ x : Int, (read_tbl_tab_counters e).nt x
      = if 0 ≤ x ∧ x < e.np + 1 then e.nt x + 1 else e.nt x) ∧
    (∀ x y : Int, (read_tbl_tab_counters e).nu x y
      = if 0 ≤ x ∧ x < e.np + 1 ∧ 0 ≤ y ∧ y < e.nt x + 1 then e.nu x y + 1 else e.nu x y) := by
  have gen := for_loop_ind (fun (N : Nat) (r : tbl_entry_t F) =>
    r.np = e.np + 1 ∧ r.p = e.p ∧ r.t = e.t ∧ r.u = e.u ∧ r.eps = e.eps ∧
    (∀ x : Int, r.nt x = if 0 ≤ x ∧ x < (N : Int) then e.nt x + 1 else e.nt x) ∧
    (∀ x y : Int, r.nu x y
      = if 0 ≤ x ∧ x < (N : Int) ∧ 0 ≤ y ∧ y < e.nt x + 1 then e.nu x y + 1 else e.nu x y))
    (e.np + 1).toNat
    (fun ip e =>
      let e := { e with nt := Function.update e.nt (ip : Int) (e.nt ip + 1) }
      for_loop (e.nt ip).toNat
        (fun it e => { e with nu := upd2 e.nu (ip : Int) (it : Int) (e.nu ip it + 1) }) e)
    { e with np := e.np + 1 } ?_ ?_
  · obtain ⟨g1, g3, g4, g5, g6, g2, g7⟩ := gen
    refine ⟨g1, g3, g4, g5, g6, ?_, ?_⟩
    · intro x
      refine (g2 x).trans ?_
      by_cases hc : 0 ≤ x ∧ x < e.np + 1
      · rw [if_pos hc, if_pos ⟨hc.1, by omega⟩]
      · rw [if_neg hc, if_neg]
        rintro ⟨a, b⟩
        omega
    · intro x y
      refine (g7 x y).trans ?_
      by_cases hc : 0 ≤ x ∧ x < e.np + 1 ∧ 0 ≤ y ∧ y < e.nt x + 1
      · rw [if_pos hc, if_pos ⟨hc.1, by omega, hc.2.2⟩]
      · rw [if_neg hc, if_neg]
        rintro ⟨a, b, c⟩
        exact hc ⟨a, by omega, c⟩
  · refine ⟨rfl, rfl, rfl, rfl, rfl, fun x => ?_, fun x y => ?_⟩
    · rw [if_neg]; push_cast; omega
    · rw [if_neg]; push_cast; omega
  · rintro N st _ ⟨h1, h3, h4, h5, h6, h2, h7⟩
    have hN : st.nt N = e.nt N := by
      rw [h2, if_neg]
      omega
    obtain ⟨i1, i2, i3, i4, i5, i6, i7⟩ := tab_counters_inner N
      ((Function.update st.nt (N : Int) (st.nt N + 1)) N).toNat
      ({ st with nt := Function.update st.nt (N : Int) (st.nt N + 1) } : tbl_entry_t F) _ rfl
    refine ⟨i1.trans h1, i3.trans h3, i4.trans h4, i5.trans h5, i6.trans h6, ?_, ?_⟩
    · intro x
      refine (congrFun i2 x).trans ?_
      show Function.update st.nt (N : Int) (st.nt N + 1) x = _
      rw [Function.update_apply, h2 x, hN]
      by_cases hx : x = (N : Int)
      · rw [if_pos hx, if_pos ⟨by omega, by push_cast; omega⟩, hx]
      · rw [if_neg hx]
        by_cases hc : 0 ≤ x ∧ x < (N : Int)
        · rw [if_pos hc, if_pos ⟨hc.1, by push_cast; omega⟩]
        · rw [if_neg hc, if_neg]
          rintro ⟨g1, g2⟩
          push_cast at g2
          omega
    · intro x y
      refine (i7 x y).trans ?_
      rw [Function.update_same, hN]
      show (if x = (N : Int) ∧ 0 ≤ y ∧ y < ((e.nt N + 1).toNat : Int) then st.nu x y + 1
        else st.nu x y) = _
      rw [h7 x y]
      by_cases hx : x = (N : Int)
      · have hN2 : ¬ (0 ≤ x ∧ x < (N : Int) ∧ 0 ≤ y ∧ y < e.nt x + 1) := by omega
        rw [if_neg hN2]
        by_cases hc : 0 ≤ y ∧ y < e.nt x + 1
        · rw [if_pos ⟨hx, hc.1, by rw [← hx]; omega⟩,
            if_pos ⟨by omega, by push_cast; omega, hc⟩]
        · rw [if_neg, if_neg]
          · rintro ⟨_, _, g1, g2⟩; exact hc ⟨g1, g2⟩
          · rintro ⟨_, g1, g2⟩
            rw [← hx] at g2
            exact hc ⟨g1, by omega⟩
      · rw [if_neg (fun hh => hx hh.1)]
        by_cases hc : 0 ≤ x ∧ x < (N : Int) ∧ 0 ≤ y ∧ y < e.nt x + 1
        · rw [if_pos hc, if_pos ⟨hc.1, by push_cast; omega, hc.2.2⟩]
        · rw [if_neg hc, if_neg]
          rintro ⟨g1, g2, g3⟩
          push_cast at g2
          exact hc ⟨g1, by omega, g3⟩

/-- C23 (the axes of an ASCII table are not always recovered; limits 41, 30,
320): the table `tab_same_temp_demo` has two pressure groups, each with one
temperature group `T = 250` of two lines with strictly increasing `u` and
`eps`; by value change its last line has the indices `(ip, it, iu) = (1, 0, 1)`,
so that `nt[1]` ought to be 1.  In `read_tbl` the first line of the second
pressure group resets `nt[1]` to `-1`, and since its temperature equals
`temp_old`, which is not reset when the pressure changes, the counter is not
advanced: the lines of the second group are stored at the temperature index
`-1` (`t[1][-1] = 250`, outside the array in C), and `read_tbl` returns
`np = 2`, `nt[0] = 1` and `nt[1] = 0`. -/
theorem ascii_same_temperature_lost :
    (read_tbl_entry files_tab_demo 0 0 (tbl_get tbl_demo 0 0)).map
        (fun e => (e.np, e.nt 0, e.nt 1, e.t 1 (-1))) = some (2, 1, 0, 250) ∧
    tab_idx tab_same_temp_demo 3 = (1, 0, 1) := by
  refine ⟨by decide!, by decide!⟩

/-- What `read_tbl` does recover: let an ASCII table be read whose first line has a pressure
and a temperature other than `-999`, in which every line that changes the
pressure also changes the temperature, in which `u` and `eps` are strictly
increasing inside each `(p,T)` group, and whose indices by value change
`tab_idx` are below the table limits.  Then `read_tbl` returns; `np` is the
number of pressure groups (one more than the index `ip` of the last line);
every line is stored with `p`, `T`, `u`, `eps` at its indices; for the last
line of a pressure group `nt[ip]` is one more than its index `it`, the number
of temperature groups of that pressure group; and for the last line of a
`(p,T)` group `nu[ip][it]` is one more than its index `iu`, the number of
lines of that group. -/
theorem ascii_axes_recovered (L : tbl_files_t F) (ig id : Nat) (e0 : tbl_entry_t F)
    (ls : List (F × F × F × F)) (hbin : L.bin ig id = none)
    (htab : L.tab ig id = some (ls.map some)) (hwf : tab_wf L ls) :
    ∃ e, read_tbl_entry L ig id e0 = some e ∧
      e.np = (if ls.length = 0 then 0 else (tab_idx ls (ls.length - 1)).1 + 1) ∧
      ∀ k, k < ls.length → tab_stored ls k e ∧
        ((k + 1 < ls.length → (tab_idx ls (k + 1)).1 ≠ (tab_idx ls k).1) →
          e.nt (tab_idx ls k).1 = (tab_idx ls k).2.1 + 1) ∧
        ((k + 1 < ls.length → (tab_idx ls (k + 1)).2.2 = 0) →
          e.nu (tab_idx ls k).1 (tab_idx ls k).2.1 = (tab_idx ls k).2.2 + 1) := by
  unfold read_tbl_entry
  simp only [hbin, htab]
  by_cases hn : ls.length = 0
  · have hnil : ls = [] := List.length_eq_zero.mp hn
    subst hnil
    refine ⟨_, rfl, ?_, fun k hk => absurd hk (by simp)⟩
    simp only [List.map_nil, List.foldl_nil, List.length_nil, if_true]
    exact (tab_counters_spec _).1.trans (by norm_num)
  · have hm : ls.length - 1 < ls.length := by omega
    obtain ⟨st, h1, h2⟩ := tab_fold L ls { e0 with np := -1 } rfl hwf (ls.length - 1) hm
    have htake : ls.take (ls.length - 1 + 1) = ls := by
      rw [Nat.sub_add_cancel (by omega)]
      exact List.take_length ls
    rw [htake] at h1
    rw [h1]
    obtain ⟨a1, a2, a3, b1, b2, b3, b4, c, e⟩ := h2
    obtain ⟨g1, g3, g4, g5, g6, g2, g7⟩ := tab_counters_spec st.e
    refine ⟨_, rfl, ?_, fun k hk => ?_⟩
    · simp only [Option.map_some']
      rw [if_neg hn, g1, a1]
    · simp only [Option.map_some']
      have hk1 : k ≤ ls.length - 1 := by omega
      obtain ⟨⟨s1, s2, s3, s4⟩, s5, s6⟩ := c k hk1
      obtain ⟨m1, m2⟩ := tab_idx_mono ls k (ls.length - 1) hk1
      obtain ⟨n1, n2, n3⟩ := tab_idx_nonneg ls k
      have hrange : 0 ≤ (tab_idx ls k).1 ∧ (tab_idx ls k).1 < st.e.np + 1 := by
        rw [a1]
        omega
      refine ⟨⟨?_, ?_, ?_, ?_⟩, fun hlast => ?_, fun hlast => ?_⟩
      · rw [g3]; exact s1
      · rw [g4]; exact s2
      · rw [g5]; exact s3
      · rw [g6]; exact s4
      · rw [g2, if_pos hrange]
        by_cases hkl : k = ls.length - 1
        · rw [hkl]
          rw [a2]
        · rw [(e k (by omega)).1 (hlast (by omega))]
      · rw [g7, if_pos ⟨hrange.1, hrange.2, n2, by omega⟩]
        by_cases hkl : k = ls.length - 1
        · rw [hkl]
          rw [a3]
        · rw [(e k (by omega)).2 (hlast (by omega))]

/-- An ASCII table whose axes are recovered: the table `tab_ok_demo` is read with
`np = 2`, `nt = 2, 1`, `nu[1][0] = 2`, and its last line at `[1][0][1]`. -/
theorem ascii_axes_recovered_witness :
    ∃ e, read_tbl_entry files_tab_ok_demo 0 0 (tbl_get tbl_demo 0 0) = some e ∧
      e.np = 2 ∧ e.nt 0 = 2 ∧ e.nt 1 = 1 ∧ e.nu 1 0 = 2 ∧ e.u 1 0 1 = 2 ∧
      e.eps 1 0 1 = 3 / 10 := by
  have hwf : tab_wf files_tab_ok_demo tab_ok_demo := by
    refine ⟨fun _ => by decide!, fun k hk => ?_, fun k hk => ?_⟩
    · have hk4 : k < 4 := by
        have : tab_ok_demo.length = 5 := rfl
        omega
      interval_cases k <;> decide!
    · have hk5 : k < 5 := hk
      interval_cases k <;> decide!
  obtain ⟨e, h1, h2, h3⟩ := ascii_axes_recovered files_tab_ok_demo 0 0 (tbl_get tbl_demo 0 0)
    tab_ok_demo rfl rfl hwf
  have i2 : tab_idx tab_ok_demo 2 = (0, 1, 0) := by decide!
  have i3 : tab_idx tab_ok_demo 3 = (1, 0, 0) := by decide!
  have i4 : tab_idx tab_ok_demo 4 = (1, 0, 1) := by decide!
  have l4 : tab_line tab_ok_demo 4 = (2, 255, 2, 3 / 10) := by decide!
  obtain ⟨-, x2, -⟩ := h3 2 (by decide)
  obtain ⟨⟨-, -, y3, y4⟩, x4, z4⟩ := h3 4 (by decide)
  rw [i4] at x4 z4 y3 y4
  rw [i2] at x2
  rw [l4] at y3 y4
  refine ⟨e, h1, ?_, ?_, ?_, ?_, y3, y4⟩
  · rw [h2]
    show (tab_idx tab_ok_demo 4).1 + 1 = 2
    rw [i4]; rfl
  · exact x2 (fun _ => by rw [i3]; decide)
  · exact x4 (fun h => absurd h (by decide))
  · exact z4 (fun h => absurd h (by decide))


/-! ## C31: the a-priori covariance is symmetric -/

/-- With a symmetric distance `DIST`, `corr_function` is symmetric in its two
points. -/
theorem corr_function_symm (E : ext_t F) (R : rext_t F)
    (hD : ∀ a b : Nat → F, R.DIST a b = R.DIST b a) (z0 lon0 lat0 z1 lon1 lat1 cz ch : F) :
    corr_function E R z0 lon0 lat0 z1 lon1 lat1 cz ch
      = corr_function E R z1 lon1 lat1 z0 lon0 lat0 cz ch := by
  unfold corr_function
  simp only
  rw [hD (E.geo2cart 0 lon0 lat0) (E.geo2cart 0 lon1 lat1), abs_sub_comm z0 z1]

/-- C31 (the a-priori covariance is symmetric): let the header macro `DIST`
be symmetric in its two vectors.  Then for every configuration, atmosphere
and tag arrays `iqa`, `ipa`, the matrix `S_a` built by `set_cov_apr` has
`S_a[i,j] = S_a[j,i]` for all `i` and `j`: the two entries pass the same tests
(`i ≠ j`, equal tags, positive correlation lengths of the common tag), and
`corr_function` is symmetric in its two points. -/
theorem set_cov_apr_symmetric (E : ext_t F) (R : rext_t F) (ret : ret_t F) (ctl : ctl_t F)
    (atm : atm_t F) (iqa : Nat → Int) (ipa : Nat → Nat) (n : Nat)
    (hD : ∀ a b : Nat → F, R.DIST a b = R.DIST b a) (i j : Nat) :
    set_cov_apr E R ret ctl atm iqa ipa n i j = set_cov_apr E R ret ctl atm iqa ipa n j i := by
  rw [set_cov_apr_apply, set_cov_apr_apply]
  by_cases hij : i = j
  · subst hij
    rfl
  · have hji : ¬ j = i := fun h => hij h.symm
    rw [if_neg (fun h : j = i ∧ j < n => hji h.1), if_neg (fun h : i = j ∧ i < n => hij h.1)]
    by_cases hq : iqa i = iqa j
    · by_cases hc : i < n ∧ j < n ∧ (i ≠ j ∧ iqa i = iqa j) ∧
          ((set_cov_apr_lengths R ret ctl (iqa i)).1 > 0 ∧
            (set_cov_apr_lengths R ret ctl (iqa i)).2 > 0)
      · rw [if_pos hc, if_pos ⟨hc.2.1, hc.1, ⟨hji, hq.symm⟩, by rw [← hq]; exact hc.2.2.2⟩,
          ← hq, corr_function_symm E R hD]
        ring
      · rw [if_neg hc, if_neg]
        rintro ⟨h1, h2, _, h4⟩
        exact hc ⟨h2, h1, ⟨hij, hq⟩, by rw [hq]; exact h4⟩
    · rw [if_neg (fun h => hq h.2.2.1.2), if_neg (fun h => hq h.2.2.1.2.symm)]

/-- Witness for C31: the distance of `rext_demo` is symmetric, and the
covariance of two temperature elements at the altitudes 0 km and 1 km is the
same in both orders. -/
theorem set_cov_apr_symmetric_witness :
    (∀ a b : Nat → ℚ, rext_demo.DIST a b = rext_demo.DIST b a) ∧
    set_cov_apr ext_demo rext_demo ret_corr_demo ctl_demo atm_pair_demo
        (fun _ => 1) (fun i => i) 2 0 1
      = set_cov_apr ext_demo rext_demo ret_corr_demo ctl_demo atm_pair_demo
        (fun _ => 1) (fun i => i) 2 1 0 := by
  have hD : ∀ a b : Nat → ℚ, rext_demo.DIST a b = rext_demo.DIST b a := by
    intro a b
    show |b 0 - a 0| + |b 1 - a 1| + |b 2 - a 2| = |a 0 - b 0| + |a 1 - b 1| + |a 2 - b 2|
    rw [abs_sub_comm (b 0), abs_sub_comm (b 1), abs_sub_comm (b 2)]
  exact ⟨hD, set_cov_apr_symmetric ext_demo rext_demo ret_corr_demo ctl_demo atm_pair_demo
    (fun _ => 1) (fun i => i) 2 hD 0 1⟩


/-! ## C32: the FOV convolution of a constant profile -/

/-- The channel loop of `fov_profile` for the ray `a`: the entries
`rad[id][nz]`, `tau[id][nz]` of the channels `id < nd` are taken from `obs2`. -/
theorem fov_profile_channels (ctl : ctl_t F) (obs2 : obs_t F) (a : Nat) (q : fov_prof_t F) :
    (for_loop ctl.nd
      (fun id (pr : fov_prof_t F) =>
        { pr with rad := upd2 pr.rad id pr.nz (obs2.rad id a),
                  tau := upd2 pr.tau id pr.nz (obs2.tau id a) }) q).nz = q.nz ∧
    (∀ (id : Nat) (j : Int), (for_loop ctl.nd
      (fun id (pr : fov_prof_t F) =>
        { pr with rad := upd2 pr.rad id pr.nz (obs2.rad id a),
                  tau := upd2 pr.tau id pr.nz (obs2.tau id a) }) q).rad id j
        = if id < ctl.nd ∧ j = q.nz then obs2.rad id a else q.rad id j) ∧
    (∀ (id : Nat) (j : Int), (for_loop ctl.nd
      (fun id (pr : fov_prof_t F) =>
        { pr with rad := upd2 pr.rad id pr.nz (obs2.rad id a),
                  tau := upd2 pr.tau id pr.nz (obs2.tau id a) }) q).tau id j
        = if id < ctl.nd ∧ j = q.nz then obs2.tau id a else q.tau id j) := by
  refine for_loop_ind (fun (k : Nat) (r : fov_prof_t F) =>
    r.nz = q.nz ∧
    (∀ (id : Nat) (j : Int), r.rad id j
      = if id < k ∧ j = q.nz then obs2.rad id a else q.rad id j) ∧
    (∀ (id : Nat) (j : Int), r.tau id j
      = if id < k ∧ j = q.nz then obs2.tau id a else q.tau id j)) ctl.nd _ q ?_ ?_
  · refine ⟨rfl, fun id j => ?_, fun id j => ?_⟩
    · rw [if_neg (fun h => Nat.not_lt_zero id h.1)]
    · rw [if_neg (fun h => Nat.not_lt_zero id h.1)]
  · rintro k r _ ⟨h1, h2, h3⟩
    refine ⟨h1, fun id j => ?_, fun id j => ?_⟩
    · show upd2 r.rad k r.nz (obs2.rad k a) id j = _
      rw [upd2_apply, h1, h2]
      by_cases e : id = k
      · by_cases e2 : j = q.nz
        · rw [if_pos ⟨e, e2⟩, if_pos ⟨by omega, e2⟩, e]
        · rw [if_neg (fun h => e2 h.2), if_neg (fun h => e2 h.2), if_neg (fun h => e2 h.2)]
      · rw [if_neg (fun h => e h.1)]
        by_cases hc : id < k ∧ j = q.nz
        · rw [if_pos hc, if_pos ⟨by omega, hc.2⟩]
        · rw [if_neg hc, if_neg (fun h => hc ⟨by omega, h.2⟩)]
    · show upd2 r.tau k r.nz (obs2.tau k a) id j = _
      rw [upd2_apply, h1, h3]
      by_cases e : id = k
      · by_cases e2 : j = q.nz
        · rw [if_pos ⟨e, e2⟩, if_pos ⟨by omega, e2⟩, e]
        · rw [if_neg (fun h => e2 h.2), if_neg (fun h => e2 h.2), if_neg (fun h => e2 h.2)]
      · rw [if_neg (fun h => e h.1)]
        by_cases hc : id < k ∧ j = q.nz
        · rw [if_pos hc, if_pos ⟨by omega, hc.2⟩]
        · rw [if_neg hc, if_neg (fun h => hc ⟨by omega, h.2⟩)]

/-- If the rays of the window of `ir` with the time stamp of `ir` have one
radiance `c` (one transmittance `t`) on channel `id`, the profile collected
for `ir` holds `c` (`t`) in all its entries. -/
theorem fov_profile_const (E : ext_t F) (ctl : ctl_t F) (o obs2 : obs_t F) (ir : Nat)
    (pr0 : fov_prof_t F) (id : Nat) (hid : id < ctl.nd) (c : Dbl F) (t : F) :
    ((∀ ir2, ir - E.NFOV ≤ ir2 → ir2 < min (ir + 1 + E.NFOV) o.nr →
        o.time ir2 = o.time ir → obs2.rad id ir2 = c) →
      ∀ j : Int, 0 ≤ j → j < (fov_profile E ctl o obs2 ir pr0).nz →
        (fov_profile E ctl o obs2 ir pr0).rad id j = c) ∧
    ((∀ ir2, ir - E.NFOV ≤ ir2 → ir2 < min (ir + 1 + E.NFOV) o.nr →
        o.time ir2 = o.time ir → obs2.tau id ir2 = t) →
      ∀ j : Int, 0 ≤ j → j < (fov_profile E ctl o obs2 ir pr0).nz →
        (fov_profile E ctl o obs2 ir pr0).tau id j = t) := by
  have key : 0 ≤ (fov_profile E ctl o obs2 ir pr0).nz ∧
      ((∀ ir2, ir - E.NFOV ≤ ir2 → ir2 < min (ir + 1 + E.NFOV) o.nr →
          o.time ir2 = o.time ir → obs2.rad id ir2 = c) →
        ∀ j : Int, 0 ≤ j → j < (fov_profile E ctl o obs2 ir pr0).nz →
          (fov_profile E ctl o obs2 ir pr0).rad id j = c) ∧
      ((∀ ir2, ir - E.NFOV ≤ ir2 → ir2 < min (ir + 1 + E.NFOV) o.nr →
          o.time ir2 = o.time ir → obs2.tau id ir2 = t) →
        ∀ j : Int, 0 ≤ j → j < (fov_profile E ctl o obs2 ir pr0).nz →
          (fov_profile E ctl o obs2 ir pr0).tau id j = t) := by
    unfold fov_profile
    rw [(fov_bounds E o ir).1, (fov_bounds E o ir).2]
    refine for_range_inv (fun q : fov_prof_t F => 0 ≤ q.nz ∧
      ((∀ ir2, ir - E.NFOV ≤ ir2 → ir2 < min (ir + 1 + E.NFOV) o.nr →
          o.time ir2 = o.time ir → obs2.rad id ir2 = c) →
        ∀ j : Int, 0 ≤ j → j < q.nz → q.rad id j = c) ∧
      ((∀ ir2, ir - E.NFOV ≤ ir2 → ir2 < min (ir + 1 + E.NFOV) o.nr →
          o.time ir2 = o.time ir → obs2.tau id ir2 = t) →
        ∀ j : Int, 0 ≤ j → j < q.nz → q.tau id j = t)) _ _ _ _ ?_ ?_
    · refine ⟨le_refl _, fun _ j h0 h1 => ?_, fun _ j h0 h1 => ?_⟩
      · exact absurd h1 (by simp only; omega)
      · exact absurd h1 (by simp only; omega)
    · rintro a q ha1 ha2 ⟨q0, q1, q2⟩
      by_cases hta : o.time a = o.time ir
      · rw [if_pos hta]
        obtain ⟨n1, n2, n3⟩ := fov_profile_channels ctl obs2 a
          { q with z := Function.update q.z q.nz (obs2.vpz a) }
        refine ⟨?_, fun h j h0 h1 => ?_, fun h j h0 h1 => ?_⟩
        · show 0 ≤ _ + 1
          rw [n1]
          show 0 ≤ q.nz + 1
          omega
        · have h1x : j < q.nz + 1 := by
            have : j < _ + 1 := h1
            rw [n1] at this
            exact this
          refine (n2 id j).trans ?_
          by_cases e : j = q.nz
          · rw [if_pos ⟨hid, e⟩]
            exact h a ha1 ha2 hta
          · rw [if_neg (fun hh => e hh.2)]
            exact q1 h j h0 (by omega)
        · have h1x : j < q.nz + 1 := by
            have : j < _ + 1 := h1
            rw [n1] at this
            exact this
          refine (n3 id j).trans ?_
          by_cases e : j = q.nz
          · rw [if_pos ⟨hid, e⟩]
            exact h a ha1 ha2 hta
          · rw [if_neg (fun hh => e hh.2)]
            exact q2 h j h0 (by omega)
      · rw [if_neg hta]
        exact ⟨q0, q1, q2⟩
  exact key.2

/-- Invariant rule for `for_range`, with the loop index. -/
theorem for_range_ind {σ : Type} (P : Nat → σ → Prop) (lo hi : Nat) (body : Nat → σ → σ)
    (s : σ) (hle : lo ≤ hi) (h0 : P lo s)
    (hstep : ∀ i st, lo ≤ i → i < hi → P i st → P (i + 1) (body i st)) :
    P hi (for_range lo hi body s) := by
  obtain ⟨k, rfl⟩ : ∃ k, hi = lo + k := ⟨hi - lo, by omega⟩
  induction k with
  | zero => rw [Nat.add_zero, for_range_self]; exact h0
  | succ k ih =>
    rw [show lo + (k + 1) = (lo + k) + 1 from rfl, for_range_succ lo (lo + k) body s (by omega)]
    exact hstep (lo + k) _ (by omega) (by omega)
      (ih (by omega) (fun i st h1 h2 hp => hstep i st h1 (by omega) hp))

/-- The channel loop of `fov_profile` does not write the altitudes. -/
theorem fov_profile_channels_z (ctl : ctl_t F) (obs2 : obs_t F) (a : Nat) (q : fov_prof_t F) :
    (for_loop ctl.nd
      (fun id (pr : fov_prof_t F) =>
        { pr with rad := upd2 pr.rad id pr.nz (obs2.rad id a),
                  tau := upd2 pr.tau id pr.nz (obs2.tau id a) }) q).z = q.z :=
  for_loop_inv (fun r : fov_prof_t F => r.z = q.z) _ _ _ rfl (fun i st _ h => h)

/-- If the rays of the window of `ir` with the time stamp of `ir` have
pairwise different tangent heights, the altitudes of the profile collected
for `ir` are pairwise different. -/
theorem fov_profile_distinct (E : ext_t F) (ctl : ctl_t F) (o obs2 : obs_t F) (ir : Nat)
    (pr0 : fov_prof_t F) (hir : ir < o.nr)
    (hz : ∀ r1 r2, ir - E.NFOV ≤ r1 → r1 < r2 → r2 < min (ir + 1 + E.NFOV) o.nr →
      o.time r1 = o.time ir → o.time r2 = o.time ir → obs2.vpz r1 ≠ obs2.vpz r2) :
    ∀ j1 j2 : Int, 0 ≤ j1 → j1 < j2 → j2 < (fov_profile E ctl o obs2 ir pr0).nz →
      (fov_profile E ctl o obs2 ir pr0).z j1 ≠ (fov_profile E ctl o obs2 ir pr0).z j2 := by
  have key : 0 ≤ (fov_profile E ctl o obs2 ir pr0).nz ∧
      ∃ f : Int → Nat,
        (∀ j : Int, 0 ≤ j → j < (fov_profile E ctl o obs2 ir pr0).nz →
          ir - E.NFOV ≤ f j ∧ f j < min (ir + 1 + E.NFOV) o.nr ∧
          o.time (f j) = o.time ir ∧
          (fov_profile E ctl o obs2 ir pr0).z j = obs2.vpz (f j)) ∧
        (∀ j1 j2 : Int, 0 ≤ j1 → j1 < j2 → j2 < (fov_profile E ctl o obs2 ir pr0).nz →
          f j1 < f j2) := by
    unfold fov_profile
    rw [(fov_bounds E o ir).1, (fov_bounds E o ir).2]
    refine for_range_ind (fun (a : Nat) (q : fov_prof_t F) => 0 ≤ q.nz ∧
      ∃ f : Int → Nat,
        (∀ j : Int, 0 ≤ j → j < q.nz →
          ir - E.NFOV ≤ f j ∧ f j < a ∧ o.time (f j) = o.time ir ∧
          q.z j = obs2.vpz (f j)) ∧
        (∀ j1 j2 : Int, 0 ≤ j1 → j1 < j2 → j2 < q.nz → f j1 < f j2)) _ _ _ _ ?_ ?_ ?_
    · exact le_min (by omega) (by omega)
    · refine ⟨le_refl _, fun _ => 0, fun j h0 h1 => ?_, fun j1 j2 h0 h1 h2 => ?_⟩
      · exact absurd h1 (by simp only; omega)
      · exact absurd h2 (by simp only; omega)
    · rintro a q ha1 ha2 ⟨q0, f, q1, q2⟩
      by_cases hta : o.time a = o.time ir
      · rw [if_pos hta]
        have n1 := (fov_profile_channels ctl obs2 a
          { q with z := Function.update q.z q.nz (obs2.vpz a) }).1
        have nz := fov_profile_channels_z ctl obs2 a
          { q with z := Function.update q.z q.nz (obs2.vpz a) }
        have hnz : ∀ j : Int, j < (for_loop ctl.nd
            (fun id (pr : fov_prof_t F) =>
              { pr with rad := upd2 pr.rad id pr.nz (obs2.rad id a),
                        tau := upd2 pr.tau id pr.nz (obs2.tau id a) })
            { q with z := Function.update q.z q.nz (obs2.vpz a) }).nz + 1 → j < q.nz + 1 := by
          intro j h
          rw [n1] at h
          exact h
        refine ⟨?_, Function.update f q.nz a, fun j h0 h1 => ?_, fun j1 j2 h0 h1 h2 => ?_⟩
        · show 0 ≤ _ + 1
          rw [n1]
          show 0 ≤ q.nz + 1
          omega
        · have h1x := hnz j h1
          have hzj : (for_loop ctl.nd
              (fun id (pr : fov_prof_t F) =>
                { pr with rad := upd2 pr.rad id pr.nz (obs2.rad id a),
                          tau := upd2 pr.tau id pr.nz (obs2.tau id a) })
              { q with z := Function.update q.z q.nz (obs2.vpz a) }).z j
              = Function.update q.z q.nz (obs2.vpz a) j := by rw [nz]
          refine ⟨?_, ?_, ?_, hzj.trans ?_⟩
          · by_cases e : j = q.nz
            · rw [e, Function.update_same]; exact ha1
            · rw [Function.update_noteq e]; exact (q1 j h0 (by omega)).1
          · by_cases e : j = q.nz
            · rw [e, Function.update_same]; omega
            · rw [Function.update_noteq e]
              have := (q1 j h0 (by omega)).2.1
              omega
          · by_cases e : j = q.nz
            · rw [e, Function.update_same]; exact hta
            · rw [Function.update_noteq e]; exact (q1 j h0 (by omega)).2.2.1
          · by_cases e : j = q.nz
            · rw [e, Function.update_same, Function.update_same]
            · rw [Function.update_noteq e, Function.update_noteq e]
              exact (q1 j h0 (by omega)).2.2.2
        · have h2x := hnz j2 h2
          have e1 : j1 ≠ q.nz := by omega
          rw [Function.update_noteq e1]
          by_cases e : j2 = q.nz
          · rw [e, Function.update_same]
            exact (q1 j1 h0 (by omega)).2.1
          · rw [Function.update_noteq e]
            exact q2 j1 j2 h0 h1 (by omega)
      · rw [if_neg hta]
        refine ⟨q0, f, fun j h0 h1 => ?_, q2⟩
        obtain ⟨b1, b2, b3, b4⟩ := q1 j h0 h1
        exact ⟨b1, by omega, b3, b4⟩
  obtain ⟨_, f, k1, k2⟩ := key
  intro j1 j2 h0 h1 h2
  obtain ⟨a1, a2, a3, a4⟩ := k1 j1 h0 (by omega)
  obtain ⟨b1, b2, b3, b4⟩ := k1 j2 (by omega) h2
  rw [a4, b4]
  exact hz (f j1) (f j2) a1 (k2 j1 j2 h0 h1 h2) b2 a3 b3

/-- A quotient of finite doubles with a divisor other than zero. -/
theorem Dbl_fin_div (a b : F) (hb : b ≠ 0) : (Dbl.fin a / Dbl.fin b : Dbl F) = Dbl.fin (a / b) := by
  show Dbl.div (Dbl.fin a) (Dbl.fin b) = _
  rw [Dbl.div, if_neg hb]

/-- On finite doubles `LIN` between two different abscissas is the `LIN` of
the field. -/
theorem LIN_fin (x0 y0 x1 y1 x : F) (h : x1 - x0 ≠ 0) :
    LIN (Dbl.fin x0) (Dbl.fin y0) (Dbl.fin x1) (Dbl.fin y1) (Dbl.fin x)
      = Dbl.fin (LIN x0 y0 x1 y1 x) := by
  unfold LIN
  show Dbl.fin y0 + Dbl.fin (y1 - y0) / Dbl.fin (x1 - x0) * Dbl.fin (x - x0) = _
  rw [Dbl_fin_div _ _ h]
  rfl

/-- A channel loop that rewrites the entry `(id, ir)` of `rad` from its old
value by `gr id` and the one of `tau` by `gt id`. -/
theorem channel_upd_loop (ir : Nat) (gr : Nat → Dbl F → Dbl F) (gt : Nat → F → F) (n : Nat)
    (o : obs_t F) :
    (∀ id jr, (for_loop n (fun id (obs : obs_t F) =>
        ({ obs with rad := upd2 obs.rad id ir (gr id (obs.rad id ir)),
                    tau := upd2 obs.tau id ir (gt id (obs.tau id ir)) } : obs_t F)) o).rad id jr
      = if id < n ∧ jr = ir then gr id (o.rad id ir) else o.rad id jr) ∧
    (∀ id jr, (for_loop n (fun id (obs : obs_t F) =>
        ({ obs with rad := upd2 obs.rad id ir (gr id (obs.rad id ir)),
                    tau := upd2 obs.tau id ir (gt id (obs.tau id ir)) } : obs_t F)) o).tau id jr
      = if id < n ∧ jr = ir then gt id (o.tau id ir) else o.tau id jr) :=
  channel_loop (fun id (obs : obs_t F) =>
      ({ obs with rad := upd2 obs.rad id ir (gr id (obs.rad id ir)),
                  tau := upd2 obs.tau id ir (gt id (obs.tau id ir)) } : obs_t F)) ir
    (fun i r _ => gr i r) (fun i _ τ => gt i τ)
    (fun i o id jr => by
      show upd2 o.rad i ir (gr i (o.rad i ir)) id jr = _
      rw [upd2_apply])
    (fun i o id jr => by
      show upd2 o.tau i ir (gt i (o.tau i ir)) id jr = _
      rw [upd2_apply]) n o

/-- The convolution for ray `ir` writes only the entries of ray `ir`. -/
theorem fov_convolve_frame (E : ext_t F) (S : static_t F) (ctl : ctl_t F) (ir : Nat)
    (pr : fov_prof_t F) (o : obs_t F) (id jr : Nat) (h : jr ≠ ir) :
    (fov_convolve E S ctl ir pr o).rad id jr = o.rad id jr ∧
    (fov_convolve E S ctl ir pr o).tau id jr = o.tau id jr := by
  have hstep : ∀ (gr : Nat → Dbl F → Dbl F) (gt : Nat → F → F) (n : Nat) (o1 : obs_t F),
      o1.rad id jr = o.rad id jr ∧ o1.tau id jr = o.tau id jr →
      (for_loop n (fun id (obs : obs_t F) =>
        ({ obs with rad := upd2 obs.rad id ir (gr id (obs.rad id ir)),
                    tau := upd2 obs.tau id ir (gt id (obs.tau id ir)) } : obs_t F)) o1).rad id jr
        = o.rad id jr ∧
      (for_loop n (fun id (obs : obs_t F) =>
        ({ obs with rad := upd2 obs.rad id ir (gr id (obs.rad id ir)),
                    tau := upd2 obs.tau id ir (gt id (obs.tau id ir)) } : obs_t F)) o1).tau id jr
        = o.tau id jr := by
    intro gr gt n o1 h1
    obtain ⟨c1, c2⟩ := channel_upd_loop ir gr gt n o1
    rw [c1, c2, if_neg (fun hh => h hh.2), if_neg (fun hh => h hh.2)]
    exact h1
  unfold fov_convolve
  simp only
  refine hstep (fun _ r => r / Dbl.fin _) (fun _ τ => τ / _) ctl.nd _ ?_
  refine for_loop_inv (fun st : obs_t F × F => st.1.rad id jr = o.rad id jr ∧
    st.1.tau id jr = o.tau id jr) _ _ _ ?_ ?_
  · exact hstep (fun _ _ => Dbl.fin 0) (fun _ _ => 0) ctl.nd o ⟨rfl, rfl⟩
  · intro i st _ hst
    exact hstep (fun id r => r + Dbl.fin (S.fov_w i)
        * LIN (Dbl.fin (pr.z (E.locate pr.z pr.nz (st.1.vpz ir + S.fov_dz i))))
            (pr.rad id (E.locate pr.z pr.nz (st.1.vpz ir + S.fov_dz i)))
            (Dbl.fin (pr.z (E.locate pr.z pr.nz (st.1.vpz ir + S.fov_dz i) + 1)))
            (pr.rad id (E.locate pr.z pr.nz (st.1.vpz ir + S.fov_dz i) + 1))
            (Dbl.fin (st.1.vpz ir + S.fov_dz i)))
      (fun id τ => τ + S.fov_w i
        * LIN (pr.z (E.locate pr.z pr.nz (st.1.vpz ir + S.fov_dz i)))
            (pr.tau id (E.locate pr.z pr.nz (st.1.vpz ir + S.fov_dz i)))
            (pr.z (E.locate pr.z pr.nz (st.1.vpz ir + S.fov_dz i) + 1))
            (pr.tau id (E.locate pr.z pr.nz (st.1.vpz ir + S.fov_dz i) + 1))
            (st.1.vpz ir + S.fov_dz i)) ctl.nd st.1 hst

/-- Interpolation between two equal values gives that value. -/
theorem LIN_const (x0 x1 x c : F) : LIN x0 c x1 c x = c := by
  unfold LIN
  rw [sub_self, zero_div, zero_mul, add_zero]

/-- The convolution of a constant profile: if all entries of the profile of
channel `id` hold the radiance `c` (the transmittance `t`), `locate` returns
an index inside the profile and the weights have a non-zero sum, then the
convolution writes `rad[id][ir] = c` (`tau[id][ir] = t`). -/
theorem fov_convolve_const (E : ext_t F) (S : static_t F) (ctl : ctl_t F) (ir : Nat)
    (pr : fov_prof_t F) (o : obs_t F) (id : Nat) (hid : id < ctl.nd) (c t : F)
    (hloc : ∀ x, 0 ≤ E.locate pr.z pr.nz x ∧ E.locate pr.z pr.nz x + 1 < pr.nz)
    (hzd : ∀ j1 j2 : Int, 0 ≤ j1 → j1 < j2 → j2 < pr.nz → pr.z j1 ≠ pr.z j2)
    (hw : ∑ i in Finset.range S.fov_n, S.fov_w i ≠ 0) :
    ((∀ j : Int, 0 ≤ j → j < pr.nz → pr.rad id j = Dbl.fin c) →
      (fov_convolve E S ctl ir pr o).rad id ir = Dbl.fin c) ∧
    ((∀ j : Int, 0 ≤ j → j < pr.nz → pr.tau id j = t) →
      (fov_convolve E S ctl ir pr o).tau id ir = t) := by
  have hmid := for_loop_ind (fun (k : Nat) (st : obs_t F × F) =>
      st.2 = ∑ i in Finset.range k, S.fov_w i ∧
      ((∀ j : Int, 0 ≤ j → j < pr.nz → pr.rad id j = Dbl.fin c) →
        st.1.rad id ir = Dbl.fin (c * ∑ i in Finset.range k, S.fov_w i)) ∧
      ((∀ j : Int, 0 ≤ j → j < pr.nz → pr.tau id j = t) →
        st.1.tau id ir = t * ∑ i in Finset.range k, S.fov_w i))
    S.fov_n
    (fun i st =>
      let zfov := st.1.vpz ir + S.fov_dz i
      let idx := E.locate pr.z pr.nz zfov
      let obs := for_loop ctl.nd
        (fun id obs =>
          let rad := obs.rad id ir + Dbl.fin (S.fov_w i)
            * LIN (Dbl.fin (pr.z idx)) (pr.rad id idx) (Dbl.fin (pr.z (idx + 1)))
                (pr.rad id (idx + 1)) (Dbl.fin zfov)
          let tau := obs.tau id ir + S.fov_w i
            * LIN (pr.z idx) (pr.tau id idx) (pr.z (idx + 1)) (pr.tau id (idx + 1)) zfov
          { obs with rad := upd2 obs.rad id ir rad, tau := upd2 obs.tau id ir tau }) st.1
      (obs, st.2 + S.fov_w i))
    (for_loop ctl.nd
      (fun id obs => { obs with rad := upd2 obs.rad id ir (Dbl.fin 0),
                                tau := upd2 obs.tau id ir 0 }) o, (0 : F)) ?_ ?_
  · obtain ⟨m1, m2, m3⟩ := hmid
    obtain ⟨c1, c2⟩ := channel_upd_loop ir
      (fun _ r => r / Dbl.fin (for_loop S.fov_n
        (fun i (st : obs_t F × F) =>
          let zfov := st.1.vpz ir + S.fov_dz i
          let idx := E.locate pr.z pr.nz zfov
          let obs := for_loop ctl.nd
            (fun id obs =>
              let rad := obs.rad id ir + Dbl.fin (S.fov_w i)
                * LIN (Dbl.fin (pr.z idx)) (pr.rad id idx) (Dbl.fin (pr.z (idx + 1)))
                    (pr.rad id (idx + 1)) (Dbl.fin zfov)
              let tau := obs.tau id ir + S.fov_w i
                * LIN (pr.z idx) (pr.tau id idx) (pr.z (idx + 1)) (pr.tau id (idx + 1)) zfov
              { obs with rad := upd2 obs.rad id ir rad, tau := upd2 obs.tau id ir tau }) st.1
          (obs, st.2 + S.fov_w i))
        (for_loop ctl.nd
          (fun id obs => { obs with rad := upd2 obs.rad id ir (Dbl.fin 0),
                                    tau := upd2 obs.tau id ir 0 }) o, (0 : F))).2)
      (fun _ τ => τ / (for_loop S.fov_n
        (fun i (st : obs_t F × F) =>
          let zfov := st.1.vpz ir + S.fov_dz i
          let idx := E.locate pr.z pr.nz zfov
          let obs := for_loop ctl.nd
            (fun id obs =>
              let rad := obs.rad id ir + Dbl.fin (S.fov_w i)
                * LIN (Dbl.fin (pr.z idx)) (pr.rad id idx) (Dbl.fin (pr.z (idx + 1)))
                    (pr.rad id (idx + 1)) (Dbl.fin zfov)
              let tau := obs.tau id ir + S.fov_w i
                * LIN (pr.z idx) (pr.tau id idx) (pr.z (idx + 1)) (pr.tau id (idx + 1)) zfov
              { obs with rad := upd2 obs.rad id ir rad, tau := upd2 obs.tau id ir tau }) st.1
          (obs, st.2 + S.fov_w i))
        (for_loop ctl.nd
          (fun id obs => { obs with rad := upd2 obs.rad id ir (Dbl.fin 0),
                                    tau := upd2 obs.tau id ir 0 }) o, (0 : F))).2)
      ctl.nd
      (for_loop S.fov_n
        (fun i (st : obs_t F × F) =>
          let zfov := st.1.vpz ir + S.fov_dz i
          let idx := E.locate pr.z pr.nz zfov
          let obs := for_loop ctl.nd
            (fun id obs =>
              let rad := obs.rad id ir + Dbl.fin (S.fov_w i)
                * LIN (Dbl.fin (pr.z idx)) (pr.rad id idx) (Dbl.fin (pr.z (idx + 1)))
                    (pr.rad id (idx + 1)) (Dbl.fin zfov)
              let tau := obs.tau id ir + S.fov_w i
                * LIN (pr.z idx) (pr.tau id idx) (pr.z (idx + 1)) (pr.tau id (idx + 1)) zfov
              { obs with rad := upd2 obs.rad id ir rad, tau := upd2 obs.tau id ir tau }) st.1
          (obs, st.2 + S.fov_w i))
        (for_loop ctl.nd
          (fun id obs => { obs with rad := upd2 obs.rad id ir (Dbl.fin 0),
                                    tau := upd2 obs.tau id ir 0 }) o, (0 : F))).1
    refine ⟨fun hr => ?_, fun ht => ?_⟩
    · refine (c1 id ir).trans ?_
      rw [if_pos ⟨hid, rfl⟩]
      simp only
      rw [m2 hr, m1, Dbl_fin_div _ _ hw, mul_div_assoc, div_self hw, mul_one]
    · refine (c2 id ir).trans ?_
      rw [if_pos ⟨hid, rfl⟩]
      simp only
      rw [m3 ht, m1, mul_div_assoc, div_self hw, mul_one]
  · obtain ⟨z1, z2⟩ := channel_upd_loop ir (fun _ _ => Dbl.fin (0 : F)) (fun _ _ => (0 : F))
      ctl.nd o
    refine ⟨by simp, fun _ => ?_, fun _ => ?_⟩
    · refine (z1 id ir).trans ?_
      rw [if_pos ⟨hid, rfl⟩]
      simp
    · refine (z2 id ir).trans ?_
      rw [if_pos ⟨hid, rfl⟩]
      simp
  · rintro k st _ ⟨m1, m2, m3⟩
    obtain ⟨l1, l2⟩ := hloc (st.1.vpz ir + S.fov_dz k)
    obtain ⟨c1, c2⟩ := channel_upd_loop ir
      (fun id r => r + Dbl.fin (S.fov_w k)
        * LIN (Dbl.fin (pr.z (E.locate pr.z pr.nz (st.1.vpz ir + S.fov_dz k))))
            (pr.rad id (E.locate pr.z pr.nz (st.1.vpz ir + S.fov_dz k)))
            (Dbl.fin (pr.z (E.locate pr.z pr.nz (st.1.vpz ir + S.fov_dz k) + 1)))
            (pr.rad id (E.locate pr.z pr.nz (st.1.vpz ir + S.fov_dz k) + 1))
            (Dbl.fin (st.1.vpz ir + S.fov_dz k)))
      (fun id τ => τ + S.fov_w k
        * LIN (pr.z (E.locate pr.z pr.nz (st.1.vpz ir + S.fov_dz k)))
            (pr.tau id (E.locate pr.z pr.nz (st.1.vpz ir + S.fov_dz k)))
            (pr.z (E.locate pr.z pr.nz (st.1.vpz ir + S.fov_dz k) + 1))
            (pr.tau id (E.locate pr.z pr.nz (st.1.vpz ir + S.fov_dz k) + 1))
            (st.1.vpz ir + S.fov_dz k)) ctl.nd st.1
    refine ⟨?_, fun hr => ?_, fun ht => ?_⟩
    · show st.2 + S.fov_w k = _
      rw [Finset.sum_range_succ, m1]
    · refine (c1 id ir).trans ?_
      rw [if_pos ⟨hid, rfl⟩]
      have hne : pr.z (E.locate pr.z pr.nz (st.1.vpz ir + S.fov_dz k) + 1)
          - pr.z (E.locate pr.z pr.nz (st.1.vpz ir + S.fov_dz k)) ≠ 0 :=
        sub_ne_zero.mpr (Ne.symm (hzd _ _ l1 (by omega) l2))
      rw [m2 hr, hr _ l1 (by omega), hr _ (by omega) l2, LIN_fin _ _ _ _ _ hne]
      show Dbl.fin (c * (∑ i in Finset.range k, S.fov_w i) + S.fov_w k * LIN _ c _ c _) = _
      rw [LIN_const, Finset.sum_range_succ]
      congr 1
      ring
    · refine (c2 id ir).trans ?_
      rw [if_pos ⟨hid, rfl⟩]
      rw [m3 ht, ht _ l1 (by omega), ht _ (by omega) l2, LIN_const, Finset.sum_range_succ]
      ring

/-- The loop over the rays of `formod_fov` when no ray lacks a neighbour: it
completes, and a ray `ir` that has been passed holds the common radiance and
the common transmittance of its window. -/
theorem fov_loop_const (E : ext_t F) (S : static_t F) (ctl : ctl_t F) (obs : obs_t F)
    (hloc : ∀ (xx : Int → F) (n : Int) (x : F), 2 ≤ n →
      0 ≤ E.locate xx n x ∧ E.locate xx n x + 1 < n)
    (hcount : ∀ ir, ir < obs.nr → 2 ≤ fov_count E obs ir)
    (hw : ∑ i in Finset.range S.fov_n, S.fov_w i ≠ 0)
    (id ir : Nat) (hid : id < ctl.nd) (c t : F) (st0 : obs_t F × fov_prof_t F)
    (h0 : st0.1 = obs) (n : Nat) (hn : n ≤ obs.nr) :
    ∃ st, for_loop n
        (fun ir st => Option.bind st (fun st =>
          let pr := fov_profile E ctl st.1 obs ir st.2
          if pr.nz < 2 then none
          else some (fov_convolve E S ctl ir pr st.1, pr)))
        (some st0) = some st ∧ st.1.time = obs.time ∧ st.1.nr = obs.nr ∧
      (ir < n →
        (∀ r1 r2, ir - E.NFOV ≤ r1 → r1 < r2 → r2 < min (ir + 1 + E.NFOV) obs.nr →
          obs.time r1 = obs.time ir → obs.time r2 = obs.time ir → obs.vpz r1 ≠ obs.vpz r2) →
        ((∀ ir2, ir - E.NFOV ≤ ir2 → ir2 < min (ir + 1 + E.NFOV) obs.nr →
            obs.time ir2 = obs.time ir → obs.rad id ir2 = Dbl.fin c) →
          st.1.rad id ir = Dbl.fin c) ∧
        ((∀ ir2, ir - E.NFOV ≤ ir2 → ir2 < min (ir + 1 + E.NFOV) obs.nr →
            obs.time ir2 = obs.time ir → obs.tau id ir2 = t) →
          st.1.tau id ir = t)) := by
  induction n with
  | zero =>
    exact ⟨st0, for_loop_zero _ _, by rw [h0], by rw [h0], fun h => absurd h (Nat.not_lt_zero ir)⟩
  | succ k ih =>
    obtain ⟨st, hst, ht, hnr, hval⟩ := ih (by omega)
    rw [for_loop_succ, hst]
    simp only [Option.some_bind]
    have hcnt : fov_count E st.1 k = fov_count E obs k := by
      unfold fov_count
      rw [ht, hnr]
    have hnz : (fov_profile E ctl st.1 obs k st.2).nz = (fov_count E obs k : Int) := by
      rw [fov_profile_nz, hcnt]
    have hk2 : 2 ≤ fov_count E obs k := hcount k (by omega)
    rw [if_neg (by rw [hnz]; exact_mod_cast not_lt.mpr hk2)]
    refine ⟨_, rfl, by rw [fov_convolve_time]; exact ht, by rw [fov_convolve_nr]; exact hnr,
      fun hir hz => ?_⟩
    by_cases e : ir = k
    · subst e
      have hnz2 : (2 : Int) ≤ (fov_profile E ctl st.1 obs ir st.2).nz := by
        rw [hnz]; exact_mod_cast hk2
      obtain ⟨p1, p2⟩ := fov_profile_const E ctl st.1 obs ir st.2 id hid (Dbl.fin c) t
      have hzd := fov_profile_distinct E ctl st.1 obs ir st.2 (by rw [hnr]; omega)
        (by rw [ht, hnr]; exact hz)
      obtain ⟨v1, v2⟩ := fov_convolve_const E S ctl ir (fov_profile E ctl st.1 obs ir st.2)
        st.1 id hid c t (fun x => hloc _ _ x hnz2) hzd hw
      rw [ht, hnr] at p1 p2
      exact ⟨fun h => v1 (p1 h), fun h => v2 (p2 h)⟩
    · obtain ⟨f1, f2⟩ := fov_convolve_frame E S ctl k (fov_profile E ctl st.1 obs k st.2)
        st.1 id ir e
      obtain ⟨u1, u2⟩ := hval (by omega) hz
      refine ⟨fun h => ?_, fun h => ?_⟩
      · exact f1.trans (u1 h)
      · exact f2.trans (u2 h)

/-- Counterexample to C32: a single ray (`nr = 1`) with radiance 5 and
transmittance 1/2, the FOV enabled and one FOV weight 1.  Every ray of the
time stamp of ray 0 within index distance `NFOV` (ray 0 alone) has the
radiance 5 and the transmittance 1/2, and the weights have the sum 1; but the
profile of ray 0 has one entry, `formod_fov` stops with the error "Cannot
apply FOV convolution!" and writes nothing. -/
theorem fov_single_ray_stops :
    ctl_fov_demo.fov.get 0 ≠ '-' ∧
    (∑ i in Finset.range static_demo.fov_n, static_demo.fov_w i) ≠ 0 ∧
    (∀ ir2, obs_flat_demo.rad 0 ir2 = Dbl.fin 5 ∧ obs_flat_demo.tau 0 ir2 = 1 / 2) ∧
    obs_flat_demo.nr = 1 ∧
    formod_fov ext_demo static_demo ctl_fov_demo obs_flat_demo = none := by
  have h : (formod_fov ext_demo static_demo ctl_fov_demo obs_flat_demo).isNone = true := by
    decide!
  exact ⟨by decide, by decide!, fun _ => ⟨rfl, rfl⟩, rfl, Option.isNone_iff_eq_none.mp h⟩

/-- Two rays with one tangent height: the profile of ray 0 holds the
altitude 0 twice, `LIN` divides `5 - 5` by `0 - 0`, and the radiance written
is not a finite number although both rays have the radiance 5. -/
theorem fov_equal_altitudes_nan :
    (formod_fov ext_demo static_demo ctl_fov_demo obs_flat_level_demo).map
      (fun o => o.rad 0 0) = some Dbl.nan := by
  decide!

/-- C32, amended (the FOV convolution is a normalised average): let the FOV
be enabled, let no ray lack a neighbour (every ray `ir < nr` has at least 2
rays of its time stamp within index distance `NFOV`, so that `formod_fov`
does not stop with the fatal error), let `locate` return an index `i` with
`0 ≤ i` and `i + 1 < n` on arrays of length `n ≥ 2`, and let the FOV weights
have a non-zero sum.  Then `formod_fov` returns, and for a ray `ir < nr` whose
neighbours (the rays of its time stamp within index distance `NFOV`) have
pairwise different tangent heights `vpz`, and a channel `id < nd`: if every
neighbour has the radiance `c` before the pass, then `rad[id][ir] = c`
afterwards; and if every neighbour has the transmittance `t`, then
`tau[id][ir] = t` afterwards, whatever the altitude offsets and the weights
are. -/
theorem fov_normalised_average (E : ext_t F) (S : static_t F) (ctl : ctl_t F) (obs : obs_t F)
    (hen : ctl.fov.get 0 ≠ '-')
    (hloc : ∀ (xx : Int → F) (n : Int) (x : F), 2 ≤ n →
      0 ≤ E.locate xx n x ∧ E.locate xx n x + 1 < n)
    (hcount : ∀ ir, ir < obs.nr → 2 ≤ fov_count E obs ir)
    (hw : ∑ i in Finset.range S.fov_n, S.fov_w i ≠ 0) :
    ∃ o, formod_fov E S ctl obs = some o ∧
      ∀ (id ir : Nat) (c t : F), id < ctl.nd → ir < obs.nr →
        (∀ r1 r2, r1 < r2 → r2 < obs.nr → ir ≤ r1 + E.NFOV → r2 ≤ ir + E.NFOV →
          obs.time r1 = obs.time ir → obs.time r2 = obs.time ir →
          obs.vpz r1 ≠ obs.vpz r2) →
        ((∀ ir2, ir2 < obs.nr → ir ≤ ir2 + E.NFOV → ir2 ≤ ir + E.NFOV →
            obs.time ir2 = obs.time ir → obs.rad id ir2 = Dbl.fin c) →
          o.rad id ir = Dbl.fin c) ∧
        ((∀ ir2, ir2 < obs.nr → ir ≤ ir2 + E.NFOV → ir2 ≤ ir + E.NFOV →
            obs.time ir2 = obs.time ir → obs.tau id ir2 = t) →
          o.tau id ir = t) := by
  have hunf : formod_fov E S ctl obs
      = (for_loop obs.nr
          (fun ir st => Option.bind st (fun st =>
            let pr := fov_profile E ctl st.1 obs ir st.2
            if pr.nz < 2 then none
            else some (fov_convolve E S ctl ir pr st.1, pr)))
          (some (obs, (⟨0, fun _ => 0, fun _ _ => Dbl.fin 0, fun _ _ => 0⟩ : fov_prof_t F)))).map
          Prod.fst := by
    unfold formod_fov
    rw [if_neg hen]
  rcases fov_loop_outcome E S ctl obs
    (obs, (⟨0, fun _ => 0, fun _ _ => Dbl.fin 0, fun _ _ => 0⟩ : fov_prof_t F)) rfl rfl obs.nr
    with ⟨_, st, hst, _, _⟩ | ⟨⟨ir, hir, hc⟩, _⟩
  · refine ⟨st.1, by rw [hunf, hst]; rfl, ?_⟩
    intro id ir c t hid hir hz
    obtain ⟨st2, hst2, _, _, hv⟩ := fov_loop_const E S ctl obs hloc hcount hw id ir hid c t
      (obs, (⟨0, fun _ => 0, fun _ _ => Dbl.fin 0, fun _ _ => 0⟩ : fov_prof_t F)) rfl obs.nr
      (le_refl _)
    have he : st2 = st := Option.some.inj (hst2.symm.trans hst)
    subst he
    obtain ⟨v1, v2⟩ := hv hir (fun r1 r2 a b c1 t1 t2 => by
      have c2 := (lt_min_iff.mp c1).1
      have c3 := (lt_min_iff.mp c1).2
      exact hz r1 r2 b c3 (by omega) (by omega) t1 t2)
    refine ⟨fun h => v1 (fun ir2 a b ht => ?_), fun h => v2 (fun ir2 a b ht => ?_)⟩
    · have b1 := (lt_min_iff.mp b).1
      have b2 := (lt_min_iff.mp b).2
      exact h ir2 b2 (by omega) (by omega) ht
    · have b1 := (lt_min_iff.mp b).1
      have b2 := (lt_min_iff.mp b).2
      exact h ir2 b2 (by omega) (by omega) ht
  · exact absurd (hcount ir hir) (by omega)

/-- Witness for the amended C32: two rays with one time stamp at the tangent
heights 0 and 1, with the radiance 5 and the transmittance 1/2, keep these
values under the FOV convolution. -/
theorem fov_normalised_average_witness :
    ∃ o, formod_fov ext_demo static_demo ctl_fov_demo obs_flat_pair_demo = some o ∧
      o.rad 0 0 = Dbl.fin 5 ∧ o.tau 0 0 = 1 / 2 ∧ o.rad 0 1 = Dbl.fin 5 ∧
      o.tau 0 1 = 1 / 2 := by
  have hloc : ∀ (xx : Int → ℚ) (n : Int) (x : ℚ), 2 ≤ n →
      0 ≤ ext_demo.locate xx n x ∧ ext_demo.locate xx n x + 1 < n := by
    intro xx n x hn
    obtain ⟨h0, h1, _, _⟩ := locate_tbl_bracket xx n x hn
    exact ⟨h0, h1⟩
  have hcount : ∀ ir, ir < obs_flat_pair_demo.nr →
      2 ≤ fov_count ext_demo obs_flat_pair_demo ir := by
    intro ir hir
    have h2 : ir < 2 := hir
    have hcases : ir = 0 ∨ ir = 1 := by omega
    rcases hcases with h | h <;> subst h <;> decide!
  have hz : ∀ r1 r2 : Nat, r1 < r2 → r2 < obs_flat_pair_demo.nr →
      obs_flat_pair_demo.vpz r1 ≠ obs_flat_pair_demo.vpz r2 := by
    intro r1 r2 h1 h2
    show ((r1 : ℚ)) ≠ (r2 : ℚ)
    exact_mod_cast ne_of_lt h1
  obtain ⟨o, h1, h2⟩ := fov_normalised_average ext_demo static_demo ctl_fov_demo
    obs_flat_pair_demo (by decide) hloc hcount (by decide!)
  obtain ⟨a1, a2⟩ := h2 0 0 5 (1 / 2) (by decide) (by decide)
    (fun r1 r2 h1 h2 _ _ _ _ => hz r1 r2 h1 h2)
  obtain ⟨b1, b2⟩ := h2 0 1 5 (1 / 2) (by decide) (by decide)
    (fun r1 r2 h1 h2 _ _ _ _ => hz r1 r2 h1 h2)
  exact ⟨o, h1, a1 (fun _ _ _ _ _ => rfl), a2 (fun _ _ _ _ _ => rfl),
    b1 (fun _ _ _ _ _ => rfl), b2 (fun _ _ _ _ _ => rfl)⟩


/-! ## C4: when the segment factor is at most 1 -/

/-- With `err_noise = err_formod = 0` the total error is `sqrt(0) = 0`,
`sig_eps_inv[0]` is a quotient by zero, the initial cost is not finite, and
`optimal_estimation` returns before the first iteration. -/
theorem optimal_estimation_cost_not_finite :
    lm_cost_finite rext_demo ret_exact_demo ctl_demo obs_lm_demo 1 = false ∧
    (optimal_estimation ext_lm_demo static_demo rext_demo ret_exact_demo ctl_demo obs_lm_demo
      atm_lm_demo aero_demo).map (fun st => (st.it, st.it2, st.hist.length))
      = some (0, 0, 0) := by
  refine ⟨by decide!, by decide!⟩

end Jurassic
